import Mathlib

/-!
# AKARI security-context engine: a shallow embedding

The two variants of `lsm.c` (`lsm-2.6.29.c` for kernels 2.6.29 - 4.11 and
`lsm-4.12.c` for kernels 4.12 and later) are embedded as pure functions on an
explicit module state.

* Pointers are natural numbers, `NULL = 0`.  Records of type
  `struct ccs_security` live in a heap `mem : Ptr → ccs_security`; the two
  static dummy records `ccs_oom_security` and `ccs_default_security` are
  ordinary heap cells at fixed addresses, so writes through a pointer that
  happens to be a dummy are visible.
* A hash table is a function from the bucket index to the list of record
  pointers linked on that bucket, head first (`list_add_rcu` conses).
* Everything the module reads from the kernel (`current`, the pid and
  credentials of a task, `in_execve`, `pid_task`, `hash_ptr`, the kernel
  version the file was compiled for) is a field of `Host`.
* Results of `kzalloc`, of `spin_trylock` and of the previously registered
  hooks are explicit arguments.
* Calls into collaborators are appended to `State.log`.
* The model is sequential: RCU read sections, spin locks and memory barriers
  are not represented; `call_rcu` appends to `State.rcu`.
* The list of accepted sockets has a state of its own, `SockState`, with the
  tags in a heap `tag : Ptr → ccs_socket_tag`; the code that works on it is the
  same in both files.  Two concurrent calls of `ccs_validate_socket` are
  modelled by a step function whose steps are the scan, the evaluation and the
  locked update (`validate_step`, `race_run`).
* The permission hooks of `lsm-2.6.29.c` are functions on a log of
  `HookEvent`s; the result of the policy check and of the previously
  registered hook are arguments.
* `ccs_prepend` and `ccs_sysctl` work on a memory of bytes `Int → Char`;
  C strings are lists of characters without the terminating `NUL`, and `int`
  arithmetic is made explicit by `to_int`.
* `ccs_write_capability` of `capability.c` takes the constants and tables of
  `internal.h` from `CapHost`; its loop over the `u8` index carries fuel.
-/

namespace Akari

/-- Address of a kernel object. -/
abbrev Ptr := Nat

/-- The null pointer. -/
def NULL : Ptr := 0

/-- Address of the static dummy record `ccs_oom_security`. -/
def ccs_oom_security : Ptr := 1

/-- Address of the static dummy record `ccs_default_security`. -/
def ccs_default_security : Ptr := 2

/-- Address of `ccs_kernel_domain`, the domain both dummy records start in. -/
def ccs_kernel_domain : Ptr := 3

/-- Value of `ENOMEM`. -/
def ENOMEM : Int := 12

/-- Modelled from the spec: `CCS_TASK_IS_IN_EXECVE` is declared in
`internal.h`, which is not part of the sources; it is the bit of `ccs_flags`
that marks "transition in progress". -/
def CCS_TASK_IS_IN_EXECVE : Nat := 1

/-- The test `flags & CCS_TASK_IS_IN_EXECVE`. -/
def in_execve_flag (flags : Nat) : Bool := flags &&& CCS_TASK_IS_IN_EXECVE != 0

/-- The update `flags &= ~CCS_TASK_IS_IN_EXECVE` on a `u32`. -/
def clear_in_execve_flag (flags : Nat) : Nat :=
  flags &&& (0xFFFFFFFF ^^^ CCS_TASK_IS_IN_EXECVE)

/-- The update `flags |= CCS_TASK_IS_IN_EXECVE`. -/
def set_in_execve_flag (flags : Nat) : Nat := flags ||| CCS_TASK_IS_IN_EXECVE

/-- Calls into collaborators that the hooks make. -/
inductive Event where
  | ccs_finish_execve (ret : Int) (ee : Ptr)
  | ccs_start_execve (bprm_cred : Ptr)
  | send_sig_SIGKILL (task : Ptr)
  | printk_oom (task : Ptr)
  | get_pid (pid : Ptr)
  | put_pid (pid : Ptr)
  | get_cred (cred : Ptr)
  | put_cred (cred : Ptr)
  | abort_creds (cred : Ptr)
  | commit_creds (cred : Ptr)
  | kfree_execve (ee : Ptr)
  | kfree_security (ptr : Ptr)
  | original_hook (name : String)
  deriving DecidableEq, Repr

/-- The fields of `struct ccs_execve` the engine looks at. -/
structure ccs_execve where
  previous_domain : Ptr
  deriving DecidableEq, Repr

/-- What the module reads from the host kernel. -/
structure Host where
  /-- `LINUX_VERSION_CODE < KERNEL_VERSION(2, 6, 31)`. -/
  KERNEL_LT_2_6_31 : Bool
  /-- Number of buckets of each table. -/
  CCS_MAX_TASK_SECURITY_HASH : Nat
  /-- `hash_ptr(p, CCS_TASK_SECURITY_HASH_BITS)`. -/
  hash_ptr : Ptr → Nat
  /-- The running task. -/
  current : Ptr
  /-- `task->pids[PIDTYPE_PID].pid`. -/
  task_pid : Ptr → Ptr
  /-- `task->cred`. -/
  task_cred : Ptr → Ptr
  /-- `__task_cred(task)`. -/
  task_real_cred : Ptr → Ptr
  /-- `task->in_execve`. -/
  in_execve : Ptr → Bool
  /-- `pid_task(pid, PIDTYPE_PID)`, `NULL` when no task is attached. -/
  pid_task : Ptr → Ptr
  /-- `atomic_read(&cred->usage)`. -/
  cred_usage : Ptr → Nat

namespace Lsm2629

/-- The `struct ccs_security` of `lsm-2.6.29.c` without its list and RCU
linkage. -/
structure ccs_security where
  pid : Ptr
  cred : Ptr
  ccs_domain_info : Ptr
  ccs_flags : Nat
  ee : Ptr
  deriving DecidableEq, Repr

/-- A record as `kzalloc` returns it. -/
def zeroed : ccs_security :=
  { pid := NULL, cred := NULL, ccs_domain_info := NULL, ccs_flags := 0, ee := NULL }

/-- The mutable state of the module. -/
structure State where
  /-- Contents of every `struct ccs_security`, the two dummies included. -/
  mem : Ptr → ccs_security
  /-- Contents of every `struct ccs_execve`. -/
  ee_mem : Ptr → ccs_execve
  ccs_task_security_list : Nat → List Ptr
  ccs_cred_security_list : Nat → List Ptr
  ccs_in_execve_tasks : Int
  /-- The static `gc_counter` of `ccs_task_security_gc`. -/
  gc_counter : Int
  /-- Records handed to `call_rcu(.., ccs_rcu_free)` and not yet freed. -/
  rcu : List Ptr
  log : List Event

/-- Assignment through a record pointer: `*p = r`. -/
def State.store (s : State) (p : Ptr) (r : ccs_security) : State :=
  { s with mem := fun q => if q = p then r else s.mem q }

/-- Append one collaborator call to the log. -/
def State.emit (s : State) (e : Event) : State :=
  { s with log := s.log ++ [e] }

/-- The state right after `ccs_init`: empty buckets, both dummies in
`ccs_kernel_domain`. -/
def init : State :=
  { mem := fun _ => { zeroed with ccs_domain_info := ccs_kernel_domain },
    ee_mem := fun _ => { previous_domain := NULL },
    ccs_task_security_list := fun _ => [],
    ccs_cred_security_list := fun _ => [],
    ccs_in_execve_tasks := 0,
    gc_counter := 0,
    rcu := [],
    log := [] }

/-- The scan of `ccs_find_cred_security`: first record of the bucket of `cred`
whose `cred` field is `cred`, `&ccs_default_security` when there is none. -/
def ccs_find_cred_security (h : Host) (s : State) (cred : Ptr) : Ptr :=
  match (s.ccs_cred_security_list (h.hash_ptr cred)).find?
      (fun ptr => (s.mem ptr).cred == cred) with
  | some ptr => ptr
  | none => ccs_default_security

/-- The scan at the top of `ccs_find_task_security`: first record of the
bucket of `task` whose `pid` is the pid of `task`. -/
def task_lookup (h : Host) (s : State) (task : Ptr) : Option Ptr :=
  (s.ccs_task_security_list (h.hash_ptr task)).find?
    (fun ptr => (s.mem ptr).pid == h.task_pid task)

/-- Modelled from the spec: `ccs_finish_execve` is defined outside the source
files.  The Transition Record is handed over (logged), the "transition in
progress" flag of the calling thread's task-keyed record is cleared, and on a
negative `ret` that record goes back to the domain the transition started
from. -/
def ccs_finish_execve (h : Host) (ret : Int) (ee : Ptr) (s : State) : State :=
  let s1 := s.emit (Event.ccs_finish_execve ret ee)
  match task_lookup h s h.current with
  | none => s1
  | some task =>
    let r := s.mem task
    s1.store task
      { r with
        ccs_domain_info :=
          if ret < 0 then (s.ee_mem ee).previous_domain else r.ccs_domain_info,
        ccs_flags := clear_in_execve_flag r.ccs_flags }

/-- Embedding of `ccs_clear_execve(ret, security)`. -/
def ccs_clear_execve (h : Host) (ret : Int) (security : Ptr) (s : State) : State :=
  if security = ccs_default_security ∨ security = ccs_oom_security then s
  else
    let ee := (s.mem security).ee
    let s1 := s.store security { s.mem security with ee := NULL }
    if ee = NULL then s1
    else
      let s2 :=
        if h.KERNEL_LT_2_6_31 then
          (s1.emit (Event.put_cred (s1.mem security).cred)).store security
            { s1.mem security with cred := NULL }
        else s1
      let s3 := { s2 with ccs_in_execve_tasks := s2.ccs_in_execve_tasks - 1 }
      ccs_finish_execve h ret ee s3

/-- Unlinking of a list node: `list_del_rcu(&ptr->list)`.  A node is linked at
one position of one list, so dropping the pointer from every bucket drops
exactly that position. -/
def list_del_rcu (s : State) (ptr : Ptr) : State :=
  { s with
    ccs_task_security_list := fun i => (s.ccs_task_security_list i).filter (fun q => q != ptr),
    ccs_cred_security_list := fun i => (s.ccs_cred_security_list i).filter (fun q => q != ptr) }

/-- Embedding of `ccs_del_security(ptr)`. -/
def ccs_del_security (s : State) (ptr : Ptr) : State :=
  if ptr = ccs_default_security ∨ ptr = ccs_oom_security then s
  else
    let s1 := list_del_rcu s ptr
    { s1 with rcu := s1.rcu ++ [ptr] }

/-- Embedding of `ccs_add_cred_security(ptr)`. -/
def ccs_add_cred_security (h : Host) (s : State) (ptr : Ptr) : State :=
  let list := h.hash_ptr (s.mem ptr).cred
  let s1 := s.store ptr { s.mem ptr with pid := NULL }
  { s1 with
    ccs_cred_security_list := fun i =>
      if i = list then ptr :: s1.ccs_cred_security_list i else s1.ccs_cred_security_list i }

/-- Embedding of `ccs_add_task_security(ptr, list)`; `list` is the bucket
index. -/
def ccs_add_task_security (s : State) (ptr : Ptr) (list : Nat) : State :=
  { s with
    ccs_task_security_list := fun i =>
      if i = list then ptr :: s.ccs_task_security_list i else s.ccs_task_security_list i }

/-- Embedding of `ccs_find_task_security(task)`; `kz` is what `kzalloc` returns
if it is reached.  The wait `while (!list->next);` for the initialisation of
the bucket and the RCU read lock change no state and are left out. -/
def ccs_find_task_security (h : Host) (kz : Ptr) (s : State) (task : Ptr) : State × Ptr :=
  match task_lookup h s task with
  | some ptr =>
    if h.KERNEL_LT_2_6_31 then
      if task = h.current ∧ (s.mem ptr).cred ≠ NULL ∧ h.cred_usage (s.mem ptr).cred = 1 then
        (ccs_clear_execve h (-1) ptr s, ptr)
      else (s, ptr)
    else
      if task = h.current ∧ in_execve_flag (s.mem ptr).ccs_flags = true ∧
          h.in_execve h.current = false then
        (ccs_clear_execve h (-1) ptr s, ptr)
      else (s, ptr)
  | none =>
    if task ≠ h.current then (s, ccs_find_cred_security h s (h.task_real_cred task))
    else if kz = NULL then
      ((s.emit (Event.printk_oom task)).emit (Event.send_sig_SIGKILL h.current),
        ccs_oom_security)
    else
      let src := s.mem (ccs_find_cred_security h s (h.task_cred task))
      let s1 := s.store kz src
      let s2 := (s1.emit (Event.get_pid (h.task_pid task))).store kz
        { s1.mem kz with pid := h.task_pid task }
      let s3 := s2.store kz { s2.mem kz with cred := NULL }
      (ccs_add_task_security s3 kz (h.hash_ptr task), kz)

/-- Modelled from the spec: `ccs_current_security()` is declared in
`internal.h`; it is the lookup for the running task. -/
def ccs_current_security (h : Host) (kz : Ptr) (s : State) : State × Ptr :=
  ccs_find_task_security h kz s h.current

/-- Embedding of `ccs_copy_cred_security(new, old, gfp)`; `kz` is what `kzalloc`
returns. -/
def ccs_copy_cred_security (h : Host) (kz : Ptr) (s : State) (new old : Ptr) : State × Int :=
  let old_security := ccs_find_cred_security h s old
  if kz = NULL then (s, -ENOMEM)
  else
    let s1 := s.store kz (s.mem old_security)
    let s2 := s1.store kz { s1.mem kz with cred := new }
    (ccs_add_cred_security h s2 kz, 0)

/-- Embedding of `ccs_alloc_cred_security(cred, gfp)`. -/
def ccs_alloc_cred_security (h : Host) (kz : Ptr) (s : State) (cred : Ptr) : State × Int :=
  if kz = NULL then (s, -ENOMEM)
  else
    let s1 := s.store kz zeroed
    let s2 := s1.store kz { s1.mem kz with cred := cred }
    (ccs_add_cred_security h s2 kz, 0)

/-- One step of the inner loop of `ccs_task_security_gc`. -/
def gc_visit (h : Host) (s : State) (ptr : Ptr) : State :=
  if h.pid_task (s.mem ptr).pid ≠ NULL then s else ccs_del_security s ptr

/-- The inner loop of `ccs_task_security_gc` over bucket `idx`. -/
def gc_bucket (h : Host) (s : State) (idx : Nat) : State :=
  (s.ccs_task_security_list idx).foldl (gc_visit h) s

/-- The sweep of `ccs_task_security_gc`, from the try-lock on; `trylock` is the
result of `spin_trylock`. -/
def gc_sweep (h : Host) (trylock : Bool) (s : State) : State :=
  if trylock = false then s
  else
    (List.range h.CCS_MAX_TASK_SECURITY_HASH).foldl (gc_bucket h) { s with gc_counter := 0 }

/-- Embedding of `ccs_task_security_gc()`. -/
def ccs_task_security_gc (h : Host) (trylock : Bool) (s : State) : State :=
  if s.ccs_in_execve_tasks = 0 then
    let s1 := { s with gc_counter := s.gc_counter + 1 }
    if s1.gc_counter < 1024 then s1 else gc_sweep h trylock s1
  else gc_sweep h trylock s

/-- Embedding of `ccs_cred_prepare(new, old, gfp)`.  `gfp_kernel` is
`gfp == GFP_KERNEL`, `kz1` and `kz2` are the results of the two allocations,
`rc_orig` the result of the previously registered hook. -/
def ccs_cred_prepare (h : Host) (kz1 kz2 : Ptr) (trylock : Bool) (rc_orig : Int)
    (gfp_kernel : Bool) (s : State) (new old : Ptr) : State × Int :=
  let s1 :=
    if h.KERNEL_LT_2_6_31 = false ∧ gfp_kernel = true then
      (ccs_find_task_security h kz1 s h.current).1
    else s
  let r2 := ccs_copy_cred_security h kz2 s1 new old
  if r2.2 ≠ 0 then r2
  else
    let s3 := if gfp_kernel = true then ccs_task_security_gc h trylock r2.1 else r2.1
    let s4 := s3.emit (Event.original_hook "cred_prepare")
    if rc_orig ≠ 0 then (ccs_del_security s4 (ccs_find_cred_security h s4 new), rc_orig)
    else (s4, rc_orig)

/-- Embedding of `ccs_cred_free(cred)`. -/
def ccs_cred_free (h : Host) (s : State) (cred : Ptr) : State :=
  let s1 := s.emit (Event.original_hook "cred_free")
  ccs_del_security s1 (ccs_find_cred_security h s1 cred)

/-- Embedding of `ccs_cred_alloc_blank(new, gfp)`. -/
def ccs_cred_alloc_blank (h : Host) (kz : Ptr) (rc_orig : Int) (s : State) (new : Ptr) :
    State × Int :=
  let r1 := ccs_alloc_cred_security h kz s new
  if r1.2 ≠ 0 then r1
  else
    let s2 := r1.1.emit (Event.original_hook "cred_alloc_blank")
    if rc_orig ≠ 0 then (ccs_del_security s2 (ccs_find_cred_security h s2 new), rc_orig)
    else (s2, rc_orig)

/-- Embedding of `ccs_cred_transfer(new, old)`. -/
def ccs_cred_transfer (h : Host) (s : State) (new old : Ptr) : State :=
  let s1 := s.emit (Event.original_hook "cred_transfer")
  let new_security := ccs_find_cred_security h s1 new
  let old_security := ccs_find_cred_security h s1 old
  if new_security = ccs_default_security ∨ new_security = ccs_oom_security ∨
      old_security = ccs_default_security ∨ old_security = ccs_oom_security then s1
  else
    let s2 := s1.store new_security
      { s1.mem new_security with ccs_flags := (s1.mem old_security).ccs_flags }
    s2.store new_security
      { s2.mem new_security with ccs_domain_info := (s2.mem old_security).ccs_domain_info }

/-- Embedding of `ccs_bprm_committing_creds(bprm)`; `bprm_cred` is
`bprm->cred`. -/
def ccs_bprm_committing_creds (h : Host) (kz : Ptr) (s : State) (bprm_cred : Ptr) : State :=
  let s0 := s.emit (Event.original_hook "bprm_committing_creds")
  let r := ccs_current_security h kz s0
  let old_security := r.2
  if old_security = ccs_default_security ∨ old_security = ccs_oom_security then r.1
  else
    let s1 := ccs_clear_execve h 0 old_security r.1
    let new_security := ccs_find_cred_security h s1 bprm_cred
    let s2 := s1.store new_security
      { s1.mem new_security with ccs_flags := (s1.mem old_security).ccs_flags }
    s2.store new_security
      { s2.mem new_security with ccs_domain_info := (s2.mem old_security).ccs_domain_info }

/-- Modelled from the spec: `ccs_start_execve(bprm, &security->ee)` is defined
outside the source files.  `rc` is its result, `ee` the Transition Record it
leaves in `security->ee` (`NULL` when it creates none) and `domain` the domain
the program image is assigned.  When it creates a Transition Record it
remembers the domain the record is in, marks the owning record "transition in
progress" and moves it to the new domain. -/
def ccs_start_execve (rc : Int) (ee domain : Ptr) (security : Ptr) (s : State)
    (bprm_cred : Ptr) : State × Int :=
  let s1 := s.emit (Event.ccs_start_execve bprm_cred)
  if ee = NULL then (s1, rc)
  else
    let r := s1.mem security
    let s2 : State :=
      { s1 with
        ee_mem := fun q =>
          if q = ee then { previous_domain := r.ccs_domain_info } else s1.ee_mem q }
    (s2.store security
      { r with ee := ee, ccs_flags := set_in_execve_flag r.ccs_flags,
               ccs_domain_info := domain }, rc)

/-- Embedding of `ccs_bprm_check_security(bprm)`.  `start_rc`, `start_ee` and
`start_domain` describe what `ccs_start_execve` does if it is called, `rc_orig`
is the result of the previously registered hook.  The call of
`ccs_load_policy`, which touches none of the state kept here, is left out. -/
def ccs_bprm_check_security (h : Host) (kz : Ptr) (start_rc : Int)
    (start_ee start_domain : Ptr) (rc_orig : Int) (s : State) (bprm_cred : Ptr) :
    State × Int :=
  let r := ccs_current_security h kz s
  let security := r.2
  if security = ccs_default_security ∨ security = ccs_oom_security then (r.1, -ENOMEM)
  else if (r.1.mem security).ee = NULL then
    let r2 := ccs_start_execve start_rc start_ee start_domain security r.1 bprm_cred
    let s3 :=
      if (r2.1.mem security).ee ≠ NULL then
        let s2a :=
          if h.KERNEL_LT_2_6_31 then
            (r2.1.emit (Event.get_cred bprm_cred)).store security
              { r2.1.mem security with cred := bprm_cred }
          else r2.1
        { s2a with ccs_in_execve_tasks := s2a.ccs_in_execve_tasks + 1 }
      else r2.1
    if r2.2 ≠ 0 then (s3, r2.2)
    else (s3.emit (Event.original_hook "bprm_check_security"), rc_orig)
  else (r.1.emit (Event.original_hook "bprm_check_security"), rc_orig)

/-- Host kernel: `prepare_creds()`.  `new` is the credential set it allocates
(`NULL` on failure); it then runs the registered `cred_prepare` hook, which is
`ccs_cred_prepare`, on `(new, current->cred, GFP_KERNEL)` and gives up when the
hook fails. -/
def prepare_creds (h : Host) (new kz1 kz2 : Ptr) (trylock : Bool) (rc_orig : Int)
    (s : State) : State × Ptr :=
  if new = NULL then (s, NULL)
  else
    let r := ccs_cred_prepare h kz1 kz2 trylock rc_orig true s new (h.task_cred h.current)
    if r.2 < 0 then (r.1.emit (Event.abort_creds new), NULL) else (r.1, new)

/-- Embedding of `ccs_task_create(clone_flags)`.  The arguments up to
`rc_prepare` feed `prepare_creds`, `rc_orig` is the result of the previously
registered `task_create` hook, `kz3` the allocation of the lookup. -/
def ccs_task_create (h : Host) (new kz1 kz2 : Ptr) (trylock : Bool) (rc_prepare : Int)
    (rc_orig : Int) (kz3 : Ptr) (s : State) : State × Int :=
  let r := prepare_creds h new kz1 kz2 trylock rc_prepare s
  let cred := r.2
  if cred = NULL then (r.1, -ENOMEM)
  else
    let s1 := r.1.emit (Event.original_hook "task_create")
    if rc_orig ≠ 0 then (s1.emit (Event.abort_creds cred), rc_orig)
    else
      let r2 := ccs_find_task_security h kz3 s1 h.current
      let old_security := r2.2
      let new_security := ccs_find_cred_security h r2.1 cred
      let s3 := r2.1.store new_security
        { r2.1.mem new_security with
          ccs_domain_info := (r2.1.mem old_security).ccs_domain_info }
      let s4 := s3.store new_security
        { s3.mem new_security with ccs_flags := (s3.mem old_security).ccs_flags }
      (s4.emit (Event.commit_creds cred), 0)

/-- Embedding of `ccs_rcu_free(rcu)` for the record `ptr`. -/
def ccs_rcu_free (h : Host) (s : State) (ptr : Ptr) : State :=
  let r := s.mem ptr
  let ee := r.ee
  let s1 :=
    if h.KERNEL_LT_2_6_31 then
      if r.pid ≠ NULL ∧ r.cred ≠ NULL then
        { (s.emit (Event.put_cred r.cred)) with ccs_in_execve_tasks := s.ccs_in_execve_tasks - 1 }
      else s
    else
      if r.pid ≠ NULL ∧ in_execve_flag r.ccs_flags = true then
        { s with ccs_in_execve_tasks := s.ccs_in_execve_tasks - 1 }
      else s
  let s2 := if r.pid ≠ NULL then s1.emit (Event.put_pid r.pid) else s1
  let s3 := if ee ≠ NULL then s2.emit (Event.kfree_execve ee) else s2
  { (s3.emit (Event.kfree_security ptr)) with rcu := s3.rcu.filter (fun q => q != ptr) }

end Lsm2629

namespace Lsm412

/-- The `struct ccs_security` of `lsm-4.12.c` without its list and RCU
linkage. -/
structure ccs_security where
  task : Ptr
  ccs_domain_info : Ptr
  ccs_flags : Nat
  ee : Ptr
  deriving DecidableEq, Repr

/-- A record as `kzalloc` returns it. -/
def zeroed : ccs_security :=
  { task := NULL, ccs_domain_info := NULL, ccs_flags := 0, ee := NULL }

/-- The mutable state of the module. -/
structure State where
  /-- Contents of every `struct ccs_security`, the two dummies included. -/
  mem : Ptr → ccs_security
  /-- Contents of every `struct ccs_execve`. -/
  ee_mem : Ptr → ccs_execve
  ccs_task_security_list : Nat → List Ptr
  /-- Records handed to `kfree_rcu` and not yet freed. -/
  rcu : List Ptr
  log : List Event

/-- Assignment through a record pointer: `*p = r`. -/
def State.store (s : State) (p : Ptr) (r : ccs_security) : State :=
  { s with mem := fun q => if q = p then r else s.mem q }

/-- Append one collaborator call to the log. -/
def State.emit (s : State) (e : Event) : State :=
  { s with log := s.log ++ [e] }

/-- The state right after `ccs_init`. -/
def init : State :=
  { mem := fun _ => { zeroed with ccs_domain_info := ccs_kernel_domain },
    ee_mem := fun _ => { previous_domain := NULL },
    ccs_task_security_list := fun _ => [],
    rcu := [],
    log := [] }

/-- The scan at the top of `ccs_find_task_security`: first record of the
bucket of `task` whose `task` field is `task`. -/
def task_lookup (h : Host) (s : State) (task : Ptr) : Option Ptr :=
  (s.ccs_task_security_list (h.hash_ptr task)).find? (fun ptr => (s.mem ptr).task == task)

/-- Modelled from the spec: `ccs_finish_execve` is defined outside the source
files.  The Transition Record is handed over (logged), the "transition in
progress" flag of the calling thread's record is cleared, and on a negative
`ret` that record goes back to the domain the transition started from. -/
def ccs_finish_execve (h : Host) (ret : Int) (ee : Ptr) (s : State) : State :=
  let s1 := s.emit (Event.ccs_finish_execve ret ee)
  match task_lookup h s h.current with
  | none => s1
  | some task =>
    let r := s.mem task
    s1.store task
      { r with
        ccs_domain_info :=
          if ret < 0 then (s.ee_mem ee).previous_domain else r.ccs_domain_info,
        ccs_flags := clear_in_execve_flag r.ccs_flags }

/-- Embedding of `ccs_clear_execve(ret, security)`. -/
def ccs_clear_execve (h : Host) (ret : Int) (security : Ptr) (s : State) : State :=
  let ee := (s.mem security).ee
  if security = ccs_default_security ∨ security = ccs_oom_security ∨ ee = NULL then s
  else
    let s1 := s.store security { s.mem security with ee := NULL }
    ccs_finish_execve h ret ee s1

/-- Embedding of `ccs_add_task_security(ptr, list)`; `list` is the bucket
index. -/
def ccs_add_task_security (s : State) (ptr : Ptr) (list : Nat) : State :=
  { s with
    ccs_task_security_list := fun i =>
      if i = list then ptr :: s.ccs_task_security_list i else s.ccs_task_security_list i }

/-- Embedding of `ccs_find_task_security(task)`; `kz` is what `kzalloc` returns
if it is reached.  The wait `while (!list->next);` for the initialisation of
the bucket and the RCU read lock change no state and are left out. -/
def ccs_find_task_security (h : Host) (kz : Ptr) (s : State) (task : Ptr) : State × Ptr :=
  match task_lookup h s task with
  | some ptr =>
    if task = h.current ∧ in_execve_flag (s.mem ptr).ccs_flags = true ∧
        h.in_execve h.current = false then
      (ccs_clear_execve h (-1) ptr s, ptr)
    else (s, ptr)
  | none =>
    if task ≠ h.current then (s, ccs_default_security)
    else if kz = NULL then
      ((s.emit (Event.printk_oom task)).emit (Event.send_sig_SIGKILL h.current),
        ccs_oom_security)
    else
      let s1 := s.store kz (s.mem ccs_default_security)
      let s2 := s1.store kz { s1.mem kz with task := task }
      (ccs_add_task_security s2 kz (h.hash_ptr task), kz)

/-- Modelled from the spec: `ccs_current_security()` is declared in
`internal.h`; it is the lookup for the running task. -/
def ccs_current_security (h : Host) (kz : Ptr) (s : State) : State × Ptr :=
  ccs_find_task_security h kz s h.current

/-- Embedding of `__ccs_alloc_task_security(task)`; `kz1` serves the lookup of
the running task, `kz2` the new record. -/
def __ccs_alloc_task_security (h : Host) (kz1 kz2 : Ptr) (s : State) (task : Ptr) :
    State × Int :=
  let r := ccs_current_security h kz1 s
  let old_security := r.2
  if kz2 = NULL then (r.1, -ENOMEM)
  else
    let s1 := r.1.store kz2 zeroed
    let s2 := s1.store kz2 { s1.mem kz2 with task := task }
    let s3 := s2.store kz2
      { s2.mem kz2 with ccs_domain_info := (s2.mem old_security).ccs_domain_info }
    let s4 := s3.store kz2 { s3.mem kz2 with ccs_flags := (s3.mem old_security).ccs_flags }
    (ccs_add_task_security s4 kz2 (h.hash_ptr task), 0)

/-- Embedding of `__ccs_free_task_security(task)`. -/
def __ccs_free_task_security (h : Host) (kz : Ptr) (s : State) (task : Ptr) : State :=
  let r := ccs_find_task_security h kz s task
  let ptr := r.2
  if ptr = ccs_default_security ∨ ptr = ccs_oom_security then r.1
  else
    { r.1 with
      ccs_task_security_list := fun i =>
        (r.1.ccs_task_security_list i).filter (fun q => q != ptr),
      rcu := r.1.rcu ++ [ptr] }

/-- Embedding of `ccs_task_alloc_security(p, clone_flags)`; `rc_orig` is the
result of the previously registered hook, `none` when there is no such hook. -/
def ccs_task_alloc_security (h : Host) (kz1 kz2 kz3 : Ptr) (rc_orig : Option Int)
    (s : State) (p : Ptr) : State × Int :=
  let r := __ccs_alloc_task_security h kz1 kz2 s p
  if r.2 ≠ 0 then r
  else
    match rc_orig with
    | none => (r.1, r.2)
    | some rc =>
      let s1 := r.1.emit (Event.original_hook "task_alloc")
      if rc ≠ 0 then (__ccs_free_task_security h kz3 s1 p, rc) else (s1, rc)

/-- Embedding of `ccs_task_free_security(p)`; `has_orig` tells whether a hook
was registered before. -/
def ccs_task_free_security (h : Host) (kz1 kz2 : Ptr) (has_orig : Bool) (s : State)
    (p : Ptr) : State :=
  let r := ccs_find_task_security h kz1 s p
  let ptr := r.2
  let ee := (r.1.mem ptr).ee
  let s1 := if has_orig then r.1.emit (Event.original_hook "task_free") else r.1
  let s2 :=
    if ee ≠ NULL then
      (s1.emit (Event.kfree_execve ee)).store ptr { s1.mem ptr with ee := NULL }
    else s1
  __ccs_free_task_security h kz2 s2 p

/-- Embedding of `ccs_bprm_committing_creds(bprm)`. -/
def ccs_bprm_committing_creds (h : Host) (kz : Ptr) (s : State) : State :=
  let r := ccs_current_security h kz s
  ccs_clear_execve h 0 r.2 r.1

/-- Embedding of `ccs_cred_prepare(new, old, gfp)`; `gfp_kernel` is
`gfp == GFP_KERNEL`, `rc_orig` the result of the previously registered hook,
`none` when there is no such hook. -/
def ccs_cred_prepare (h : Host) (kz : Ptr) (rc_orig : Option Int) (gfp_kernel : Bool)
    (s : State) : State × Int :=
  let s1 := if gfp_kernel = true then (ccs_find_task_security h kz s h.current).1 else s
  match rc_orig with
  | some rc => (s1.emit (Event.original_hook "cred_prepare"), rc)
  | none => (s1, 0)

/-- Modelled from the spec: `ccs_start_execve(bprm, &security->ee)` is defined
outside the source files.  `rc` is its result, `ee` the Transition Record it
leaves in `security->ee` (`NULL` when it creates none) and `domain` the domain
the program image is assigned.  When it creates a Transition Record it
remembers the domain the record is in, marks the owning record "transition in
progress" and moves it to the new domain. -/
def ccs_start_execve (rc : Int) (ee domain : Ptr) (security : Ptr) (s : State) : State × Int :=
  let s1 := s.emit (Event.ccs_start_execve NULL)
  if ee = NULL then (s1, rc)
  else
    let r := s1.mem security
    let s2 : State :=
      { s1 with
        ee_mem := fun q =>
          if q = ee then { previous_domain := r.ccs_domain_info } else s1.ee_mem q }
    (s2.store security
      { r with ee := ee, ccs_flags := set_in_execve_flag r.ccs_flags,
               ccs_domain_info := domain }, rc)

/-- Embedding of `ccs_bprm_check_security(bprm)`; `start_rc`, `start_ee` and
`start_domain` describe what `ccs_start_execve` does if it is called.  The call
of `ccs_load_policy`, which touches none of the state kept here, is left out. -/
def ccs_bprm_check_security (h : Host) (kz : Ptr) (start_rc : Int)
    (start_ee start_domain : Ptr) (s : State) : State × Int :=
  let r := ccs_current_security h kz s
  let security := r.2
  if security = ccs_default_security ∨ security = ccs_oom_security then (r.1, -ENOMEM)
  else if (r.1.mem security).ee ≠ NULL then (r.1, 0)
  else ccs_start_execve start_rc start_ee start_domain security r.1

end Lsm412

/-! ## Auxiliary states -/

namespace Lsm2629

/-- The state in which `ccs_clear_execve` calls `ccs_finish_execve`: `ee`
detached, on kernels before 2.6.31 the remembered credentials dropped, the
counter decremented. -/
def clear_mid (h : Host) (sec : Ptr) (s : State) : State :=
  { s with
    mem := fun x =>
      if x = sec then
        { s.mem sec with
          ee := NULL, cred := if h.KERNEL_LT_2_6_31 then NULL else (s.mem sec).cred }
      else s.mem x,
    ccs_in_execve_tasks := s.ccs_in_execve_tasks - 1,
    log := if h.KERNEL_LT_2_6_31 then s.log ++ [Event.put_cred (s.mem sec).cred] else s.log }

end Lsm2629

/-! ## Concrete hosts and states used in examples -/

/-- A host on kernel 2.6.31 or later: four buckets, task `100` running with pid
`1100` and credentials `2100`, not inside `execve`. -/
def demoHost : Host :=
  { KERNEL_LT_2_6_31 := false,
    CCS_MAX_TASK_SECURITY_HASH := 4,
    hash_ptr := fun p => p % 4,
    current := 100,
    task_pid := fun t => t + 1000,
    task_cred := fun t => t + 2000,
    task_real_cred := fun t => t + 2000,
    in_execve := fun _ => false,
    pid_task := fun p => p - 1000,
    cred_usage := fun _ => 2 }

/-- The host `demoHost` while task `100` is inside `execve`. -/
def execHost : Host := { demoHost with in_execve := fun _ => true }

namespace Lsm2629

/-- Task `100` has looked itself up once: its record lives at address `10`. -/
def demoState1 : State := (ccs_find_task_security demoHost 10 init 100).1

/-- Task `100` has entered `execve`: its record holds Transition Record `50`
and was moved from `ccs_kernel_domain` to domain `7`. -/
def demoPending : State := (ccs_bprm_check_security execHost 0 0 50 7 0 demoState1 2100).1

end Lsm2629

namespace Lsm412

/-- Task `100` has looked itself up once: its record lives at address `10`. -/
def demoState1 : State := (ccs_find_task_security demoHost 10 init 100).1

/-- Task `100` has entered `execve`: its record holds Transition Record `50`. -/
def demoPending : State := (ccs_bprm_check_security execHost 0 0 50 7 demoState1).1

end Lsm412

namespace Lsm2629

/-- Whether a visit of the sweep unlinks `q`: its pid has no task and it is not
a dummy. -/
def removable (h : Host) (m : Ptr → ccs_security) (q : Ptr) : Prop :=
  h.pid_task (m q).pid = NULL ∧ q ≠ ccs_default_security ∧ q ≠ ccs_oom_security

instance (h : Host) (m : Ptr → ccs_security) (q : Ptr) : Decidable (removable h m q) := by
  unfold removable
  infer_instance

/-- What is common to all states of one sweep. -/
structure SweepFrame (s t : State) : Prop where
  mem : t.mem = s.mem
  ee_mem : t.ee_mem = s.ee_mem
  counter : t.ccs_in_execve_tasks = s.ccs_in_execve_tasks
  gc_counter : t.gc_counter = s.gc_counter
  log : t.log = s.log

/-- The host `demoHost` after task `100` has gone: pid `1100` has no task. -/
def gcHost : Host :=
  { demoHost with pid_task := fun p => if p = 1100 then NULL else p - 1000 }

/-- The state `demoPending` after task `101` has looked itself up as well: its
record lives at address `11`. -/
def gcState : State :=
  (ccs_find_task_security { demoHost with current := 101 } 11 demoPending 101).1

end Lsm2629

/-! ## Invariants and auxiliary states of `lsm-2.6.29.c` -/

namespace Lsm2629

/-- Every record linked on the task table satisfies `φ`. -/
def TaskAll (φ : ccs_security → Prop) (s : State) : Prop :=
  ∀ i, ∀ p ∈ s.ccs_task_security_list i, φ (s.mem p)

/-- Every record linked on the credential table satisfies `φ`. -/
def CredAll (φ : ccs_security → Prop) (s : State) : Prop :=
  ∀ i, ∀ p ∈ s.ccs_cred_security_list i, φ (s.mem p)

/-- The pointer `kz` is linked on no bucket: what `kzalloc` returns is not a
live record. -/
def Fresh (s : State) (kz : Ptr) : Prop :=
  ∀ i, kz ∉ s.ccs_task_security_list i ∧ kz ∉ s.ccs_cred_security_list i

/-- Invariant I1 as the comments of `lsm-2.6.29.c` state it: records of the
task table have `pid != NULL`, records of the credential table have
`pid == NULL` and `cred != NULL`. -/
def Partitioned (s : State) : Prop :=
  TaskAll (fun r => r.pid ≠ NULL) s ∧ CredAll (fun r => r.pid = NULL ∧ r.cred ≠ NULL) s

/-- Unlinking only: the records are as before and every bucket is a part of
what it was. -/
structure Shrinks (s t : State) : Prop where
  mem : t.mem = s.mem
  task : ∀ i, ∀ p ∈ t.ccs_task_security_list i, p ∈ s.ccs_task_security_list i
  cred : ∀ i, ∀ p ∈ t.ccs_cred_security_list i, p ∈ s.ccs_cred_security_list i

/-- The state after `ccs_clear_execve(ret, ptr)` when `ptr` is the record of
the running task and holds a Transition Record. -/
def reconciled (h : Host) (ret : Int) (ptr : Ptr) (s : State) : State :=
  { s with
    mem := fun q =>
      if q = ptr then
        { pid := (s.mem ptr).pid,
          cred := if h.KERNEL_LT_2_6_31 then NULL else (s.mem ptr).cred,
          ccs_domain_info :=
            if ret < 0 then (s.ee_mem (s.mem ptr).ee).previous_domain
            else (s.mem ptr).ccs_domain_info,
          ccs_flags := clear_in_execve_flag (s.mem ptr).ccs_flags,
          ee := NULL }
      else s.mem q,
    ccs_in_execve_tasks := s.ccs_in_execve_tasks - 1,
    log := (if h.KERNEL_LT_2_6_31 then s.log ++ [Event.put_cred (s.mem ptr).cred]
            else s.log) ++ [Event.ccs_finish_execve ret (s.mem ptr).ee] }

/-- The state after the allocating path of `ccs_find_task_security(current)`. -/
def allocated (h : Host) (kz : Ptr) (s : State) : State :=
  { s with
    mem := fun q =>
      if q = kz then
        { s.mem (ccs_find_cred_security h s (h.task_cred h.current)) with
          pid := h.task_pid h.current, cred := NULL }
      else s.mem q,
    ccs_task_security_list := fun i =>
      if i = h.hash_ptr h.current then kz :: s.ccs_task_security_list i
      else s.ccs_task_security_list i,
    log := s.log ++ [Event.get_pid (h.task_pid h.current)] }

/-- Linking only what is listed in `A`: every record on a bucket of `t` was on
the same table of `s` or is one of `A`. -/
structure Grows (A : List Ptr) (s t : State) : Prop where
  task : ∀ i, ∀ p ∈ t.ccs_task_security_list i, (∃ j, p ∈ s.ccs_task_security_list j) ∨ p ∈ A
  cred : ∀ i, ∀ p ∈ t.ccs_cred_security_list i, (∃ j, p ∈ s.ccs_cred_security_list j) ∨ p ∈ A

/-- The state after `kzalloc` returned `kz`, the record was filled with `r`
and `ccs_add_cred_security` linked it. -/
def cred_linked (h : Host) (kz : Ptr) (r : ccs_security) (s : State) : State :=
  { s with
    mem := fun q => if q = kz then { r with pid := NULL } else s.mem q,
    ccs_cred_security_list := fun i =>
      if i = h.hash_ptr r.cred then kz :: s.ccs_cred_security_list i
      else s.ccs_cred_security_list i }

/-- What `ccs_bprm_check_security` does once the lookup has returned the
record `sec` in state `s1`. -/
def bprm_check_after (h : Host) (start_rc : Int) (start_ee start_domain : Ptr)
    (rc_orig : Int) (sec : Ptr) (s1 : State) (bprm_cred : Ptr) : State × Int :=
  if sec = ccs_default_security ∨ sec = ccs_oom_security then (s1, -ENOMEM)
  else if (s1.mem sec).ee = NULL then
    let r2 := ccs_start_execve start_rc start_ee start_domain sec s1 bprm_cred
    let s3 :=
      if (r2.1.mem sec).ee ≠ NULL then
        let s2a :=
          if h.KERNEL_LT_2_6_31 then
            (r2.1.emit (Event.get_cred bprm_cred)).store sec
              { r2.1.mem sec with cred := bprm_cred }
          else r2.1
        { s2a with ccs_in_execve_tasks := s2a.ccs_in_execve_tasks + 1 }
      else r2.1
    if r2.2 ≠ 0 then (s3, r2.2)
    else (s3.emit (Event.original_hook "bprm_check_security"), rc_orig)
  else (s1.emit (Event.original_hook "bprm_check_security"), rc_orig)

/-- What `ccs_task_create` does once `prepare_creds` has returned `cred` in
state `s0`. -/
def task_create_after (h : Host) (rc_orig : Int) (kz3 : Ptr) (cred : Ptr) (s0 : State) :
    State × Int :=
  if cred = NULL then (s0, -ENOMEM)
  else
    let s1 := s0.emit (Event.original_hook "task_create")
    if rc_orig ≠ 0 then (s1.emit (Event.abort_creds cred), rc_orig)
    else
      let r2 := ccs_find_task_security h kz3 s1 h.current
      let old_security := r2.2
      let new_security := ccs_find_cred_security h r2.1 cred
      let s3 := r2.1.store new_security
        { r2.1.mem new_security with
          ccs_domain_info := (r2.1.mem old_security).ccs_domain_info }
      let s4 := s3.store new_security
        { s3.mem new_security with ccs_flags := (s3.mem old_security).ccs_flags }
      (s4.emit (Event.commit_creds cred), 0)

end Lsm2629

/-! ## Uniqueness of keys: definitions -/

namespace Lsm2629

/-- Uniqueness on the task table: two linked records with the same `pid` are
one record. -/
def TaskUnique (s : State) : Prop :=
  ∀ i j, ∀ p ∈ s.ccs_task_security_list i, ∀ q ∈ s.ccs_task_security_list j,
    (s.mem p).pid = (s.mem q).pid → p = q

/-- Uniqueness on the credential table: two linked records with the same
`cred` are one record. -/
def CredUnique (s : State) : Prop :=
  ∀ i j, ∀ p ∈ s.ccs_cred_security_list i, ∀ q ∈ s.ccs_cred_security_list j,
    (s.mem p).cred = (s.mem q).cred → p = q

/-- No record is linked on both tables. -/
def Separate (s : State) : Prop :=
  ∀ i j, ∀ p ∈ s.ccs_task_security_list i, p ∉ s.ccs_cred_security_list j

/-- No record with the pid of the running task is linked on a bucket other
than the one the running task hashes to. -/
def CurrentPlaced (h : Host) (s : State) : Prop :=
  ∀ i, i ≠ h.hash_ptr h.current → ∀ p ∈ s.ccs_task_security_list i,
    (s.mem p).pid ≠ h.task_pid h.current

/-- A host in which task `100` has taken over the pid of task `101`, as the
thread that calls `execve` takes over the pid of the thread-group leader. -/
def sharedPidHost : Host :=
  { demoHost with task_pid := fun t => if t = 100 ∨ t = 101 then 1101 else t + 1000 }

/-- Task `101` has looked itself up: its record, with pid `1101`, lives at
address `10` on bucket `1`. -/
def leaderState : State :=
  (ccs_find_task_security { sharedPidHost with current := 101 } 10 init 101).1

end Lsm2629

namespace Lsm412

/-- The state after `ccs_clear_execve(ret, ptr)` when `ptr` is the record of
the running task and holds a Transition Record. -/
def reconciled (ret : Int) (ptr : Ptr) (s : State) : State :=
  { s with
    mem := fun q =>
      if q = ptr then
        { task := (s.mem ptr).task,
          ccs_domain_info :=
            if ret < 0 then (s.ee_mem (s.mem ptr).ee).previous_domain
            else (s.mem ptr).ccs_domain_info,
          ccs_flags := clear_in_execve_flag (s.mem ptr).ccs_flags,
          ee := NULL }
      else s.mem q,
    log := s.log ++ [Event.ccs_finish_execve ret (s.mem ptr).ee] }

/-- The state after the allocating path of `ccs_find_task_security(current)`. -/
def allocated (h : Host) (kz : Ptr) (s : State) : State :=
  { s with
    mem := fun q =>
      if q = kz then { s.mem ccs_default_security with task := h.current } else s.mem q,
    ccs_task_security_list := fun i =>
      if i = h.hash_ptr h.current then kz :: s.ccs_task_security_list i
      else s.ccs_task_security_list i }

/-- Uniqueness on the table of `lsm-4.12.c`: two linked records with the same
`task` are one record. -/
def TaskUnique (s : State) : Prop :=
  ∀ i j, ∀ p ∈ s.ccs_task_security_list i, ∀ q ∈ s.ccs_task_security_list j,
    (s.mem p).task = (s.mem q).task → p = q

/-- The pointer `kz` is linked on no bucket. -/
def Fresh (s : State) (kz : Ptr) : Prop := ∀ i, kz ∉ s.ccs_task_security_list i

/-- No record of `task` is linked on a bucket other than the one `task`
hashes to. -/
def Placed (h : Host) (s : State) (task : Ptr) : Prop :=
  ∀ i, i ≠ h.hash_ptr task → ∀ p ∈ s.ccs_task_security_list i, (s.mem p).task ≠ task

end Lsm412

/-! ## The transition invariant: definitions -/

namespace Lsm2629

/-- Neither a Transition Record nor the mark. -/
def Quiet (r : ccs_security) : Prop :=
  r.ee = NULL ∧ in_execve_flag r.ccs_flags = false

/-- Invariant I3 for one record: `ee` is set exactly when the record is marked
`CCS_TASK_IS_IN_EXECVE`. -/
def Consistent (r : ccs_security) : Prop :=
  r.ee ≠ NULL ↔ in_execve_flag r.ccs_flags = true

/-- Invariant I3 as the claim states it: every record linked on a table is
`Consistent`. -/
def EeIffFlag (s : State) : Prop := TaskAll Consistent s ∧ CredAll Consistent s

/-- The form of I3 that the hooks maintain: no record is linked on both
tables, records of the task table are `Consistent`, records of the credential
table and the two dummies are `Quiet`. -/
def TransitionInv (s : State) : Prop :=
  Separate s ∧ TaskAll Consistent s ∧ CredAll Quiet s ∧
    Quiet (s.mem ccs_default_security) ∧ Quiet (s.mem ccs_oom_security)

/-- The lookup inside `ccs_task_create`. -/
def task_create_lookup (h : Host) (new kz1 kz2 : Ptr) (trylock : Bool) (rc_prepare : Int)
    (kz3 : Ptr) (s : State) : State × Ptr :=
  ccs_find_task_security h kz3
    ((prepare_creds h new kz1 kz2 trylock rc_prepare s).1.emit
      (Event.original_hook "task_create")) h.current

end Lsm2629

namespace Lsm412

/-- Neither a Transition Record nor the mark. -/
def Quiet (r : ccs_security) : Prop :=
  r.ee = NULL ∧ in_execve_flag r.ccs_flags = false

/-- Invariant I3 for one record: `ee` is set exactly when the record is marked
`CCS_TASK_IS_IN_EXECVE`. -/
def Consistent (r : ccs_security) : Prop :=
  r.ee ≠ NULL ↔ in_execve_flag r.ccs_flags = true

/-- The form of I3 that the hooks of `lsm-4.12.c` maintain: linked records are
`Consistent`, the two dummies are `Quiet`. -/
def TransitionInv (s : State) : Prop :=
  (∀ i, ∀ p ∈ s.ccs_task_security_list i, Consistent (s.mem p)) ∧
    Quiet (s.mem ccs_default_security) ∧ Quiet (s.mem ccs_oom_security)

end Lsm412

/-! ## Rate limit of the sweep: definitions -/

namespace Lsm2629

/-- Consecutive calls of `ccs_task_security_gc`, one for each element of
`locks`, which lists what `spin_trylock` would return in each call. -/
def gc_calls (h : Host) (locks : List Bool) (s : State) : State :=
  locks.foldl (fun st trylock => ccs_task_security_gc h trylock st) s

end Lsm2629

/-! ## States of a committing `execve` -/

namespace Lsm2629

/-- Credentials `2150` have been prepared for the `execve` of task `100`, as
`prepare_bprm_creds` does before the first hook of `execve` runs: their record
lives at address `12`. -/
def execPrepared : State := (ccs_cred_prepare execHost 0 12 false 0 true demoState1 2150 2100).1

/-- The transition of task `100` towards credentials `2150` is pending: the
record at `10` holds Transition Record `50`. -/
def execPending : State := (ccs_bprm_check_security execHost 0 0 50 7 0 execPrepared 2150).1

end Lsm2629

/-! ## The dummy records: definitions -/

namespace Lsm2629

/-- Neither dummy record is linked on a bucket of either table. -/
def SentinelsUnlinked (s : State) : Prop :=
  Fresh s ccs_default_security ∧ Fresh s ccs_oom_security

end Lsm2629

namespace Lsm412

/-- Neither dummy record is linked on a bucket of the table. -/
def SentinelsUnlinked (s : State) : Prop :=
  Fresh s ccs_default_security ∧ Fresh s ccs_oom_security

end Lsm412

/-- What `kzalloc` returns is not the address of one of the two static dummy
records. -/
def OnHeap (kz : Ptr) : Prop := kz ≠ ccs_default_security ∧ kz ≠ ccs_oom_security

/-! ## Accepted sockets: embedding of the socket hooks of both files -/

/-- The `struct ccs_socket_tag` of both files without its list and RCU
linkage. -/
structure ccs_socket_tag where
  inode : Ptr
  status : Int
  deriving DecidableEq, Repr

/-- Value of `SOCKFS_MAGIC`. -/
def SOCKFS_MAGIC : Nat := 0x534F434B

/-- What the socket hooks read from the host kernel. -/
structure SockHost where
  /-- `SOCK_INODE(sock)`. -/
  SOCK_INODE : Ptr → Ptr
  /-- `inode->i_sb`, `NULL` when the inode has no superblock. -/
  i_sb : Ptr → Ptr
  /-- `sb->s_magic`. -/
  s_magic : Ptr → Nat

/-- Calls into collaborators that the socket hooks make. -/
inductive SockEvent where
  | ccs_socket_post_accept_permission (sock newsock : Ptr)
  | permission (name : String) (sock : Ptr)
  | original_hook (name : String)
  | kfree (ptr : Ptr)
  deriving DecidableEq, Repr

/-- The state the socket hooks of both files work on. -/
structure SockState where
  /-- Contents of every `struct ccs_socket_tag`. -/
  tag : Ptr → ccs_socket_tag
  /-- The list `ccs_accepted_socket_list`, head first. -/
  ccs_accepted_socket_list : List Ptr
  /-- Tags handed to `call_rcu` (`kfree_rcu` in `lsm-4.12.c`) and not yet
  freed. -/
  rcu : List Ptr
  log : List SockEvent

/-- Append one collaborator call to the log. -/
def SockState.emit (s : SockState) (e : SockEvent) : SockState :=
  { s with log := s.log ++ [e] }

/-- Assignment through a tag pointer: `*p = t`. -/
def SockState.store (s : SockState) (p : Ptr) (t : ccs_socket_tag) : SockState :=
  { s with tag := fun q => if q = p then t else s.tag q }

/-- The state with no accepted socket on the list. -/
def sock_init : SockState :=
  { tag := fun _ => { inode := NULL, status := 0 },
    ccs_accepted_socket_list := [],
    rcu := [],
    log := [] }

/-- The scan shared by `ccs_update_socket_tag` and `ccs_validate_socket`: the
first tag of the list whose `inode` is `inode`. -/
def socket_tag_lookup (s : SockState) (inode : Ptr) : Option Ptr :=
  s.ccs_accepted_socket_list.find? (fun ptr => (s.tag ptr).inode == inode)

/-- Embedding of `ccs_update_socket_tag(inode, status)`, the same in both
files but for `call_rcu(.., ccs_socket_rcu_free)` being `kfree_rcu` in
`lsm-4.12.c`.  `list_del_rcu` unlinks the one position the tag is linked at. -/
def ccs_update_socket_tag (s : SockState) (inode : Ptr) (status : Int) : SockState :=
  match socket_tag_lookup s inode with
  | none => s
  | some ptr =>
    let s1 := s.store ptr { s.tag ptr with status := status }
    if status ≠ 0 then s1
    else
      { s1 with
        ccs_accepted_socket_list := s1.ccs_accepted_socket_list.erase ptr,
        rcu := s1.rcu ++ [ptr] }

/-- Embedding of `ccs_validate_socket(sock)`, the same in both files; `post` is
what `ccs_socket_post_accept_permission(sock, sock)` returns if it is called. -/
def ccs_validate_socket (h : SockHost) (post : Int) (s : SockState) (sock : Ptr) :
    SockState × Int :=
  let inode := h.SOCK_INODE sock
  let ret : Int :=
    match socket_tag_lookup s inode with
    | some ptr => (s.tag ptr).status
    | none => 0
  if ret ≤ 0 then (s, ret)
  else
    let s1 := s.emit (SockEvent.ccs_socket_post_accept_permission sock sock)
    (ccs_update_socket_tag s1 inode post, post)

namespace Lsm2629

/-- Embedding of `ccs_socket_accept(sock, newsock)` of `lsm-2.6.29.c`; `kz` is
what `kzalloc` returns, `rc_orig` the result of the previously registered
hook. -/
def ccs_socket_accept (h : SockHost) (post : Int) (kz : Ptr) (rc_orig : Int) (s : SockState)
    (sock newsock : Ptr) : SockState × Int :=
  let r := ccs_validate_socket h post s sock
  if r.2 < 0 then r
  else if kz = NULL then (r.1, -ENOMEM)
  else
    let s1 := r.1.store kz { inode := NULL, status := 0 }
    let s2 := s1.emit (SockEvent.original_hook "socket_accept")
    if rc_orig ≠ 0 then (s2.emit (SockEvent.kfree kz), rc_orig)
    else
      let s3 := s2.store kz { s2.tag kz with inode := h.SOCK_INODE newsock }
      let s4 := s3.store kz { s3.tag kz with status := 1 }
      ({ s4 with ccs_accepted_socket_list := s4.ccs_accepted_socket_list ++ [kz] }, 0)

/-- The body shared by `ccs_socket_listen`, `ccs_socket_connect`,
`ccs_socket_bind` and `ccs_socket_sendmsg` of `lsm-2.6.29.c`: the deferred
check, the permission check of the operation (result `perm`), the previously
registered hook (result `rc_orig`). -/
def socket_hook_checked (name : String) (h : SockHost) (post perm rc_orig : Int)
    (s : SockState) (sock : Ptr) : SockState × Int :=
  let r := ccs_validate_socket h post s sock
  if r.2 < 0 then r
  else
    let s1 := r.1.emit (SockEvent.permission name sock)
    if perm ≠ 0 then (s1, perm)
    else (s1.emit (SockEvent.original_hook name), rc_orig)

/-- The body shared by `ccs_socket_recvmsg`, `ccs_socket_getsockname`,
`ccs_socket_getpeername`, `ccs_socket_getsockopt`, `ccs_socket_setsockopt` and
`ccs_socket_shutdown` of `lsm-2.6.29.c`: the deferred check, then the
previously registered hook. -/
def socket_hook_plain (name : String) (h : SockHost) (post rc_orig : Int)
    (s : SockState) (sock : Ptr) : SockState × Int :=
  let r := ccs_validate_socket h post s sock
  if r.2 < 0 then r
  else (r.1.emit (SockEvent.original_hook name), rc_orig)

/-- Embedding of `ccs_socket_listen(sock, backlog)`. -/
def ccs_socket_listen := socket_hook_checked "socket_listen"

/-- Embedding of `ccs_socket_connect(sock, addr, addr_len)`. -/
def ccs_socket_connect := socket_hook_checked "socket_connect"

/-- Embedding of `ccs_socket_bind(sock, addr, addr_len)`. -/
def ccs_socket_bind := socket_hook_checked "socket_bind"

/-- Embedding of `ccs_socket_sendmsg(sock, msg, size)`. -/
def ccs_socket_sendmsg := socket_hook_checked "socket_sendmsg"

/-- Embedding of `ccs_socket_recvmsg(sock, msg, size, flags)`. -/
def ccs_socket_recvmsg := socket_hook_plain "socket_recvmsg"

/-- Embedding of `ccs_socket_getsockname(sock)`. -/
def ccs_socket_getsockname := socket_hook_plain "socket_getsockname"

/-- Embedding of `ccs_socket_getpeername(sock)`. -/
def ccs_socket_getpeername := socket_hook_plain "socket_getpeername"

/-- Embedding of `ccs_socket_getsockopt(sock, level, optname)`. -/
def ccs_socket_getsockopt := socket_hook_plain "socket_getsockopt"

/-- Embedding of `ccs_socket_setsockopt(sock, level, optname)`. -/
def ccs_socket_setsockopt := socket_hook_plain "socket_setsockopt"

/-- Embedding of `ccs_socket_shutdown(sock, how)`. -/
def ccs_socket_shutdown := socket_hook_plain "socket_shutdown"

/-- Embedding of `ccs_inode_free_security(inode)` of `lsm-2.6.29.c`. -/
def ccs_inode_free_security (h : SockHost) (s : SockState) (inode : Ptr) : SockState :=
  let s1 := s.emit (SockEvent.original_hook "inode_free_security")
  if h.i_sb inode ≠ NULL ∧ h.s_magic (h.i_sb inode) = SOCKFS_MAGIC then
    ccs_update_socket_tag s1 inode 0
  else s1

end Lsm2629

namespace Lsm412

/-- Embedding of `ccs_socket_accept(sock, newsock)` of `lsm-4.12.c`; `kz` is
what `kzalloc` returns. -/
def ccs_socket_accept (h : SockHost) (post : Int) (kz : Ptr) (s : SockState)
    (sock newsock : Ptr) : SockState × Int :=
  let r := ccs_validate_socket h post s sock
  if r.2 < 0 then r
  else if kz = NULL then (r.1, -ENOMEM)
  else
    let s1 := r.1.store kz { inode := NULL, status := 0 }
    let s2 := s1.store kz { s1.tag kz with inode := h.SOCK_INODE newsock }
    let s3 := s2.store kz { s2.tag kz with status := 1 }
    ({ s3 with ccs_accepted_socket_list := s3.ccs_accepted_socket_list ++ [kz] }, 0)

/-- The body shared by `ccs_socket_listen`, `ccs_socket_connect`,
`ccs_socket_bind` and `ccs_socket_sendmsg` of `lsm-4.12.c`: the deferred check,
then the permission check of the operation (result `perm`). -/
def socket_hook_checked (name : String) (h : SockHost) (post perm : Int)
    (s : SockState) (sock : Ptr) : SockState × Int :=
  let r := ccs_validate_socket h post s sock
  if r.2 < 0 then r
  else (r.1.emit (SockEvent.permission name sock), perm)

/-- Embedding of `ccs_socket_listen(sock, backlog)`. -/
def ccs_socket_listen := socket_hook_checked "socket_listen"

/-- Embedding of `ccs_socket_connect(sock, addr, addr_len)`. -/
def ccs_socket_connect := socket_hook_checked "socket_connect"

/-- Embedding of `ccs_socket_bind(sock, addr, addr_len)`. -/
def ccs_socket_bind := socket_hook_checked "socket_bind"

/-- Embedding of `ccs_socket_sendmsg(sock, msg, size)`. -/
def ccs_socket_sendmsg := socket_hook_checked "socket_sendmsg"

/-- Embedding of `ccs_socket_recvmsg(sock, msg, size, flags)`. -/
def ccs_socket_recvmsg := ccs_validate_socket

/-- Embedding of `ccs_socket_getsockname(sock)`. -/
def ccs_socket_getsockname := ccs_validate_socket

/-- Embedding of `ccs_socket_getpeername(sock)`. -/
def ccs_socket_getpeername := ccs_validate_socket

/-- Embedding of `ccs_socket_getsockopt(sock, level, optname)`. -/
def ccs_socket_getsockopt := ccs_validate_socket

/-- Embedding of `ccs_socket_setsockopt(sock, level, optname)`. -/
def ccs_socket_setsockopt := ccs_validate_socket

/-- Embedding of `ccs_socket_shutdown(sock, how)`. -/
def ccs_socket_shutdown := ccs_validate_socket

/-- Embedding of `ccs_inode_free_security(inode)` of `lsm-4.12.c`. -/
def ccs_inode_free_security (h : SockHost) (s : SockState) (inode : Ptr) : SockState :=
  if h.i_sb inode ≠ NULL ∧ h.s_magic (h.i_sb inode) = SOCKFS_MAGIC then
    ccs_update_socket_tag s inode 0
  else s

end Lsm412

/-- A host in which socket `k` has inode `k + 500` and every inode lives on
the socket filesystem, superblock `9`. -/
def sockHost : SockHost :=
  { SOCK_INODE := fun k => k + 500,
    i_sb := fun _ => 9,
    s_magic := fun sb => if sb = 9 then SOCKFS_MAGIC else 0 }

/-- The list after `accept` on listening socket `20` has produced socket `21`:
the tag at address `30` marks inode `521` as pending. -/
def sockPending : SockState := (Lsm412.ccs_socket_accept sockHost 0 30 sock_init 20 21).1

/-! ## Accepted sockets: auxiliary states -/

/-- The state after a deferred check of a pending socket that got the negative
result `e`: the evaluation is logged and the tag `p` carries status `e`. -/
def denied (s : SockState) (sock p : Ptr) (e : Int) : SockState :=
  (s.emit (SockEvent.ccs_socket_post_accept_permission sock sock)).store p
    { s.tag p with status := e }

/-- No two tags on the list have the same inode. -/
def SockUnique (s : SockState) : Prop :=
  (s.ccs_accepted_socket_list.map (fun p => (s.tag p).inode)).Nodup

/-- The state after a deferred check of a pending socket that was allowed: the
evaluation is logged, the tag `p` is unlinked and queued for freeing. -/
def allowed (s : SockState) (sock p : Ptr) : SockState :=
  { tag := fun q => if q = p then { s.tag p with status := 0 } else s.tag q,
    ccs_accepted_socket_list := s.ccs_accepted_socket_list.erase p,
    rcu := s.rcu ++ [p],
    log := s.log ++ [SockEvent.ccs_socket_post_accept_permission sock sock] }

/-! ## Two threads inside `ccs_validate_socket` -/

/-- Where a thread stands inside `ccs_validate_socket`: before the scan of the
list, after a scan that found a positive status, after
`ccs_socket_post_accept_permission` returned `ret`, after the return. -/
inductive ValidatePc where
  | entry
  | scanned (ret : Int)
  | evaluated (ret : Int)
  | returned (ret : Int)
  deriving DecidableEq, Repr

/-- One step of a thread inside `ccs_validate_socket(sock)`, in the order of
the source: the scan under `rcu_read_lock`, which changes nothing; the call of
`ccs_socket_post_accept_permission`, made with no lock held, which returns
`post`; `ccs_update_socket_tag`, whole under `ccs_accepted_socket_list_lock`.
A thread that has returned stays where it is. -/
def validate_step (h : SockHost) (sock : Ptr) (post : Int) (pc : ValidatePc) (s : SockState) :
    ValidatePc × SockState :=
  match pc with
  | ValidatePc.entry =>
    let ret : Int :=
      match socket_tag_lookup s (h.SOCK_INODE sock) with
      | some ptr => (s.tag ptr).status
      | none => 0
    if ret ≤ 0 then (ValidatePc.returned ret, s) else (ValidatePc.scanned ret, s)
  | ValidatePc.scanned _ =>
    (ValidatePc.evaluated post,
      s.emit (SockEvent.ccs_socket_post_accept_permission sock sock))
  | ValidatePc.evaluated ret =>
    (ValidatePc.returned ret, ccs_update_socket_tag s (h.SOCK_INODE sock) ret)
  | ValidatePc.returned ret => (ValidatePc.returned ret, s)

/-- Two threads inside `ccs_validate_socket` on the same socket and the state
they share. -/
structure Race where
  pcA : ValidatePc
  pcB : ValidatePc
  state : SockState

/-- One step of the interleaving: thread B moves when `who` is true, thread A
otherwise. -/
def race_step (h : SockHost) (sock : Ptr) (postA postB : Int) (c : Race) (who : Bool) : Race :=
  if who then
    { c with
      pcB := (validate_step h sock postB c.pcB c.state).1,
      state := (validate_step h sock postB c.pcB c.state).2 }
  else
    { c with
      pcA := (validate_step h sock postA c.pcA c.state).1,
      state := (validate_step h sock postA c.pcA c.state).2 }

/-- The interleaving `sched` of two calls that both start in state `s`. -/
def race_run (h : SockHost) (sock : Ptr) (postA postB : Int) (sched : List Bool)
    (s : SockState) : Race :=
  sched.foldl (race_step h sock postA postB)
    { pcA := ValidatePc.entry, pcB := ValidatePc.entry, state := s }

/-- Whether the thread has returned. -/
def ValidatePc.done : ValidatePc → Bool
  | ValidatePc.returned _ => true
  | _ => false

/-- Both threads have returned. -/
def Race.finished (c : Race) : Prop := c.pcA.done = true ∧ c.pcB.done = true

/-- Number of calls of `ccs_socket_post_accept_permission(sock, sock)` in the
log. -/
def evaluations (sock : Ptr) (s : SockState) : Nat :=
  s.log.count (SockEvent.ccs_socket_post_accept_permission sock sock)

/-- Whether the thread is past the call of
`ccs_socket_post_accept_permission` or past the point where it could make it:
1 if so, 0 otherwise. -/
def ValidatePc.past : ValidatePc → Nat
  | ValidatePc.entry => 0
  | ValidatePc.scanned _ => 0
  | ValidatePc.evaluated _ => 1
  | ValidatePc.returned _ => 1

/-- What holds of every state of an interleaving that started in `s` with a
pending tag: each thread has evaluated at most once, and as long as nobody has
evaluated, nobody is past the scan and the state is still `s`. -/
def RaceInv (sock : Ptr) (s : SockState) (c : Race) : Prop :=
  evaluations sock c.state ≤ evaluations sock s + c.pcA.past + c.pcB.past ∧
  (evaluations sock s + 1 ≤ evaluations sock c.state ∨
    (c.pcA.past = 0 ∧ c.pcB.past = 0 ∧ c.state = s))

/-- What holds of every state of an interleaving once both threads have scanned
the list and found the tag pending: the evaluations are those of the threads
that are past the call. -/
def BothScanned (sock : Ptr) (s : SockState) (c : Race) : Prop :=
  evaluations sock c.state = evaluations sock s + c.pcA.past + c.pcB.past ∧
  c.pcA ≠ ValidatePc.entry ∧ c.pcB ≠ ValidatePc.entry

/-! ## Domains in use: embedding of `ccs_used_by_cred` -/

namespace Lsm2629

/-- The test `ccs_used_by_cred` makes on one record. -/
def uses_domain (s : State) (domain : Ptr) (ptr : Ptr) : Bool :=
  let ee := (s.mem ptr).ee
  (s.mem ptr).ccs_domain_info == domain ||
    (ee != NULL && (s.ee_mem ee).previous_domain == domain)

/-- Embedding of `ccs_used_by_cred(domain)` of `lsm-2.6.29.c`: the two nested
loops return `true` at the first record that passes the test.  The function
takes the state and gives a truth value only. -/
def ccs_used_by_cred (h : Host) (s : State) (domain : Ptr) : Bool :=
  (List.range h.CCS_MAX_TASK_SECURITY_HASH).any
    (fun idx => (s.ccs_cred_security_list idx).any (uses_domain s domain))

end Lsm2629

namespace Lsm412

/-- Embedding of `ccs_used_by_cred(domain)` of `lsm-4.12.c`, which has no
credential table. -/
def ccs_used_by_cred (_s : State) (_domain : Ptr) : Bool := false

end Lsm412

/-! ## Permission hooks: embedding -/

/-- Calls that the permission hooks of `lsm-2.6.29.c` make: the policy check
of the operation and the previously registered hook, each with the arguments it
receives (pointers and integers alike recorded as integers). -/
inductive HookEvent where
  | policy_check (name : String) (args : List Int)
  | original_hook (name : String) (args : List Int)
  deriving DecidableEq, Repr

/-- What the permission hooks read through their pointer arguments. -/
structure VfsHost where
  /-- `path->dentry`. -/
  path_dentry : Int → Int
  /-- `path->mnt`. -/
  path_mnt : Int → Int
  /-- `f->f_path.dentry`. -/
  f_path_dentry : Int → Int
  /-- `f->f_path.mnt`. -/
  f_path_mnt : Int → Int
  /-- `f->f_flags`. -/
  f_flags : Int → Int

/-- Which of the three bodies of `ccs_open` the preprocessor selects. -/
inductive OpenVariant where
  | since_2_6_33
  | rhel6
  | before_2_6_33
  deriving DecidableEq, Repr

/-- The fields of `struct iattr` that `ccs_inode_setattr` reads; the four
truth values are the bits `ATTR_UID`, `ATTR_GID`, `ATTR_MODE` and `ATTR_SIZE`
of `ia_valid`. -/
structure iattr where
  attr_uid : Bool
  attr_gid : Bool
  attr_mode : Bool
  attr_size : Bool
  ia_uid : Int
  ia_gid : Int
  ia_mode : Int

namespace Lsm2629

/-- The tail shared by the permission hooks: return the result `rc` of the
policy check when it is not 0, otherwise call the previously registered hook
on the arguments of the hook and return its result `rc_orig`.  The wait
`while (!original_security_ops.op) smp_rmb();` changes nothing and is left
out. -/
def forward (hook : String) (hook_args : List Int) (rc rc_orig : Int)
    (log : List HookEvent) : List HookEvent × Int :=
  if rc ≠ 0 then (log, rc)
  else (log ++ [HookEvent.original_hook hook hook_args], rc_orig)

/-- The body shared by the permission hooks with one policy check. -/
def consult (check : String) (check_args : List Int) (hook : String) (hook_args : List Int)
    (rc rc_orig : Int) (log : List HookEvent) : List HookEvent × Int :=
  forward hook hook_args rc rc_orig (log ++ [HookEvent.policy_check check check_args])

/-- Embedding of `ccs_open(f)`: the call of `ccs_open_permission`, whose
arguments depend on the kernel; `rc` is its result. -/
def ccs_open (v : OpenVariant) (h : VfsHost) (rc : Int) (log : List HookEvent) (f : Int) :
    List HookEvent × Int :=
  match v with
  | OpenVariant.since_2_6_33 =>
    (log ++ [HookEvent.policy_check "ccs_open_permission" [f]], rc)
  | OpenVariant.rhel6 =>
    (log ++ [HookEvent.policy_check "ccs_open_permission"
      [h.f_path_dentry f, h.f_path_mnt f, h.f_flags f]], rc)
  | OpenVariant.before_2_6_33 =>
    (log ++ [HookEvent.policy_check "ccs_open_permission"
      [h.f_path_dentry f, h.f_path_mnt f, h.f_flags f + 1]], rc)

/-- Embedding of `ccs_file_open(f, cred)` (kernels from 3.5 on). -/
def ccs_file_open (v : OpenVariant) (h : VfsHost) (rc rc_orig : Int) (log : List HookEvent)
    (f cred : Int) : List HookEvent × Int :=
  let r := ccs_open v h rc log f
  forward "file_open" [f, cred] r.2 rc_orig r.1

/-- Embedding of `ccs_dentry_open(f, cred)` (kernels before 3.5). -/
def ccs_dentry_open (v : OpenVariant) (h : VfsHost) (rc rc_orig : Int) (log : List HookEvent)
    (f cred : Int) : List HookEvent × Int :=
  let r := ccs_open v h rc log f
  forward "dentry_open" [f, cred] r.2 rc_orig r.1

/-- Embedding of `ccs_path_chown(path, user, group)`. -/
def ccs_path_chown (h : VfsHost) (rc rc_orig : Int) (log : List HookEvent)
    (path user group : Int) : List HookEvent × Int :=
  consult "ccs_chown_permission" [h.path_dentry path, h.path_mnt path, user, group]
    "path_chown" [path, user, group] rc rc_orig log

/-- Embedding of `ccs_path_chmod(path, mode)`. -/
def ccs_path_chmod (h : VfsHost) (rc rc_orig : Int) (log : List HookEvent)
    (path mode : Int) : List HookEvent × Int :=
  consult "ccs_chmod_permission" [h.path_dentry path, h.path_mnt path, mode]
    "path_chmod" [path, mode] rc rc_orig log

/-- Embedding of `ccs_path_chroot(path)`. -/
def ccs_path_chroot (rc rc_orig : Int) (log : List HookEvent) (path : Int) :
    List HookEvent × Int :=
  consult "ccs_chroot_permission" [path] "path_chroot" [path] rc rc_orig log

/-- Embedding of `ccs_path_truncate(path)` (kernels from 2.6.36 on). -/
def ccs_path_truncate (h : VfsHost) (rc rc_orig : Int) (log : List HookEvent) (path : Int) :
    List HookEvent × Int :=
  consult "ccs_truncate_permission" [h.path_dentry path, h.path_mnt path]
    "path_truncate" [path] rc rc_orig log

/-- One line `if (!rc && cond) rc = check(args);` of `ccs_inode_setattr`,
where `r` holds the log and `rc`, and `rc_new` is the result of the check. -/
def check_if (cond : Bool) (check : String) (args : List Int) (rc_new : Int)
    (r : List HookEvent × Int) : List HookEvent × Int :=
  if r.2 = 0 ∧ cond = true then (r.1 ++ [HookEvent.policy_check check args], rc_new) else r

/-- The policy checks of `ccs_inode_setattr(dentry, attr)` in the order of the
source; `security_path` is `defined(CONFIG_SECURITY_PATH)`, `lt_2_6_33` is
`LINUX_VERSION_CODE < KERNEL_VERSION(2, 6, 33)`, and the four `rc_` arguments
are the results of the checks that are reached.  The first check is made with
`rc` still 0.  The owner not meant is passed as `-1` (`INVALID_UID`,
`INVALID_GID` from 3.5 on). -/
def setattr_checks (security_path lt_2_6_33 : Bool) (rc_uid rc_gid rc_mode rc_size : Int)
    (log : List HookEvent) (dentry : Int) (a : iattr) : List HookEvent × Int :=
  let r0 : List HookEvent × Int := (log, 0)
  let r3 :=
    if security_path = false ∨ lt_2_6_33 = true then
      let r1 :=
        if a.attr_uid = true then
          (r0.1 ++ [HookEvent.policy_check "ccs_chown_permission" [dentry, 0, a.ia_uid, -1]],
            rc_uid)
        else r0
      let r2 := check_if a.attr_gid "ccs_chown_permission" [dentry, 0, -1, a.ia_gid] rc_gid r1
      check_if a.attr_mode "ccs_chmod_permission" [dentry, 0, a.ia_mode] rc_mode r2
    else r0
  if security_path = false then
    check_if a.attr_size "ccs_truncate_permission" [dentry, 0] rc_size r3
  else r3

/-- Embedding of `ccs_inode_setattr(dentry, attr)`; `attr` is the pointer, `a`
what it points to. -/
def ccs_inode_setattr (security_path lt_2_6_33 : Bool) (rc_uid rc_gid rc_mode rc_size : Int)
    (rc_orig : Int) (log : List HookEvent) (dentry attr : Int) (a : iattr) :
    List HookEvent × Int :=
  let r := setattr_checks security_path lt_2_6_33 rc_uid rc_gid rc_mode rc_size log dentry a
  forward "inode_setattr" [dentry, attr] r.2 rc_orig r.1

/-- Embedding of `ccs_inode_getattr(path)` (kernels from 4.1 on). -/
def ccs_inode_getattr (h : VfsHost) (rc rc_orig : Int) (log : List HookEvent) (path : Int) :
    List HookEvent × Int :=
  consult "ccs_getattr_permission" [h.path_mnt path, h.path_dentry path]
    "inode_getattr" [path] rc rc_orig log

/-- Embedding of `ccs_path_mknod(dir, dentry, mode, dev)`. -/
def ccs_path_mknod (h : VfsHost) (rc rc_orig : Int) (log : List HookEvent)
    (dir dentry mode dev : Int) : List HookEvent × Int :=
  consult "ccs_mknod_permission" [dentry, h.path_mnt dir, mode, dev]
    "path_mknod" [dir, dentry, mode, dev] rc rc_orig log

/-- Embedding of `ccs_path_mkdir(dir, dentry, mode)`. -/
def ccs_path_mkdir (h : VfsHost) (rc rc_orig : Int) (log : List HookEvent)
    (dir dentry mode : Int) : List HookEvent × Int :=
  consult "ccs_mkdir_permission" [dentry, h.path_mnt dir, mode]
    "path_mkdir" [dir, dentry, mode] rc rc_orig log

/-- Embedding of `ccs_path_rmdir(dir, dentry)`. -/
def ccs_path_rmdir (h : VfsHost) (rc rc_orig : Int) (log : List HookEvent)
    (dir dentry : Int) : List HookEvent × Int :=
  consult "ccs_rmdir_permission" [dentry, h.path_mnt dir]
    "path_rmdir" [dir, dentry] rc rc_orig log

/-- Embedding of `ccs_path_unlink(dir, dentry)`. -/
def ccs_path_unlink (h : VfsHost) (rc rc_orig : Int) (log : List HookEvent)
    (dir dentry : Int) : List HookEvent × Int :=
  consult "ccs_unlink_permission" [dentry, h.path_mnt dir]
    "path_unlink" [dir, dentry] rc rc_orig log

/-- Embedding of `ccs_path_symlink(dir, dentry, old_name)`. -/
def ccs_path_symlink (h : VfsHost) (rc rc_orig : Int) (log : List HookEvent)
    (dir dentry old_name : Int) : List HookEvent × Int :=
  consult "ccs_symlink_permission" [dentry, h.path_mnt dir, old_name]
    "path_symlink" [dir, dentry, old_name] rc rc_orig log

/-- Embedding of `ccs_path_rename(old_dir, old_dentry, new_dir, new_dentry)`. -/
def ccs_path_rename (h : VfsHost) (rc rc_orig : Int) (log : List HookEvent)
    (old_dir old_dentry new_dir new_dentry : Int) : List HookEvent × Int :=
  consult "ccs_rename_permission" [old_dentry, new_dentry, h.path_mnt old_dir]
    "path_rename" [old_dir, old_dentry, new_dir, new_dentry] rc rc_orig log

/-- Embedding of `ccs_path_link(old_dentry, new_dir, new_dentry)`. -/
def ccs_path_link (h : VfsHost) (rc rc_orig : Int) (log : List HookEvent)
    (old_dentry new_dir new_dentry : Int) : List HookEvent × Int :=
  consult "ccs_link_permission" [old_dentry, new_dentry, h.path_mnt new_dir]
    "path_link" [old_dentry, new_dir, new_dentry] rc rc_orig log

/-- Embedding of `ccs_inode_mknod(dir, dentry, mode, dev)`. -/
def ccs_inode_mknod (rc rc_orig : Int) (log : List HookEvent)
    (dir dentry mode dev : Int) : List HookEvent × Int :=
  consult "ccs_mknod_permission" [dentry, 0, mode, dev]
    "inode_mknod" [dir, dentry, mode, dev] rc rc_orig log

/-- Embedding of `ccs_inode_mkdir(dir, dentry, mode)`. -/
def ccs_inode_mkdir (rc rc_orig : Int) (log : List HookEvent)
    (dir dentry mode : Int) : List HookEvent × Int :=
  consult "ccs_mkdir_permission" [dentry, 0, mode]
    "inode_mkdir" [dir, dentry, mode] rc rc_orig log

/-- Embedding of `ccs_inode_rmdir(dir, dentry)`. -/
def ccs_inode_rmdir (rc rc_orig : Int) (log : List HookEvent)
    (dir dentry : Int) : List HookEvent × Int :=
  consult "ccs_rmdir_permission" [dentry, 0] "inode_rmdir" [dir, dentry] rc rc_orig log

/-- Embedding of `ccs_inode_unlink(dir, dentry)`. -/
def ccs_inode_unlink (rc rc_orig : Int) (log : List HookEvent)
    (dir dentry : Int) : List HookEvent × Int :=
  consult "ccs_unlink_permission" [dentry, 0] "inode_unlink" [dir, dentry] rc rc_orig log

/-- Embedding of `ccs_inode_symlink(dir, dentry, old_name)`. -/
def ccs_inode_symlink (rc rc_orig : Int) (log : List HookEvent)
    (dir dentry old_name : Int) : List HookEvent × Int :=
  consult "ccs_symlink_permission" [dentry, 0, old_name]
    "inode_symlink" [dir, dentry, old_name] rc rc_orig log

/-- Embedding of `ccs_inode_rename(old_dir, old_dentry, new_dir, new_dentry)`. -/
def ccs_inode_rename (rc rc_orig : Int) (log : List HookEvent)
    (old_dir old_dentry new_dir new_dentry : Int) : List HookEvent × Int :=
  consult "ccs_rename_permission" [old_dentry, new_dentry, 0]
    "inode_rename" [old_dir, old_dentry, new_dir, new_dentry] rc rc_orig log

/-- Embedding of `ccs_inode_link(old_dentry, dir, new_dentry)`. -/
def ccs_inode_link (rc rc_orig : Int) (log : List HookEvent)
    (old_dentry dir new_dentry : Int) : List HookEvent × Int :=
  consult "ccs_link_permission" [old_dentry, new_dentry, 0]
    "inode_link" [old_dentry, dir, new_dentry] rc rc_orig log

/-- Embedding of `ccs_inode_create(dir, dentry, mode)`. -/
def ccs_inode_create (rc rc_orig : Int) (log : List HookEvent)
    (dir dentry mode : Int) : List HookEvent × Int :=
  consult "ccs_mknod_permission" [dentry, 0, mode, 0]
    "inode_create" [dir, dentry, mode] rc rc_orig log

/-- Embedding of `ccs_sb_pivotroot(old_path, new_path)`. -/
def ccs_sb_pivotroot (rc rc_orig : Int) (log : List HookEvent)
    (old_path new_path : Int) : List HookEvent × Int :=
  consult "ccs_pivot_root_permission" [old_path, new_path]
    "sb_pivotroot" [old_path, new_path] rc rc_orig log

/-- Embedding of `ccs_sb_mount(dev_name, path, type, flags, data_page)`. -/
def ccs_sb_mount (rc rc_orig : Int) (log : List HookEvent)
    (dev_name path type flags data_page : Int) : List HookEvent × Int :=
  consult "ccs_mount_permission" [dev_name, path, type, flags, data_page]
    "sb_mount" [dev_name, path, type, flags, data_page] rc rc_orig log

/-- Embedding of `ccs_sb_umount(mnt, flags)`. -/
def ccs_sb_umount (rc rc_orig : Int) (log : List HookEvent) (mnt flags : Int) :
    List HookEvent × Int :=
  consult "ccs_umount_permission" [mnt, flags] "sb_umount" [mnt, flags] rc rc_orig log

/-- Embedding of `ccs_file_fcntl(file, cmd, arg)`. -/
def ccs_file_fcntl (rc rc_orig : Int) (log : List HookEvent) (file cmd arg : Int) :
    List HookEvent × Int :=
  consult "ccs_fcntl_permission" [file, cmd, arg] "file_fcntl" [file, cmd, arg] rc rc_orig log

/-- Embedding of `ccs_file_ioctl(filp, cmd, arg)`. -/
def ccs_file_ioctl (rc rc_orig : Int) (log : List HookEvent) (filp cmd arg : Int) :
    List HookEvent × Int :=
  consult "ccs_ioctl_permission" [filp, cmd, arg] "file_ioctl" [filp, cmd, arg] rc rc_orig log

end Lsm2629

namespace Lsm2629.Older

/-- Embedding of `ccs_path_chmod(dentry, vfsmnt, mode)`, the form of the hook
on kernels from 2.6.33 on without `USE_UMODE_T`. -/
def ccs_path_chmod (rc rc_orig : Int) (log : List HookEvent)
    (dentry vfsmnt mode : Int) : List HookEvent × Int :=
  consult "ccs_chmod_permission" [dentry, vfsmnt, mode]
    "path_chmod" [dentry, vfsmnt, mode] rc rc_orig log

/-- Embedding of `ccs_path_truncate(path, length, time_attrs)`, the form of the
hook on kernels before 2.6.36. -/
def ccs_path_truncate (h : VfsHost) (rc rc_orig : Int) (log : List HookEvent)
    (path length time_attrs : Int) : List HookEvent × Int :=
  consult "ccs_truncate_permission" [h.path_dentry path, h.path_mnt path]
    "path_truncate" [path, length, time_attrs] rc rc_orig log

/-- Embedding of `ccs_inode_getattr(mnt, dentry)`, the form of the hook on
kernels before 4.1. -/
def ccs_inode_getattr (rc rc_orig : Int) (log : List HookEvent) (mnt dentry : Int) :
    List HookEvent × Int :=
  consult "ccs_getattr_permission" [mnt, dentry] "inode_getattr" [mnt, dentry] rc rc_orig log

end Lsm2629.Older

/-- Whether the event is a policy check. -/
def HookEvent.is_check : HookEvent → Bool
  | HookEvent.policy_check _ _ => true
  | HookEvent.original_hook _ _ => false

/-- The pair `r` of log and result comes from `log` by policy checks only, and
its result is 0 or one of `S`. -/
def ChecksOnly (log : List HookEvent) (S : List Int) (r : List HookEvent × Int) : Prop :=
  (∃ checks, r.1 = log ++ checks ∧ ∀ e ∈ checks, e.is_check = true) ∧ (r.2 = 0 ∨ r.2 ∈ S)

/-- Consult-then-forward for one call: `r` is what a hook returned when its
policy check gave `rc`, the log having been `log`.  With `rc` not 0 the result
is `rc` and the log has grown by policy checks only; with `rc` 0 the result is
`rc_orig`, and the log has grown by policy checks followed by one call of the
previously registered hook `hook` on `args`. -/
def ConsultThenForward (hook : String) (args : List Int) (rc rc_orig : Int)
    (log : List HookEvent) (r : List HookEvent × Int) : Prop :=
  ∃ checks : List HookEvent, (∀ e ∈ checks, e.is_check = true) ∧
    (rc ≠ 0 → r = (log ++ checks, rc)) ∧
    (rc = 0 → r = (log ++ checks ++ [HookEvent.original_hook hook args], rc_orig))

/-! ## Credential records own no Transition Record: definitions -/

namespace Lsm2629

/-- No record of the credential table owns a Transition Record: the tables
share no record, every record linked on the credential table has `ee == NULL`,
and so has `ccs_default_security`, from which records are copied. -/
def CredNoEe (s : State) : Prop :=
  Separate s ∧ CredAll (fun r => r.ee = NULL) s ∧ (s.mem ccs_default_security).ee = NULL

end Lsm2629

/-! ## The sysctl hook: embedding of `ccs_prepend` -/

/-- Conversion of an integer to `int`: two's complement on 32 bits. -/
def to_int (n : Int) : Int := (n + 2 ^ 31) % 2 ^ 32 - 2 ^ 31

/-- Width of `size_t`; the value is that of a 64-bit kernel. -/
def BITS_PER_LONG : Nat := 64

/-- Conversion of an `int` to `size_t`. -/
def to_size_t (n : Int) : Nat := (n % 2 ^ BITS_PER_LONG).toNat

/-- The terminating byte of a C string. -/
def NUL : Char := Char.ofNat 0

/-- The call `memcpy(dst, src, n)` on a memory of bytes; `src` is the C string
that is copied from, without its terminating byte, which is what lies behind
it. -/
def memcpy (mem : Int → Char) (dst : Int) (src : List Char) (n : Nat) : Int → Char :=
  fun a => if dst ≤ a ∧ a < dst + n then src.getD (a - dst).toNat NUL else mem a

/-- The memory and the two variables `*buffer` and `*buflen` that `ccs_prepend`
works on. -/
structure PrependBuf where
  mem : Int → Char
  buffer : Int
  buflen : Int

namespace Lsm2629

/-- Embedding of `ccs_prepend(&buffer, &buflen, str)`; `str` is the C string
without its terminating byte, so its length is `strlen(str)`. -/
def ccs_prepend (b : PrependBuf) (str : List Char) : PrependBuf × Int :=
  let namelen := to_int str.length
  if b.buflen < namelen then (b, -ENOMEM)
  else
    let buflen := to_int (b.buflen - namelen)
    let buffer := b.buffer - namelen
    ({ mem := memcpy b.mem buffer str (to_size_t namelen), buffer := buffer, buflen := buflen },
      0)

/-- A buffer of 16 bytes at address `1000`, all of them `'.'`, with `buffer`
at its end. -/
def demoBuf : PrependBuf := { mem := fun _ => '.', buffer := 1016, buflen := 16 }

end Lsm2629

/-! ## The sysctl hook: embedding of `ccs_sysctl` -/

/-- The fields of `struct ctl_table` that `ccs_sysctl` reads.  The chain of
`parent` pointers is given as the list of the tables on it, the table the hook
is called with first. -/
structure ctl_table where
  /-- The string `procname`, without its terminating byte; `none` for `NULL`. -/
  procname : Option (List Char)
  ctl_name : Int

/-- Value of `MAY_WRITE` in `<linux/fs.h>`. -/
def MAY_WRITE : Nat := 2

/-- Value of `MAY_READ` in `<linux/fs.h>`. -/
def MAY_READ : Nat := 4

/-- Calls that `ccs_sysctl` makes. -/
inductive SysctlEvent where
  | original_hook (op : Nat)
  | ccs_encode (str : List Char)
  | ccs_path_permission (operation : String) (name : Ptr)
  deriving DecidableEq, Repr

/-- What `ccs_sysctl` gets from its collaborators. -/
structure SysctlHost where
  /-- Result of `original_security_ops.sysctl(table, op)`. -/
  rc_orig : Int
  /-- Whether `ccs_init_request_info` returns `CCS_CONFIG_DISABLED`. -/
  disabled : Bool
  /-- Result of `kmalloc(4096, CCS_GFP_FLAGS)`, 0 for `NULL`. -/
  kmalloc : Int
  /-- The memory before the call. -/
  mem : Int → Char
  /-- Result of `ccs_encode` on a string, `NULL` when it fails. -/
  ccs_encode : List Char → Ptr
  /-- Result of `ccs_path_permission(&r, CCS_TYPE_READ, &buf)`. -/
  rc_read : Int
  /-- Result of `ccs_path_permission(&r, CCS_TYPE_WRITE, &buf)`. -/
  rc_write : Int

namespace Lsm2629

/-- The string that `snprintf(num, sizeof(num) - 1, "=%d=", table->ctl_name)`
leaves in the zeroed `num[32]`: at most 30 bytes of the output. -/
def ctl_num (ctl_name : Int) : List Char :=
  (('=' :: (toString ctl_name).toList) ++ ['=']).take 30

/-- The C string at address `p`: the bytes up to the first `NUL`.  `fuel`
bounds the number of bytes that are read. -/
def c_string (mem : Int → Char) : Nat → Int → List Char
  | 0, _ => []
  | fuel + 1, p => if mem p = NUL then [] else mem p :: c_string mem fuel (p + 1)

/-- The loop `while (table)` of `ccs_sysctl`; `none` stands for `goto out`. -/
def sysctl_walk (b : PrependBuf) : List ctl_table → Option PrependBuf
  | [] => some b
  | table :: parents =>
    let sp :=
      match table.procname with
      | some s => s
      | none => ctl_num table.ctl_name
    let r1 := ccs_prepend b sp
    if r1.2 ≠ 0 then none
    else
      let r2 := ccs_prepend r1.1 ['/']
      if r2.2 ≠ 0 then none else sysctl_walk r2.1 parents

/-- The string `"proc:/sys"`. -/
def proc_sys : List Char := ['p', 'r', 'o', 'c', ':', '/', 's', 'y', 's']

/-- The end of `ccs_sysctl` from `if (buf.name)` on; `name` is `buf.name`. -/
def sysctl_check (h : SysctlHost) (op : Nat) (name : Ptr) (error : Int)
    (log : List SysctlEvent) : List SysctlEvent × Int :=
  if name ≠ NULL then
    let r1 : List SysctlEvent × Int :=
      if op &&& MAY_READ ≠ 0 then
        (log ++ [SysctlEvent.ccs_path_permission "CCS_TYPE_READ" name], h.rc_read)
      else (log, 0)
    if r1.2 = 0 ∧ op &&& MAY_WRITE ≠ 0 then
      (r1.1 ++ [SysctlEvent.ccs_path_permission "CCS_TYPE_WRITE" name], h.rc_write)
    else r1
  else (log, error)

/-- The buffer right before the loop of `ccs_sysctl`: `end` points to the last
of the 4096 bytes at `buffer`, which has been set to `NUL`, and 4095 bytes are
free. -/
def sysctl_buffer (mem : Int → Char) (buffer : Int) : PrependBuf :=
  let buflen : Int := 4096
  let e := buffer + buflen - 1
  { mem := fun a => if a = e then NUL else mem a, buffer := e, buflen := buflen - 1 }

/-- Embedding of `ccs_sysctl(table, op)`: the calls it makes and its result.
The string handed to `ccs_encode` is the C string at `end`, which lies in the
buffer of 4096 bytes. -/
def ccs_sysctl (h : SysctlHost) (table : List ctl_table) (op : Nat) :
    List SysctlEvent × Int :=
  let log := [SysctlEvent.original_hook op]
  let error := h.rc_orig
  if error ≠ 0 then (log, error)
  else
    let op := op &&& (MAY_READ ||| MAY_WRITE)
    if op = 0 then (log, 0)
    else if h.disabled = true then (log, error)
    else
      let error := -ENOMEM
      let buffer := h.kmalloc
      if buffer ≠ 0 then
        match sysctl_walk (sysctl_buffer h.mem buffer) table with
        | none => (log, error)
        | some b =>
          let r := ccs_prepend b proc_sys
          if r.2 ≠ 0 then (log, error)
          else
            let str := c_string r.1.mem 4096 r.1.buffer
            sysctl_check h op (h.ccs_encode str) error (log ++ [SysctlEvent.ccs_encode str])
      else sysctl_check h op NULL error log

/-- The name of one table as the pathname shows it: `procname`, or
`=<ctl_name>=` in decimal when `procname` is `NULL`. -/
def sysctl_component (t : ctl_table) : List Char :=
  match t.procname with
  | some s => s
  | none => ('=' :: (toString t.ctl_name).toList) ++ ['=']

/-- The pathname as the specification gives it: `proc:/sys`, then `/` and the
name of each table from the root to the leaf. -/
def sysctl_path (table : List ctl_table) : List Char :=
  proc_sys ++ (table.reverse.flatMap (fun t => '/' :: sysctl_component t))

/-- The strings of the chain are C strings an `int` can measure, and the
numbers are `int`s. -/
def SysctlChain (table : List ctl_table) : Prop :=
  ∀ t ∈ table,
    (∀ s, t.procname = some s → NUL ∉ s ∧ s.length < 2 ^ 31) ∧
    (t.procname = none → -2 ^ 31 ≤ t.ctl_name ∧ t.ctl_name < 2 ^ 31)

/-- The pathname buffer: `acc` lies at `b.buffer` and ends where the buffer of
4096 bytes at `base` ends, just before the terminating byte, and `b.buflen`
bytes are free in front of it. -/
def Holds (base : Int) (b : PrependBuf) (acc : List Char) : Prop :=
  acc.length ≤ 4095 ∧ b.buffer = base + 4095 - acc.length ∧ b.buflen = 4095 - acc.length ∧
    (∀ (i : Nat) (hi : i < acc.length), b.mem (b.buffer + i) = acc.get ⟨i, hi⟩) ∧
    b.mem (base + 4095) = NUL

/-- A host on which every collaborator succeeds; the buffer is at `10000`. -/
def sysctlHost : SysctlHost :=
  { rc_orig := 0, disabled := false, kmalloc := 10000, mem := fun _ => '.',
    ccs_encode := fun _ => 77, rc_read := 0, rc_write := 0 }

/-- The chain of `kernel.ostype` by number: the leaf has no `procname` and
`ctl_name` 1, its parent is `kernel`. -/
def demoChain : List ctl_table :=
  [{ procname := none, ctl_name := 1 },
    { procname := some ['k', 'e', 'r', 'n', 'e', 'l'], ctl_name := 1 }]

/-- A chain whose single name has 5000 bytes. -/
def longChain : List ctl_table :=
  [{ procname := some (List.replicate 5000 'a'), ctl_name := 0 }]

end Lsm2629

/-! ## Capabilities: embedding of `ccs_write_capability` of `capability.c` -/

/-- Value of `EINVAL`. -/
def EINVAL : Int := 22

/-- What `ccs_write_capability` takes from `internal.h` and from its
collaborators, none of which is part of the sources. -/
structure CapHost where
  CCS_MAX_CAPABILITY_INDEX : Nat
  /-- The table `ccs_c2mac`, by index. -/
  ccs_c2mac : Nat → Nat
  /-- The table `ccs_mac_keywords`, by index. -/
  ccs_mac_keywords : Nat → List Char
  /-- The string that `ccs_read_token(param)` returns. -/
  token : List Char
  /-- Result of `ccs_update_domain` for an entry with the given `operation`. -/
  rc_update : Nat → Int

/-- Calls that `ccs_write_capability` makes. -/
inductive CapEvent where
  | ccs_update_domain (operation : Nat)
  deriving DecidableEq, Repr

/-- The call `strcmp(a, b)` as far as its result is tested: 0 for equal
strings, nonzero otherwise. -/
def strcmp (a b : List Char) : Int := if a = b then 0 else 1

namespace Capability

/-- The loop of `ccs_write_capability` from `e.operation == operation` on;
`e.operation` is a `u8`.  `none` when `fuel` iterations do not end it. -/
def write_capability_loop (h : CapHost) : Nat → Nat → Option (List CapEvent × Int)
  | 0, _ => none
  | fuel + 1, operation =>
    if operation < h.CCS_MAX_CAPABILITY_INDEX then
      if strcmp h.token (h.ccs_mac_keywords (h.ccs_c2mac operation)) ≠ 0 then
        write_capability_loop h fuel ((operation + 1) % 256)
      else some ([CapEvent.ccs_update_domain operation], h.rc_update operation)
    else some ([], -EINVAL)

/-- Embedding of `ccs_write_capability(param)`: the calls of
`ccs_update_domain` it makes and its result. -/
def ccs_write_capability (h : CapHost) (fuel : Nat) : Option (List CapEvent × Int) :=
  write_capability_loop h fuel 0

/-- Three capabilities with the keywords `net`, `reboot` and `nice`; the token
is `reboot`. -/
def demoCapHost : CapHost :=
  { CCS_MAX_CAPABILITY_INDEX := 3,
    ccs_c2mac := fun i => i + 40,
    ccs_mac_keywords := fun k =>
      if k = 40 then ['n', 'e', 't']
      else if k = 41 then ['r', 'e', 'b', 'o', 'o', 't']
      else if k = 42 then ['n', 'i', 'c', 'e']
      else [],
    token := ['r', 'e', 'b', 'o', 'o', 't'],
    rc_update := fun _ => 0 }

end Capability

/-! ## The in-flight counter: definitions -/

namespace Lsm2629

/-- The mark that `ccs_rcu_free` tests before it decrements
`ccs_in_execve_tasks`: the remembered `cred` before 2.6.31,
`CCS_TASK_IS_IN_EXECVE` from 2.6.31 on. -/
def Marked (h : Host) (r : ccs_security) : Prop :=
  if h.KERNEL_LT_2_6_31 = true then r.cred ≠ NULL else in_execve_flag r.ccs_flags = true

instance (h : Host) (r : ccs_security) : Decidable (Marked h r) := by
  unfold Marked
  infer_instance

/-- A record that is linked on the task table, or was unlinked and is not
freed yet. -/
def Live (s : State) (p : Ptr) : Prop := (∃ i, p ∈ s.ccs_task_security_list i) ∨ p ∈ s.rcu

/-- A task-keyed record that is not freed yet and holds a pending transition. -/
def InFlight (s : State) (p : Ptr) : Prop :=
  Live s p ∧ (s.mem p).pid ≠ NULL ∧ (s.mem p).ee ≠ NULL

/-- The counter `ccs_in_execve_tasks` is the number of records that are
`InFlight`. -/
def Counted (s : State) : Prop :=
  ∃ L : List Ptr, L.Nodup ∧ (∀ p, p ∈ L ↔ InFlight s p) ∧ s.ccs_in_execve_tasks = (L.length : Int)

/-- A record without a task, without a Transition Record and, from 2.6.31 on,
without the mark. -/
def Calm (h : Host) (r : ccs_security) : Prop :=
  r.pid = NULL ∧ r.ee = NULL ∧ (h.KERNEL_LT_2_6_31 = false → in_execve_flag r.ccs_flags = false)

/-- A task-keyed record that is not freed yet holds a Transition Record exactly
when it is `Marked`. -/
def MarkInv (h : Host) (s : State) : Prop :=
  ∀ p, Live s p → (s.mem p).pid ≠ NULL → ((s.mem p).ee ≠ NULL ↔ Marked h (s.mem p))

/-- A record handed to `call_rcu` is linked on no bucket of the task table. -/
def RcuApart (s : State) : Prop := ∀ p ∈ s.rcu, ∀ i, p ∉ s.ccs_task_security_list i

/-- The invariant of the in-flight counter. -/
def CounterInv (h : Host) (s : State) : Prop :=
  TaskAll (fun r => r.pid ≠ NULL) s ∧ CredAll (Calm h) s ∧ Calm h (s.mem ccs_default_security) ∧
    MarkInv h s ∧ RcuApart s ∧ Counted s

end Lsm2629

/-! ## The transition invariant on both kernel ranges: definitions -/

namespace Lsm2629

/-- What the lookup of kernels before 2.6.31 relies on: a record of the task
table that holds a Transition Record remembers the credentials of the
`linux_binprm`. -/
def CredHeld (h : Host) (s : State) : Prop :=
  h.KERNEL_LT_2_6_31 = true → TaskAll (fun r => r.ee ≠ NULL → r.cred ≠ NULL) s

/-- Invariant I3 in the form the hooks maintain on both kernel ranges. -/
def ExecInv (h : Host) (s : State) : Prop := TransitionInv s ∧ CredHeld h s

/-- The running task is not inside `execve`, as the lookup tells it: from
2.6.31 on `current->in_execve` is false; before, the credentials that the
record of the task remembers are held by that record alone, no `linux_binprm`
holding them any more. -/
def NotInExecve (h : Host) (s : State) : Prop :=
  if h.KERNEL_LT_2_6_31 = true then
    ∀ ptr, task_lookup h s h.current = some ptr → (s.mem ptr).cred ≠ NULL →
      h.cred_usage (s.mem ptr).cred = 1
  else h.in_execve h.current = false

end Lsm2629

/-- The host `demoHost` on a kernel before 2.6.31, while task `100` is inside
`execve`: credentials are held twice, by the task and by the `linux_binprm`. -/
def olderExecHost : Host := { demoHost with KERNEL_LT_2_6_31 := true }

/-- The host `olderExecHost` once the `execve` is over: no `linux_binprm` holds
credentials any more. -/
def olderHost : Host := { olderExecHost with cred_usage := fun _ => 1 }

namespace Lsm2629

/-- On the kernel before 2.6.31, task `100` has looked itself up and entered
`execve` with the credentials `2100`: its record at `10` holds Transition
Record `50`. -/
def olderPending : State :=
  (ccs_bprm_check_security olderExecHost 0 0 50 7 0
    (ccs_find_task_security olderExecHost 10 init 100).1 2100).1

end Lsm2629

/-! ## Frame lemmas of `lsm-2.6.29.c` -/

namespace Lsm2629

@[simp] theorem store_mem (s : State) (p : Ptr) (r : ccs_security) (q : Ptr) :
    (s.store p r).mem q = if q = p then r else s.mem q := rfl

@[simp] theorem store_ee_mem (s : State) (p : Ptr) (r : ccs_security) :
    (s.store p r).ee_mem = s.ee_mem := rfl

@[simp] theorem store_task_list (s : State) (p : Ptr) (r : ccs_security) :
    (s.store p r).ccs_task_security_list = s.ccs_task_security_list := rfl

@[simp] theorem store_cred_list (s : State) (p : Ptr) (r : ccs_security) :
    (s.store p r).ccs_cred_security_list = s.ccs_cred_security_list := rfl

@[simp] theorem store_counter (s : State) (p : Ptr) (r : ccs_security) :
    (s.store p r).ccs_in_execve_tasks = s.ccs_in_execve_tasks := rfl

@[simp] theorem store_gc_counter (s : State) (p : Ptr) (r : ccs_security) :
    (s.store p r).gc_counter = s.gc_counter := rfl

@[simp] theorem store_rcu (s : State) (p : Ptr) (r : ccs_security) :
    (s.store p r).rcu = s.rcu := rfl

@[simp] theorem store_log (s : State) (p : Ptr) (r : ccs_security) :
    (s.store p r).log = s.log := rfl

@[simp] theorem emit_mem (s : State) (e : Event) : (s.emit e).mem = s.mem := rfl

@[simp] theorem emit_ee_mem (s : State) (e : Event) : (s.emit e).ee_mem = s.ee_mem := rfl

@[simp] theorem emit_task_list (s : State) (e : Event) :
    (s.emit e).ccs_task_security_list = s.ccs_task_security_list := rfl

@[simp] theorem emit_cred_list (s : State) (e : Event) :
    (s.emit e).ccs_cred_security_list = s.ccs_cred_security_list := rfl

@[simp] theorem emit_counter (s : State) (e : Event) :
    (s.emit e).ccs_in_execve_tasks = s.ccs_in_execve_tasks := rfl

@[simp] theorem emit_gc_counter (s : State) (e : Event) :
    (s.emit e).gc_counter = s.gc_counter := rfl

@[simp] theorem emit_rcu (s : State) (e : Event) : (s.emit e).rcu = s.rcu := rfl

@[simp] theorem emit_log (s : State) (e : Event) : (s.emit e).log = s.log ++ [e] := rfl

@[simp] theorem finish_task_list (h : Host) (ret : Int) (ee : Ptr) (s : State) :
    (ccs_finish_execve h ret ee s).ccs_task_security_list = s.ccs_task_security_list := by
  unfold ccs_finish_execve
  cases task_lookup h s h.current <;> rfl

@[simp] theorem finish_cred_list (h : Host) (ret : Int) (ee : Ptr) (s : State) :
    (ccs_finish_execve h ret ee s).ccs_cred_security_list = s.ccs_cred_security_list := by
  unfold ccs_finish_execve
  cases task_lookup h s h.current <;> rfl

@[simp] theorem finish_counter (h : Host) (ret : Int) (ee : Ptr) (s : State) :
    (ccs_finish_execve h ret ee s).ccs_in_execve_tasks = s.ccs_in_execve_tasks := by
  unfold ccs_finish_execve
  cases task_lookup h s h.current <;> rfl

@[simp] theorem finish_gc_counter (h : Host) (ret : Int) (ee : Ptr) (s : State) :
    (ccs_finish_execve h ret ee s).gc_counter = s.gc_counter := by
  unfold ccs_finish_execve
  cases task_lookup h s h.current <;> rfl

@[simp] theorem finish_rcu (h : Host) (ret : Int) (ee : Ptr) (s : State) :
    (ccs_finish_execve h ret ee s).rcu = s.rcu := by
  unfold ccs_finish_execve
  cases task_lookup h s h.current <;> rfl

@[simp] theorem finish_ee_mem (h : Host) (ret : Int) (ee : Ptr) (s : State) :
    (ccs_finish_execve h ret ee s).ee_mem = s.ee_mem := by
  unfold ccs_finish_execve
  cases task_lookup h s h.current <;> rfl

@[simp] theorem finish_log (h : Host) (ret : Int) (ee : Ptr) (s : State) :
    (ccs_finish_execve h ret ee s).log = s.log ++ [Event.ccs_finish_execve ret ee] := by
  unfold ccs_finish_execve
  cases task_lookup h s h.current <;> rfl

@[simp] theorem clear_task_list (h : Host) (ret : Int) (p : Ptr) (s : State) :
    (ccs_clear_execve h ret p s).ccs_task_security_list = s.ccs_task_security_list := by
  unfold ccs_clear_execve
  dsimp only
  split_ifs <;> simp

@[simp] theorem clear_cred_list (h : Host) (ret : Int) (p : Ptr) (s : State) :
    (ccs_clear_execve h ret p s).ccs_cred_security_list = s.ccs_cred_security_list := by
  unfold ccs_clear_execve
  dsimp only
  split_ifs <;> simp

theorem task_lookup_some (h : Host) (s : State) (t p : Ptr)
    (hl : task_lookup h s t = some p) :
    p ∈ s.ccs_task_security_list (h.hash_ptr t) ∧ (s.mem p).pid = h.task_pid t := by
  unfold task_lookup at hl
  refine ⟨List.mem_of_find?_eq_some hl, ?_⟩
  simpa using List.find?_some hl

theorem task_lookup_none (h : Host) (s : State) (t : Ptr)
    (hl : task_lookup h s t = none) :
    ∀ p ∈ s.ccs_task_security_list (h.hash_ptr t), (s.mem p).pid ≠ h.task_pid t := by
  unfold task_lookup at hl
  rw [List.find?_eq_none] at hl
  intro p hp
  simpa using hl p hp

theorem task_lookup_congr (h : Host) (s1 s2 : State) (t : Ptr)
    (hlist : s1.ccs_task_security_list = s2.ccs_task_security_list)
    (hpid : ∀ q, (s1.mem q).pid = (s2.mem q).pid) :
    task_lookup h s1 t = task_lookup h s2 t := by
  unfold task_lookup
  rw [hlist]
  congr 1
  funext q
  rw [hpid]

theorem find_cred_cases (h : Host) (s : State) (c : Ptr) :
    ccs_find_cred_security h s c = ccs_default_security ∨
    (ccs_find_cred_security h s c ∈ s.ccs_cred_security_list (h.hash_ptr c) ∧
      (s.mem (ccs_find_cred_security h s c)).cred = c) := by
  unfold ccs_find_cred_security
  cases hf : (s.ccs_cred_security_list (h.hash_ptr c)).find?
      (fun ptr => (s.mem ptr).cred == c) with
  | none => exact Or.inl rfl
  | some p =>
    right
    refine ⟨List.mem_of_find?_eq_some hf, ?_⟩
    simpa using List.find?_some hf

theorem find_cred_congr (h : Host) (s1 s2 : State) (c : Ptr)
    (hlist : s1.ccs_cred_security_list = s2.ccs_cred_security_list)
    (hcred : ∀ q, (s1.mem q).cred = (s2.mem q).cred) :
    ccs_find_cred_security h s1 c = ccs_find_cred_security h s2 c := by
  unfold ccs_find_cred_security
  rw [hlist]
  have : (fun ptr => (s1.mem ptr).cred == c) = (fun ptr => (s2.mem ptr).cred == c) := by
    funext q
    rw [hcred]
  rw [this]

theorem finish_mem (h : Host) (ret : Int) (ee : Ptr) (s : State) (q : Ptr) :
    (ccs_finish_execve h ret ee s).mem q =
      match task_lookup h s h.current with
      | none => s.mem q
      | some t =>
        if q = t then
          { s.mem t with
            ccs_domain_info :=
              if ret < 0 then (s.ee_mem ee).previous_domain else (s.mem t).ccs_domain_info,
            ccs_flags := clear_in_execve_flag (s.mem t).ccs_flags }
        else s.mem q := by
  unfold ccs_finish_execve
  cases task_lookup h s h.current <;> simp

theorem store_self (s : State) (p : Ptr) (r : ccs_security) (hr : s.mem p = r) :
    s.store p r = s := by
  unfold State.store
  have : (fun q => if q = p then r else s.mem q) = s.mem := by
    funext q
    split_ifs with hq
    · rw [hq, hr]
    · rfl
  rw [this]

theorem clear_execve_eq (h : Host) (ret : Int) (sec : Ptr) (s : State)
    (hs : ¬ (sec = ccs_default_security ∨ sec = ccs_oom_security))
    (he : (s.mem sec).ee ≠ NULL) :
    ccs_clear_execve h ret sec s = ccs_finish_execve h ret (s.mem sec).ee (clear_mid h sec s) := by
  unfold ccs_clear_execve
  rw [if_neg hs]
  simp only [he, if_false]
  congr 1
  unfold clear_mid
  cases hk : h.KERNEL_LT_2_6_31
  · simp [State.store]
  · simp only [if_true, State.store, State.emit, State.mk.injEq, and_true, true_and]
    funext x
    split_ifs <;> simp_all

theorem clear_execve_noee (h : Host) (ret : Int) (sec : Ptr) (s : State)
    (he : (s.mem sec).ee = NULL) : ccs_clear_execve h ret sec s = s := by
  unfold ccs_clear_execve
  by_cases hs : sec = ccs_default_security ∨ sec = ccs_oom_security
  · rw [if_pos hs]
  · rw [if_neg hs]
    simp only [he, if_true]
    apply store_self
    rw [← he]

theorem clear_execve_dummy (h : Host) (ret : Int) (sec : Ptr) (s : State)
    (hs : sec = ccs_default_security ∨ sec = ccs_oom_security) :
    ccs_clear_execve h ret sec s = s := by
  unfold ccs_clear_execve
  rw [if_pos hs]

theorem clear_mid_lookup (h : Host) (sec : Ptr) (s : State) (t : Ptr) :
    task_lookup h (clear_mid h sec s) t = task_lookup h s t := by
  apply task_lookup_congr
  · rfl
  · intro q
    by_cases hq : q = sec <;> simp [clear_mid, hq]

/-- C1. In `lsm-2.6.29.c`, when no record of the task table carries the pid of
the running task and `kzalloc` succeeds, `ccs_find_task_security(current)`
returns the record it has just allocated, linked at the head of the bucket of
the task and nowhere else; the record has the domain and flags of the record
`ccs_find_cred_security(current->cred)` returns, the pid of the task and a
`NULL` cred.  The next `ccs_find_task_security(current)` returns the same
record and leaves both tables as they are. -/
theorem C1_lookup_miss_creates_record (h : Host) (s : State) (kz kz2 : Ptr)
    (hmiss : ∀ i, ∀ p ∈ s.ccs_task_security_list i, (s.mem p).pid ≠ h.task_pid h.current)
    (hkz : kz ≠ NULL) :
    (ccs_find_task_security h kz s h.current).2 = kz ∧
    (ccs_find_task_security h kz s h.current).1.ccs_task_security_list
        (h.hash_ptr h.current)
      = kz :: s.ccs_task_security_list (h.hash_ptr h.current) ∧
    (∀ i, i ≠ h.hash_ptr h.current →
      (ccs_find_task_security h kz s h.current).1.ccs_task_security_list i
        = s.ccs_task_security_list i) ∧
    (ccs_find_task_security h kz s h.current).1.ccs_cred_security_list
      = s.ccs_cred_security_list ∧
    ((ccs_find_task_security h kz s h.current).1.mem kz).ccs_domain_info
      = (s.mem (ccs_find_cred_security h s (h.task_cred h.current))).ccs_domain_info ∧
    ((ccs_find_task_security h kz s h.current).1.mem kz).ccs_flags
      = (s.mem (ccs_find_cred_security h s (h.task_cred h.current))).ccs_flags ∧
    ((ccs_find_task_security h kz s h.current).1.mem kz).pid = h.task_pid h.current ∧
    ((ccs_find_task_security h kz s h.current).1.mem kz).cred = NULL ∧
    (ccs_find_task_security h kz2 (ccs_find_task_security h kz s h.current).1 h.current).2
      = kz ∧
    (ccs_find_task_security h kz2
        (ccs_find_task_security h kz s h.current).1 h.current).1.ccs_task_security_list
      = (ccs_find_task_security h kz s h.current).1.ccs_task_security_list ∧
    (ccs_find_task_security h kz2
        (ccs_find_task_security h kz s h.current).1 h.current).1.ccs_cred_security_list
      = (ccs_find_task_security h kz s h.current).1.ccs_cred_security_list := by
  have hnone : task_lookup h s h.current = none := by
    unfold task_lookup
    rw [List.find?_eq_none]
    intro p hp
    simpa using hmiss _ p hp
  have hfirst : ccs_find_task_security h kz s h.current
      = (ccs_add_task_security
          (((s.store kz (s.mem (ccs_find_cred_security h s (h.task_cred h.current)))).emit
              (Event.get_pid (h.task_pid h.current))).store kz
                { s.mem (ccs_find_cred_security h s (h.task_cred h.current)) with
                  pid := h.task_pid h.current, cred := NULL })
          kz (h.hash_ptr h.current), kz) := by
    unfold ccs_find_task_security
    rw [hnone]
    simp only [ne_eq, not_true_eq_false, if_false, if_neg hkz]
    congr 1
    unfold ccs_add_task_security State.store State.emit
    simp only [State.mk.injEq, and_true, true_and, if_true]
    funext q
    split_ifs <;> rfl
  have hsecond : task_lookup h (ccs_find_task_security h kz s h.current).1 h.current
      = some kz := by
    rw [hfirst]
    unfold task_lookup ccs_add_task_security
    simp
  rw [hfirst] at hsecond ⊢
  refine ⟨rfl, ?_, ?_, ?_, ?_, ?_, ?_, ?_, ?_, ?_, ?_⟩
  · simp [ccs_add_task_security]
  · intro i hi
    simp [ccs_add_task_security, hi]
  · simp [ccs_add_task_security]
  · simp [ccs_add_task_security]
  · simp [ccs_add_task_security]
  · simp [ccs_add_task_security]
  · simp [ccs_add_task_security]
  · unfold ccs_find_task_security
    rw [hsecond]
    dsimp only
    split <;> split <;> rfl
  · unfold ccs_find_task_security
    rw [hsecond]
    dsimp only
    split <;> split <;> simp
  · unfold ccs_find_task_security
    rw [hsecond]
    dsimp only
    split <;> split <;> simp

/-- Witness of C1: the first lookup of task `100` in the initial state, with
`kzalloc` returning address `10`. -/
theorem C1_lookup_miss_creates_record_witness :
    (∀ i, ∀ p ∈ init.ccs_task_security_list i,
      (init.mem p).pid ≠ demoHost.task_pid demoHost.current) ∧
    (10 : Ptr) ≠ NULL ∧
    (ccs_find_task_security demoHost 10 init demoHost.current).2 = 10 ∧
    (ccs_find_task_security demoHost 0
      (ccs_find_task_security demoHost 10 init demoHost.current).1 demoHost.current).2 = 10 :=
  ⟨by intro i p hp; simp [init] at hp, by decide,
    (C1_lookup_miss_creates_record demoHost init 10 0
      (by intro i p hp; simp [init] at hp) (by decide)).1,
    (C1_lookup_miss_creates_record demoHost init 10 0
      (by intro i p hp; simp [init] at hp) (by decide)).2.2.2.2.2.2.2.2.1⟩

end Lsm2629

/-! ## Abort inference on lookup: lemmas -/

theorem flag_clear (f : Nat) : in_execve_flag (clear_in_execve_flag f) = false := by
  unfold in_execve_flag clear_in_execve_flag CCS_TASK_IS_IN_EXECVE
  rw [Nat.and_assoc]
  have : (0xFFFFFFFF ^^^ 1) &&& 1 = 0 := by decide
  rw [this]
  simp

theorem flag_set (f : Nat) : in_execve_flag (set_in_execve_flag f) = true := by
  unfold in_execve_flag set_in_execve_flag CCS_TASK_IS_IN_EXECVE
  have : (f ||| 1) &&& 1 = 1 := by
    apply Nat.eq_of_testBit_eq
    intro i
    simp only [Nat.testBit_and, Nat.testBit_or]
    cases i with
    | zero => simp
    | succ n => simp [Nat.testBit_succ]
  rw [this]
  decide

namespace Lsm412

@[simp] theorem store_mem_412 (s : State) (p : Ptr) (r : ccs_security) (q : Ptr) :
    (s.store p r).mem q = if q = p then r else s.mem q := rfl

@[simp] theorem store_ee_mem_412 (s : State) (p : Ptr) (r : ccs_security) :
    (s.store p r).ee_mem = s.ee_mem := rfl

@[simp] theorem store_task_list_412 (s : State) (p : Ptr) (r : ccs_security) :
    (s.store p r).ccs_task_security_list = s.ccs_task_security_list := rfl

@[simp] theorem store_rcu_412 (s : State) (p : Ptr) (r : ccs_security) :
    (s.store p r).rcu = s.rcu := rfl

@[simp] theorem store_log_412 (s : State) (p : Ptr) (r : ccs_security) :
    (s.store p r).log = s.log := rfl

@[simp] theorem emit_mem_412 (s : State) (e : Event) : (s.emit e).mem = s.mem := rfl

@[simp] theorem emit_ee_mem_412 (s : State) (e : Event) : (s.emit e).ee_mem = s.ee_mem := rfl

@[simp] theorem emit_task_list_412 (s : State) (e : Event) :
    (s.emit e).ccs_task_security_list = s.ccs_task_security_list := rfl

@[simp] theorem emit_rcu_412 (s : State) (e : Event) : (s.emit e).rcu = s.rcu := rfl

@[simp] theorem emit_log_412 (s : State) (e : Event) : (s.emit e).log = s.log ++ [e] := rfl

theorem store_self_412 (s : State) (p : Ptr) (r : ccs_security) (hr : s.mem p = r) :
    s.store p r = s := by
  unfold State.store
  have : (fun q => if q = p then r else s.mem q) = s.mem := by
    funext q
    split_ifs with hq
    · rw [hq, hr]
    · rfl
  rw [this]

theorem task_lookup_some_412 (h : Host) (s : State) (t p : Ptr)
    (hl : task_lookup h s t = some p) :
    p ∈ s.ccs_task_security_list (h.hash_ptr t) ∧ (s.mem p).task = t := by
  unfold task_lookup at hl
  refine ⟨List.mem_of_find?_eq_some hl, ?_⟩
  simpa using List.find?_some hl

theorem task_lookup_none_412 (h : Host) (s : State) (t : Ptr)
    (hl : task_lookup h s t = none) :
    ∀ p ∈ s.ccs_task_security_list (h.hash_ptr t), (s.mem p).task ≠ t := by
  unfold task_lookup at hl
  rw [List.find?_eq_none] at hl
  intro p hp
  simpa using hl p hp

theorem task_lookup_congr_412 (h : Host) (s1 s2 : State) (t : Ptr)
    (hlist : s1.ccs_task_security_list = s2.ccs_task_security_list)
    (htask : ∀ q, (s1.mem q).task = (s2.mem q).task) :
    task_lookup h s1 t = task_lookup h s2 t := by
  unfold task_lookup
  rw [hlist]
  congr 1
  funext q
  rw [htask]

@[simp] theorem finish_task_list_412 (h : Host) (ret : Int) (ee : Ptr) (s : State) :
    (ccs_finish_execve h ret ee s).ccs_task_security_list = s.ccs_task_security_list := by
  unfold ccs_finish_execve
  cases task_lookup h s h.current <;> rfl

@[simp] theorem finish_rcu_412 (h : Host) (ret : Int) (ee : Ptr) (s : State) :
    (ccs_finish_execve h ret ee s).rcu = s.rcu := by
  unfold ccs_finish_execve
  cases task_lookup h s h.current <;> rfl

@[simp] theorem finish_ee_mem_412 (h : Host) (ret : Int) (ee : Ptr) (s : State) :
    (ccs_finish_execve h ret ee s).ee_mem = s.ee_mem := by
  unfold ccs_finish_execve
  cases task_lookup h s h.current <;> rfl

@[simp] theorem finish_log_412 (h : Host) (ret : Int) (ee : Ptr) (s : State) :
    (ccs_finish_execve h ret ee s).log = s.log ++ [Event.ccs_finish_execve ret ee] := by
  unfold ccs_finish_execve
  cases task_lookup h s h.current <;> rfl

theorem finish_mem_412 (h : Host) (ret : Int) (ee : Ptr) (s : State) (q : Ptr) :
    (ccs_finish_execve h ret ee s).mem q =
      match task_lookup h s h.current with
      | none => s.mem q
      | some t =>
        if q = t then
          { s.mem t with
            ccs_domain_info :=
              if ret < 0 then (s.ee_mem ee).previous_domain else (s.mem t).ccs_domain_info,
            ccs_flags := clear_in_execve_flag (s.mem t).ccs_flags }
        else s.mem q := by
  unfold ccs_finish_execve
  cases task_lookup h s h.current <;> simp

theorem clear_execve_eq_412 (h : Host) (ret : Int) (sec : Ptr) (s : State)
    (hs : ¬ (sec = ccs_default_security ∨ sec = ccs_oom_security))
    (he : (s.mem sec).ee ≠ NULL) :
    ccs_clear_execve h ret sec s =
      ccs_finish_execve h ret (s.mem sec).ee (s.store sec { s.mem sec with ee := NULL }) := by
  unfold ccs_clear_execve
  have : ¬ (sec = ccs_default_security ∨ sec = ccs_oom_security ∨ (s.mem sec).ee = NULL) := by
    intro hc
    rcases hc with hc | hc | hc
    · exact hs (Or.inl hc)
    · exact hs (Or.inr hc)
    · exact he hc
  simp only [this, if_false]

theorem clear_execve_noee_412 (h : Host) (ret : Int) (sec : Ptr) (s : State)
    (he : (s.mem sec).ee = NULL) : ccs_clear_execve h ret sec s = s := by
  unfold ccs_clear_execve
  simp [he]

theorem clear_execve_dummy_412 (h : Host) (ret : Int) (sec : Ptr) (s : State)
    (hs : sec = ccs_default_security ∨ sec = ccs_oom_security) :
    ccs_clear_execve h ret sec s = s := by
  unfold ccs_clear_execve
  rcases hs with hs | hs <;> simp [hs]

end Lsm412

theorem clear_execve_ee (h : Host) (ret : Int) (sec : Ptr) (s : Lsm2629.State) :
    sec ≠ ccs_default_security → sec ≠ ccs_oom_security →
    ((Lsm2629.ccs_clear_execve h ret sec s).mem sec).ee = NULL := by
  intro h1 h2
  by_cases he : (s.mem sec).ee = NULL
  · rw [Lsm2629.clear_execve_noee h ret sec s he, he]
  · rw [Lsm2629.clear_execve_eq h ret sec s (by simp [h1, h2]) he, Lsm2629.finish_mem]
    cases Lsm2629.task_lookup h (Lsm2629.clear_mid h sec s) h.current with
    | none => simp [Lsm2629.clear_mid]
    | some t =>
      by_cases hq : sec = t
      · subst hq
        simp [Lsm2629.clear_mid]
      · simp [Lsm2629.clear_mid, hq]

theorem clear_execve_ee_412 (h : Host) (ret : Int) (sec : Ptr) (s : Lsm412.State) :
    sec ≠ ccs_default_security → sec ≠ ccs_oom_security →
    ((Lsm412.ccs_clear_execve h ret sec s).mem sec).ee = NULL := by
  intro h1 h2
  by_cases he : (s.mem sec).ee = NULL
  · rw [Lsm412.clear_execve_noee_412 h ret sec s he, he]
  · rw [Lsm412.clear_execve_eq_412 h ret sec s (by simp [h1, h2]) he, Lsm412.finish_mem_412]
    cases Lsm412.task_lookup h (s.store sec { s.mem sec with ee := NULL }) h.current with
    | none => simp
    | some t =>
      by_cases hq : sec = t
      · subst hq
        simp
      · simp [hq]

namespace Lsm2629

theorem find_task_found (h : Host) (kz : Ptr) (s : State) (task ptr : Ptr)
    (hl : task_lookup h s task = some ptr) :
    ccs_find_task_security h kz s task =
      if h.KERNEL_LT_2_6_31 then
        if task = h.current ∧ (s.mem ptr).cred ≠ NULL ∧ h.cred_usage (s.mem ptr).cred = 1 then
          (ccs_clear_execve h (-1) ptr s, ptr)
        else (s, ptr)
      else
        if task = h.current ∧ in_execve_flag (s.mem ptr).ccs_flags = true ∧
            h.in_execve h.current = false then
          (ccs_clear_execve h (-1) ptr s, ptr)
        else (s, ptr) := by
  unfold ccs_find_task_security
  rw [hl]

/-- The state `ccs_clear_execve` produces for the record of the running task
when that record holds a Transition Record. -/
theorem clear_execve_current (h : Host) (ret : Int) (ptr : Ptr) (s : State)
    (hl : task_lookup h s h.current = some ptr)
    (hs : ¬ (ptr = ccs_default_security ∨ ptr = ccs_oom_security))
    (he : (s.mem ptr).ee ≠ NULL) :
    ccs_clear_execve h ret ptr s =
      { s with
        mem := fun q =>
          if q = ptr then
            { pid := (s.mem ptr).pid,
              cred := if h.KERNEL_LT_2_6_31 then NULL else (s.mem ptr).cred,
              ccs_domain_info :=
                if ret < 0 then (s.ee_mem (s.mem ptr).ee).previous_domain
                else (s.mem ptr).ccs_domain_info,
              ccs_flags := clear_in_execve_flag (s.mem ptr).ccs_flags,
              ee := NULL }
          else s.mem q,
        ccs_in_execve_tasks := s.ccs_in_execve_tasks - 1,
        log := (if h.KERNEL_LT_2_6_31 then s.log ++ [Event.put_cred (s.mem ptr).cred]
                else s.log) ++ [Event.ccs_finish_execve ret (s.mem ptr).ee] } := by
  rw [clear_execve_eq h ret ptr s hs he]
  unfold ccs_finish_execve
  rw [clear_mid_lookup, hl]
  simp only [State.store, State.emit, clear_mid, if_true, State.mk.injEq, and_true, true_and]
  funext q
  by_cases hq : q = ptr <;> simp [hq]

end Lsm2629

namespace Lsm412

theorem find_task_found_412 (h : Host) (kz : Ptr) (s : State) (task ptr : Ptr)
    (hl : task_lookup h s task = some ptr) :
    ccs_find_task_security h kz s task =
      if task = h.current ∧ in_execve_flag (s.mem ptr).ccs_flags = true ∧
          h.in_execve h.current = false then
        (ccs_clear_execve h (-1) ptr s, ptr)
      else (s, ptr) := by
  unfold ccs_find_task_security
  rw [hl]

theorem clear_execve_current_412 (h : Host) (ret : Int) (ptr : Ptr) (s : State)
    (hl : task_lookup h s h.current = some ptr)
    (hs : ¬ (ptr = ccs_default_security ∨ ptr = ccs_oom_security))
    (he : (s.mem ptr).ee ≠ NULL) :
    ccs_clear_execve h ret ptr s =
      { s with
        mem := fun q =>
          if q = ptr then
            { task := (s.mem ptr).task,
              ccs_domain_info :=
                if ret < 0 then (s.ee_mem (s.mem ptr).ee).previous_domain
                else (s.mem ptr).ccs_domain_info,
              ccs_flags := clear_in_execve_flag (s.mem ptr).ccs_flags,
              ee := NULL }
          else s.mem q,
        log := s.log ++ [Event.ccs_finish_execve ret (s.mem ptr).ee] } := by
  rw [clear_execve_eq_412 h ret ptr s hs he]
  unfold ccs_finish_execve
  have hl2 : task_lookup h (s.store ptr { s.mem ptr with ee := NULL }) h.current = some ptr := by
    rw [← hl]
    apply task_lookup_congr_412
    · rfl
    · intro q
      by_cases hq : q = ptr <;> simp [hq]
  rw [hl2]
  simp only [State.store, State.emit, if_true, State.mk.injEq, and_true, true_and]
  funext q
  by_cases hq : q = ptr <;> simp [hq]

end Lsm412

/-! ## Commit, allocation failure and foreign lookups: C6, C7 and C8 -/

namespace Lsm2629

theorem find_task_idle (h : Host) (kz : Ptr) (s : State) (task ptr : Ptr)
    (hl : task_lookup h s task = some ptr) (he : (s.mem ptr).ee = NULL) :
    ccs_find_task_security h kz s task = (s, ptr) := by
  rw [find_task_found h kz s _ ptr hl, clear_execve_noee h _ ptr s he]
  split_ifs <;> rfl

theorem find_task_miss (h : Host) (kz : Ptr) (s : State) (task : Ptr)
    (hl : task_lookup h s task = none) :
    ccs_find_task_security h kz s task =
      if task ≠ h.current then (s, ccs_find_cred_security h s (h.task_real_cred task))
      else if kz = NULL then
        ((s.emit (Event.printk_oom task)).emit (Event.send_sig_SIGKILL h.current),
          ccs_oom_security)
      else
        (ccs_add_task_security
          (((s.store kz (s.mem (ccs_find_cred_security h s (h.task_cred task)))).emit
              (Event.get_pid (h.task_pid task))).store kz
                { s.mem (ccs_find_cred_security h s (h.task_cred task)) with
                  pid := h.task_pid task, cred := NULL })
          kz (h.hash_ptr task), kz) := by
  unfold ccs_find_task_security
  rw [hl]
  dsimp only
  split_ifs
  · rfl
  · rfl
  · congr 1
    unfold ccs_add_task_security State.store State.emit
    simp only [State.mk.injEq, and_true, true_and, if_true]
    funext q
    split_ifs <;> rfl

end Lsm2629

namespace Lsm412

theorem find_task_miss_412 (h : Host) (kz : Ptr) (s : State) (task : Ptr)
    (hl : task_lookup h s task = none) :
    ccs_find_task_security h kz s task =
      if task ≠ h.current then (s, ccs_default_security)
      else if kz = NULL then
        ((s.emit (Event.printk_oom task)).emit (Event.send_sig_SIGKILL h.current),
          ccs_oom_security)
      else
        (ccs_add_task_security
          (s.store kz { s.mem ccs_default_security with task := task })
          kz (h.hash_ptr task), kz) := by
  unfold ccs_find_task_security
  rw [hl]
  dsimp only
  split_ifs
  · rfl
  · rfl
  · congr 1
    unfold ccs_add_task_security State.store
    simp only [State.mk.injEq, and_true, true_and, if_true]
    funext q
    split_ifs <;> rfl

end Lsm412

/-- C6. Commit in `lsm-2.6.29.c`.  Let the record of the running task be a
record that is not a dummy and holds a Transition Record, with the task still
inside `execve` as far as the lookup can tell (`in_execve` set from 2.6.31 on,
the remembered credentials not down to their last reference before).  After
`ccs_bprm_committing_creds` the record has `ee == NULL` and the mark cleared,
`ccs_finish_execve(0, ee)` is the one collaborator call made besides the
previous hook (and the `put_cred` of old kernels), the counter is one lower,
and the record `ccs_find_cred_security(bprm->cred)` returns has the flags and
the domain of the task record.  A following `ccs_find_task_security(current)`
returns the same record, still with `ee == NULL`. -/
theorem C6_commit (h : Host) (kz kz2 : Ptr) (s : Lsm2629.State) (ptr bprm_cred : Ptr)
    (hl : Lsm2629.task_lookup h s h.current = some ptr)
    (h1 : ptr ≠ ccs_default_security) (h2 : ptr ≠ ccs_oom_security)
    (he : (s.mem ptr).ee ≠ NULL)
    (hnew : h.KERNEL_LT_2_6_31 = false → h.in_execve h.current = true)
    (hold : h.KERNEL_LT_2_6_31 = true →
      ¬ ((s.mem ptr).cred ≠ NULL ∧ h.cred_usage (s.mem ptr).cred = 1)) :
    ((Lsm2629.ccs_bprm_committing_creds h kz s bprm_cred).mem ptr).ee = NULL ∧
    in_execve_flag
      ((Lsm2629.ccs_bprm_committing_creds h kz s bprm_cred).mem ptr).ccs_flags = false ∧
    (Lsm2629.ccs_bprm_committing_creds h kz s bprm_cred).log
      = (if h.KERNEL_LT_2_6_31 then
          s.log ++ [Event.original_hook "bprm_committing_creds"]
            ++ [Event.put_cred (s.mem ptr).cred]
         else s.log ++ [Event.original_hook "bprm_committing_creds"])
        ++ [Event.ccs_finish_execve 0 (s.mem ptr).ee] ∧
    (Lsm2629.ccs_bprm_committing_creds h kz s bprm_cred).ccs_in_execve_tasks
      = s.ccs_in_execve_tasks - 1 ∧
    ((Lsm2629.ccs_bprm_committing_creds h kz s bprm_cred).mem
        (Lsm2629.ccs_find_cred_security h
          (Lsm2629.ccs_bprm_committing_creds h kz s bprm_cred) bprm_cred)).ccs_flags
      = ((Lsm2629.ccs_bprm_committing_creds h kz s bprm_cred).mem ptr).ccs_flags ∧
    ((Lsm2629.ccs_bprm_committing_creds h kz s bprm_cred).mem
        (Lsm2629.ccs_find_cred_security h
          (Lsm2629.ccs_bprm_committing_creds h kz s bprm_cred) bprm_cred)).ccs_domain_info
      = ((Lsm2629.ccs_bprm_committing_creds h kz s bprm_cred).mem ptr).ccs_domain_info ∧
    (Lsm2629.ccs_find_task_security h kz2
        (Lsm2629.ccs_bprm_committing_creds h kz s bprm_cred) h.current).2 = ptr ∧
    ((Lsm2629.ccs_find_task_security h kz2
        (Lsm2629.ccs_bprm_committing_creds h kz s bprm_cred) h.current).1.mem ptr).ee
      = NULL := by
  -- the lookup inside the hook finds the record and leaves the state alone
  have hl0 : Lsm2629.task_lookup h (s.emit (Event.original_hook "bprm_committing_creds"))
      h.current = some ptr := by
    rw [← hl]
    exact Lsm2629.task_lookup_congr h _ _ _ rfl (fun _ => rfl)
  have hcur : Lsm2629.ccs_current_security h kz
      (s.emit (Event.original_hook "bprm_committing_creds"))
      = (s.emit (Event.original_hook "bprm_committing_creds"), ptr) := by
    unfold Lsm2629.ccs_current_security
    rw [Lsm2629.find_task_found h kz _ _ ptr hl0]
    cases hk : h.KERNEL_LT_2_6_31
    · simp [hnew hk]
    · have := hold hk
      simp only [Lsm2629.emit_mem, if_true]
      rw [if_neg]
      intro hc
      exact this hc.2
  have hs : ¬ (ptr = ccs_default_security ∨ ptr = ccs_oom_security) := by simp [h1, h2]
  -- name the state after `ccs_clear_execve` and the record the hook updates
  obtain ⟨s1, hs1⟩ : ∃ s1, s1 = Lsm2629.ccs_clear_execve h 0 ptr
      (s.emit (Event.original_hook "bprm_committing_creds")) := ⟨_, rfl⟩
  obtain ⟨nw, hnw⟩ : ∃ nw, nw = Lsm2629.ccs_find_cred_security h s1 bprm_cred := ⟨_, rfl⟩
  have hcommit : Lsm2629.ccs_bprm_committing_creds h kz s bprm_cred
      = (s1.store nw { s1.mem nw with ccs_flags := (s1.mem ptr).ccs_flags }).store nw
          { pid := (s1.mem nw).pid, cred := (s1.mem nw).cred,
            ccs_domain_info := (s1.mem ptr).ccs_domain_info,
            ccs_flags := (s1.mem ptr).ccs_flags, ee := (s1.mem nw).ee } := by
    unfold Lsm2629.ccs_bprm_committing_creds
    simp only [hcur, hs, if_false]
    rw [← hs1, ← hnw]
    congr 1
    by_cases hq : ptr = nw
    · subst hq
      simp
    · simp [hq]
  have hs1eq := Lsm2629.clear_execve_current h 0 ptr
    (s.emit (Event.original_hook "bprm_committing_creds")) hl0 hs (by simpa using he)
  rw [← hs1] at hs1eq
  have hee1 : (s1.mem ptr).ee = NULL := by rw [hs1eq]; simp
  have hfl1 : in_execve_flag (s1.mem ptr).ccs_flags = false := by
    rw [hs1eq]; simp [flag_clear]
  have hpid : ∀ q, ((Lsm2629.ccs_bprm_committing_creds h kz s bprm_cred).mem q).pid
      = (s.mem q).pid := by
    intro q
    have hpid1 : ∀ x, (s1.mem x).pid = (s.mem x).pid := by
      intro x
      rw [hs1eq]
      by_cases hx : x = ptr <;> simp [hx]
    rw [hcommit]
    by_cases hq : q = nw <;> simp [hq, hpid1]
  have hcredf : ∀ q, ((Lsm2629.ccs_bprm_committing_creds h kz s bprm_cred).mem q).cred
      = (s1.mem q).cred := by
    intro q
    rw [hcommit]
    by_cases hq : q = nw <;> simp [hq]
  have hlists : (Lsm2629.ccs_bprm_committing_creds h kz s bprm_cred).ccs_task_security_list
      = s.ccs_task_security_list := by
    rw [hcommit, hs1eq]; rfl
  have hclists : (Lsm2629.ccs_bprm_committing_creds h kz s bprm_cred).ccs_cred_security_list
      = s1.ccs_cred_security_list := by
    rw [hcommit]; rfl
  have hnw2 : Lsm2629.ccs_find_cred_security h
      (Lsm2629.ccs_bprm_committing_creds h kz s bprm_cred) bprm_cred = nw := by
    rw [hnw]
    exact Lsm2629.find_cred_congr h _ _ _ hclists hcredf
  have hl3 : Lsm2629.task_lookup h (Lsm2629.ccs_bprm_committing_creds h kz s bprm_cred)
      h.current = some ptr := by
    rw [← hl]
    exact Lsm2629.task_lookup_congr h _ _ _ hlists hpid
  have hee3 : ((Lsm2629.ccs_bprm_committing_creds h kz s bprm_cred).mem ptr).ee = NULL := by
    rw [hcommit]
    by_cases hq : ptr = nw
    · subst hq; simpa using hee1
    · simpa [hq] using hee1
  have hflags3 : ((Lsm2629.ccs_bprm_committing_creds h kz s bprm_cred).mem ptr).ccs_flags
      = (s1.mem ptr).ccs_flags := by
    rw [hcommit]
    by_cases hq : ptr = nw <;> simp [hq]
  have hdom3 : ((Lsm2629.ccs_bprm_committing_creds h kz s bprm_cred).mem ptr).ccs_domain_info
      = (s1.mem ptr).ccs_domain_info := by
    rw [hcommit]
    by_cases hq : ptr = nw <;> simp [hq]
  refine ⟨hee3, ?_, ?_, ?_, ?_, ?_, ?_, ?_⟩
  · rw [hflags3]; exact hfl1
  · rw [hcommit, hs1eq]
    cases h.KERNEL_LT_2_6_31 <;> simp
  · rw [hcommit, hs1eq]
    simp
  · rw [hnw2, hflags3, hcommit]
    simp
  · rw [hnw2, hdom3, hcommit]
    simp
  · rw [Lsm2629.find_task_idle h kz2 _ _ ptr hl3 hee3]
  · rw [Lsm2629.find_task_idle h kz2 _ _ ptr hl3 hee3]
    exact hee3

/-- Witness of C6: task `100` commits the transition pending in `demoPending`
while inside `execve`. -/
theorem C6_commit_witness :
    (Lsm2629.task_lookup execHost Lsm2629.demoPending execHost.current = some 10 ∧
      (Lsm2629.demoPending.mem 10).ee ≠ NULL ∧
      execHost.in_execve execHost.current = true) ∧
    (Lsm2629.ccs_bprm_committing_creds execHost 0 Lsm2629.demoPending 2100).ccs_in_execve_tasks
      = Lsm2629.demoPending.ccs_in_execve_tasks - 1 ∧
    (Lsm2629.ccs_find_task_security execHost 0
      (Lsm2629.ccs_bprm_committing_creds execHost 0 Lsm2629.demoPending 2100)
      execHost.current).2 = 10 :=
  ⟨⟨by decide, by decide, by decide⟩,
    (C6_commit execHost 0 0 Lsm2629.demoPending 10 2100 (by decide) (by decide) (by decide)
      (by decide) (by decide) (by decide)).2.2.2.1,
    (C6_commit execHost 0 0 Lsm2629.demoPending 10 2100 (by decide) (by decide) (by decide)
      (by decide) (by decide) (by decide)).2.2.2.2.2.2.1⟩

/-- C7. Allocation failure.  When `ccs_find_task_security` is called for the
running task, no record of the task table belongs to it and `kzalloc` returns
`NULL`, the result is `&ccs_oom_security`, which is not `NULL`; `SIGKILL` is
sent to the running task (after the `printk`), and records, tables and counters
are unchanged.  This holds for `lsm-2.6.29.c` and for `lsm-4.12.c`. -/
theorem C7_allocation_failure :
    (∀ (h : Host) (s : Lsm2629.State),
      (∀ i, ∀ p ∈ s.ccs_task_security_list i, (s.mem p).pid ≠ h.task_pid h.current) →
      (Lsm2629.ccs_find_task_security h NULL s h.current).2 = ccs_oom_security ∧
      ccs_oom_security ≠ NULL ∧
      (Lsm2629.ccs_find_task_security h NULL s h.current).1.log
        = s.log ++ [Event.printk_oom h.current, Event.send_sig_SIGKILL h.current] ∧
      (Lsm2629.ccs_find_task_security h NULL s h.current).1.ccs_task_security_list
        = s.ccs_task_security_list ∧
      (Lsm2629.ccs_find_task_security h NULL s h.current).1.ccs_cred_security_list
        = s.ccs_cred_security_list ∧
      (Lsm2629.ccs_find_task_security h NULL s h.current).1.mem = s.mem ∧
      (Lsm2629.ccs_find_task_security h NULL s h.current).1.rcu = s.rcu ∧
      (Lsm2629.ccs_find_task_security h NULL s h.current).1.ccs_in_execve_tasks
        = s.ccs_in_execve_tasks) ∧
    (∀ (h : Host) (s : Lsm412.State),
      (∀ i, ∀ p ∈ s.ccs_task_security_list i, (s.mem p).task ≠ h.current) →
      (Lsm412.ccs_find_task_security h NULL s h.current).2 = ccs_oom_security ∧
      (Lsm412.ccs_find_task_security h NULL s h.current).1.log
        = s.log ++ [Event.printk_oom h.current, Event.send_sig_SIGKILL h.current] ∧
      (Lsm412.ccs_find_task_security h NULL s h.current).1.ccs_task_security_list
        = s.ccs_task_security_list ∧
      (Lsm412.ccs_find_task_security h NULL s h.current).1.mem = s.mem ∧
      (Lsm412.ccs_find_task_security h NULL s h.current).1.rcu = s.rcu) := by
  constructor
  · intro h s hmiss
    have hnone : Lsm2629.task_lookup h s h.current = none := by
      unfold Lsm2629.task_lookup
      rw [List.find?_eq_none]
      intro p hp
      simpa using hmiss _ p hp
    rw [Lsm2629.find_task_miss h NULL s _ hnone]
    simp
    decide
  · intro h s hmiss
    have hnone : Lsm412.task_lookup h s h.current = none := by
      unfold Lsm412.task_lookup
      rw [List.find?_eq_none]
      intro p hp
      simpa using hmiss _ p hp
    rw [Lsm412.find_task_miss_412 h NULL s _ hnone]
    simp

/-- Witness of C7: the first lookup of task `100` in the initial states when
`kzalloc` fails. -/
theorem C7_allocation_failure_witness :
    (∀ i, ∀ p ∈ Lsm2629.init.ccs_task_security_list i,
      (Lsm2629.init.mem p).pid ≠ demoHost.task_pid demoHost.current) ∧
    (Lsm2629.ccs_find_task_security demoHost NULL Lsm2629.init demoHost.current).2
      = ccs_oom_security ∧
    (Lsm412.ccs_find_task_security demoHost NULL Lsm412.init demoHost.current).2
      = ccs_oom_security :=
  ⟨fun _ _ hp => absurd hp (List.not_mem_nil _),
    (C7_allocation_failure.1 demoHost Lsm2629.init
      (fun _ _ hp => absurd hp (List.not_mem_nil _))).1,
    (C7_allocation_failure.2 demoHost Lsm412.init
      (fun _ _ hp => absurd hp (List.not_mem_nil _))).1⟩

/-- C8. Lookups for another task in `lsm-2.6.29.c`.  For `task != current`
the state after `ccs_find_task_security(task)` is the state before: nothing is
allocated, linked or written.  If moreover no record of the task table carries
the pid of `task`, the result is what `ccs_find_cred_security` returns for
`__task_cred(task)`: with every record of the credential table linked on the
bucket of its `cred`, that is a record of the credential table whose `cred` is
the credential set of the task if the table has such a record, and
`&ccs_default_security` if it has none. -/
theorem C8_foreign_lookup_is_read_only (h : Host) (kz : Ptr) (s : Lsm2629.State) (task : Ptr)
    (hne : task ≠ h.current) :
    (Lsm2629.ccs_find_task_security h kz s task).1 = s ∧
    ((∀ i, ∀ p ∈ s.ccs_task_security_list i, (s.mem p).pid ≠ h.task_pid task) →
      (Lsm2629.ccs_find_task_security h kz s task).2
        = Lsm2629.ccs_find_cred_security h s (h.task_real_cred task) ∧
      ((∀ i, ∀ p ∈ s.ccs_cred_security_list i, h.hash_ptr (s.mem p).cred = i) →
        ((∃ i, ∃ p ∈ s.ccs_cred_security_list i, (s.mem p).cred = h.task_real_cred task) →
          (∃ i, (Lsm2629.ccs_find_task_security h kz s task).2
              ∈ s.ccs_cred_security_list i) ∧
          (s.mem (Lsm2629.ccs_find_task_security h kz s task).2).cred
            = h.task_real_cred task) ∧
        ((∀ i, ∀ p ∈ s.ccs_cred_security_list i, (s.mem p).cred ≠ h.task_real_cred task) →
          (Lsm2629.ccs_find_task_security h kz s task).2 = ccs_default_security))) := by
  constructor
  · cases hl : Lsm2629.task_lookup h s task with
    | none =>
      rw [Lsm2629.find_task_miss h kz s _ hl]
      simp [hne]
    | some ptr =>
      rw [Lsm2629.find_task_found h kz s _ ptr hl]
      simp [hne]
  · intro hmiss
    have hnone : Lsm2629.task_lookup h s task = none := by
      unfold Lsm2629.task_lookup
      rw [List.find?_eq_none]
      intro p hp
      simpa using hmiss _ p hp
    have hres : (Lsm2629.ccs_find_task_security h kz s task).2
        = Lsm2629.ccs_find_cred_security h s (h.task_real_cred task) := by
      rw [Lsm2629.find_task_miss h kz s _ hnone]
      simp [hne]
    refine ⟨hres, ?_⟩
    intro hplace
    rw [hres]
    unfold Lsm2629.ccs_find_cred_security
    constructor
    · rintro ⟨i, p, hp, hc⟩
      have hi : i = h.hash_ptr (h.task_real_cred task) := by
        rw [← hc]
        exact (hplace i p hp).symm
      subst hi
      cases hf : (s.ccs_cred_security_list (h.hash_ptr (h.task_real_cred task))).find?
          (fun ptr => (s.mem ptr).cred == h.task_real_cred task) with
      | none =>
        rw [List.find?_eq_none] at hf
        have := hf p hp
        simp [hc] at this
      | some q =>
        refine ⟨⟨_, List.mem_of_find?_eq_some hf⟩, ?_⟩
        simpa using List.find?_some hf
    · intro hno
      cases hf : (s.ccs_cred_security_list (h.hash_ptr (h.task_real_cred task))).find?
          (fun ptr => (s.mem ptr).cred == h.task_real_cred task) with
      | none => rfl
      | some q =>
        have h1 := List.mem_of_find?_eq_some hf
        have h2 := List.find?_some hf
        simp at h2
        exact absurd h2 (hno _ q h1)

/-- Witness of C8: in `demoState1` task `100` has a record; looking up task
`101`, which is not running and has none, changes nothing and falls back to
the dummy. -/
theorem C8_foreign_lookup_is_read_only_witness :
    (101 : Ptr) ≠ demoHost.current ∧
    (Lsm2629.ccs_find_task_security demoHost 11 Lsm2629.demoState1 101).1
      = Lsm2629.demoState1 :=
  ⟨by decide, (C8_foreign_lookup_is_read_only demoHost 11 Lsm2629.demoState1 101 (by decide)).1⟩

/-! ## Garbage collection: C10 -/

namespace Lsm2629

theorem gc_visit_eq (h : Host) (s : State) (p : Ptr) :
    gc_visit h s p =
      if removable h s.mem p then
        { s with
          ccs_task_security_list := fun i =>
            (s.ccs_task_security_list i).filter (fun q => q != p),
          ccs_cred_security_list := fun i =>
            (s.ccs_cred_security_list i).filter (fun q => q != p),
          rcu := s.rcu ++ [p] }
      else s := by
  unfold gc_visit ccs_del_security list_del_rcu removable
  by_cases h1 : h.pid_task (s.mem p).pid = NULL
  · by_cases h2 : p = ccs_default_security ∨ p = ccs_oom_security
    · have : ¬ (p ≠ ccs_default_security ∧ p ≠ ccs_oom_security) := by
        intro hc
        rcases h2 with h2 | h2
        · exact hc.1 h2
        · exact hc.2 h2
      simp [h1, h2, this]
    · have : p ≠ ccs_default_security ∧ p ≠ ccs_oom_security := by
        constructor
        · intro hc; exact h2 (Or.inl hc)
        · intro hc; exact h2 (Or.inr hc)
      simp [h1, h2, this]
  · simp [h1]

theorem gc_visit_fold (h : Host) (L : List Ptr) :
    ∀ s : State,
      SweepFrame s (L.foldl (gc_visit h) s) ∧
      (∀ i, (L.foldl (gc_visit h) s).ccs_task_security_list i
        = (s.ccs_task_security_list i).filter
            (fun q => decide (¬ (removable h s.mem q ∧ q ∈ L)))) ∧
      (∀ i, (L.foldl (gc_visit h) s).ccs_cred_security_list i
        = (s.ccs_cred_security_list i).filter
            (fun q => decide (¬ (removable h s.mem q ∧ q ∈ L)))) ∧
      (L.foldl (gc_visit h) s).rcu
        = s.rcu ++ L.filter (fun q => decide (removable h s.mem q)) := by
  induction L with
  | nil =>
    intro s
    refine ⟨⟨rfl, rfl, rfl, rfl, rfl⟩, ?_, ?_, ?_⟩ <;> simp
  | cons p L ih =>
    intro s
    rw [List.foldl_cons]
    obtain ⟨hf, ht, hc, hr⟩ := ih (gc_visit h s p)
    rw [gc_visit_eq] at hf ht hc hr ⊢
    by_cases hp : removable h s.mem p
    · simp only [hp, if_true] at hf ht hc hr ⊢
      refine ⟨⟨hf.mem, hf.ee_mem, hf.counter, hf.gc_counter, hf.log⟩, ?_, ?_, ?_⟩
      · intro i
        rw [ht i, List.filter_filter]
        apply List.filter_congr
        intro q _
        by_cases hq : q = p
        · subst hq; simp [hp]
        · simp [hq]
      · intro i
        rw [hc i, List.filter_filter]
        apply List.filter_congr
        intro q _
        by_cases hq : q = p
        · subst hq; simp [hp]
        · simp [hq]
      · rw [hr]
        simp [List.filter_cons, hp]
    · simp only [hp, if_false] at hf ht hc hr ⊢
      refine ⟨hf, ?_, ?_, ?_⟩
      · intro i
        rw [ht i]
        apply List.filter_congr
        intro q _
        by_cases hq : q = p
        · subst hq; simp [hp]
        · simp [hq]
      · intro i
        rw [hc i]
        apply List.filter_congr
        intro q _
        by_cases hq : q = p
        · subst hq; simp [hp]
        · simp [hq]
      · rw [hr]
        simp [List.filter_cons, hp]

theorem gc_bucket_fold (h : Host) (I : List Nat) :
    ∀ s : State,
      SweepFrame s (I.foldl (gc_bucket h) s) ∧
      (∀ i, (I.foldl (gc_bucket h) s).ccs_task_security_list i
        = (s.ccs_task_security_list i).filter
            (fun q => decide (¬ (removable h s.mem q ∧
              ∃ j ∈ I, q ∈ s.ccs_task_security_list j)))) ∧
      (∀ i, (I.foldl (gc_bucket h) s).ccs_cred_security_list i
        = (s.ccs_cred_security_list i).filter
            (fun q => decide (¬ (removable h s.mem q ∧
              ∃ j ∈ I, q ∈ s.ccs_task_security_list j)))) := by
  induction I with
  | nil =>
    intro s
    refine ⟨⟨rfl, rfl, rfl, rfl, rfl⟩, ?_, ?_⟩ <;> simp
  | cons k I ih =>
    intro s
    rw [List.foldl_cons]
    obtain ⟨hf, ht, hc⟩ := ih (gc_bucket h s k)
    obtain ⟨hf1, ht1, hc1, _⟩ := gc_visit_fold h (s.ccs_task_security_list k) s
    have hmem : (gc_bucket h s k).mem = s.mem := hf1.mem
    have ht2 : ∀ i, (gc_bucket h s k).ccs_task_security_list i
        = (s.ccs_task_security_list i).filter
            (fun q => decide (¬ (removable h s.mem q ∧ q ∈ s.ccs_task_security_list k))) := ht1
    have hc2 : ∀ i, (gc_bucket h s k).ccs_cred_security_list i
        = (s.ccs_cred_security_list i).filter
            (fun q => decide (¬ (removable h s.mem q ∧ q ∈ s.ccs_task_security_list k))) := hc1
    have hin : ∀ j q, q ∈ (gc_bucket h s k).ccs_task_security_list j ↔
        q ∈ s.ccs_task_security_list j ∧
          ¬ (removable h s.mem q ∧ q ∈ s.ccs_task_security_list k) := by
      intro j q
      rw [ht2 j]
      simp only [List.mem_filter, decide_eq_true_eq]
    refine ⟨⟨hf.mem.trans hf1.mem, hf.ee_mem.trans hf1.ee_mem, hf.counter.trans hf1.counter,
      hf.gc_counter.trans hf1.gc_counter, hf.log.trans hf1.log⟩, ?_, ?_⟩
    · intro i
      rw [ht i, hmem, ht2 i, List.filter_filter]
      apply List.filter_congr
      intro q _
      by_cases hr : removable h s.mem q <;> by_cases hk : q ∈ s.ccs_task_security_list k <;>
        simp [hin, hr, hk]
    · intro i
      rw [hc i, hmem, hc2 i, List.filter_filter]
      apply List.filter_congr
      intro q _
      by_cases hr : removable h s.mem q <;> by_cases hk : q ∈ s.ccs_task_security_list k <;>
        simp [hin, hr, hk]

theorem gc_bucket_fold_rcu (h : Host) (I : List Nat) :
    ∀ s : State, ∀ q,
      q ∈ (I.foldl (gc_bucket h) s).rcu ↔
        q ∈ s.rcu ∨ (removable h s.mem q ∧ ∃ j ∈ I, q ∈ s.ccs_task_security_list j) := by
  induction I with
  | nil => intro s q; simp
  | cons k I ih =>
    intro s q
    rw [List.foldl_cons, ih (gc_bucket h s k) q]
    obtain ⟨hf1, ht1, _, hr1⟩ := gc_visit_fold h (s.ccs_task_security_list k) s
    have hmem : (gc_bucket h s k).mem = s.mem := hf1.mem
    have ht2 : ∀ i, (gc_bucket h s k).ccs_task_security_list i
        = (s.ccs_task_security_list i).filter
            (fun q => decide (¬ (removable h s.mem q ∧ q ∈ s.ccs_task_security_list k))) := ht1
    have hr2 : (gc_bucket h s k).rcu
        = s.rcu ++ (s.ccs_task_security_list k).filter
            (fun q => decide (removable h s.mem q)) := hr1
    rw [hmem, hr2]
    simp only [ht2, List.mem_append, List.mem_filter, decide_eq_true_eq, List.mem_cons,
      exists_eq_or_imp]
    by_cases hr : removable h s.mem q <;> by_cases hk : q ∈ s.ccs_task_security_list k <;>
      simp [hr, hk]

theorem gc_sweep_spec (h : Host) (s : State) :
    SweepFrame { s with gc_counter := 0 } (gc_sweep h true s) ∧
    (∀ i, (gc_sweep h true s).ccs_task_security_list i
      = (s.ccs_task_security_list i).filter
          (fun q => decide (¬ (removable h s.mem q ∧
            ∃ j ∈ List.range h.CCS_MAX_TASK_SECURITY_HASH,
              q ∈ s.ccs_task_security_list j)))) ∧
    (∀ i, (gc_sweep h true s).ccs_cred_security_list i
      = (s.ccs_cred_security_list i).filter
          (fun q => decide (¬ (removable h s.mem q ∧
            ∃ j ∈ List.range h.CCS_MAX_TASK_SECURITY_HASH,
              q ∈ s.ccs_task_security_list j)))) ∧
    (∀ q, q ∈ (gc_sweep h true s).rcu ↔
      q ∈ s.rcu ∨ (removable h s.mem q ∧
        ∃ j ∈ List.range h.CCS_MAX_TASK_SECURITY_HASH, q ∈ s.ccs_task_security_list j)) := by
  unfold gc_sweep
  simp only [Bool.true_eq_false, if_false]
  obtain ⟨hf, ht, hc⟩ := gc_bucket_fold h (List.range h.CCS_MAX_TASK_SECURITY_HASH)
    { s with gc_counter := 0 }
  exact ⟨hf, ht, hc,
    gc_bucket_fold_rcu h (List.range h.CCS_MAX_TASK_SECURITY_HASH) { s with gc_counter := 0 }⟩

theorem gc_runs (h : Host) (s : State)
    (hrun : s.ccs_in_execve_tasks ≠ 0 ∨ 1024 ≤ s.gc_counter + 1) :
    ccs_task_security_gc h true s = gc_sweep h true s ∨
    ccs_task_security_gc h true s
      = gc_sweep h true { s with gc_counter := s.gc_counter + 1 } := by
  unfold ccs_task_security_gc
  by_cases hc : s.ccs_in_execve_tasks = 0
  · right
    rw [if_pos hc]
    have : 1024 ≤ s.gc_counter + 1 := by
      rcases hrun with hrun | hrun
      · exact absurd hc hrun
      · exact hrun
    simp only
    rw [if_neg (by omega)]
  · left
    rw [if_neg hc]

/-- C10. GC safety in `lsm-2.6.29.c`.  Take a call of `ccs_task_security_gc`
that gets to the sweep (the counter of tasks in `execve` is not zero or this is
at least the 1024th call, and the try-lock is taken), in a state where no dummy
is linked on the task table and no record of the task table is linked on the
credential table.  Then a record whose pid still has a task stays on its
bucket; a record of one of the `CCS_MAX_TASK_SECURITY_HASH` buckets whose pid
has no task is on no bucket afterwards and is queued for `ccs_rcu_free`; so
each of these buckets keeps exactly its records with a live task, in order.
The credential table and all records are unchanged. -/
theorem C10_gc_safety (h : Host) (s : State)
    (hrun : s.ccs_in_execve_tasks ≠ 0 ∨ 1024 ≤ s.gc_counter + 1)
    (hdummy : ∀ i, ∀ p ∈ s.ccs_task_security_list i,
      p ≠ ccs_default_security ∧ p ≠ ccs_oom_security)
    (hdisj : ∀ i j, ∀ p ∈ s.ccs_task_security_list i, p ∉ s.ccs_cred_security_list j) :
    (∀ i, ∀ p ∈ s.ccs_task_security_list i, h.pid_task (s.mem p).pid ≠ NULL →
      p ∈ (ccs_task_security_gc h true s).ccs_task_security_list i) ∧
    (∀ idx, idx < h.CCS_MAX_TASK_SECURITY_HASH → ∀ p ∈ s.ccs_task_security_list idx,
      h.pid_task (s.mem p).pid = NULL →
        (∀ j, p ∉ (ccs_task_security_gc h true s).ccs_task_security_list j) ∧
        p ∈ (ccs_task_security_gc h true s).rcu) ∧
    (∀ idx, idx < h.CCS_MAX_TASK_SECURITY_HASH →
      (ccs_task_security_gc h true s).ccs_task_security_list idx
        = (s.ccs_task_security_list idx).filter
            (fun p => decide (h.pid_task (s.mem p).pid ≠ NULL))) ∧
    (ccs_task_security_gc h true s).ccs_cred_security_list = s.ccs_cred_security_list ∧
    (ccs_task_security_gc h true s).mem = s.mem := by
  -- both ways into the sweep start from a state with the tables and records of `s`
  obtain ⟨s0, hs0, hmem0, htask0, hcred0, hrcu0⟩ : ∃ s0 : State,
      ccs_task_security_gc h true s = gc_sweep h true s0 ∧ s0.mem = s.mem ∧
      s0.ccs_task_security_list = s.ccs_task_security_list ∧
      s0.ccs_cred_security_list = s.ccs_cred_security_list ∧ s0.rcu = s.rcu := by
    rcases gc_runs h s hrun with hg | hg
    · exact ⟨_, hg, rfl, rfl, rfl, rfl⟩
    · exact ⟨_, hg, rfl, rfl, rfl, rfl⟩
  obtain ⟨hf, ht, hc, hr⟩ := gc_sweep_spec h s0
  rw [hs0]
  simp only [hmem0, htask0, hcred0, hrcu0] at hf ht hc hr
  refine ⟨?_, ?_, ?_, ?_, ?_⟩
  · intro i p hp halive
    rw [ht i, List.mem_filter]
    refine ⟨hp, ?_⟩
    simp [removable, halive]
  · intro idx hidx p hp hdead
    have hrem : removable h s.mem p := ⟨hdead, hdummy idx p hp⟩
    have hex : ∃ j ∈ List.range h.CCS_MAX_TASK_SECURITY_HASH,
        p ∈ s.ccs_task_security_list j := ⟨idx, List.mem_range.mpr hidx, hp⟩
    constructor
    · intro j
      rw [ht j, List.mem_filter]
      intro hc2
      have := hc2.2
      simp only [decide_eq_true_eq] at this
      exact this ⟨hrem, hex⟩
    · rw [hr p]
      exact Or.inr ⟨hrem, hex⟩
  · intro idx hidx
    rw [ht idx]
    apply List.filter_congr
    intro p hp
    have hex : ∃ j ∈ List.range h.CCS_MAX_TASK_SECURITY_HASH,
        p ∈ s.ccs_task_security_list j := ⟨idx, List.mem_range.mpr hidx, hp⟩
    have hd := hdummy idx p hp
    by_cases hdead : h.pid_task (s.mem p).pid = NULL
    · have hrem : removable h s.mem p := ⟨hdead, hd⟩
      simp only [hrem, hdead, true_and, ne_eq, not_true_eq_false, decide_False,
        decide_eq_false_iff_not, not_not]
      exact hex
    · have hrem : ¬ removable h s.mem p := fun hc2 => hdead hc2.1
      simp [hrem, hdead]
  · funext i
    rw [hc i, List.filter_eq_self]
    intro p hp
    simp only [decide_eq_true_eq]
    rintro ⟨_, j, _, hj⟩
    exact hdisj j i p hj hp
  · have := hf.mem
    simpa [hmem0] using this

/-- Witness of C10: a sweep over `gcState` on `gcHost`.  The record at `10`
(pid `1100`, no task) goes, the record at `11` (pid `1101`, task `101`)
stays. -/
theorem C10_gc_safety_witness :
    (gcState.ccs_in_execve_tasks ≠ 0 ∧ 11 ∈ gcState.ccs_task_security_list 1 ∧
      10 ∈ gcState.ccs_task_security_list 0 ∧
      gcHost.pid_task (gcState.mem 11).pid ≠ NULL ∧
      gcHost.pid_task (gcState.mem 10).pid = NULL) ∧
    11 ∈ (ccs_task_security_gc gcHost true gcState).ccs_task_security_list 1 ∧
    ((∀ j, 10 ∉ (ccs_task_security_gc gcHost true gcState).ccs_task_security_list j) ∧
      10 ∈ (ccs_task_security_gc gcHost true gcState).rcu) :=
  have hlist : ∀ i, gcState.ccs_task_security_list i
      = if i = 1 then 11 :: (if i = 0 then [10] else []) else if i = 0 then [10] else [] :=
    fun _ => rfl
  have hdummy : ∀ i, ∀ p ∈ gcState.ccs_task_security_list i,
      p ≠ ccs_default_security ∧ p ≠ ccs_oom_security := by
    intro i p hp
    rw [hlist i] at hp
    have : p = 10 ∨ p = 11 := by
      split_ifs at hp <;> simp_all
    rcases this with hq | hq <;> subst hq <;> decide
  have hdisj : ∀ i j, ∀ p ∈ gcState.ccs_task_security_list i,
      p ∉ gcState.ccs_cred_security_list j :=
    fun _ _ _ _ => List.not_mem_nil _
  ⟨⟨by decide, by decide, by decide, by decide, by decide⟩,
    (C10_gc_safety gcHost gcState (Or.inl (by decide)) hdummy hdisj).1 1 11
      (by decide) (by decide),
    (C10_gc_safety gcHost gcState (Or.inl (by decide)) hdummy hdisj).2.1 0 (by decide) 10
      (by decide) (by decide)⟩

end Lsm2629

/-! ## The partition of the records: C9 -/

namespace Lsm2629

theorem TaskAll_store (φ : ccs_security → Prop) (s : State) (p : Ptr) (r : ccs_security)
    (hs : TaskAll φ s) (hr : (∃ i, p ∈ s.ccs_task_security_list i) → φ r) :
    TaskAll φ (s.store p r) := by
  intro i q hq
  simp only [store_mem]
  by_cases hqp : q = p
  · rw [if_pos hqp]
    exact hr ⟨i, hqp ▸ hq⟩
  · rw [if_neg hqp]
    exact hs i q hq

theorem CredAll_store (φ : ccs_security → Prop) (s : State) (p : Ptr) (r : ccs_security)
    (hs : CredAll φ s) (hr : (∃ i, p ∈ s.ccs_cred_security_list i) → φ r) :
    CredAll φ (s.store p r) := by
  intro i q hq
  simp only [store_mem]
  by_cases hqp : q = p
  · rw [if_pos hqp]
    exact hr ⟨i, hqp ▸ hq⟩
  · rw [if_neg hqp]
    exact hs i q hq

theorem TaskAll_congr (φ : ccs_security → Prop) (s t : State)
    (hm : t.mem = s.mem) (hl : t.ccs_task_security_list = s.ccs_task_security_list)
    (hs : TaskAll φ s) : TaskAll φ t := by
  intro i q hq
  rw [hm]
  rw [hl] at hq
  exact hs i q hq

theorem CredAll_congr (φ : ccs_security → Prop) (s t : State)
    (hm : t.mem = s.mem) (hl : t.ccs_cred_security_list = s.ccs_cred_security_list)
    (hs : CredAll φ s) : CredAll φ t := by
  intro i q hq
  rw [hm]
  rw [hl] at hq
  exact hs i q hq

theorem TaskAll_shrinks (φ : ccs_security → Prop) (s t : State) (hsh : Shrinks s t)
    (hs : TaskAll φ s) : TaskAll φ t := by
  intro i q hq
  rw [hsh.mem]
  exact hs i q (hsh.task i q hq)

theorem CredAll_shrinks (φ : ccs_security → Prop) (s t : State) (hsh : Shrinks s t)
    (hs : CredAll φ s) : CredAll φ t := by
  intro i q hq
  rw [hsh.mem]
  exact hs i q (hsh.cred i q hq)

theorem Shrinks_refl (s : State) : Shrinks s s := ⟨rfl, fun _ _ hp => hp, fun _ _ hp => hp⟩

theorem Shrinks_trans (s t u : State) (h1 : Shrinks s t) (h2 : Shrinks t u) : Shrinks s u :=
  ⟨h2.mem.trans h1.mem, fun i p hp => h1.task i p (h2.task i p hp),
    fun i p hp => h1.cred i p (h2.cred i p hp)⟩

theorem Shrinks_emit (s : State) (e : Event) : Shrinks s (s.emit e) :=
  ⟨rfl, fun _ _ hp => hp, fun _ _ hp => hp⟩

theorem Shrinks_del (s : State) (p : Ptr) : Shrinks s (ccs_del_security s p) := by
  unfold ccs_del_security list_del_rcu
  split_ifs
  · exact Shrinks_refl s
  · exact ⟨rfl, fun i q hq => (List.mem_filter.mp hq).1, fun i q hq => (List.mem_filter.mp hq).1⟩

theorem Shrinks_gc (h : Host) (trylock : Bool) (s : State) :
    Shrinks s (ccs_task_security_gc h trylock s) := by
  have hsweep : ∀ s0 : State, Shrinks s0 (gc_sweep h trylock s0) := by
    intro s0
    cases trylock
    · exact Shrinks_refl s0
    · obtain ⟨hf, ht, hc, _⟩ := gc_sweep_spec h s0
      refine ⟨hf.mem, ?_, ?_⟩
      · intro i p hp
        rw [ht i] at hp
        exact (List.mem_filter.mp hp).1
      · intro i p hp
        rw [hc i] at hp
        exact (List.mem_filter.mp hp).1
  have hinc : Shrinks s { s with gc_counter := s.gc_counter + 1 } :=
    ⟨rfl, fun _ _ hp => hp, fun _ _ hp => hp⟩
  unfold ccs_task_security_gc
  by_cases hc : s.ccs_in_execve_tasks = 0
  · rw [if_pos hc]
    dsimp only
    by_cases hg : s.gc_counter + 1 < 1024
    · rw [if_pos hg]
      exact hinc
    · rw [if_neg hg]
      exact Shrinks_trans _ _ _ hinc (hsweep _)
  · rw [if_neg hc]
    exact hsweep s

theorem Shrinks_rcu_free (h : Host) (s : State) (p : Ptr) : Shrinks s (ccs_rcu_free h s p) := by
  unfold ccs_rcu_free
  dsimp only
  refine ⟨?_, ?_, ?_⟩
  · split_ifs <;> rfl
  · intro i q hq
    split_ifs at hq <;> exact hq
  · intro i q hq
    split_ifs at hq <;> exact hq

theorem clear_execve_current_cases (h : Host) (ret : Int) (ptr : Ptr) (s : State)
    (hl : task_lookup h s h.current = some ptr) :
    ccs_clear_execve h ret ptr s = s ∨
    (ptr ≠ ccs_default_security ∧ ptr ≠ ccs_oom_security ∧ (s.mem ptr).ee ≠ NULL ∧
      ccs_clear_execve h ret ptr s = reconciled h ret ptr s) := by
  by_cases hs : ptr = ccs_default_security ∨ ptr = ccs_oom_security
  · exact Or.inl (clear_execve_dummy h ret ptr s hs)
  · by_cases he : (s.mem ptr).ee = NULL
    · exact Or.inl (clear_execve_noee h ret ptr s he)
    · right
      refine ⟨fun hc => hs (Or.inl hc), fun hc => hs (Or.inr hc), he, ?_⟩
      exact clear_execve_current h ret ptr s hl hs he

/-- The four outcomes of a lookup of the running task. -/
theorem find_current_cases (h : Host) (kz : Ptr) (s : State) :
    (∃ ptr, task_lookup h s h.current = some ptr ∧
      ccs_find_task_security h kz s h.current = (s, ptr)) ∨
    (∃ ptr, task_lookup h s h.current = some ptr ∧
      ptr ≠ ccs_default_security ∧ ptr ≠ ccs_oom_security ∧ (s.mem ptr).ee ≠ NULL ∧
      ccs_find_task_security h kz s h.current = (reconciled h (-1) ptr s, ptr)) ∨
    (task_lookup h s h.current = none ∧ kz = NULL ∧
      ccs_find_task_security h kz s h.current
        = ((s.emit (Event.printk_oom h.current)).emit (Event.send_sig_SIGKILL h.current),
            ccs_oom_security)) ∨
    (task_lookup h s h.current = none ∧ kz ≠ NULL ∧
      ccs_find_task_security h kz s h.current = (allocated h kz s, kz)) := by
  cases hl : task_lookup h s h.current with
  | some ptr =>
    rw [find_task_found h kz s _ ptr hl]
    rcases clear_execve_current_cases h (-1) ptr s hl with hc | ⟨h1, h2, h3, hc⟩
    · left
      refine ⟨ptr, rfl, ?_⟩
      rw [hc]
      split_ifs <;> rfl
    · by_cases hcond : (if h.KERNEL_LT_2_6_31 then
          (if h.current = h.current ∧ (s.mem ptr).cred ≠ NULL ∧
              h.cred_usage (s.mem ptr).cred = 1 then true else false)
          else (if h.current = h.current ∧ in_execve_flag (s.mem ptr).ccs_flags = true ∧
              h.in_execve h.current = false then true else false)) = true
      · right; left
        refine ⟨ptr, rfl, h1, h2, h3, ?_⟩
        rw [hc]
        split_ifs at hcond ⊢ <;> rfl
      · left
        refine ⟨ptr, rfl, ?_⟩
        split_ifs at hcond ⊢ <;> first | rfl | exact absurd rfl hcond
  | none =>
    rw [find_task_miss h kz s _ hl]
    by_cases hk : kz = NULL
    · right; right; left
      simp [hk]
    · right; right; right
      refine ⟨rfl, hk, ?_⟩
      simp only [ne_eq, not_true_eq_false, if_false, hk]
      congr 1
      unfold allocated ccs_add_task_security State.store State.emit
      simp only [State.mk.injEq, and_true, true_and]
      funext q
      split_ifs <;> rfl

theorem find_other (h : Host) (kz : Ptr) (s : State) (task : Ptr) (hne : task ≠ h.current) :
    (ccs_find_task_security h kz s task).1 = s := by
  cases hl : task_lookup h s task with
  | none =>
    rw [find_task_miss h kz s _ hl]
    simp [hne]
  | some ptr =>
    rw [find_task_found h kz s _ ptr hl]
    simp [hne]

theorem reconciled_lookup (h : Host) (ret : Int) (ptr : Ptr) (s : State) (t : Ptr) :
    task_lookup h (reconciled h ret ptr s) t = task_lookup h s t := by
  apply task_lookup_congr
  · rfl
  · intro q
    by_cases hq : q = ptr <;> simp [reconciled, hq]

theorem allocated_lookup (h : Host) (kz : Ptr) (s : State) :
    task_lookup h (allocated h kz s) h.current = some kz := by
  unfold task_lookup allocated
  simp

/-- After a lookup of the running task that did not fail, the record returned
is the one a new scan finds. -/
theorem find_current_lookup (h : Host) (kz : Ptr) (s : State)
    (hr : (ccs_find_task_security h kz s h.current).2 ≠ ccs_oom_security) :
    task_lookup h (ccs_find_task_security h kz s h.current).1 h.current
      = some (ccs_find_task_security h kz s h.current).2 := by
  rcases find_current_cases h kz s with ⟨ptr, hl, he⟩ | ⟨ptr, hl, _, _, _, he⟩ | ⟨_, _, he⟩ |
    ⟨_, _, he⟩
  · rw [he]; exact hl
  · rw [he]
    dsimp only
    rw [reconciled_lookup]
    exact hl
  · rw [he] at hr
    exact absurd rfl hr
  · rw [he]
    exact allocated_lookup h kz s

theorem Grows_refl (s : State) : Grows [] s s :=
  ⟨fun i _ hp => Or.inl ⟨i, hp⟩, fun i _ hp => Or.inl ⟨i, hp⟩⟩

theorem Grows_of_lists (A : List Ptr) (s t : State)
    (ht : t.ccs_task_security_list = s.ccs_task_security_list)
    (hc : t.ccs_cred_security_list = s.ccs_cred_security_list) : Grows A s t :=
  ⟨fun i _ hp => Or.inl ⟨i, ht ▸ hp⟩, fun i _ hp => Or.inl ⟨i, hc ▸ hp⟩⟩

theorem Grows_of_shrinks (A : List Ptr) (s t : State) (hsh : Shrinks s t) : Grows A s t :=
  ⟨fun i p hp => Or.inl ⟨i, hsh.task i p hp⟩, fun i p hp => Or.inl ⟨i, hsh.cred i p hp⟩⟩

theorem Grows_trans (A B C : List Ptr) (s t u : State) (h1 : Grows A s t) (h2 : Grows B t u)
    (hA : ∀ p ∈ A, p ∈ C) (hB : ∀ p ∈ B, p ∈ C) : Grows C s u := by
  constructor
  · intro i p hp
    rcases h2.task i p hp with ⟨j, hj⟩ | hb
    · rcases h1.task j p hj with hk | ha
      · exact Or.inl hk
      · exact Or.inr (hA p ha)
    · exact Or.inr (hB p hb)
  · intro i p hp
    rcases h2.cred i p hp with ⟨j, hj⟩ | hb
    · rcases h1.cred j p hj with hk | ha
      · exact Or.inl hk
      · exact Or.inr (hA p ha)
    · exact Or.inr (hB p hb)

theorem Grows_mono (A C : List Ptr) (s t : State) (h1 : Grows A s t) (hA : ∀ p ∈ A, p ∈ C) :
    Grows C s t :=
  Grows_trans A [] C s t t h1 (Grows_refl t) hA (fun _ hp => absurd hp (List.not_mem_nil _))

theorem Fresh_grows (A : List Ptr) (s t : State) (k : Ptr) (hg : Grows A s t)
    (hf : Fresh s k) (hk : k ∉ A) : Fresh t k := by
  intro i
  constructor
  · intro hc
    rcases hg.task i k hc with ⟨j, hj⟩ | ha
    · exact (hf j).1 hj
    · exact hk ha
  · intro hc
    rcases hg.cred i k hc with ⟨j, hj⟩ | ha
    · exact (hf j).2 hj
    · exact hk ha

theorem Grows_find (h : Host) (kz : Ptr) (s : State) (task : Ptr) :
    Grows [kz] s (ccs_find_task_security h kz s task).1 := by
  by_cases hne : task = h.current
  · subst hne
    rcases find_current_cases h kz s with ⟨ptr, _, he⟩ | ⟨ptr, _, _, _, _, he⟩ | ⟨_, _, he⟩ |
      ⟨_, _, he⟩
    · rw [he]; exact Grows_of_lists _ _ _ rfl rfl
    · rw [he]; exact Grows_of_lists _ _ _ rfl rfl
    · rw [he]; exact Grows_of_lists _ _ _ rfl rfl
    · rw [he]
      constructor
      · intro i p hp
        simp only [allocated] at hp
        split_ifs at hp with hi
        · rcases List.mem_cons.mp hp with hq | hq
          · exact Or.inr (by simp [hq])
          · exact Or.inl ⟨i, hq⟩
        · exact Or.inl ⟨i, hp⟩
      · intro i p hp
        exact Or.inl ⟨i, hp⟩
  · rw [find_other h kz s task hne]
    exact Grows_of_lists _ _ _ rfl rfl

theorem Partitioned_sep (s : State) (hs : Partitioned s) (p : Ptr)
    (hp : ∃ i, p ∈ s.ccs_task_security_list i) : ¬ ∃ j, p ∈ s.ccs_cred_security_list j := by
  rintro ⟨j, hj⟩
  obtain ⟨i, hi⟩ := hp
  exact hs.1 i p hi (hs.2 j p hj).1

theorem Partitioned_congr (s t : State) (hm : t.mem = s.mem)
    (ht : t.ccs_task_security_list = s.ccs_task_security_list)
    (hc : t.ccs_cred_security_list = s.ccs_cred_security_list) (hs : Partitioned s) :
    Partitioned t :=
  ⟨TaskAll_congr _ s t hm ht hs.1, CredAll_congr _ s t hm hc hs.2⟩

theorem Partitioned_shrinks (s t : State) (hsh : Shrinks s t) (hs : Partitioned s) :
    Partitioned t :=
  ⟨TaskAll_shrinks _ s t hsh hs.1, CredAll_shrinks _ s t hsh hs.2⟩

/-- Writing to a record without touching `pid` and `cred`. -/
theorem Partitioned_store_same (s : State) (p : Ptr) (r : ccs_security) (hs : Partitioned s)
    (hpid : r.pid = (s.mem p).pid) (hcred : r.cred = (s.mem p).cred) :
    Partitioned (s.store p r) := by
  constructor
  · apply TaskAll_store _ _ _ _ hs.1
    rintro ⟨i, hi⟩
    rw [hpid]
    exact hs.1 i p hi
  · apply CredAll_store _ _ _ _ hs.2
    rintro ⟨i, hi⟩
    rw [hpid, hcred]
    exact hs.2 i p hi

/-- Writing to a record of the task table without touching `pid`. -/
theorem Partitioned_store_task (s : State) (p : Ptr) (r : ccs_security) (hs : Partitioned s)
    (hp : ∃ i, p ∈ s.ccs_task_security_list i) (hpid : r.pid = (s.mem p).pid) :
    Partitioned (s.store p r) := by
  constructor
  · apply TaskAll_store _ _ _ _ hs.1
    rintro ⟨i, hi⟩
    rw [hpid]
    exact hs.1 i p hi
  · apply CredAll_store _ _ _ _ hs.2
    intro hc
    exact absurd hc (Partitioned_sep s hs p hp)

theorem Partitioned_reconciled (h : Host) (ret : Int) (ptr : Ptr) (s : State)
    (hs : Partitioned s) (hp : ∃ i, ptr ∈ s.ccs_task_security_list i) :
    Partitioned (reconciled h ret ptr s) :=
  Partitioned_congr
    (s.store ptr
      { pid := (s.mem ptr).pid,
        cred := if h.KERNEL_LT_2_6_31 then NULL else (s.mem ptr).cred,
        ccs_domain_info :=
          if ret < 0 then (s.ee_mem (s.mem ptr).ee).previous_domain
          else (s.mem ptr).ccs_domain_info,
        ccs_flags := clear_in_execve_flag (s.mem ptr).ccs_flags,
        ee := NULL }) _ rfl rfl rfl
    (Partitioned_store_task s ptr _ hs hp rfl)

theorem Partitioned_allocated (h : Host) (kz : Ptr) (s : State) (hs : Partitioned s)
    (hf : Fresh s kz) (hpid : h.task_pid h.current ≠ NULL) :
    Partitioned (allocated h kz s) := by
  constructor
  · intro i p hp
    simp only [allocated] at hp ⊢
    by_cases hq : p = kz
    · simp [hq, hpid]
    · rw [if_neg hq]
      split_ifs at hp with hi
      · rcases List.mem_cons.mp hp with hc | hc
        · exact absurd hc hq
        · exact hs.1 i p hc
      · exact hs.1 i p hp
  · intro i p hp
    simp only [allocated] at hp ⊢
    have hq : p ≠ kz := fun hc => (hf i).2 (hc ▸ hp)
    rw [if_neg hq]
    exact hs.2 i p hp

theorem Partitioned_find (h : Host) (kz : Ptr) (s : State) (task : Ptr) (hs : Partitioned s)
    (hf : kz = NULL ∨ Fresh s kz) (hpid : h.task_pid h.current ≠ NULL) :
    Partitioned (ccs_find_task_security h kz s task).1 := by
  by_cases hne : task = h.current
  · subst hne
    rcases find_current_cases h kz s with ⟨ptr, _, he⟩ | ⟨ptr, hl, _, _, _, he⟩ | ⟨_, _, he⟩ |
      ⟨_, hk, he⟩
    · rw [he]; exact hs
    · rw [he]
      exact Partitioned_reconciled h _ ptr s hs ⟨_, (task_lookup_some h s _ ptr hl).1⟩
    · rw [he]; exact Partitioned_congr s _ rfl rfl rfl hs
    · rw [he]
      exact Partitioned_allocated h kz s hs (hf.resolve_left hk) hpid
  · rw [find_other h kz s task hne]
    exact hs

theorem copy_cred_eq (h : Host) (kz : Ptr) (s : State) (new old : Ptr) :
    ccs_copy_cred_security h kz s new old =
      if kz = NULL then (s, -ENOMEM)
      else (cred_linked h kz { s.mem (ccs_find_cred_security h s old) with cred := new } s, 0) := by
  unfold ccs_copy_cred_security
  dsimp only
  split_ifs
  · rfl
  · congr 1
    unfold cred_linked ccs_add_cred_security State.store
    simp only [if_true, State.mk.injEq, and_true, true_and]
    funext q
    split_ifs <;> rfl

theorem alloc_cred_eq (h : Host) (kz : Ptr) (s : State) (cred : Ptr) :
    ccs_alloc_cred_security h kz s cred =
      if kz = NULL then (s, -ENOMEM)
      else (cred_linked h kz { zeroed with cred := cred } s, 0) := by
  unfold ccs_alloc_cred_security
  dsimp only
  split_ifs
  · rfl
  · congr 1
    unfold cred_linked ccs_add_cred_security State.store
    simp only [if_true, State.mk.injEq, and_true, true_and]
    funext q
    split_ifs <;> rfl

theorem Grows_cred_linked (h : Host) (kz : Ptr) (r : ccs_security) (s : State) :
    Grows [kz] s (cred_linked h kz r s) := by
  constructor
  · intro i p hp
    exact Or.inl ⟨i, hp⟩
  · intro i p hp
    simp only [cred_linked] at hp
    split_ifs at hp with hi
    · rcases List.mem_cons.mp hp with hq | hq
      · exact Or.inr (by simp [hq])
      · exact Or.inl ⟨i, hq⟩
    · exact Or.inl ⟨i, hp⟩

theorem Partitioned_cred_linked (h : Host) (kz : Ptr) (r : ccs_security) (s : State)
    (hs : Partitioned s) (hf : Fresh s kz) (hcred : r.cred ≠ NULL) :
    Partitioned (cred_linked h kz r s) := by
  constructor
  · intro i p hp
    simp only [cred_linked] at hp ⊢
    have hq : p ≠ kz := fun hc => (hf i).1 (hc ▸ hp)
    rw [if_neg hq]
    exact hs.1 i p hp
  · intro i p hp
    simp only [cred_linked] at hp ⊢
    by_cases hq : p = kz
    · simp [hq, hcred]
    · rw [if_neg hq]
      split_ifs at hp with hi
      · rcases List.mem_cons.mp hp with hc | hc
        · exact absurd hc hq
        · exact hs.2 i p hc
      · exact hs.2 i p hp

theorem Grows_copy_cred (h : Host) (kz : Ptr) (s : State) (new old : Ptr) :
    Grows [kz] s (ccs_copy_cred_security h kz s new old).1 := by
  rw [copy_cred_eq]
  split_ifs
  · exact Grows_of_lists _ _ _ rfl rfl
  · exact Grows_cred_linked h kz _ s

/-- After the copy, `ccs_cred_prepare` only unlinks. -/
theorem cred_prepare_tail (h : Host) (kz1 kz2 : Ptr) (trylock : Bool) (rc_orig : Int)
    (gfp_kernel : Bool) (s : State) (new old : Ptr) :
    Shrinks
      (ccs_copy_cred_security h kz2
        (if h.KERNEL_LT_2_6_31 = false ∧ gfp_kernel = true then
          (ccs_find_task_security h kz1 s h.current).1 else s) new old).1
      (ccs_cred_prepare h kz1 kz2 trylock rc_orig gfp_kernel s new old).1 := by
  unfold ccs_cred_prepare
  dsimp only
  by_cases hrc : (ccs_copy_cred_security h kz2
      (if h.KERNEL_LT_2_6_31 = false ∧ gfp_kernel = true then
        (ccs_find_task_security h kz1 s h.current).1 else s) new old).2 ≠ 0
  · rw [if_pos hrc]
    exact Shrinks_refl _
  · rw [if_neg hrc]
    have hgc : ∀ x : State,
        Shrinks x (if gfp_kernel = true then ccs_task_security_gc h trylock x else x) := by
      intro x
      split_ifs
      · exact Shrinks_gc h trylock x
      · exact Shrinks_refl x
    by_cases ho : rc_orig ≠ 0
    · rw [if_pos ho]
      exact Shrinks_trans _ _ _ (Shrinks_trans _ _ _ (hgc _) (Shrinks_emit _ _))
        (Shrinks_del _ _)
    · rw [if_neg ho]
      exact Shrinks_trans _ _ _ (hgc _) (Shrinks_emit _ _)

theorem Grows_cred_prepare (h : Host) (kz1 kz2 : Ptr) (trylock : Bool) (rc_orig : Int)
    (gfp_kernel : Bool) (s : State) (new old : Ptr) :
    Grows [kz1, kz2] s
      (ccs_cred_prepare h kz1 kz2 trylock rc_orig gfp_kernel s new old).1 := by
  have hg1 : Grows [kz1] s (if h.KERNEL_LT_2_6_31 = false ∧ gfp_kernel = true then
      (ccs_find_task_security h kz1 s h.current).1 else s) := by
    split_ifs
    · exact Grows_find h kz1 s _
    · exact Grows_of_lists _ _ _ rfl rfl
  have hg2 := Grows_trans [kz1] [kz2] [kz1, kz2] _ _ _ hg1
    (Grows_copy_cred h kz2 _ new old) (by simp) (by simp)
  exact Grows_trans _ [] _ _ _ _ hg2
    (Grows_of_shrinks _ _ _ (cred_prepare_tail h kz1 kz2 trylock rc_orig gfp_kernel s new old))
    (fun _ hp => hp) (by simp)

theorem Partitioned_cred_prepare (h : Host) (kz1 kz2 : Ptr) (trylock : Bool) (rc_orig : Int)
    (gfp_kernel : Bool) (s : State) (new old : Ptr) (hs : Partitioned s)
    (hf1 : kz1 = NULL ∨ Fresh s kz1) (hf2 : kz2 = NULL ∨ (Fresh s kz2 ∧ kz2 ≠ kz1))
    (hpid : h.task_pid h.current ≠ NULL) (hnew : new ≠ NULL) :
    Partitioned (ccs_cred_prepare h kz1 kz2 trylock rc_orig gfp_kernel s new old).1 := by
  have hg1 : Grows [kz1] s (if h.KERNEL_LT_2_6_31 = false ∧ gfp_kernel = true then
      (ccs_find_task_security h kz1 s h.current).1 else s) := by
    split_ifs
    · exact Grows_find h kz1 s _
    · exact Grows_of_lists _ _ _ rfl rfl
  have hp1 : Partitioned (if h.KERNEL_LT_2_6_31 = false ∧ gfp_kernel = true then
      (ccs_find_task_security h kz1 s h.current).1 else s) := by
    split_ifs
    · exact Partitioned_find h kz1 s _ hs hf1 hpid
    · exact hs
  have htail := cred_prepare_tail h kz1 kz2 trylock rc_orig gfp_kernel s new old
  generalize (if h.KERNEL_LT_2_6_31 = false ∧ gfp_kernel = true then
      (ccs_find_task_security h kz1 s h.current).1 else s) = s1 at hg1 hp1 htail
  apply Partitioned_shrinks _ _ htail
  rw [copy_cred_eq]
  by_cases hk : kz2 = NULL
  · rw [if_pos hk]
    exact hp1
  · rw [if_neg hk]
    have hf : Fresh s1 kz2 := by
      apply Fresh_grows [kz1] s s1 kz2 hg1 (hf2.resolve_left hk).1
      simpa using (hf2.resolve_left hk).2
    exact Partitioned_cred_linked h kz2 _ s1 hp1 hf hnew

theorem Shrinks_cred_free (h : Host) (s : State) (cred : Ptr) :
    Shrinks s (ccs_cred_free h s cred) :=
  Shrinks_trans _ _ _ (Shrinks_emit _ _) (Shrinks_del _ _)

/-- After the allocation, `ccs_cred_alloc_blank` only unlinks. -/
theorem cred_alloc_blank_tail (h : Host) (kz : Ptr) (rc_orig : Int) (s : State) (new : Ptr) :
    Shrinks (ccs_alloc_cred_security h kz s new).1 (ccs_cred_alloc_blank h kz rc_orig s new).1 := by
  unfold ccs_cred_alloc_blank
  dsimp only
  by_cases hrc : (ccs_alloc_cred_security h kz s new).2 ≠ 0
  · rw [if_pos hrc]
    exact Shrinks_refl _
  · rw [if_neg hrc]
    by_cases ho : rc_orig ≠ 0
    · rw [if_pos ho]
      exact Shrinks_trans _ _ _ (Shrinks_emit _ _) (Shrinks_del _ _)
    · rw [if_neg ho]
      exact Shrinks_emit _ _

theorem Partitioned_cred_alloc_blank (h : Host) (kz : Ptr) (rc_orig : Int) (s : State)
    (new : Ptr) (hs : Partitioned s) (hf : kz = NULL ∨ Fresh s kz) (hnew : new ≠ NULL) :
    Partitioned (ccs_cred_alloc_blank h kz rc_orig s new).1 := by
  apply Partitioned_shrinks _ _ (cred_alloc_blank_tail h kz rc_orig s new)
  rw [alloc_cred_eq]
  by_cases hk : kz = NULL
  · rw [if_pos hk]
    exact hs
  · rw [if_neg hk]
    exact Partitioned_cred_linked h kz _ s hs (hf.resolve_left hk) hnew

theorem Partitioned_cred_transfer (h : Host) (s : State) (new old : Ptr)
    (hs : Partitioned s) : Partitioned (ccs_cred_transfer h s new old) := by
  unfold ccs_cred_transfer
  dsimp only
  split_ifs
  · exact Partitioned_congr s _ rfl rfl rfl hs
  · apply Partitioned_store_same
    · apply Partitioned_store_same
      · exact Partitioned_congr s _ rfl rfl rfl hs
      · rfl
      · rfl
    · rfl
    · rfl

theorem Partitioned_clear_current (h : Host) (ret : Int) (ptr : Ptr) (s : State)
    (hs : Partitioned s) (hl : task_lookup h s h.current = some ptr) :
    Partitioned (ccs_clear_execve h ret ptr s) := by
  rcases clear_execve_current_cases h ret ptr s hl with hc | ⟨_, _, _, hc⟩
  · rw [hc]; exact hs
  · rw [hc]
    exact Partitioned_reconciled h ret ptr s hs ⟨_, (task_lookup_some h s _ ptr hl).1⟩

theorem Partitioned_committing (h : Host) (kz : Ptr) (s : State) (bprm_cred : Ptr)
    (hs : Partitioned s) (hf : kz = NULL ∨ Fresh s kz)
    (hpid : h.task_pid h.current ≠ NULL) :
    Partitioned (ccs_bprm_committing_creds h kz s bprm_cred) := by
  have hs0 : Partitioned (s.emit (Event.original_hook "bprm_committing_creds")) :=
    Partitioned_congr s _ rfl rfl rfl hs
  have hp1 := Partitioned_find h kz _ h.current hs0 hf hpid
  unfold ccs_bprm_committing_creds ccs_current_security
  dsimp only
  by_cases hd : (ccs_find_task_security h kz
      (s.emit (Event.original_hook "bprm_committing_creds")) h.current).2 = ccs_default_security ∨
      (ccs_find_task_security h kz
      (s.emit (Event.original_hook "bprm_committing_creds")) h.current).2 = ccs_oom_security
  · rw [if_pos hd]
    exact hp1
  · rw [if_neg hd]
    have hl := find_current_lookup h kz _ (fun hc => hd (Or.inr hc))
    apply Partitioned_store_same
    · apply Partitioned_store_same
      · exact Partitioned_clear_current h 0 _ _ hp1 hl
      · rfl
      · rfl
    · rfl
    · rfl

/-- The invariant only looks at the buckets and at `pid` and `cred`. -/
theorem Partitioned_frame (s t : State) (hs : Partitioned s)
    (ht : t.ccs_task_security_list = s.ccs_task_security_list)
    (hc : t.ccs_cred_security_list = s.ccs_cred_security_list)
    (hpid : ∀ q, (t.mem q).pid = (s.mem q).pid)
    (hcred : ∀ q, (∃ i, q ∈ s.ccs_cred_security_list i) → (t.mem q).cred = (s.mem q).cred) :
    Partitioned t := by
  constructor
  · intro i p hp
    rw [ht] at hp
    rw [hpid]
    exact hs.1 i p hp
  · intro i p hp
    rw [hc] at hp
    rw [hpid, hcred p ⟨i, hp⟩]
    exact hs.2 i p hp

theorem bprm_check_eq (h : Host) (kz : Ptr) (start_rc : Int) (start_ee start_domain : Ptr)
    (rc_orig : Int) (s : State) (bprm_cred : Ptr) :
    ccs_bprm_check_security h kz start_rc start_ee start_domain rc_orig s bprm_cred =
      bprm_check_after h start_rc start_ee start_domain rc_orig
        (ccs_find_task_security h kz s h.current).2
        (ccs_find_task_security h kz s h.current).1 bprm_cred := rfl

theorem start_execve_frame (rc : Int) (ee domain sec : Ptr) (s1 : State) (bprm_cred : Ptr) :
    (ccs_start_execve rc ee domain sec s1 bprm_cred).1.ccs_task_security_list
      = s1.ccs_task_security_list ∧
    (ccs_start_execve rc ee domain sec s1 bprm_cred).1.ccs_cred_security_list
      = s1.ccs_cred_security_list ∧
    (∀ q, ((ccs_start_execve rc ee domain sec s1 bprm_cred).1.mem q).pid = (s1.mem q).pid) ∧
    (∀ q, q ≠ sec → (ccs_start_execve rc ee domain sec s1 bprm_cred).1.mem q = s1.mem q) := by
  unfold ccs_start_execve
  dsimp only
  by_cases he : ee = NULL
  · simp only [he, if_true]
    exact ⟨rfl, rfl, fun _ => rfl, fun _ _ => rfl⟩
  · simp only [he, if_false]
    refine ⟨rfl, rfl, ?_, ?_⟩
    · intro q
      by_cases hq : q = sec <;> simp [hq]
    · intro q hq
      simp [hq]

theorem bprm_check_after_frame (h : Host) (start_rc : Int) (start_ee start_domain : Ptr)
    (rc_orig : Int) (sec : Ptr) (s1 : State) (bprm_cred : Ptr) :
    (bprm_check_after h start_rc start_ee start_domain rc_orig sec s1
        bprm_cred).1.ccs_task_security_list = s1.ccs_task_security_list ∧
    (bprm_check_after h start_rc start_ee start_domain rc_orig sec s1
        bprm_cred).1.ccs_cred_security_list = s1.ccs_cred_security_list ∧
    (∀ q, ((bprm_check_after h start_rc start_ee start_domain rc_orig sec s1
        bprm_cred).1.mem q).pid = (s1.mem q).pid) ∧
    (∀ q, q ≠ sec → (bprm_check_after h start_rc start_ee start_domain rc_orig sec s1
        bprm_cred).1.mem q = s1.mem q) := by
  obtain ⟨h1, h2, h3, h4⟩ := start_execve_frame start_rc start_ee start_domain sec s1 bprm_cred
  unfold bprm_check_after
  dsimp only
  generalize ccs_start_execve start_rc start_ee start_domain sec s1 bprm_cred = r2
    at h1 h2 h3 h4
  by_cases hd : sec = ccs_default_security ∨ sec = ccs_oom_security
  · rw [if_pos hd]
    exact ⟨rfl, rfl, fun _ => rfl, fun _ _ => rfl⟩
  · rw [if_neg hd]
    by_cases he : (s1.mem sec).ee = NULL
    · rw [if_pos he]
      have hs3 : ∀ s3 : State,
          s3 = (if (r2.1.mem sec).ee ≠ NULL then
            { (if h.KERNEL_LT_2_6_31 then
                (r2.1.emit (Event.get_cred bprm_cred)).store sec
                  { r2.1.mem sec with cred := bprm_cred }
              else r2.1) with
              ccs_in_execve_tasks :=
                (if h.KERNEL_LT_2_6_31 then
                  (r2.1.emit (Event.get_cred bprm_cred)).store sec
                    { r2.1.mem sec with cred := bprm_cred }
                else r2.1).ccs_in_execve_tasks + 1 }
          else r2.1) →
          s3.ccs_task_security_list = s1.ccs_task_security_list ∧
          s3.ccs_cred_security_list = s1.ccs_cred_security_list ∧
          (∀ q, (s3.mem q).pid = (s1.mem q).pid) ∧
          (∀ q, q ≠ sec → s3.mem q = s1.mem q) := by
        intro s3 hs3
        rw [hs3]
        by_cases hee : (r2.1.mem sec).ee ≠ NULL
        · rw [if_pos hee]
          cases h.KERNEL_LT_2_6_31
          · exact ⟨h1, h2, h3, h4⟩
          · refine ⟨h1, h2, ?_, ?_⟩
            · intro q
              by_cases hq : q = sec
              · simp [hq, h3]
              · simp [hq, h3]
            · intro q hq
              simp [hq, h4 q hq]
        · rw [if_neg hee]
          exact ⟨h1, h2, h3, h4⟩
      by_cases hrc : r2.2 ≠ 0
      · rw [if_pos hrc]
        exact hs3 _ rfl
      · rw [if_neg hrc]
        obtain ⟨a, b, c, d⟩ := hs3 _ rfl
        exact ⟨a, b, c, d⟩
    · rw [if_neg he]
      exact ⟨rfl, rfl, fun _ => rfl, fun _ _ => rfl⟩

theorem Partitioned_bprm_check (h : Host) (kz : Ptr) (start_rc : Int)
    (start_ee start_domain : Ptr) (rc_orig : Int) (s : State) (bprm_cred : Ptr)
    (hs : Partitioned s) (hf : kz = NULL ∨ Fresh s kz)
    (hpid : h.task_pid h.current ≠ NULL) :
    Partitioned
      (ccs_bprm_check_security h kz start_rc start_ee start_domain rc_orig s bprm_cred).1 := by
  have hp1 := Partitioned_find h kz s h.current hs hf hpid
  rw [bprm_check_eq]
  by_cases hd : (ccs_find_task_security h kz s h.current).2 = ccs_oom_security
  · unfold bprm_check_after
    rw [if_pos (Or.inr hd)]
    exact hp1
  · have hl := find_current_lookup h kz s hd
    have hin := (task_lookup_some h _ _ _ hl).1
    obtain ⟨h1, h2, h3, h4⟩ := bprm_check_after_frame h start_rc start_ee start_domain rc_orig
      (ccs_find_task_security h kz s h.current).2
      (ccs_find_task_security h kz s h.current).1 bprm_cred
    apply Partitioned_frame _ _ hp1 h1 h2 h3
    intro q hq
    have hne : q ≠ (ccs_find_task_security h kz s h.current).2 := by
      intro hc
      exact Partitioned_sep _ hp1 _ ⟨_, hin⟩ (hc ▸ hq)
    rw [h4 q hne]

theorem Grows_prepare_creds (h : Host) (new kz1 kz2 : Ptr) (trylock : Bool) (rc_orig : Int)
    (s : State) : Grows [kz1, kz2] s (prepare_creds h new kz1 kz2 trylock rc_orig s).1 := by
  unfold prepare_creds
  dsimp only
  by_cases hn : new = NULL
  · rw [if_pos hn]
    exact Grows_of_lists _ _ _ rfl rfl
  · rw [if_neg hn]
    have hg := Grows_cred_prepare h kz1 kz2 trylock rc_orig true s new (h.task_cred h.current)
    split_ifs
    · exact Grows_trans _ [] _ _ _ _ hg (Grows_of_shrinks _ _ _ (Shrinks_emit _ _))
        (fun _ hp => hp) (by simp)
    · exact hg

theorem Partitioned_prepare_creds (h : Host) (new kz1 kz2 : Ptr) (trylock : Bool)
    (rc_orig : Int) (s : State) (hs : Partitioned s)
    (hf1 : kz1 = NULL ∨ Fresh s kz1) (hf2 : kz2 = NULL ∨ (Fresh s kz2 ∧ kz2 ≠ kz1))
    (hpid : h.task_pid h.current ≠ NULL) :
    Partitioned (prepare_creds h new kz1 kz2 trylock rc_orig s).1 := by
  unfold prepare_creds
  dsimp only
  by_cases hn : new = NULL
  · rw [if_pos hn]
    exact hs
  · rw [if_neg hn]
    have hp := Partitioned_cred_prepare h kz1 kz2 trylock rc_orig true s new
      (h.task_cred h.current) hs hf1 hf2 hpid hn
    split_ifs
    · exact Partitioned_congr _ _ rfl rfl rfl hp
    · exact hp

theorem task_create_eq (h : Host) (new kz1 kz2 : Ptr) (trylock : Bool) (rc_prepare : Int)
    (rc_orig : Int) (kz3 : Ptr) (s : State) :
    ccs_task_create h new kz1 kz2 trylock rc_prepare rc_orig kz3 s =
      task_create_after h rc_orig kz3
        (prepare_creds h new kz1 kz2 trylock rc_prepare s).2
        (prepare_creds h new kz1 kz2 trylock rc_prepare s).1 := rfl

theorem Partitioned_task_create_after (h : Host) (rc_orig : Int) (kz3 : Ptr) (cred : Ptr)
    (s0 : State) (hs : Partitioned s0) (hf : kz3 = NULL ∨ Fresh s0 kz3)
    (hpid : h.task_pid h.current ≠ NULL) :
    Partitioned (task_create_after h rc_orig kz3 cred s0).1 := by
  unfold task_create_after
  dsimp only
  by_cases hc : cred = NULL
  · rw [if_pos hc]
    exact hs
  · rw [if_neg hc]
    by_cases ho : rc_orig ≠ 0
    · rw [if_pos ho]
      exact Partitioned_congr s0 _ rfl rfl rfl hs
    · rw [if_neg ho]
      have hp2 : Partitioned (ccs_find_task_security h kz3
          (s0.emit (Event.original_hook "task_create")) h.current).1 :=
        Partitioned_find h kz3 _ _ (Partitioned_congr s0 _ rfl rfl rfl hs) hf hpid
      generalize ccs_find_task_security h kz3
        (s0.emit (Event.original_hook "task_create")) h.current = r2 at hp2 ⊢
      generalize ccs_find_cred_security h r2.1 cred = nw
      refine Partitioned_frame _ _ hp2 ?_ ?_ ?_ ?_
      · rfl
      · rfl
      · intro q
        by_cases hq : q = nw <;> simp [hq]
      · intro q _
        by_cases hq : q = nw <;> simp [hq]

theorem Partitioned_task_create (h : Host) (new kz1 kz2 : Ptr) (trylock : Bool)
    (rc_prepare : Int) (rc_orig : Int) (kz3 : Ptr) (s : State) (hs : Partitioned s)
    (hf1 : kz1 = NULL ∨ Fresh s kz1) (hf2 : kz2 = NULL ∨ (Fresh s kz2 ∧ kz2 ≠ kz1))
    (hf3 : kz3 = NULL ∨ (Fresh s kz3 ∧ kz3 ≠ kz1 ∧ kz3 ≠ kz2))
    (hpid : h.task_pid h.current ≠ NULL) :
    Partitioned (ccs_task_create h new kz1 kz2 trylock rc_prepare rc_orig kz3 s).1 := by
  rw [task_create_eq]
  apply Partitioned_task_create_after h rc_orig kz3 _ _
    (Partitioned_prepare_creds h new kz1 kz2 trylock rc_prepare s hs hf1 hf2 hpid) _ hpid
  rcases hf3 with hf3 | ⟨hf3, hne1, hne2⟩
  · exact Or.inl hf3
  · right
    apply Fresh_grows [kz1, kz2] s _ kz3 (Grows_prepare_creds h new kz1 kz2 trylock rc_prepare s)
      hf3
    simp [hne1, hne2]

/-- C9. The two tables of `lsm-2.6.29.c` partition the records by the kind of
their key.  `Partitioned` says: every record linked on the task table has
`pid != NULL`, every record linked on the credential table has `pid == NULL`
and `cred != NULL`.  It holds after `ccs_init`, and every operation preserves
it, given that the running task has a `struct pid`, that credential handles
passed by the host are not `NULL`, and that what `kzalloc` returns is not
linked on a table (and differs from what an earlier `kzalloc` of the same
operation returned). -/
theorem C9_tables_partition_records :
    Partitioned init ∧
    (∀ (h : Host) (kz : Ptr) (s : State) (task : Ptr),
      Partitioned s → (kz = NULL ∨ Fresh s kz) → h.task_pid h.current ≠ NULL →
      Partitioned (ccs_find_task_security h kz s task).1) ∧
    (∀ (h : Host) (new kz1 kz2 : Ptr) (trylock : Bool) (rc_prepare rc_orig : Int) (kz3 : Ptr)
      (s : State),
      Partitioned s → (kz1 = NULL ∨ Fresh s kz1) → (kz2 = NULL ∨ (Fresh s kz2 ∧ kz2 ≠ kz1)) →
      (kz3 = NULL ∨ (Fresh s kz3 ∧ kz3 ≠ kz1 ∧ kz3 ≠ kz2)) → h.task_pid h.current ≠ NULL →
      Partitioned (ccs_task_create h new kz1 kz2 trylock rc_prepare rc_orig kz3 s).1) ∧
    (∀ (h : Host) (kz1 kz2 : Ptr) (trylock : Bool) (rc_orig : Int) (gfp_kernel : Bool)
      (s : State) (new old : Ptr),
      Partitioned s → (kz1 = NULL ∨ Fresh s kz1) → (kz2 = NULL ∨ (Fresh s kz2 ∧ kz2 ≠ kz1)) →
      h.task_pid h.current ≠ NULL → new ≠ NULL →
      Partitioned (ccs_cred_prepare h kz1 kz2 trylock rc_orig gfp_kernel s new old).1) ∧
    (∀ (h : Host) (s : State) (cred : Ptr),
      Partitioned s → Partitioned (ccs_cred_free h s cred)) ∧
    (∀ (h : Host) (kz : Ptr) (rc_orig : Int) (s : State) (new : Ptr),
      Partitioned s → (kz = NULL ∨ Fresh s kz) → new ≠ NULL →
      Partitioned (ccs_cred_alloc_blank h kz rc_orig s new).1) ∧
    (∀ (h : Host) (s : State) (new old : Ptr),
      Partitioned s → Partitioned (ccs_cred_transfer h s new old)) ∧
    (∀ (h : Host) (kz : Ptr) (start_rc : Int) (start_ee start_domain : Ptr) (rc_orig : Int)
      (s : State) (bprm_cred : Ptr),
      Partitioned s → (kz = NULL ∨ Fresh s kz) → h.task_pid h.current ≠ NULL →
      Partitioned
        (ccs_bprm_check_security h kz start_rc start_ee start_domain rc_orig s bprm_cred).1) ∧
    (∀ (h : Host) (kz : Ptr) (s : State) (bprm_cred : Ptr),
      Partitioned s → (kz = NULL ∨ Fresh s kz) → h.task_pid h.current ≠ NULL →
      Partitioned (ccs_bprm_committing_creds h kz s bprm_cred)) ∧
    (∀ (h : Host) (trylock : Bool) (s : State),
      Partitioned s → Partitioned (ccs_task_security_gc h trylock s)) ∧
    (∀ (s : State) (ptr : Ptr), Partitioned s → Partitioned (ccs_del_security s ptr)) ∧
    (∀ (h : Host) (s : State) (ptr : Ptr), Partitioned s → Partitioned (ccs_rcu_free h s ptr)) := by
  refine ⟨?_, ?_, ?_, ?_, ?_, ?_, ?_, ?_, ?_, ?_, ?_, ?_⟩
  · exact ⟨fun _ _ hp => absurd hp (List.not_mem_nil _),
      fun _ _ hp => absurd hp (List.not_mem_nil _)⟩
  · intro h kz s task hs hf hpid
    exact Partitioned_find h kz s task hs hf hpid
  · intro h new kz1 kz2 trylock rc_prepare rc_orig kz3 s hs hf1 hf2 hf3 hpid
    exact Partitioned_task_create h new kz1 kz2 trylock rc_prepare rc_orig kz3 s hs hf1 hf2 hf3
      hpid
  · intro h kz1 kz2 trylock rc_orig gfp_kernel s new old hs hf1 hf2 hpid hnew
    exact Partitioned_cred_prepare h kz1 kz2 trylock rc_orig gfp_kernel s new old hs hf1 hf2
      hpid hnew
  · intro h s cred hs
    exact Partitioned_shrinks _ _ (Shrinks_cred_free h s cred) hs
  · intro h kz rc_orig s new hs hf hnew
    exact Partitioned_cred_alloc_blank h kz rc_orig s new hs hf hnew
  · intro h s new old hs
    exact Partitioned_cred_transfer h s new old hs
  · intro h kz start_rc start_ee start_domain rc_orig s bprm_cred hs hf hpid
    exact Partitioned_bprm_check h kz start_rc start_ee start_domain rc_orig s bprm_cred hs hf
      hpid
  · intro h kz s bprm_cred hs hf hpid
    exact Partitioned_committing h kz s bprm_cred hs hf hpid
  · intro h trylock s hs
    exact Partitioned_shrinks _ _ (Shrinks_gc h trylock s) hs
  · intro s ptr hs
    exact Partitioned_shrinks _ _ (Shrinks_del s ptr) hs
  · intro h s ptr hs
    exact Partitioned_shrinks _ _ (Shrinks_rcu_free h s ptr) hs

/-- Witness of C9: the first lookup of task `100` and the `execve` that
follows keep the partition. -/
theorem C9_tables_partition_records_witness :
    (Partitioned init ∧ ((10 : Ptr) = NULL ∨ Fresh init 10) ∧
      demoHost.task_pid demoHost.current ≠ NULL) ∧
    Partitioned (ccs_find_task_security demoHost 10 init 100).1 ∧
    Partitioned (ccs_bprm_check_security execHost 0 0 50 7 0
      (ccs_find_task_security demoHost 10 init 100).1 2100).1 :=
  have hfresh : ∀ k, Fresh init k :=
    fun _ _ => ⟨List.not_mem_nil _, List.not_mem_nil _⟩
  ⟨⟨C9_tables_partition_records.1, Or.inr (hfresh 10), by decide⟩,
    C9_tables_partition_records.2.1 demoHost 10 init 100 C9_tables_partition_records.1
      (Or.inr (hfresh 10)) (by decide),
    C9_tables_partition_records.2.2.2.2.2.2.2.1 execHost 0 0 50 7 0 _ 2100
      (C9_tables_partition_records.2.1 demoHost 10 init 100 C9_tables_partition_records.1
        (Or.inr (hfresh 10)) (by decide))
      (Or.inl rfl) (by decide)⟩

end Lsm2629

/-! ## Uniqueness of keys: C2 -/

namespace Lsm2629

theorem TaskUnique_shrinks (s t : State) (hsh : Shrinks s t) (hs : TaskUnique s) :
    TaskUnique t := by
  intro i j p hp q hq
  rw [hsh.mem]
  exact hs i j p (hsh.task i p hp) q (hsh.task j q hq)

theorem CredUnique_shrinks (s t : State) (hsh : Shrinks s t) (hs : CredUnique s) :
    CredUnique t := by
  intro i j p hp q hq
  rw [hsh.mem]
  exact hs i j p (hsh.cred i p hp) q (hsh.cred j q hq)

/-- Uniqueness on the task table only looks at the buckets and at `pid`. -/
theorem TaskUnique_frame (s t : State) (hs : TaskUnique s)
    (ht : t.ccs_task_security_list = s.ccs_task_security_list)
    (hpid : ∀ q, (t.mem q).pid = (s.mem q).pid) : TaskUnique t := by
  intro i j p hp q hq
  rw [ht] at hp hq
  rw [hpid, hpid]
  exact hs i j p hp q hq

/-- Uniqueness on the credential table only looks at the buckets and at the
`cred` of the records linked there. -/
theorem CredUnique_frame (s t : State) (hs : CredUnique s)
    (hc : t.ccs_cred_security_list = s.ccs_cred_security_list)
    (hcred : ∀ q, (∃ i, q ∈ s.ccs_cred_security_list i) → (t.mem q).cred = (s.mem q).cred) :
    CredUnique t := by
  intro i j p hp q hq
  rw [hc] at hp hq
  rw [hcred p ⟨i, hp⟩, hcred q ⟨j, hq⟩]
  exact hs i j p hp q hq

theorem unique_reconciled (h : Host) (ret : Int) (ptr : Ptr) (s : State)
    (hs : TaskUnique s ∧ CredUnique s)
    (hsep : h.KERNEL_LT_2_6_31 = false ∨ ∀ j, ptr ∉ s.ccs_cred_security_list j) :
    TaskUnique (reconciled h ret ptr s) ∧ CredUnique (reconciled h ret ptr s) := by
  constructor
  · refine TaskUnique_frame s _ hs.1 ?_ ?_
    · rfl
    intro q
    by_cases hq : q = ptr <;> simp [reconciled, hq]
  · refine CredUnique_frame s _ hs.2 ?_ ?_
    · rfl
    rintro q ⟨i, hi⟩
    by_cases hq : q = ptr
    · subst hq
      rcases hsep with hk | hn
      · simp [reconciled, hk]
      · exact absurd hi (hn i)
    · simp [reconciled, hq]

theorem unique_allocated (h : Host) (kz : Ptr) (s : State)
    (hs : TaskUnique s ∧ CredUnique s) (hf : Fresh s kz)
    (hl : task_lookup h s h.current = none) (hplace : CurrentPlaced h s) :
    TaskUnique (allocated h kz s) ∧ CredUnique (allocated h kz s) := by
  have hold : ∀ i, ∀ p ∈ (allocated h kz s).ccs_task_security_list i,
      p = kz ∨ p ∈ s.ccs_task_security_list i := by
    intro i p hp
    simp only [allocated] at hp
    split_ifs at hp
    · rcases List.mem_cons.mp hp with hc | hc
      · exact Or.inl hc
      · exact Or.inr hc
    · exact Or.inr hp
  have hnokey : ∀ i, ∀ p ∈ s.ccs_task_security_list i, (s.mem p).pid ≠ h.task_pid h.current := by
    intro i p hp
    by_cases hi : i = h.hash_ptr h.current
    · subst hi
      exact task_lookup_none h s _ hl p hp
    · exact hplace i hi p hp
  have hmem_kz : ((allocated h kz s).mem kz).pid = h.task_pid h.current := by
    simp [allocated]
  have hmem_old : ∀ i, ∀ p ∈ s.ccs_task_security_list i, (allocated h kz s).mem p = s.mem p := by
    intro i p hp
    have : p ≠ kz := fun hc => (hf i).1 (hc ▸ hp)
    simp [allocated, this]
  constructor
  · intro i j p hp q hq hpq
    rcases hold i p hp with hp1 | hp1 <;> rcases hold j q hq with hq1 | hq1
    · rw [hp1, hq1]
    · rw [hp1, hmem_kz, hmem_old j q hq1] at hpq
      exact absurd hpq.symm (hnokey j q hq1)
    · rw [hq1, hmem_kz, hmem_old i p hp1] at hpq
      exact absurd hpq (hnokey i p hp1)
    · rw [hmem_old i p hp1, hmem_old j q hq1] at hpq
      exact hs.1 i j p hp1 q hq1 hpq
  · refine CredUnique_frame s _ hs.2 ?_ ?_
    · rfl
    rintro q ⟨i, hi⟩
    have : q ≠ kz := fun hc => (hf i).2 (hc ▸ hi)
    simp [allocated, this]

theorem unique_find (h : Host) (kz : Ptr) (s : State) (task : Ptr)
    (hs : TaskUnique s ∧ CredUnique s) (hf : kz = NULL ∨ Fresh s kz)
    (hsep : h.KERNEL_LT_2_6_31 = false ∨ Separate s)
    (hplace : task = h.current → CurrentPlaced h s) :
    TaskUnique (ccs_find_task_security h kz s task).1 ∧
    CredUnique (ccs_find_task_security h kz s task).1 := by
  by_cases hne : task = h.current
  · subst hne
    rcases find_current_cases h kz s with ⟨ptr, _, he⟩ | ⟨ptr, hl, _, _, _, he⟩ | ⟨_, _, he⟩ |
      ⟨hl, hk, he⟩
    · rw [he]; exact hs
    · rw [he]
      apply unique_reconciled h _ ptr s hs
      rcases hsep with hk | hsep
      · exact Or.inl hk
      · exact Or.inr (fun j => hsep _ j ptr (task_lookup_some h s _ ptr hl).1)
    · rw [he]
      exact ⟨TaskUnique_frame s _ hs.1 rfl (fun _ => rfl),
        CredUnique_frame s _ hs.2 rfl (fun _ _ => rfl)⟩
    · rw [he]
      exact unique_allocated h kz s hs (hf.resolve_left hk) hl (hplace rfl)
  · rw [find_other h kz s task hne]
    exact hs

theorem unique_cred_linked (h : Host) (kz : Ptr) (r : ccs_security) (s : State)
    (hs : TaskUnique s ∧ CredUnique s) (hf : Fresh s kz)
    (hnew : ∀ i, ∀ p ∈ s.ccs_cred_security_list i, (s.mem p).cred ≠ r.cred) :
    TaskUnique (cred_linked h kz r s) ∧ CredUnique (cred_linked h kz r s) := by
  have hold : ∀ i, ∀ p ∈ (cred_linked h kz r s).ccs_cred_security_list i,
      p = kz ∨ p ∈ s.ccs_cred_security_list i := by
    intro i p hp
    simp only [cred_linked] at hp
    split_ifs at hp
    · rcases List.mem_cons.mp hp with hc | hc
      · exact Or.inl hc
      · exact Or.inr hc
    · exact Or.inr hp
  have hmem_kz : ((cred_linked h kz r s).mem kz).cred = r.cred := by
    simp [cred_linked]
  have hmem_old : ∀ i, ∀ p ∈ s.ccs_cred_security_list i, (cred_linked h kz r s).mem p = s.mem p := by
    intro i p hp
    have : p ≠ kz := fun hc => (hf i).2 (hc ▸ hp)
    simp [cred_linked, this]
  constructor
  · intro i j p hp q hq
    have hp1 : p ≠ kz := fun hc => (hf i).1 (hc ▸ hp)
    have hq1 : q ≠ kz := fun hc => (hf j).1 (hc ▸ hq)
    simp only [cred_linked, if_neg hp1, if_neg hq1]
    exact hs.1 i j p hp q hq
  · intro i j p hp q hq hpq
    rcases hold i p hp with hp1 | hp1 <;> rcases hold j q hq with hq1 | hq1
    · rw [hp1, hq1]
    · rw [hp1, hmem_kz, hmem_old j q hq1] at hpq
      exact absurd hpq.symm (hnew j q hq1)
    · rw [hq1, hmem_kz, hmem_old i p hp1] at hpq
      exact absurd hpq (hnew i p hp1)
    · rw [hmem_old i p hp1, hmem_old j q hq1] at hpq
      exact hs.2 i j p hp1 q hq1 hpq

theorem unique_copy_cred (h : Host) (kz : Ptr) (s : State) (new old : Ptr)
    (hs : TaskUnique s ∧ CredUnique s) (hf : kz = NULL ∨ Fresh s kz)
    (hnew : ∀ i, ∀ p ∈ s.ccs_cred_security_list i, (s.mem p).cred ≠ new) :
    TaskUnique (ccs_copy_cred_security h kz s new old).1 ∧
    CredUnique (ccs_copy_cred_security h kz s new old).1 := by
  rw [copy_cred_eq]
  by_cases hk : kz = NULL
  · rw [if_pos hk]
    exact hs
  · rw [if_neg hk]
    exact unique_cred_linked h kz _ s hs (hf.resolve_left hk) hnew

/-- A lookup leaves the credential table and the `cred` of its records as they
are, on kernels from 2.6.31 on. -/
theorem find_keeps_creds (h : Host) (kz : Ptr) (s : State) (task : Ptr)
    (hk : h.KERNEL_LT_2_6_31 = false) (hf : kz = NULL ∨ Fresh s kz) :
    (ccs_find_task_security h kz s task).1.ccs_cred_security_list = s.ccs_cred_security_list ∧
    ∀ q, (∃ i, q ∈ s.ccs_cred_security_list i) →
      ((ccs_find_task_security h kz s task).1.mem q).cred = (s.mem q).cred := by
  by_cases hne : task = h.current
  · subst hne
    rcases find_current_cases h kz s with ⟨ptr, _, he⟩ | ⟨ptr, hl, _, _, _, he⟩ | ⟨_, _, he⟩ |
      ⟨hl, hkz, he⟩
    · rw [he]; exact ⟨rfl, fun _ _ => rfl⟩
    · rw [he]
      refine ⟨rfl, ?_⟩
      intro q _
      by_cases hq : q = ptr <;> simp [reconciled, hq, hk]
    · rw [he]; exact ⟨rfl, fun _ _ => rfl⟩
    · rw [he]
      refine ⟨rfl, ?_⟩
      rintro q ⟨i, hi⟩
      have : q ≠ kz := fun hc => ((hf.resolve_left hkz) i).2 (hc ▸ hi)
      simp [allocated, this]
  · rw [find_other h kz s task hne]
    exact ⟨rfl, fun _ _ => rfl⟩

theorem unique_cred_prepare (h : Host) (kz1 kz2 : Ptr) (trylock : Bool) (rc_orig : Int)
    (gfp_kernel : Bool) (s : State) (new old : Ptr)
    (hs : TaskUnique s ∧ CredUnique s)
    (hf1 : kz1 = NULL ∨ Fresh s kz1) (hf2 : kz2 = NULL ∨ (Fresh s kz2 ∧ kz2 ≠ kz1))
    (hplace : CurrentPlaced h s)
    (hnew : ∀ i, ∀ p ∈ s.ccs_cred_security_list i, (s.mem p).cred ≠ new) :
    TaskUnique (ccs_cred_prepare h kz1 kz2 trylock rc_orig gfp_kernel s new old).1 ∧
    CredUnique (ccs_cred_prepare h kz1 kz2 trylock rc_orig gfp_kernel s new old).1 := by
  have hg1 : Grows [kz1] s (if h.KERNEL_LT_2_6_31 = false ∧ gfp_kernel = true then
      (ccs_find_task_security h kz1 s h.current).1 else s) := by
    split_ifs
    · exact Grows_find h kz1 s _
    · exact Grows_of_lists _ _ _ rfl rfl
  have hp1 : (TaskUnique (if h.KERNEL_LT_2_6_31 = false ∧ gfp_kernel = true then
      (ccs_find_task_security h kz1 s h.current).1 else s) ∧
      CredUnique (if h.KERNEL_LT_2_6_31 = false ∧ gfp_kernel = true then
      (ccs_find_task_security h kz1 s h.current).1 else s)) ∧
      ∀ i, ∀ p ∈ (if h.KERNEL_LT_2_6_31 = false ∧ gfp_kernel = true then
        (ccs_find_task_security h kz1 s h.current).1 else s).ccs_cred_security_list i,
        ((if h.KERNEL_LT_2_6_31 = false ∧ gfp_kernel = true then
          (ccs_find_task_security h kz1 s h.current).1 else s).mem p).cred ≠ new := by
    by_cases hc : h.KERNEL_LT_2_6_31 = false ∧ gfp_kernel = true
    · rw [if_pos hc]
      refine ⟨unique_find h kz1 s _ hs hf1 (Or.inl hc.1) (fun _ => hplace), ?_⟩
      obtain ⟨hl, hcr⟩ := find_keeps_creds h kz1 s h.current hc.1 hf1
      intro i p hp
      rw [hl] at hp
      rw [hcr p ⟨i, hp⟩]
      exact hnew i p hp
    · rw [if_neg hc]
      exact ⟨hs, hnew⟩
  have htail := cred_prepare_tail h kz1 kz2 trylock rc_orig gfp_kernel s new old
  generalize (if h.KERNEL_LT_2_6_31 = false ∧ gfp_kernel = true then
      (ccs_find_task_security h kz1 s h.current).1 else s) = s1 at hg1 hp1 htail
  have hp2 : TaskUnique (ccs_copy_cred_security h kz2 s1 new old).1 ∧
      CredUnique (ccs_copy_cred_security h kz2 s1 new old).1 := by
    apply unique_copy_cred h kz2 s1 new old hp1.1 _ hp1.2
    rcases hf2 with hf2 | ⟨hf2, hne⟩
    · exact Or.inl hf2
    · exact Or.inr (Fresh_grows [kz1] s s1 kz2 hg1 hf2 (by simpa using hne))
  exact ⟨TaskUnique_shrinks _ _ htail hp2.1, CredUnique_shrinks _ _ htail hp2.2⟩

theorem unique_cred_alloc_blank (h : Host) (kz : Ptr) (rc_orig : Int) (s : State) (new : Ptr)
    (hs : TaskUnique s ∧ CredUnique s) (hf : kz = NULL ∨ Fresh s kz)
    (hnew : ∀ i, ∀ p ∈ s.ccs_cred_security_list i, (s.mem p).cred ≠ new) :
    TaskUnique (ccs_cred_alloc_blank h kz rc_orig s new).1 ∧
    CredUnique (ccs_cred_alloc_blank h kz rc_orig s new).1 := by
  have htail := cred_alloc_blank_tail h kz rc_orig s new
  have hp : TaskUnique (ccs_alloc_cred_security h kz s new).1 ∧
      CredUnique (ccs_alloc_cred_security h kz s new).1 := by
    rw [alloc_cred_eq]
    by_cases hk : kz = NULL
    · rw [if_pos hk]
      exact hs
    · rw [if_neg hk]
      exact unique_cred_linked h kz _ s hs (hf.resolve_left hk) hnew
  exact ⟨TaskUnique_shrinks _ _ htail hp.1, CredUnique_shrinks _ _ htail hp.2⟩

end Lsm2629

namespace Lsm412

theorem clear_execve_current_cases_412 (h : Host) (ret : Int) (ptr : Ptr) (s : State)
    (hl : task_lookup h s h.current = some ptr) :
    ccs_clear_execve h ret ptr s = s ∨
    (ptr ≠ ccs_default_security ∧ ptr ≠ ccs_oom_security ∧ (s.mem ptr).ee ≠ NULL ∧
      ccs_clear_execve h ret ptr s = reconciled ret ptr s) := by
  by_cases hs : ptr = ccs_default_security ∨ ptr = ccs_oom_security
  · exact Or.inl (clear_execve_dummy_412 h ret ptr s hs)
  · by_cases he : (s.mem ptr).ee = NULL
    · exact Or.inl (clear_execve_noee_412 h ret ptr s he)
    · right
      refine ⟨fun hc => hs (Or.inl hc), fun hc => hs (Or.inr hc), he, ?_⟩
      exact clear_execve_current_412 h ret ptr s hl hs he

/-- The four outcomes of a lookup of the running task. -/
theorem find_current_cases_412 (h : Host) (kz : Ptr) (s : State) :
    (∃ ptr, task_lookup h s h.current = some ptr ∧
      ccs_find_task_security h kz s h.current = (s, ptr)) ∨
    (∃ ptr, task_lookup h s h.current = some ptr ∧
      ptr ≠ ccs_default_security ∧ ptr ≠ ccs_oom_security ∧ (s.mem ptr).ee ≠ NULL ∧
      ccs_find_task_security h kz s h.current = (reconciled (-1) ptr s, ptr)) ∨
    (task_lookup h s h.current = none ∧ kz = NULL ∧
      ccs_find_task_security h kz s h.current
        = ((s.emit (Event.printk_oom h.current)).emit (Event.send_sig_SIGKILL h.current),
            ccs_oom_security)) ∨
    (task_lookup h s h.current = none ∧ kz ≠ NULL ∧
      ccs_find_task_security h kz s h.current = (allocated h kz s, kz)) := by
  cases hl : task_lookup h s h.current with
  | some ptr =>
    rw [find_task_found_412 h kz s _ ptr hl]
    rcases clear_execve_current_cases_412 h (-1) ptr s hl with hc | ⟨h1, h2, h3, hc⟩
    · left
      refine ⟨ptr, rfl, ?_⟩
      rw [hc]
      split_ifs <;> rfl
    · by_cases hcond : h.current = h.current ∧ in_execve_flag (s.mem ptr).ccs_flags = true ∧
          h.in_execve h.current = false
      · right; left
        refine ⟨ptr, rfl, h1, h2, h3, ?_⟩
        rw [hc, if_pos hcond]
      · left
        refine ⟨ptr, rfl, ?_⟩
        rw [if_neg hcond]
  | none =>
    rw [find_task_miss_412 h kz s _ hl]
    by_cases hk : kz = NULL
    · right; right; left
      simp [hk]
    · right; right; right
      refine ⟨rfl, hk, ?_⟩
      simp only [ne_eq, not_true_eq_false, if_false, hk]
      rfl

theorem find_other_412 (h : Host) (kz : Ptr) (s : State) (task : Ptr) (hne : task ≠ h.current) :
    (ccs_find_task_security h kz s task).1 = s := by
  cases hl : task_lookup h s task with
  | none =>
    rw [find_task_miss_412 h kz s _ hl]
    simp [hne]
  | some ptr =>
    rw [find_task_found_412 h kz s _ ptr hl]
    simp [hne]

theorem reconciled_lookup_412 (h : Host) (ret : Int) (ptr : Ptr) (s : State) (t : Ptr) :
    task_lookup h (reconciled ret ptr s) t = task_lookup h s t := by
  apply task_lookup_congr_412
  · rfl
  · intro q
    by_cases hq : q = ptr <;> simp [reconciled, hq]

theorem allocated_lookup_412 (h : Host) (kz : Ptr) (s : State) :
    task_lookup h (allocated h kz s) h.current = some kz := by
  unfold task_lookup allocated
  simp

theorem find_current_lookup_412 (h : Host) (kz : Ptr) (s : State)
    (hr : (ccs_find_task_security h kz s h.current).2 ≠ ccs_oom_security) :
    task_lookup h (ccs_find_task_security h kz s h.current).1 h.current
      = some (ccs_find_task_security h kz s h.current).2 := by
  rcases find_current_cases_412 h kz s with ⟨ptr, hl, he⟩ | ⟨ptr, hl, _, _, _, he⟩ |
    ⟨_, _, he⟩ | ⟨_, _, he⟩
  · rw [he]; exact hl
  · rw [he]
    dsimp only
    rw [reconciled_lookup_412]
    exact hl
  · rw [he] at hr
    exact absurd rfl hr
  · rw [he]
    exact allocated_lookup_412 h kz s

theorem TaskUnique_frame_412 (s t : State) (hs : TaskUnique s)
    (ht : t.ccs_task_security_list = s.ccs_task_security_list)
    (hkey : ∀ q, (t.mem q).task = (s.mem q).task) : TaskUnique t := by
  intro i j p hp q hq
  rw [ht] at hp hq
  rw [hkey, hkey]
  exact hs i j p hp q hq

/-- Linking a fresh record whose key is on no bucket keeps uniqueness. -/
theorem TaskUnique_link_412 (s t : State) (kz key : Ptr) (idx : Nat) (hs : TaskUnique s)
    (hf : Fresh s kz)
    (hnokey : ∀ i, ∀ p ∈ s.ccs_task_security_list i, (s.mem p).task ≠ key)
    (hlist : t.ccs_task_security_list = fun i =>
      if i = idx then kz :: s.ccs_task_security_list i else s.ccs_task_security_list i)
    (hkz : (t.mem kz).task = key) (hold : ∀ q, q ≠ kz → t.mem q = s.mem q) :
    TaskUnique t := by
  have hin : ∀ i, ∀ p ∈ t.ccs_task_security_list i,
      p = kz ∨ p ∈ s.ccs_task_security_list i := by
    intro i p hp
    rw [hlist] at hp
    dsimp only at hp
    split_ifs at hp
    · rcases List.mem_cons.mp hp with hc | hc
      · exact Or.inl hc
      · exact Or.inr hc
    · exact Or.inr hp
  have hmem_old : ∀ i, ∀ p ∈ s.ccs_task_security_list i, t.mem p = s.mem p :=
    fun i p hp => hold p (fun hc => hf i (hc ▸ hp))
  intro i j p hp q hq hpq
  rcases hin i p hp with hp1 | hp1 <;> rcases hin j q hq with hq1 | hq1
  · rw [hp1, hq1]
  · rw [hp1, hkz, hmem_old j q hq1] at hpq
    exact absurd hpq.symm (hnokey j q hq1)
  · rw [hq1, hkz, hmem_old i p hp1] at hpq
    exact absurd hpq (hnokey i p hp1)
  · rw [hmem_old i p hp1, hmem_old j q hq1] at hpq
    exact hs i j p hp1 q hq1 hpq

theorem unique_find_412 (h : Host) (kz : Ptr) (s : State) (task : Ptr)
    (hs : TaskUnique s) (hf : kz = NULL ∨ Fresh s kz)
    (hplace : task = h.current → Placed h s h.current) :
    TaskUnique (ccs_find_task_security h kz s task).1 := by
  by_cases hne : task = h.current
  · subst hne
    rcases find_current_cases_412 h kz s with ⟨ptr, _, he⟩ | ⟨ptr, hl, _, _, _, he⟩ |
      ⟨_, _, he⟩ | ⟨hl, hk, he⟩
    · rw [he]; exact hs
    · rw [he]
      refine TaskUnique_frame_412 s _ hs ?_ ?_
      · rfl
      · intro q
        by_cases hq : q = ptr <;> simp [reconciled, hq]
    · rw [he]
      exact TaskUnique_frame_412 s _ hs rfl (fun _ => rfl)
    · rw [he]
      refine TaskUnique_link_412 s _ kz h.current (h.hash_ptr h.current) hs
        (hf.resolve_left hk) ?_ rfl ?_ ?_
      · intro i p hp
        by_cases hi : i = h.hash_ptr h.current
        · subst hi
          exact task_lookup_none_412 h s _ hl p hp
        · exact hplace rfl i hi p hp
      · simp [allocated]
      · intro q hq
        simp [allocated, hq]
  · rw [find_other_412 h kz s task hne]
    exact hs

theorem alloc_task_eq_412 (h : Host) (kz1 kz2 : Ptr) (s : State) (task : Ptr) :
    __ccs_alloc_task_security h kz1 kz2 s task =
      if kz2 = NULL then ((ccs_find_task_security h kz1 s h.current).1, -ENOMEM)
      else
        ({ (ccs_find_task_security h kz1 s h.current).1 with
            mem := fun q =>
              if q = kz2 then
                { task := task,
                  ccs_domain_info :=
                    if (ccs_find_task_security h kz1 s h.current).2 = kz2 then NULL
                    else ((ccs_find_task_security h kz1 s h.current).1.mem
                      (ccs_find_task_security h kz1 s h.current).2).ccs_domain_info,
                  ccs_flags :=
                    if (ccs_find_task_security h kz1 s h.current).2 = kz2 then 0
                    else ((ccs_find_task_security h kz1 s h.current).1.mem
                      (ccs_find_task_security h kz1 s h.current).2).ccs_flags,
                  ee := NULL }
              else (ccs_find_task_security h kz1 s h.current).1.mem q,
            ccs_task_security_list := fun i =>
              if i = h.hash_ptr task then
                kz2 :: (ccs_find_task_security h kz1 s h.current).1.ccs_task_security_list i
              else (ccs_find_task_security h kz1 s h.current).1.ccs_task_security_list i },
          0) := by
  unfold __ccs_alloc_task_security ccs_current_security
  dsimp only
  generalize ccs_find_task_security h kz1 s h.current = r
  by_cases hk : kz2 = NULL
  · rw [if_pos hk, if_pos hk]
  · rw [if_neg hk, if_neg hk]
    congr 1
    unfold ccs_add_task_security State.store
    simp only [if_true, State.mk.injEq, and_true, true_and]
    funext q
    by_cases hq : q = kz2
    · by_cases ho : r.2 = kz2 <;> simp [hq, ho, zeroed, NULL]
    · simp [hq]

theorem Fresh_find_412 (h : Host) (kz : Ptr) (s : State) (task k : Ptr) (hf : Fresh s k)
    (hne : kz = NULL ∨ k ≠ kz) : Fresh (ccs_find_task_security h kz s task).1 k := by
  by_cases hn : task = h.current
  · subst hn
    rcases find_current_cases_412 h kz s with ⟨ptr, _, he⟩ | ⟨ptr, hl, _, _, _, he⟩ |
      ⟨_, _, he⟩ | ⟨hl, hk, he⟩
    · rw [he]; exact hf
    · rw [he]; exact hf
    · rw [he]; exact hf
    · rw [he]
      intro i hc
      simp only [allocated] at hc
      split_ifs at hc
      · rcases List.mem_cons.mp hc with hc | hc
        · exact (hne.resolve_left hk) hc
        · exact hf i hc
      · exact hf i hc
  · rw [find_other_412 h kz s task hn]
    exact hf

/-- A lookup of the running task leaves the keys of the other tasks' records
alone and links at most a record of the running task. -/
theorem find_keeps_keys_412 (h : Host) (kz : Ptr) (s : State) (task : Ptr)
    (hne : task ≠ h.current)
    (hno : ∀ i, ∀ p ∈ s.ccs_task_security_list i, (s.mem p).task ≠ task) :
    ∀ i, ∀ p ∈ (ccs_find_task_security h kz s h.current).1.ccs_task_security_list i,
      ((ccs_find_task_security h kz s h.current).1.mem p).task ≠ task := by
  rcases find_current_cases_412 h kz s with ⟨ptr, _, he⟩ | ⟨ptr, hl, _, _, _, he⟩ |
    ⟨_, _, he⟩ | ⟨hl, hk, he⟩
  · rw [he]; exact hno
  · rw [he]
    intro i p hp
    have := hno i p hp
    by_cases hq : p = ptr
    · subst hq
      simpa [reconciled] using this
    · simpa [reconciled, hq] using this
  · rw [he]; exact hno
  · rw [he]
    intro i p hp
    by_cases hq : p = kz
    · simp only [allocated, hq, if_true]
      exact fun hc => hne hc.symm
    · simp only [allocated, hq, if_false]
      simp only [allocated] at hp
      split_ifs at hp
      · rcases List.mem_cons.mp hp with hc | hc
        · exact absurd hc hq
        · exact hno i p hc
      · exact hno i p hp

theorem unique_alloc_task_412 (h : Host) (kz1 kz2 : Ptr) (s : State) (task : Ptr)
    (hs : TaskUnique s) (hf1 : kz1 = NULL ∨ Fresh s kz1)
    (hf2 : kz2 = NULL ∨ (Fresh s kz2 ∧ (kz1 = NULL ∨ kz2 ≠ kz1)))
    (hplace : Placed h s h.current) (hne : task ≠ h.current)
    (hno : ∀ i, ∀ p ∈ s.ccs_task_security_list i, (s.mem p).task ≠ task) :
    TaskUnique (__ccs_alloc_task_security h kz1 kz2 s task).1 := by
  have h1 := unique_find_412 h kz1 s h.current hs hf1 (fun _ => hplace)
  have h2 := find_keeps_keys_412 h kz1 s task hne hno
  rw [alloc_task_eq_412]
  by_cases hk : kz2 = NULL
  · rw [if_pos hk]
    exact h1
  · rw [if_neg hk]
    have hf := Fresh_find_412 h kz1 s h.current kz2 (hf2.resolve_left hk).1
      (hf2.resolve_left hk).2
    refine TaskUnique_link_412 _ _ kz2 task (h.hash_ptr task) h1 hf h2 rfl ?_ ?_
    · simp
    · intro q hq
      simp [hq]

end Lsm412

/-- C2 as stated does not hold: uniqueness per `pid` is not preserved by
`ccs_find_task_security` in `lsm-2.6.29.c`.  In `leaderState` the only record
is the one of task `101`, with pid `1101`, on bucket `1`.  Task `100` now has
that pid and hashes to bucket `0`; its lookup scans bucket `0` only, misses,
and links a second record with pid `1101`. -/
theorem C2_counterexample :
    (Lsm2629.TaskUnique Lsm2629.leaderState ∧ Lsm2629.CredUnique Lsm2629.leaderState) ∧
    ¬ Lsm2629.TaskUnique
      (Lsm2629.ccs_find_task_security Lsm2629.sharedPidHost 11 Lsm2629.leaderState 100).1 := by
  have hl : ∀ i, Lsm2629.leaderState.ccs_task_security_list i = if i = 1 then [10] else [] :=
    fun _ => rfl
  refine ⟨⟨?_, ?_⟩, ?_⟩
  · intro i j p hp q hq _
    rw [hl] at hp hq
    split_ifs at hp hq <;> simp_all
  · intro i j p hp
    exact absurd hp (List.not_mem_nil _)
  · intro hU
    have := hU 0 1 11 (by decide) 10 (by decide) (by decide)
    exact absurd this (by decide)

/-- C2, amended.  Each operation keeps "at most one linked record per key" on
both tables, provided that what `kzalloc` returns is not linked on a table,
that the credential key handed to `ccs_copy_cred_security`, `ccs_cred_prepare`
and `ccs_cred_alloc_blank` is not yet a key of the credential table, and that,
where the running task is looked up, no record with its key is linked on a
bucket other than the one the task hashes to.  On kernels before 2.6.31 the
lookup also needs that no record is linked on both tables.  For `lsm-4.12.c`
the same is shown for `ccs_find_task_security` and for
`__ccs_alloc_task_security` with a task that is not the running one and has
no record. -/
theorem C2_uniqueness_preserved :
    (∀ (h : Host) (kz : Ptr) (s : Lsm2629.State) (task : Ptr),
      Lsm2629.TaskUnique s ∧ Lsm2629.CredUnique s → (kz = NULL ∨ Lsm2629.Fresh s kz) →
      (h.KERNEL_LT_2_6_31 = false ∨ Lsm2629.Separate s) →
      (task = h.current → Lsm2629.CurrentPlaced h s) →
      Lsm2629.TaskUnique (Lsm2629.ccs_find_task_security h kz s task).1 ∧
      Lsm2629.CredUnique (Lsm2629.ccs_find_task_security h kz s task).1) ∧
    (∀ (h : Host) (kz : Ptr) (s : Lsm2629.State) (new old : Ptr),
      Lsm2629.TaskUnique s ∧ Lsm2629.CredUnique s → (kz = NULL ∨ Lsm2629.Fresh s kz) →
      (∀ i, ∀ p ∈ s.ccs_cred_security_list i, (s.mem p).cred ≠ new) →
      Lsm2629.TaskUnique (Lsm2629.ccs_copy_cred_security h kz s new old).1 ∧
      Lsm2629.CredUnique (Lsm2629.ccs_copy_cred_security h kz s new old).1) ∧
    (∀ (h : Host) (kz1 kz2 : Ptr) (trylock : Bool) (rc_orig : Int) (gfp_kernel : Bool)
      (s : Lsm2629.State) (new old : Ptr),
      Lsm2629.TaskUnique s ∧ Lsm2629.CredUnique s → (kz1 = NULL ∨ Lsm2629.Fresh s kz1) →
      (kz2 = NULL ∨ (Lsm2629.Fresh s kz2 ∧ kz2 ≠ kz1)) → Lsm2629.CurrentPlaced h s →
      (∀ i, ∀ p ∈ s.ccs_cred_security_list i, (s.mem p).cred ≠ new) →
      Lsm2629.TaskUnique
        (Lsm2629.ccs_cred_prepare h kz1 kz2 trylock rc_orig gfp_kernel s new old).1 ∧
      Lsm2629.CredUnique
        (Lsm2629.ccs_cred_prepare h kz1 kz2 trylock rc_orig gfp_kernel s new old).1) ∧
    (∀ (h : Host) (kz : Ptr) (rc_orig : Int) (s : Lsm2629.State) (new : Ptr),
      Lsm2629.TaskUnique s ∧ Lsm2629.CredUnique s → (kz = NULL ∨ Lsm2629.Fresh s kz) →
      (∀ i, ∀ p ∈ s.ccs_cred_security_list i, (s.mem p).cred ≠ new) →
      Lsm2629.TaskUnique (Lsm2629.ccs_cred_alloc_blank h kz rc_orig s new).1 ∧
      Lsm2629.CredUnique (Lsm2629.ccs_cred_alloc_blank h kz rc_orig s new).1) ∧
    (∀ (h : Host) (s : Lsm2629.State) (cred : Ptr),
      Lsm2629.TaskUnique s ∧ Lsm2629.CredUnique s →
      Lsm2629.TaskUnique (Lsm2629.ccs_cred_free h s cred) ∧
      Lsm2629.CredUnique (Lsm2629.ccs_cred_free h s cred)) ∧
    (∀ (s : Lsm2629.State) (ptr : Ptr),
      Lsm2629.TaskUnique s ∧ Lsm2629.CredUnique s →
      Lsm2629.TaskUnique (Lsm2629.ccs_del_security s ptr) ∧
      Lsm2629.CredUnique (Lsm2629.ccs_del_security s ptr)) ∧
    (∀ (h : Host) (trylock : Bool) (s : Lsm2629.State),
      Lsm2629.TaskUnique s ∧ Lsm2629.CredUnique s →
      Lsm2629.TaskUnique (Lsm2629.ccs_task_security_gc h trylock s) ∧
      Lsm2629.CredUnique (Lsm2629.ccs_task_security_gc h trylock s)) ∧
    (∀ (h : Host) (kz : Ptr) (s : Lsm412.State) (task : Ptr),
      Lsm412.TaskUnique s → (kz = NULL ∨ Lsm412.Fresh s kz) →
      (task = h.current → Lsm412.Placed h s h.current) →
      Lsm412.TaskUnique (Lsm412.ccs_find_task_security h kz s task).1) ∧
    (∀ (h : Host) (kz1 kz2 : Ptr) (s : Lsm412.State) (task : Ptr),
      Lsm412.TaskUnique s → (kz1 = NULL ∨ Lsm412.Fresh s kz1) →
      (kz2 = NULL ∨ (Lsm412.Fresh s kz2 ∧ (kz1 = NULL ∨ kz2 ≠ kz1))) →
      Lsm412.Placed h s h.current → task ≠ h.current →
      (∀ i, ∀ p ∈ s.ccs_task_security_list i, (s.mem p).task ≠ task) →
      Lsm412.TaskUnique (Lsm412.__ccs_alloc_task_security h kz1 kz2 s task).1) := by
  refine ⟨?_, ?_, ?_, ?_, ?_, ?_, ?_, ?_, ?_⟩
  · intro h kz s task hs hf hsep hplace
    exact Lsm2629.unique_find h kz s task hs hf hsep hplace
  · intro h kz s new old hs hf hnew
    exact Lsm2629.unique_copy_cred h kz s new old hs hf hnew
  · intro h kz1 kz2 trylock rc_orig gfp_kernel s new old hs hf1 hf2 hplace hnew
    exact Lsm2629.unique_cred_prepare h kz1 kz2 trylock rc_orig gfp_kernel s new old hs hf1 hf2
      hplace hnew
  · intro h kz rc_orig s new hs hf hnew
    exact Lsm2629.unique_cred_alloc_blank h kz rc_orig s new hs hf hnew
  · intro h s cred hs
    exact ⟨Lsm2629.TaskUnique_shrinks _ _ (Lsm2629.Shrinks_cred_free h s cred) hs.1,
      Lsm2629.CredUnique_shrinks _ _ (Lsm2629.Shrinks_cred_free h s cred) hs.2⟩
  · intro s ptr hs
    exact ⟨Lsm2629.TaskUnique_shrinks _ _ (Lsm2629.Shrinks_del s ptr) hs.1,
      Lsm2629.CredUnique_shrinks _ _ (Lsm2629.Shrinks_del s ptr) hs.2⟩
  · intro h trylock s hs
    exact ⟨Lsm2629.TaskUnique_shrinks _ _ (Lsm2629.Shrinks_gc h trylock s) hs.1,
      Lsm2629.CredUnique_shrinks _ _ (Lsm2629.Shrinks_gc h trylock s) hs.2⟩
  · intro h kz s task hs hf hplace
    exact Lsm412.unique_find_412 h kz s task hs hf hplace
  · intro h kz1 kz2 s task hs hf1 hf2 hplace hne hno
    exact Lsm412.unique_alloc_task_412 h kz1 kz2 s task hs hf1 hf2 hplace hne hno

/-- Witness of the amended C2: the first lookup of task `100` in the initial
state of either file. -/
theorem C2_uniqueness_preserved_witness :
    ((Lsm2629.TaskUnique Lsm2629.init ∧ Lsm2629.CredUnique Lsm2629.init) ∧
      Lsm2629.Fresh Lsm2629.init 10 ∧ Lsm2629.CurrentPlaced demoHost Lsm2629.init) ∧
    (Lsm2629.TaskUnique (Lsm2629.ccs_find_task_security demoHost 10 Lsm2629.init 100).1 ∧
      Lsm2629.CredUnique (Lsm2629.ccs_find_task_security demoHost 10 Lsm2629.init 100).1) ∧
    Lsm412.TaskUnique (Lsm412.ccs_find_task_security demoHost 10 Lsm412.init 100).1 :=
  have hu : Lsm2629.TaskUnique Lsm2629.init ∧ Lsm2629.CredUnique Lsm2629.init :=
    ⟨fun _ _ _ hp => absurd hp (List.not_mem_nil _),
      fun _ _ _ hp => absurd hp (List.not_mem_nil _)⟩
  have hf : Lsm2629.Fresh Lsm2629.init 10 :=
    fun _ => ⟨List.not_mem_nil _, List.not_mem_nil _⟩
  have hp : Lsm2629.CurrentPlaced demoHost Lsm2629.init :=
    fun _ _ _ hp => absurd hp (List.not_mem_nil _)
  ⟨⟨hu, hf, hp⟩,
    C2_uniqueness_preserved.1 demoHost 10 Lsm2629.init 100 hu (Or.inr hf) (Or.inl rfl)
      (fun _ => hp),
    C2_uniqueness_preserved.2.2.2.2.2.2.2.1 demoHost 10 Lsm412.init 100
      (fun _ _ _ hp => absurd hp (List.not_mem_nil _))
      (Or.inr (fun _ => List.not_mem_nil _))
      (fun _ _ _ _ hp => absurd hp (List.not_mem_nil _))⟩

/-! ## The transition invariant: lemmas -/

namespace Lsm2629

theorem Quiet_consistent (r : ccs_security) (hr : Quiet r) : Consistent r := by
  unfold Consistent
  constructor
  · intro hc
    exact absurd hr.1 hc
  · intro hc
    rw [hr.2] at hc
    exact absurd hc (by decide)

theorem TransitionInv_congr (s t : State) (hm : t.mem = s.mem)
    (ht : t.ccs_task_security_list = s.ccs_task_security_list)
    (hc : t.ccs_cred_security_list = s.ccs_cred_security_list) (hs : TransitionInv s) :
    TransitionInv t := by
  obtain ⟨h1, h2, h3, h4, h5⟩ := hs
  refine ⟨?_, TaskAll_congr _ s t hm ht h2, CredAll_congr _ s t hm hc h3, ?_, ?_⟩
  · intro i j p hp
    rw [ht] at hp
    rw [hc]
    exact h1 i j p hp
  · rw [hm]; exact h4
  · rw [hm]; exact h5

theorem TransitionInv_shrinks (s t : State) (hsh : Shrinks s t) (hs : TransitionInv s) :
    TransitionInv t := by
  obtain ⟨h1, h2, h3, h4, h5⟩ := hs
  refine ⟨?_, TaskAll_shrinks _ s t hsh h2, CredAll_shrinks _ s t hsh h3, ?_, ?_⟩
  · intro i j p hp hc
    exact h1 i j p (hsh.task i p hp) (hsh.cred j p hc)
  · rw [hsh.mem]; exact h4
  · rw [hsh.mem]; exact h5

/-- Writing a quiet record anywhere. -/
theorem TransitionInv_store_quiet (s : State) (p : Ptr) (r : ccs_security)
    (hs : TransitionInv s) (hr : Quiet r) : TransitionInv (s.store p r) := by
  obtain ⟨h1, h2, h3, h4, h5⟩ := hs
  refine ⟨h1, TaskAll_store _ s p r h2 (fun _ => Quiet_consistent r hr),
    CredAll_store _ s p r h3 (fun _ => hr), ?_, ?_⟩
  · simp only [store_mem]
    split_ifs
    · exact hr
    · exact h4
  · simp only [store_mem]
    split_ifs
    · exact hr
    · exact h5

/-- Writing a consistent record to a record of the task table that is not a
dummy. -/
theorem TransitionInv_store_task (s : State) (p : Ptr) (r : ccs_security)
    (hs : TransitionInv s) (hp : ∃ i, p ∈ s.ccs_task_security_list i)
    (hd : p ≠ ccs_default_security) (ho : p ≠ ccs_oom_security) (hr : Consistent r) :
    TransitionInv (s.store p r) := by
  obtain ⟨h1, h2, h3, h4, h5⟩ := hs
  obtain ⟨i, hi⟩ := hp
  refine ⟨h1, TaskAll_store _ s p r h2 (fun _ => hr),
    CredAll_store _ s p r h3 (fun hc => ?_), ?_, ?_⟩
  · obtain ⟨j, hj⟩ := hc
    exact absurd hj (h1 i j p hi)
  · simp only [store_mem]
    rw [if_neg (fun hc => hd hc.symm)]
    exact h4
  · simp only [store_mem]
    rw [if_neg (fun hc => ho hc.symm)]
    exact h5

theorem TransitionInv_reconciled (h : Host) (ret : Int) (ptr : Ptr) (s : State)
    (hs : TransitionInv s) : TransitionInv (reconciled h ret ptr s) :=
  TransitionInv_congr
    (s.store ptr
      { pid := (s.mem ptr).pid,
        cred := if h.KERNEL_LT_2_6_31 then NULL else (s.mem ptr).cred,
        ccs_domain_info :=
          if ret < 0 then (s.ee_mem (s.mem ptr).ee).previous_domain
          else (s.mem ptr).ccs_domain_info,
        ccs_flags := clear_in_execve_flag (s.mem ptr).ccs_flags,
        ee := NULL }) _ rfl rfl rfl
    (TransitionInv_store_quiet s ptr _ hs ⟨rfl, flag_clear _⟩)

/-- The record `ccs_find_cred_security` returns is quiet. -/
theorem find_cred_quiet (h : Host) (s : State) (c : Ptr) (hs : TransitionInv s) :
    Quiet (s.mem (ccs_find_cred_security h s c)) := by
  rcases find_cred_cases h s c with hc | ⟨hc, _⟩
  · rw [hc]; exact hs.2.2.2.1
  · exact hs.2.2.1 _ _ hc

/-- Linking a fresh quiet record on the task table. -/
theorem TransitionInv_link_task (s t : State) (kz : Ptr) (idx : Nat) (hs : TransitionInv s)
    (hf : Fresh s kz)
    (hlist : t.ccs_task_security_list = fun i =>
      if i = idx then kz :: s.ccs_task_security_list i else s.ccs_task_security_list i)
    (hcred : t.ccs_cred_security_list = s.ccs_cred_security_list)
    (hkz : Quiet (t.mem kz)) (hold : ∀ q, q ≠ kz → t.mem q = s.mem q) :
    TransitionInv t := by
  obtain ⟨h1, h2, h3, h4, h5⟩ := hs
  have hin : ∀ i, ∀ p ∈ t.ccs_task_security_list i,
      p = kz ∨ p ∈ s.ccs_task_security_list i := by
    intro i p hp
    rw [hlist] at hp
    dsimp only at hp
    split_ifs at hp
    · rcases List.mem_cons.mp hp with hc | hc
      · exact Or.inl hc
      · exact Or.inr hc
    · exact Or.inr hp
  have hany : ∀ q, Quiet (s.mem q) → Quiet (t.mem q) := by
    intro q hq
    by_cases hc : q = kz
    · rw [hc]; exact hkz
    · rw [hold q hc]; exact hq
  refine ⟨?_, ?_, ?_, hany _ h4, hany _ h5⟩
  · intro i j p hp
    rw [hcred]
    rcases hin i p hp with hc | hc
    · rw [hc]; exact (hf j).2
    · exact h1 i j p hc
  · intro i p hp
    rcases hin i p hp with hc | hc
    · rw [hc]; exact Quiet_consistent _ hkz
    · by_cases hq : p = kz
      · rw [hq]; exact Quiet_consistent _ hkz
      · rw [hold p hq]; exact h2 i p hc
  · intro i p hp
    rw [hcred] at hp
    exact hany p (h3 i p hp)

/-- Linking a fresh quiet record on the credential table. -/
theorem TransitionInv_link_cred (s t : State) (kz : Ptr) (idx : Nat) (hs : TransitionInv s)
    (hf : Fresh s kz)
    (hlist : t.ccs_cred_security_list = fun i =>
      if i = idx then kz :: s.ccs_cred_security_list i else s.ccs_cred_security_list i)
    (htask : t.ccs_task_security_list = s.ccs_task_security_list)
    (hkz : Quiet (t.mem kz)) (hold : ∀ q, q ≠ kz → t.mem q = s.mem q) :
    TransitionInv t := by
  obtain ⟨h1, h2, h3, h4, h5⟩ := hs
  have hin : ∀ i, ∀ p ∈ t.ccs_cred_security_list i,
      p = kz ∨ p ∈ s.ccs_cred_security_list i := by
    intro i p hp
    rw [hlist] at hp
    dsimp only at hp
    split_ifs at hp
    · rcases List.mem_cons.mp hp with hc | hc
      · exact Or.inl hc
      · exact Or.inr hc
    · exact Or.inr hp
  have hany : ∀ q, Quiet (s.mem q) → Quiet (t.mem q) := by
    intro q hq
    by_cases hc : q = kz
    · rw [hc]; exact hkz
    · rw [hold q hc]; exact hq
  refine ⟨?_, ?_, ?_, hany _ h4, hany _ h5⟩
  · intro i j p hp hc
    rw [htask] at hp
    rcases hin j p hc with hq | hq
    · exact (hf i).1 (hq ▸ hp)
    · exact h1 i j p hp hq
  · intro i p hp
    rw [htask] at hp
    have hq : p ≠ kz := fun hc => (hf i).1 (hc ▸ hp)
    rw [hold p hq]
    exact h2 i p hp
  · intro i p hp
    rcases hin i p hp with hc | hc
    · rw [hc]; exact hkz
    · exact hany p (h3 i p hc)

theorem TransitionInv_allocated (h : Host) (kz : Ptr) (s : State) (hs : TransitionInv s)
    (hf : Fresh s kz) : TransitionInv (allocated h kz s) := by
  refine TransitionInv_link_task s _ kz (h.hash_ptr h.current) hs hf rfl rfl ?_ ?_
  · have := find_cred_quiet h s (h.task_cred h.current) hs
    simpa [allocated, Quiet] using this
  · intro q hq
    simp [allocated, hq]

theorem TransitionInv_find (h : Host) (kz : Ptr) (s : State) (task : Ptr)
    (hs : TransitionInv s) (hf : kz = NULL ∨ Fresh s kz) :
    TransitionInv (ccs_find_task_security h kz s task).1 := by
  by_cases hne : task = h.current
  · subst hne
    rcases find_current_cases h kz s with ⟨ptr, _, he⟩ | ⟨ptr, hl, _, _, _, he⟩ | ⟨_, _, he⟩ |
      ⟨_, hk, he⟩
    · rw [he]; exact hs
    · rw [he]
      exact TransitionInv_reconciled h _ ptr s hs
    · rw [he]; exact TransitionInv_congr s _ rfl rfl rfl hs
    · rw [he]
      exact TransitionInv_allocated h kz s hs (hf.resolve_left hk)
  · rw [find_other h kz s task hne]
    exact hs

theorem TransitionInv_cred_linked (h : Host) (kz : Ptr) (r : ccs_security) (s : State)
    (hs : TransitionInv s) (hf : Fresh s kz) (hr : Quiet r) :
    TransitionInv (cred_linked h kz r s) := by
  refine TransitionInv_link_cred s _ kz (h.hash_ptr r.cred) hs hf rfl rfl ?_ ?_
  · simpa [cred_linked, Quiet] using hr
  · intro q hq
    simp [cred_linked, hq]

theorem TransitionInv_cred_prepare (h : Host) (kz1 kz2 : Ptr) (trylock : Bool) (rc_orig : Int)
    (gfp_kernel : Bool) (s : State) (new old : Ptr) (hs : TransitionInv s)
    (hf1 : kz1 = NULL ∨ Fresh s kz1) (hf2 : kz2 = NULL ∨ (Fresh s kz2 ∧ kz2 ≠ kz1)) :
    TransitionInv (ccs_cred_prepare h kz1 kz2 trylock rc_orig gfp_kernel s new old).1 := by
  have hg1 : Grows [kz1] s (if h.KERNEL_LT_2_6_31 = false ∧ gfp_kernel = true then
      (ccs_find_task_security h kz1 s h.current).1 else s) := by
    split_ifs
    · exact Grows_find h kz1 s _
    · exact Grows_of_lists _ _ _ rfl rfl
  have hp1 : TransitionInv (if h.KERNEL_LT_2_6_31 = false ∧ gfp_kernel = true then
      (ccs_find_task_security h kz1 s h.current).1 else s) := by
    split_ifs
    · exact TransitionInv_find h kz1 s _ hs hf1
    · exact hs
  have htail := cred_prepare_tail h kz1 kz2 trylock rc_orig gfp_kernel s new old
  generalize (if h.KERNEL_LT_2_6_31 = false ∧ gfp_kernel = true then
      (ccs_find_task_security h kz1 s h.current).1 else s) = s1 at hg1 hp1 htail
  apply TransitionInv_shrinks _ _ htail
  rw [copy_cred_eq]
  by_cases hk : kz2 = NULL
  · rw [if_pos hk]
    exact hp1
  · rw [if_neg hk]
    have hf : Fresh s1 kz2 := by
      apply Fresh_grows [kz1] s s1 kz2 hg1 (hf2.resolve_left hk).1
      simpa using (hf2.resolve_left hk).2
    apply TransitionInv_cred_linked h kz2 _ s1 hp1 hf
    have := find_cred_quiet h s1 old hp1
    exact this

theorem TransitionInv_prepare_creds (h : Host) (new kz1 kz2 : Ptr) (trylock : Bool)
    (rc_orig : Int) (s : State) (hs : TransitionInv s)
    (hf1 : kz1 = NULL ∨ Fresh s kz1) (hf2 : kz2 = NULL ∨ (Fresh s kz2 ∧ kz2 ≠ kz1)) :
    TransitionInv (prepare_creds h new kz1 kz2 trylock rc_orig s).1 := by
  unfold prepare_creds
  dsimp only
  by_cases hn : new = NULL
  · rw [if_pos hn]
    exact hs
  · rw [if_neg hn]
    have hp := TransitionInv_cred_prepare h kz1 kz2 trylock rc_orig true s new
      (h.task_cred h.current) hs hf1 hf2
    split_ifs
    · exact TransitionInv_congr _ _ rfl rfl rfl hp
    · exact hp

theorem TransitionInv_cred_transfer (h : Host) (s : State) (new old : Ptr)
    (hs : TransitionInv s) : TransitionInv (ccs_cred_transfer h s new old) := by
  have hs1 : TransitionInv (s.emit (Event.original_hook "cred_transfer")) :=
    TransitionInv_congr s _ rfl rfl rfl hs
  unfold ccs_cred_transfer
  dsimp only
  generalize s.emit (Event.original_hook "cred_transfer") = s1 at hs1
  have hn := find_cred_quiet h s1 new hs1
  have ho := find_cred_quiet h s1 old hs1
  generalize ccs_find_cred_security h s1 new = nw at hn
  generalize ccs_find_cred_security h s1 old = od at ho
  split_ifs
  · exact hs1
  · have hq1 : Quiet { s1.mem nw with ccs_flags := (s1.mem od).ccs_flags } := ⟨hn.1, ho.2⟩
    have hs2 := TransitionInv_store_quiet s1 nw _ hs1 hq1
    apply TransitionInv_store_quiet _ nw _ hs2
    constructor
    · simp only [store_mem, if_true]
      exact hn.1
    · simp only [store_mem, if_true]
      exact ho.2

/-- After `ccs_clear_execve` the record of the running task is quiet. -/
theorem clear_current_quiet (h : Host) (ret : Int) (ptr : Ptr) (s : State)
    (hs : TransitionInv s) (hl : task_lookup h s h.current = some ptr)
    (hd : ptr ≠ ccs_default_security) (ho : ptr ≠ ccs_oom_security) :
    TransitionInv (ccs_clear_execve h ret ptr s) ∧
    Quiet ((ccs_clear_execve h ret ptr s).mem ptr) := by
  by_cases he : (s.mem ptr).ee = NULL
  · rw [clear_execve_noee h ret ptr s he]
    refine ⟨hs, he, ?_⟩
    have hc := hs.2.1 _ ptr (task_lookup_some h s _ ptr hl).1
    unfold Consistent at hc
    cases hf : in_execve_flag (s.mem ptr).ccs_flags
    · rfl
    · exact absurd he (hc.mpr hf)
  · rw [clear_execve_current h ret ptr s hl (by simp [hd, ho]) he]
    refine ⟨TransitionInv_reconciled h ret ptr s hs, ?_⟩
    simp [Quiet, flag_clear]

theorem TransitionInv_committing (h : Host) (kz : Ptr) (s : State) (bprm_cred : Ptr)
    (hs : TransitionInv s) (hf : kz = NULL ∨ Fresh s kz) :
    TransitionInv (ccs_bprm_committing_creds h kz s bprm_cred) := by
  have hs0 : TransitionInv (s.emit (Event.original_hook "bprm_committing_creds")) :=
    TransitionInv_congr s _ rfl rfl rfl hs
  have hp1 := TransitionInv_find h kz _ h.current hs0 hf
  unfold ccs_bprm_committing_creds ccs_current_security
  dsimp only
  by_cases hd : (ccs_find_task_security h kz
      (s.emit (Event.original_hook "bprm_committing_creds")) h.current).2 = ccs_default_security ∨
      (ccs_find_task_security h kz
      (s.emit (Event.original_hook "bprm_committing_creds")) h.current).2 = ccs_oom_security
  · rw [if_pos hd]
    exact hp1
  · rw [if_neg hd]
    have hl := find_current_lookup h kz _ (fun hc => hd (Or.inr hc))
    generalize (ccs_find_task_security h kz
      (s.emit (Event.original_hook "bprm_committing_creds")) h.current) = r at hp1 hl hd
    obtain ⟨hi1, hq1⟩ := clear_current_quiet h 0 r.2 r.1 hp1 hl (fun hc => hd (Or.inl hc))
      (fun hc => hd (Or.inr hc))
    generalize ccs_clear_execve h 0 r.2 r.1 = s1 at hi1 hq1
    have hn := find_cred_quiet h s1 bprm_cred hi1
    generalize ccs_find_cred_security h s1 bprm_cred = nw at hn
    have hq2 : Quiet { s1.mem nw with ccs_flags := (s1.mem r.2).ccs_flags } := ⟨hn.1, hq1.2⟩
    have hs2 := TransitionInv_store_quiet s1 nw _ hi1 hq2
    apply TransitionInv_store_quiet _ nw _ hs2
    constructor
    · simp only [store_mem, if_true]
      exact hn.1
    · simp only [store_mem, if_true]
      exact hq1.2

theorem TransitionInv_bprm_check_after (h : Host) (start_rc : Int)
    (start_ee start_domain : Ptr) (rc_orig : Int) (sec : Ptr) (s1 : State) (bprm_cred : Ptr)
    (hs : TransitionInv s1) (hin : ∃ i, sec ∈ s1.ccs_task_security_list i) :
    TransitionInv
      (bprm_check_after h start_rc start_ee start_domain rc_orig sec s1 bprm_cred).1 := by
  unfold bprm_check_after
  by_cases hd : sec = ccs_default_security ∨ sec = ccs_oom_security
  · rw [if_pos hd]
    exact hs
  · rw [if_neg hd]
    by_cases he : (s1.mem sec).ee = NULL
    · rw [if_pos he]
      dsimp only
      -- the state `ccs_start_execve` leaves
      have hstart : TransitionInv
          (ccs_start_execve start_rc start_ee start_domain sec s1 bprm_cred).1 ∧
          (∃ i, sec ∈ (ccs_start_execve start_rc start_ee start_domain sec s1
            bprm_cred).1.ccs_task_security_list i) := by
        unfold ccs_start_execve
        dsimp only
        by_cases hse : start_ee = NULL
        · rw [if_pos hse]
          exact ⟨TransitionInv_congr s1 _ rfl rfl rfl hs, hin⟩
        · rw [if_neg hse]
          refine ⟨?_, hin⟩
          apply TransitionInv_store_task _ sec _ _ hin (fun hc => hd (Or.inl hc))
            (fun hc => hd (Or.inr hc))
          · unfold Consistent
            simp only [emit_mem]
            constructor
            · intro _
              exact flag_set _
            · intro _
              exact hse
          · exact TransitionInv_congr s1 _ rfl rfl rfl hs
      obtain ⟨hps, hins⟩ := hstart
      generalize (ccs_start_execve start_rc start_ee start_domain sec s1 bprm_cred) = r2
        at hps hins
      have hs3 : TransitionInv
          (if (r2.1.mem sec).ee ≠ NULL then
            { (if h.KERNEL_LT_2_6_31 then
                (r2.1.emit (Event.get_cred bprm_cred)).store sec
                  { r2.1.mem sec with cred := bprm_cred }
              else r2.1) with
              ccs_in_execve_tasks :=
                (if h.KERNEL_LT_2_6_31 then
                  (r2.1.emit (Event.get_cred bprm_cred)).store sec
                    { r2.1.mem sec with cred := bprm_cred }
                else r2.1).ccs_in_execve_tasks + 1 }
          else r2.1) := by
        by_cases hee : (r2.1.mem sec).ee ≠ NULL
        · rw [if_pos hee]
          apply TransitionInv_congr
            (if h.KERNEL_LT_2_6_31 then
              (r2.1.emit (Event.get_cred bprm_cred)).store sec
                { r2.1.mem sec with cred := bprm_cred }
            else r2.1) _ rfl rfl rfl
          cases h.KERNEL_LT_2_6_31
          · exact hps
          · simp only [if_true]
            apply TransitionInv_store_task _ sec _ _ hins (fun hc => hd (Or.inl hc))
              (fun hc => hd (Or.inr hc))
            · have := hps.2.1 _ sec hins.choose_spec
              simpa [Consistent] using this
            · exact TransitionInv_congr r2.1 _ rfl rfl rfl hps
        · rw [if_neg hee]
          exact hps
      by_cases hrc : r2.2 ≠ 0
      · rw [if_pos hrc]
        exact hs3
      · rw [if_neg hrc]
        exact TransitionInv_congr _ _ rfl rfl rfl hs3
    · rw [if_neg he]
      exact TransitionInv_congr s1 _ rfl rfl rfl hs

theorem TransitionInv_bprm_check (h : Host) (kz : Ptr) (start_rc : Int)
    (start_ee start_domain : Ptr) (rc_orig : Int) (s : State) (bprm_cred : Ptr)
    (hs : TransitionInv s) (hf : kz = NULL ∨ Fresh s kz) :
    TransitionInv
      (ccs_bprm_check_security h kz start_rc start_ee start_domain rc_orig s bprm_cred).1 := by
  have hp1 := TransitionInv_find h kz s h.current hs hf
  rw [bprm_check_eq]
  by_cases hd : (ccs_find_task_security h kz s h.current).2 = ccs_oom_security
  · unfold bprm_check_after
    rw [if_pos (Or.inr hd)]
    exact hp1
  · have hl := find_current_lookup h kz s hd
    exact TransitionInv_bprm_check_after h start_rc start_ee start_domain rc_orig _ _ bprm_cred
      hp1 ⟨_, (task_lookup_some h _ _ _ hl).1⟩

theorem TransitionInv_task_create_after (h : Host) (rc_orig : Int) (kz3 : Ptr) (cred : Ptr)
    (s0 : State) (hs : TransitionInv s0) (hf : kz3 = NULL ∨ Fresh s0 kz3)
    (hidle : in_execve_flag
      ((ccs_find_task_security h kz3 (s0.emit (Event.original_hook "task_create"))
          h.current).1.mem
        (ccs_find_task_security h kz3 (s0.emit (Event.original_hook "task_create"))
          h.current).2).ccs_flags = false) :
    TransitionInv (task_create_after h rc_orig kz3 cred s0).1 := by
  unfold task_create_after
  dsimp only
  by_cases hc : cred = NULL
  · rw [if_pos hc]
    exact hs
  · rw [if_neg hc]
    by_cases ho : rc_orig ≠ 0
    · rw [if_pos ho]
      exact TransitionInv_congr s0 _ rfl rfl rfl hs
    · rw [if_neg ho]
      have hp2 : TransitionInv (ccs_find_task_security h kz3
          (s0.emit (Event.original_hook "task_create")) h.current).1 :=
        TransitionInv_find h kz3 _ _ (TransitionInv_congr s0 _ rfl rfl rfl hs) hf
      generalize ccs_find_task_security h kz3
        (s0.emit (Event.original_hook "task_create")) h.current = r2 at hp2 hidle ⊢
      have hn := find_cred_quiet h r2.1 cred hp2
      generalize ccs_find_cred_security h r2.1 cred = nw at hn
      have hq1 : Quiet { r2.1.mem nw with
          ccs_domain_info := (r2.1.mem r2.2).ccs_domain_info } := ⟨hn.1, hn.2⟩
      have hs3 := TransitionInv_store_quiet r2.1 nw _ hp2 hq1
      apply TransitionInv_congr _ _ rfl rfl rfl
      apply TransitionInv_store_quiet _ nw _ hs3
      constructor
      · simp only [store_mem, if_true]
        exact hn.1
      · simp only [store_mem, if_true]
        by_cases hq : r2.2 = nw
        · rw [if_pos hq]
          exact hn.2
        · rw [if_neg hq]
          exact hidle

theorem TransitionInv_task_create (h : Host) (new kz1 kz2 : Ptr) (trylock : Bool)
    (rc_prepare : Int) (rc_orig : Int) (kz3 : Ptr) (s : State) (hs : TransitionInv s)
    (hf1 : kz1 = NULL ∨ Fresh s kz1) (hf2 : kz2 = NULL ∨ (Fresh s kz2 ∧ kz2 ≠ kz1))
    (hf3 : kz3 = NULL ∨ (Fresh s kz3 ∧ kz3 ≠ kz1 ∧ kz3 ≠ kz2))
    (hidle : in_execve_flag
      ((task_create_lookup h new kz1 kz2 trylock rc_prepare kz3 s).1.mem
        (task_create_lookup h new kz1 kz2 trylock rc_prepare kz3 s).2).ccs_flags = false) :
    TransitionInv (ccs_task_create h new kz1 kz2 trylock rc_prepare rc_orig kz3 s).1 := by
  rw [task_create_eq]
  apply TransitionInv_task_create_after h rc_orig kz3 _ _
    (TransitionInv_prepare_creds h new kz1 kz2 trylock rc_prepare s hs hf1 hf2) _ hidle
  rcases hf3 with hf3 | ⟨hf3, hne1, hne2⟩
  · exact Or.inl hf3
  · right
    apply Fresh_grows [kz1, kz2] s _ kz3 (Grows_prepare_creds h new kz1 kz2 trylock rc_prepare s)
      hf3
    simp [hne1, hne2]

/-- From 2.6.31 on, a lookup by a task that is not inside `execve` returns a
record that is not marked. -/
theorem lookup_idle (h : Host) (kz : Ptr) (s : State) (hs : TransitionInv s)
    (hk : h.KERNEL_LT_2_6_31 = false) (hx : h.in_execve h.current = false) :
    in_execve_flag ((ccs_find_task_security h kz s h.current).1.mem
      (ccs_find_task_security h kz s h.current).2).ccs_flags = false := by
  cases hl : task_lookup h s h.current with
  | some ptr =>
    rw [find_task_found h kz s _ ptr hl]
    simp only [hk, Bool.false_eq_true, if_false, hx, and_true, true_and]
    cases hfl : in_execve_flag (s.mem ptr).ccs_flags
    · simp [hfl]
    · simp only [if_true]
      have hc := hs.2.1 _ ptr (task_lookup_some h s _ ptr hl).1
      have hee : (s.mem ptr).ee ≠ NULL := hc.mpr hfl
      have hd : ptr ≠ ccs_default_security := by
        intro hcd
        rw [hcd] at hee
        exact hee hs.2.2.2.1.1
      have ho : ptr ≠ ccs_oom_security := by
        intro hco
        rw [hco] at hee
        exact hee hs.2.2.2.2.1
      exact (clear_current_quiet h (-1) ptr s hs hl hd ho).2.2
  | none =>
    rw [find_task_miss h kz s _ hl]
    simp only [ne_eq, not_true_eq_false, if_false]
    by_cases hkz : kz = NULL
    · rw [if_pos hkz]
      exact hs.2.2.2.2.2
    · rw [if_neg hkz]
      have := find_cred_quiet h s (h.task_cred h.current) hs
      simpa [ccs_add_task_security] using this.2

end Lsm2629

namespace Lsm412

theorem Quiet_consistent_412 (r : ccs_security) (hr : Quiet r) : Consistent r := by
  unfold Consistent
  constructor
  · intro hc
    exact absurd hr.1 hc
  · intro hc
    rw [hr.2] at hc
    exact absurd hc (by decide)

/-- Same records, and every bucket a part of what it was. -/
theorem TransitionInv_sub_412 (s t : State) (hm : t.mem = s.mem)
    (ht : ∀ i, ∀ p ∈ t.ccs_task_security_list i, p ∈ s.ccs_task_security_list i)
    (hs : TransitionInv s) : TransitionInv t := by
  obtain ⟨h1, h2, h3⟩ := hs
  refine ⟨?_, ?_, ?_⟩
  · intro i p hp
    rw [hm]
    exact h1 i p (ht i p hp)
  · rw [hm]; exact h2
  · rw [hm]; exact h3

theorem TransitionInv_store_quiet_412 (s : State) (p : Ptr) (r : ccs_security)
    (hs : TransitionInv s) (hr : Quiet r) : TransitionInv (s.store p r) := by
  obtain ⟨h1, h2, h3⟩ := hs
  refine ⟨?_, ?_, ?_⟩
  · intro i q hq
    simp only [store_mem_412]
    split_ifs
    · exact Quiet_consistent_412 r hr
    · exact h1 i q hq
  · simp only [store_mem_412]
    split_ifs
    · exact hr
    · exact h2
  · simp only [store_mem_412]
    split_ifs
    · exact hr
    · exact h3

theorem TransitionInv_store_consistent_412 (s : State) (p : Ptr) (r : ccs_security)
    (hs : TransitionInv s) (hd : p ≠ ccs_default_security) (ho : p ≠ ccs_oom_security)
    (hr : Consistent r) : TransitionInv (s.store p r) := by
  obtain ⟨h1, h2, h3⟩ := hs
  refine ⟨?_, ?_, ?_⟩
  · intro i q hq
    simp only [store_mem_412]
    split_ifs
    · exact hr
    · exact h1 i q hq
  · simp only [store_mem_412]
    rw [if_neg (fun hc => hd hc.symm)]
    exact h2
  · simp only [store_mem_412]
    rw [if_neg (fun hc => ho hc.symm)]
    exact h3

/-- Linking a quiet record. -/
theorem TransitionInv_link_412 (s t : State) (kz : Ptr) (idx : Nat) (hs : TransitionInv s)
    (hlist : t.ccs_task_security_list = fun i =>
      if i = idx then kz :: s.ccs_task_security_list i else s.ccs_task_security_list i)
    (hkz : Quiet (t.mem kz)) (hold : ∀ q, q ≠ kz → t.mem q = s.mem q) :
    TransitionInv t := by
  obtain ⟨h1, h2, h3⟩ := hs
  have hany : ∀ q, Quiet (s.mem q) → Quiet (t.mem q) := by
    intro q hq
    by_cases hc : q = kz
    · rw [hc]; exact hkz
    · rw [hold q hc]; exact hq
  refine ⟨?_, hany _ h2, hany _ h3⟩
  intro i p hp
  by_cases hq : p = kz
  · rw [hq]; exact Quiet_consistent_412 _ hkz
  · rw [hold p hq]
    rw [hlist] at hp
    dsimp only at hp
    split_ifs at hp
    · rcases List.mem_cons.mp hp with hc | hc
      · exact absurd hc hq
      · exact h1 i p hc
    · exact h1 i p hp

theorem TransitionInv_reconciled_412 (ret : Int) (ptr : Ptr) (s : State)
    (hs : TransitionInv s) : TransitionInv (reconciled ret ptr s) :=
  TransitionInv_sub_412
    (s.store ptr
      { task := (s.mem ptr).task,
        ccs_domain_info :=
          if ret < 0 then (s.ee_mem (s.mem ptr).ee).previous_domain
          else (s.mem ptr).ccs_domain_info,
        ccs_flags := clear_in_execve_flag (s.mem ptr).ccs_flags,
        ee := NULL }) _ rfl (fun _ _ hp => hp)
    (TransitionInv_store_quiet_412 s ptr _ hs ⟨rfl, flag_clear _⟩)

theorem TransitionInv_find_412 (h : Host) (kz : Ptr) (s : State) (task : Ptr)
    (hs : TransitionInv s) : TransitionInv (ccs_find_task_security h kz s task).1 := by
  by_cases hne : task = h.current
  · subst hne
    rcases find_current_cases_412 h kz s with ⟨ptr, _, he⟩ | ⟨ptr, hl, _, _, _, he⟩ |
      ⟨_, _, he⟩ | ⟨_, hk, he⟩
    · rw [he]; exact hs
    · rw [he]
      exact TransitionInv_reconciled_412 _ ptr s hs
    · rw [he]; exact TransitionInv_sub_412 s _ rfl (fun _ _ hp => hp) hs
    · rw [he]
      refine TransitionInv_link_412 s _ kz (h.hash_ptr h.current) hs rfl ?_ ?_
      · have := hs.2.1
        simpa [allocated, Quiet] using this
      · intro q hq
        simp [allocated, hq]
  · rw [find_other_412 h kz s task hne]
    exact hs

/-- After `ccs_clear_execve` on what the lookup of the running task returned,
the invariant holds and the record is quiet. -/
theorem clear_result_quiet_412 (h : Host) (kz : Ptr) (ret : Int) (s : State)
    (hs : TransitionInv s) :
    TransitionInv (ccs_clear_execve h ret (ccs_find_task_security h kz s h.current).2
      (ccs_find_task_security h kz s h.current).1) ∧
    Quiet ((ccs_clear_execve h ret (ccs_find_task_security h kz s h.current).2
      (ccs_find_task_security h kz s h.current).1).mem
        (ccs_find_task_security h kz s h.current).2) := by
  have hp1 := TransitionInv_find_412 h kz s h.current hs
  by_cases hd : (ccs_find_task_security h kz s h.current).2 = ccs_default_security ∨
      (ccs_find_task_security h kz s h.current).2 = ccs_oom_security
  · rw [clear_execve_dummy_412 h ret _ _ hd]
    refine ⟨hp1, ?_⟩
    rcases hd with hd | hd
    · rw [hd]; exact hp1.2.1
    · rw [hd]; exact hp1.2.2
  · have hl := find_current_lookup_412 h kz s (fun hc => hd (Or.inr hc))
    generalize ccs_find_task_security h kz s h.current = r at hp1 hl hd
    by_cases he : (r.1.mem r.2).ee = NULL
    · rw [clear_execve_noee_412 h ret r.2 r.1 he]
      refine ⟨hp1, he, ?_⟩
      have hc := hp1.1 _ r.2 (task_lookup_some_412 h r.1 _ r.2 hl).1
      unfold Consistent at hc
      cases hf : in_execve_flag (r.1.mem r.2).ccs_flags
      · rfl
      · exact absurd he (hc.mpr hf)
    · rw [clear_execve_current_412 h ret r.2 r.1 hl hd he]
      refine ⟨TransitionInv_reconciled_412 ret r.2 r.1 hp1, ?_⟩
      simp [Quiet, flag_clear]

theorem TransitionInv_committing_412 (h : Host) (kz : Ptr) (s : State)
    (hs : TransitionInv s) : TransitionInv (ccs_bprm_committing_creds h kz s) :=
  (clear_result_quiet_412 h kz 0 s hs).1

theorem TransitionInv_bprm_check_412 (h : Host) (kz : Ptr) (start_rc : Int)
    (start_ee start_domain : Ptr) (s : State) (hs : TransitionInv s) :
    TransitionInv (ccs_bprm_check_security h kz start_rc start_ee start_domain s).1 := by
  have hp1 := TransitionInv_find_412 h kz s h.current hs
  unfold ccs_bprm_check_security ccs_current_security
  dsimp only
  generalize ccs_find_task_security h kz s h.current = r at hp1
  by_cases hd : r.2 = ccs_default_security ∨ r.2 = ccs_oom_security
  · rw [if_pos hd]
    exact hp1
  · rw [if_neg hd]
    by_cases he : (r.1.mem r.2).ee ≠ NULL
    · rw [if_pos he]
      exact hp1
    · rw [if_neg he]
      unfold ccs_start_execve
      dsimp only
      by_cases hse : start_ee = NULL
      · rw [if_pos hse]
        exact TransitionInv_sub_412 r.1 _ rfl (fun _ _ hp => hp) hp1
      · rw [if_neg hse]
        apply TransitionInv_store_consistent_412 _ r.2 _ _ (fun hc => hd (Or.inl hc))
          (fun hc => hd (Or.inr hc))
        · unfold Consistent
          constructor
          · intro _
            exact flag_set _
          · intro _
            exact hse
        · exact TransitionInv_sub_412 r.1 _ rfl (fun _ _ hp => hp) hp1

theorem TransitionInv_alloc_task_412 (h : Host) (kz1 kz2 : Ptr) (s : State) (task : Ptr)
    (hs : TransitionInv s)
    (hidle : in_execve_flag ((ccs_find_task_security h kz1 s h.current).1.mem
      (ccs_find_task_security h kz1 s h.current).2).ccs_flags = false) :
    TransitionInv (__ccs_alloc_task_security h kz1 kz2 s task).1 := by
  have hp1 := TransitionInv_find_412 h kz1 s h.current hs
  rw [alloc_task_eq_412]
  generalize ccs_find_task_security h kz1 s h.current = r at hp1 hidle
  by_cases hk : kz2 = NULL
  · rw [if_pos hk]
    exact hp1
  · rw [if_neg hk]
    refine TransitionInv_link_412 r.1 _ kz2 (h.hash_ptr task) hp1 rfl ?_ ?_
    · constructor
      · simp
      · simp only [if_true]
        by_cases ho : r.2 = kz2
        · rw [if_pos ho]
          decide
        · rw [if_neg ho]
          exact hidle
    · intro q hq
      simp [hq]

theorem TransitionInv_free_task_412 (h : Host) (kz : Ptr) (s : State) (task : Ptr)
    (hs : TransitionInv s) : TransitionInv (__ccs_free_task_security h kz s task) := by
  have hp1 := TransitionInv_find_412 h kz s task hs
  unfold __ccs_free_task_security
  dsimp only
  split_ifs
  · exact hp1
  · exact TransitionInv_sub_412 (ccs_find_task_security h kz s task).1 _ rfl
      (fun i p hp => (List.mem_filter.mp hp).1) hp1

theorem TransitionInv_task_alloc_412 (h : Host) (kz1 kz2 kz3 : Ptr) (rc_orig : Option Int)
    (s : State) (p : Ptr) (hs : TransitionInv s)
    (hidle : in_execve_flag ((ccs_find_task_security h kz1 s h.current).1.mem
      (ccs_find_task_security h kz1 s h.current).2).ccs_flags = false) :
    TransitionInv (ccs_task_alloc_security h kz1 kz2 kz3 rc_orig s p).1 := by
  have hp1 := TransitionInv_alloc_task_412 h kz1 kz2 s p hs hidle
  unfold ccs_task_alloc_security
  dsimp only
  generalize __ccs_alloc_task_security h kz1 kz2 s p = r at hp1
  by_cases hrc : r.2 ≠ 0
  · rw [if_pos hrc]
    exact hp1
  · rw [if_neg hrc]
    cases rc_orig with
    | none => exact hp1
    | some rc =>
      dsimp only
      by_cases ho : rc ≠ 0
      · rw [if_pos ho]
        exact TransitionInv_free_task_412 h kz3 _ p
          (TransitionInv_sub_412 r.1 _ rfl (fun _ _ hp => hp) hp1)
      · rw [if_neg ho]
        exact TransitionInv_sub_412 r.1 _ rfl (fun _ _ hp => hp) hp1

theorem TransitionInv_cred_prepare_412 (h : Host) (kz : Ptr) (rc_orig : Option Int)
    (gfp_kernel : Bool) (s : State) (hs : TransitionInv s) :
    TransitionInv (ccs_cred_prepare h kz rc_orig gfp_kernel s).1 := by
  have hp1 : TransitionInv
      (if gfp_kernel = true then (ccs_find_task_security h kz s h.current).1 else s) := by
    split_ifs
    · exact TransitionInv_find_412 h kz s h.current hs
    · exact hs
  unfold ccs_cred_prepare
  dsimp only
  generalize (if gfp_kernel = true then (ccs_find_task_security h kz s h.current).1 else s)
    = s1 at hp1
  cases rc_orig with
  | none => exact hp1
  | some rc => exact TransitionInv_sub_412 s1 _ rfl (fun _ _ hp => hp) hp1

/-- A lookup by a task that is not inside `execve` returns a record that is
not marked. -/
theorem lookup_idle_412 (h : Host) (kz : Ptr) (s : State) (hs : TransitionInv s)
    (hx : h.in_execve h.current = false) :
    in_execve_flag ((ccs_find_task_security h kz s h.current).1.mem
      (ccs_find_task_security h kz s h.current).2).ccs_flags = false := by
  cases hl : task_lookup h s h.current with
  | some ptr =>
    cases hfl : in_execve_flag (s.mem ptr).ccs_flags
    · rw [find_task_found_412 h kz s _ ptr hl]
      simp [hfl]
    · have hq := (clear_result_quiet_412 h kz (-1) s hs).2
      have hfind : ccs_find_task_security h kz s h.current
          = (ccs_clear_execve h (-1) ptr s, ptr) := by
        rw [find_task_found_412 h kz s _ ptr hl]
        simp [hfl, hx]
      have hc := hs.1 _ ptr (task_lookup_some_412 h s _ ptr hl).1
      have hee : (s.mem ptr).ee ≠ NULL := hc.mpr hfl
      have hd : ¬ (ptr = ccs_default_security ∨ ptr = ccs_oom_security) := by
        rintro (hcd | hco)
        · rw [hcd] at hee
          exact hee hs.2.1.1
        · rw [hco] at hee
          exact hee hs.2.2.1
      rw [hfind]
      dsimp only
      rw [clear_execve_current_412 h (-1) ptr s hl hd hee]
      simp [flag_clear]
  | none =>
    rw [find_task_miss_412 h kz s _ hl]
    simp only [ne_eq, not_true_eq_false, if_false]
    by_cases hkz : kz = NULL
    · rw [if_pos hkz]
      exact hs.2.2.2
    · rw [if_neg hkz]
      have := hs.2.1.2
      simpa [ccs_add_task_security] using this

end Lsm412

/-! ## Idempotent reconciliation: C4 -/

namespace Lsm2629

theorem finish_pid (h : Host) (ret : Int) (ee : Ptr) (s : State) (q : Ptr) :
    ((ccs_finish_execve h ret ee s).mem q).pid = (s.mem q).pid := by
  rw [finish_mem]
  cases task_lookup h s h.current with
  | none => rfl
  | some t2 =>
    by_cases hq2 : q = t2
    · simp [hq2]
    · simp [hq2]

theorem clear_execve_lookup (h : Host) (ret : Int) (sec : Ptr) (s : State) (t : Ptr) :
    task_lookup h (ccs_clear_execve h ret sec s) t = task_lookup h s t := by
  by_cases hs : sec = ccs_default_security ∨ sec = ccs_oom_security
  · rw [clear_execve_dummy h ret sec s hs]
  · by_cases he : (s.mem sec).ee = NULL
    · rw [clear_execve_noee h ret sec s he]
    · rw [clear_execve_eq h ret sec s hs he]
      apply task_lookup_congr
      · simp [clear_mid]
      · intro q
        rw [finish_pid]
        by_cases hq : q = sec <;> simp [clear_mid, hq]

/-- A lookup of the running task right after a lookup of the running task
returns the same record and changes nothing. -/
theorem find_twice (h : Host) (kz kz2 : Ptr) (s : State) (ptr : Ptr)
    (hl : task_lookup h s h.current = some ptr) :
    ccs_find_task_security h kz2 (ccs_find_task_security h kz s h.current).1 h.current
      = ((ccs_find_task_security h kz s h.current).1, ptr) := by
  have hsame : ccs_find_task_security h kz2 s h.current = ccs_find_task_security h kz s h.current := by
    rw [find_task_found h kz2 s _ ptr hl, find_task_found h kz s _ ptr hl]
  by_cases hfix : ccs_find_task_security h kz s h.current = (s, ptr)
  · rw [hfix]
    dsimp only
    rw [hsame, hfix]
  · have hrec : ccs_find_task_security h kz s h.current = (ccs_clear_execve h (-1) ptr s, ptr) := by
      rw [find_task_found h kz s _ ptr hl] at hfix ⊢
      split_ifs at hfix ⊢ <;> first | rfl | exact absurd rfl hfix
    rw [hrec]
    dsimp only
    have hl1 : task_lookup h (ccs_clear_execve h (-1) ptr s) h.current = some ptr := by
      rw [clear_execve_lookup]
      exact hl
    by_cases hs : ptr = ccs_default_security ∨ ptr = ccs_oom_security
    · rw [clear_execve_dummy h _ ptr s hs] at hrec
      exact absurd hrec hfix
    · have hee := clear_execve_ee h (-1) ptr s (fun hc => hs (Or.inl hc))
        (fun hc => hs (Or.inr hc))
      exact find_task_idle h kz2 _ _ ptr hl1 hee

end Lsm2629

namespace Lsm412

theorem finish_task_412 (h : Host) (ret : Int) (ee : Ptr) (s : State) (q : Ptr) :
    ((ccs_finish_execve h ret ee s).mem q).task = (s.mem q).task := by
  rw [finish_mem_412]
  cases task_lookup h s h.current with
  | none => rfl
  | some t2 =>
    by_cases hq2 : q = t2
    · simp [hq2]
    · simp [hq2]

theorem clear_execve_lookup_412 (h : Host) (ret : Int) (sec : Ptr) (s : State) (t : Ptr) :
    task_lookup h (ccs_clear_execve h ret sec s) t = task_lookup h s t := by
  by_cases hs : sec = ccs_default_security ∨ sec = ccs_oom_security
  · rw [clear_execve_dummy_412 h ret sec s hs]
  · by_cases he : (s.mem sec).ee = NULL
    · rw [clear_execve_noee_412 h ret sec s he]
    · rw [clear_execve_eq_412 h ret sec s hs he]
      apply task_lookup_congr_412
      · simp
      · intro q
        rw [finish_task_412]
        by_cases hq : q = sec <;> simp [hq]

theorem find_task_idle_412 (h : Host) (kz : Ptr) (s : State) (task ptr : Ptr)
    (hl : task_lookup h s task = some ptr) (he : (s.mem ptr).ee = NULL) :
    ccs_find_task_security h kz s task = (s, ptr) := by
  rw [find_task_found_412 h kz s _ ptr hl, clear_execve_noee_412 h _ ptr s he]
  split_ifs <;> rfl

theorem find_twice_412 (h : Host) (kz kz2 : Ptr) (s : State) (ptr : Ptr)
    (hl : task_lookup h s h.current = some ptr) :
    ccs_find_task_security h kz2 (ccs_find_task_security h kz s h.current).1 h.current
      = ((ccs_find_task_security h kz s h.current).1, ptr) := by
  have hsame : ccs_find_task_security h kz2 s h.current = ccs_find_task_security h kz s h.current := by
    rw [find_task_found_412 h kz2 s _ ptr hl, find_task_found_412 h kz s _ ptr hl]
  by_cases hfix : ccs_find_task_security h kz s h.current = (s, ptr)
  · rw [hfix]
    dsimp only
    rw [hsame, hfix]
  · have hrec : ccs_find_task_security h kz s h.current = (ccs_clear_execve h (-1) ptr s, ptr) := by
      rw [find_task_found_412 h kz s _ ptr hl] at hfix ⊢
      split_ifs at hfix ⊢ <;> first | rfl | exact absurd rfl hfix
    rw [hrec]
    dsimp only
    have hl1 : task_lookup h (ccs_clear_execve h (-1) ptr s) h.current = some ptr := by
      rw [clear_execve_lookup_412]
      exact hl
    by_cases hs : ptr = ccs_default_security ∨ ptr = ccs_oom_security
    · rw [clear_execve_dummy_412 h _ ptr s hs] at hrec
      exact absurd hrec hfix
    · have hee := clear_execve_ee_412 h (-1) ptr s (fun hc => hs (Or.inl hc))
        (fun hc => hs (Or.inr hc))
      exact find_task_idle_412 h kz2 _ _ ptr hl1 hee

end Lsm412

/-- C4. Reconciliation is idempotent.  For a record that is not a dummy and
holds a Transition Record, the first `ccs_clear_execve` leaves `ee == NULL`,
calls `ccs_finish_execve` once (the only call it adds to the log besides the
`put_cred` of kernels before 2.6.31) and lowers `ccs_in_execve_tasks` by one;
a second `ccs_clear_execve` on the record returns the state unchanged.
Likewise for lookups: whatever the first `ccs_find_task_security(current)` did
to the record it found, a second one right after it returns that record and
the state unchanged.  The same holds for `lsm-4.12.c`, which has no counter. -/
theorem C4_clear_execve_idempotent :
    (∀ (h : Host) (ret ret2 : Int) (sec : Ptr) (s : Lsm2629.State),
      sec ≠ ccs_default_security → sec ≠ ccs_oom_security → (s.mem sec).ee ≠ NULL →
      ((Lsm2629.ccs_clear_execve h ret sec s).mem sec).ee = NULL ∧
      (Lsm2629.ccs_clear_execve h ret sec s).log
        = (if h.KERNEL_LT_2_6_31 then s.log ++ [Event.put_cred (s.mem sec).cred] else s.log)
          ++ [Event.ccs_finish_execve ret (s.mem sec).ee] ∧
      (Lsm2629.ccs_clear_execve h ret sec s).ccs_in_execve_tasks
        = s.ccs_in_execve_tasks - 1 ∧
      Lsm2629.ccs_clear_execve h ret2 sec (Lsm2629.ccs_clear_execve h ret sec s)
        = Lsm2629.ccs_clear_execve h ret sec s) ∧
    (∀ (h : Host) (kz kz2 : Ptr) (s : Lsm2629.State) (ptr : Ptr),
      Lsm2629.task_lookup h s h.current = some ptr →
      Lsm2629.ccs_find_task_security h kz2
          (Lsm2629.ccs_find_task_security h kz s h.current).1 h.current
        = ((Lsm2629.ccs_find_task_security h kz s h.current).1, ptr)) ∧
    (∀ (h : Host) (ret ret2 : Int) (sec : Ptr) (s : Lsm412.State),
      sec ≠ ccs_default_security → sec ≠ ccs_oom_security → (s.mem sec).ee ≠ NULL →
      ((Lsm412.ccs_clear_execve h ret sec s).mem sec).ee = NULL ∧
      (Lsm412.ccs_clear_execve h ret sec s).log
        = s.log ++ [Event.ccs_finish_execve ret (s.mem sec).ee] ∧
      Lsm412.ccs_clear_execve h ret2 sec (Lsm412.ccs_clear_execve h ret sec s)
        = Lsm412.ccs_clear_execve h ret sec s) ∧
    (∀ (h : Host) (kz kz2 : Ptr) (s : Lsm412.State) (ptr : Ptr),
      Lsm412.task_lookup h s h.current = some ptr →
      Lsm412.ccs_find_task_security h kz2
          (Lsm412.ccs_find_task_security h kz s h.current).1 h.current
        = ((Lsm412.ccs_find_task_security h kz s h.current).1, ptr)) := by
  refine ⟨?_, ?_, ?_, ?_⟩
  · intro h ret ret2 sec s h1 h2 he
    have hee := clear_execve_ee h ret sec s h1 h2
    refine ⟨hee, ?_, ?_, Lsm2629.clear_execve_noee h ret2 sec _ hee⟩
    · rw [Lsm2629.clear_execve_eq h ret sec s (by simp [h1, h2]) he]
      simp [Lsm2629.clear_mid]
    · rw [Lsm2629.clear_execve_eq h ret sec s (by simp [h1, h2]) he]
      simp [Lsm2629.clear_mid]
  · intro h kz kz2 s ptr hl
    exact Lsm2629.find_twice h kz kz2 s ptr hl
  · intro h ret ret2 sec s h1 h2 he
    have hee := clear_execve_ee_412 h ret sec s h1 h2
    refine ⟨hee, ?_, Lsm412.clear_execve_noee_412 h ret2 sec _ hee⟩
    rw [Lsm412.clear_execve_eq_412 h ret sec s (by simp [h1, h2]) he]
    simp
  · intro h kz kz2 s ptr hl
    exact Lsm412.find_twice_412 h kz kz2 s ptr hl

/-- Witness of C4: the record at `10` of `demoPending` holds Transition Record
`50`; clearing it once lowers the counter, clearing it again changes nothing,
and so does a second lookup after the lookup that infers the abort. -/
theorem C4_clear_execve_idempotent_witness :
    ((10 : Ptr) ≠ ccs_default_security ∧ (10 : Ptr) ≠ ccs_oom_security ∧
      (Lsm2629.demoPending.mem 10).ee ≠ NULL ∧
      Lsm2629.task_lookup demoHost Lsm2629.demoPending demoHost.current = some 10) ∧
    (Lsm2629.ccs_clear_execve demoHost (-1) 10 Lsm2629.demoPending).ccs_in_execve_tasks
      = Lsm2629.demoPending.ccs_in_execve_tasks - 1 ∧
    Lsm2629.ccs_clear_execve demoHost (-1) 10
        (Lsm2629.ccs_clear_execve demoHost (-1) 10 Lsm2629.demoPending)
      = Lsm2629.ccs_clear_execve demoHost (-1) 10 Lsm2629.demoPending ∧
    Lsm2629.ccs_find_task_security demoHost 0
        (Lsm2629.ccs_find_task_security demoHost 0 Lsm2629.demoPending demoHost.current).1
        demoHost.current
      = ((Lsm2629.ccs_find_task_security demoHost 0 Lsm2629.demoPending
          demoHost.current).1, 10) ∧
    ((Lsm412.demoPending.mem 10).ee ≠ NULL ∧
      ((Lsm412.ccs_clear_execve demoHost 0 10 Lsm412.demoPending).mem 10).ee = NULL) :=
  ⟨⟨by decide, by decide, by decide, by decide⟩,
    (C4_clear_execve_idempotent.1 demoHost (-1) (-1) 10 Lsm2629.demoPending
      (by decide) (by decide) (by decide)).2.2.1,
    (C4_clear_execve_idempotent.1 demoHost (-1) (-1) 10 Lsm2629.demoPending
      (by decide) (by decide) (by decide)).2.2.2,
    C4_clear_execve_idempotent.2.1 demoHost 0 0 Lsm2629.demoPending 10 (by decide),
    by decide,
    (C4_clear_execve_idempotent.2.2.1 demoHost 0 0 10 Lsm412.demoPending
      (by decide) (by decide) (by decide)).1⟩

/-! ## Rate limit of the sweep: C11 -/

namespace Lsm2629

theorem gc_skips (h : Host) (trylock : Bool) (s : State)
    (hz : s.ccs_in_execve_tasks = 0) (hc : s.gc_counter + 1 < 1024) :
    ccs_task_security_gc h trylock s = { s with gc_counter := s.gc_counter + 1 } := by
  unfold ccs_task_security_gc
  rw [if_pos hz]
  dsimp only
  rw [if_pos hc]

theorem gc_calls_skip (h : Host) (locks : List Bool) :
    ∀ s : State, s.ccs_in_execve_tasks = 0 → 0 ≤ s.gc_counter →
      s.gc_counter + locks.length < 1024 →
      gc_calls h locks s = { s with gc_counter := s.gc_counter + locks.length } := by
  induction locks with
  | nil =>
    intro s _ _ _
    simp [gc_calls]
  | cons tl rest ih =>
    intro s hz h0 hlen
    have hlen2 : s.gc_counter + 1 + (rest.length : Int) < 1024 := by
      simp only [List.length_cons, Nat.cast_add, Nat.cast_one] at hlen
      omega
    have hstep := gc_skips h tl s hz (by omega)
    have := ih { s with gc_counter := s.gc_counter + 1 } hz (by simp; omega) hlen2
    unfold gc_calls at this ⊢
    rw [List.foldl_cons, hstep, this]
    simp only [List.length_cons, Nat.cast_add, Nat.cast_one]
    congr 1
    omega

theorem gc_fires (h : Host) (trylock : Bool) (s : State)
    (hz : s.ccs_in_execve_tasks = 0) (hc : ¬ s.gc_counter + 1 < 1024) :
    ccs_task_security_gc h trylock s
      = gc_sweep h trylock { s with gc_counter := s.gc_counter + 1 } := by
  unfold ccs_task_security_gc
  rw [if_pos hz]
  dsimp only
  rw [if_neg hc]

theorem gc_eager (h : Host) (trylock : Bool) (s : State) (hz : s.ccs_in_execve_tasks ≠ 0) :
    ccs_task_security_gc h trylock s = gc_sweep h trylock s := by
  unfold ccs_task_security_gc
  rw [if_neg hz]

/-- C11. Rate limit of the sweep.  While `ccs_in_execve_tasks` is not zero
every call of `ccs_task_security_gc` that gets the try-lock is the sweep: the
cadence counter is reset to 0 and every bucket of the task table keeps exactly
the records whose pid still has a task.  While it is zero and the cadence
counter starts at 0, any number `n <= 1023` of consecutive calls changes
nothing but the cadence counter, which becomes `n`, whatever the try-lock would
give; the call after 1023 such calls is the sweep and leaves the cadence counter
at 0. -/
theorem C11_gc_rate_limit :
    (∀ (h : Host) (s : State), s.ccs_in_execve_tasks ≠ 0 →
      ccs_task_security_gc h true s = gc_sweep h true s ∧
      (ccs_task_security_gc h true s).gc_counter = 0 ∧
      (∀ i, (ccs_task_security_gc h true s).ccs_task_security_list i
        = (s.ccs_task_security_list i).filter
            (fun q => decide (¬ (removable h s.mem q ∧
              ∃ j ∈ List.range h.CCS_MAX_TASK_SECURITY_HASH,
                q ∈ s.ccs_task_security_list j))))) ∧
    (∀ (h : Host) (s : State) (locks : List Bool),
      s.ccs_in_execve_tasks = 0 → s.gc_counter = 0 → locks.length ≤ 1023 →
      gc_calls h locks s = { s with gc_counter := locks.length }) ∧
    (∀ (h : Host) (s : State) (locks : List Bool),
      s.ccs_in_execve_tasks = 0 → s.gc_counter = 0 → locks.length = 1023 →
      ccs_task_security_gc h true (gc_calls h locks s)
        = gc_sweep h true { s with gc_counter := 1024 } ∧
      (ccs_task_security_gc h true (gc_calls h locks s)).gc_counter = 0 ∧
      (∀ i, (ccs_task_security_gc h true (gc_calls h locks s)).ccs_task_security_list i
        = (s.ccs_task_security_list i).filter
            (fun q => decide (¬ (removable h s.mem q ∧
              ∃ j ∈ List.range h.CCS_MAX_TASK_SECURITY_HASH,
                q ∈ s.ccs_task_security_list j))))) := by
  refine ⟨?_, ?_, ?_⟩
  · intro h s hz
    rw [gc_eager h true s hz]
    have hsp := gc_sweep_spec h s
    exact ⟨rfl, by rw [hsp.1.gc_counter], hsp.2.1⟩
  · intro h s locks hz hc hlen
    have := gc_calls_skip h locks s hz (by omega) (by rw [hc]; omega)
    rw [this, hc]
    simp
  · intro h s locks hz hc hlen
    have hskip := gc_calls_skip h locks s hz (by omega) (by rw [hc, hlen]; omega)
    have hcnt : s.gc_counter + (locks.length : Int) + 1 = 1024 := by rw [hc, hlen]; rfl
    have hfire := gc_fires h true (gc_calls h locks s) (by rw [hskip]; exact hz)
      (by rw [hskip]; dsimp only; omega)
    have hst : ({ gc_calls h locks s with gc_counter := (gc_calls h locks s).gc_counter + 1 }
        : State) = { s with gc_counter := 1024 } := by
      rw [hskip]
      dsimp only
      rw [hcnt]
    rw [hfire, hst]
    have hsp := gc_sweep_spec h { s with gc_counter := 1024 }
    exact ⟨rfl, by rw [hsp.1.gc_counter], hsp.2.1⟩

/-- Witness of C11: from the initial state, where no transition is in flight,
three calls only count, and the call after 1023 calls is the sweep. -/
theorem C11_gc_rate_limit_witness :
    (init.ccs_in_execve_tasks = 0 ∧ init.gc_counter = 0 ∧
      (List.replicate 1023 true).length = 1023) ∧
    gc_calls demoHost [true, true, false] init = { init with gc_counter := 3 } ∧
    (ccs_task_security_gc demoHost true
      (gc_calls demoHost (List.replicate 1023 true) init)).gc_counter = 0 ∧
    (gcState.ccs_in_execve_tasks ≠ 0 ∧
      (ccs_task_security_gc gcHost true gcState).gc_counter = 0) :=
  ⟨⟨rfl, rfl, List.length_replicate _ _⟩,
    C11_gc_rate_limit.2.1 demoHost init [true, true, false] rfl rfl (by decide),
    (C11_gc_rate_limit.2.2 demoHost init (List.replicate 1023 true) rfl rfl
      (List.length_replicate _ _)).2.1,
    by decide,
    (C11_gc_rate_limit.1 gcHost gcState (by decide)).2.1⟩

end Lsm2629

/-! ## A second transition request: C14 -/

namespace Lsm2629

/-- The lookup of the running task finds its record and leaves the state alone
when the task is still inside `execve` as far as the lookup can tell. -/
theorem find_task_inside (h : Host) (kz : Ptr) (s : State) (ptr : Ptr)
    (hl : task_lookup h s h.current = some ptr)
    (hnew : h.KERNEL_LT_2_6_31 = false → h.in_execve h.current = true)
    (hold : h.KERNEL_LT_2_6_31 = true →
      ¬ ((s.mem ptr).cred ≠ NULL ∧ h.cred_usage (s.mem ptr).cred = 1)) :
    ccs_find_task_security h kz s h.current = (s, ptr) := by
  rw [find_task_found h kz s _ ptr hl]
  cases hk : h.KERNEL_LT_2_6_31
  · simp [hnew hk]
  · have := hold hk
    simp only [if_true]
    rw [if_neg]
    intro hc
    exact this hc.2

end Lsm2629

namespace Lsm412

theorem find_task_inside_412 (h : Host) (kz : Ptr) (s : State) (ptr : Ptr)
    (hl : task_lookup h s h.current = some ptr) (hin : h.in_execve h.current = true) :
    ccs_find_task_security h kz s h.current = (s, ptr) := by
  rw [find_task_found_412 h kz s _ ptr hl]
  simp [hin]

end Lsm412

/-- C14. A second transition request while one is pending is a no-op.  Let the
record of the running task hold a Transition Record (`ee != NULL`), the task
being inside `execve` as far as the lookup can tell, which is where the hook is
called.  Then `ccs_bprm_check_security` of `lsm-2.6.29.c` only calls the
previously registered hook and returns its result: `ccs_start_execve` is not
called and records, tables and `ccs_in_execve_tasks` are as before; the hook of
`lsm-4.12.c` returns 0 and changes nothing at all.  When the lookup returns a
dummy, both hooks return `-ENOMEM` in the state the lookup left, which after a
failed allocation is the state before plus the `printk` and the `SIGKILL`. -/
theorem C14_double_transition_is_noop :
    (∀ (h : Host) (kz : Ptr) (start_rc : Int) (start_ee start_domain : Ptr) (rc_orig : Int)
      (s : Lsm2629.State) (ptr bprm_cred : Ptr),
      Lsm2629.task_lookup h s h.current = some ptr →
      ptr ≠ ccs_default_security → ptr ≠ ccs_oom_security → (s.mem ptr).ee ≠ NULL →
      (h.KERNEL_LT_2_6_31 = false → h.in_execve h.current = true) →
      (h.KERNEL_LT_2_6_31 = true →
        ¬ ((s.mem ptr).cred ≠ NULL ∧ h.cred_usage (s.mem ptr).cred = 1)) →
      Lsm2629.ccs_bprm_check_security h kz start_rc start_ee start_domain rc_orig s bprm_cred
        = (s.emit (Event.original_hook "bprm_check_security"), rc_orig)) ∧
    (∀ (h : Host) (kz : Ptr) (start_rc : Int) (start_ee start_domain : Ptr) (rc_orig : Int)
      (s : Lsm2629.State) (bprm_cred : Ptr),
      ((Lsm2629.ccs_current_security h kz s).2 = ccs_default_security ∨
        (Lsm2629.ccs_current_security h kz s).2 = ccs_oom_security) →
      Lsm2629.ccs_bprm_check_security h kz start_rc start_ee start_domain rc_orig s bprm_cred
        = ((Lsm2629.ccs_current_security h kz s).1, -ENOMEM)) ∧
    (∀ (h : Host) (start_rc : Int) (start_ee start_domain : Ptr) (rc_orig : Int)
      (s : Lsm2629.State) (bprm_cred : Ptr),
      Lsm2629.task_lookup h s h.current = none →
      Lsm2629.ccs_bprm_check_security h NULL start_rc start_ee start_domain rc_orig s bprm_cred
        = ((s.emit (Event.printk_oom h.current)).emit (Event.send_sig_SIGKILL h.current),
            -ENOMEM)) ∧
    (∀ (h : Host) (kz : Ptr) (start_rc : Int) (start_ee start_domain : Ptr)
      (s : Lsm412.State) (ptr : Ptr),
      Lsm412.task_lookup h s h.current = some ptr →
      ptr ≠ ccs_default_security → ptr ≠ ccs_oom_security → (s.mem ptr).ee ≠ NULL →
      h.in_execve h.current = true →
      Lsm412.ccs_bprm_check_security h kz start_rc start_ee start_domain s = (s, 0)) ∧
    (∀ (h : Host) (kz : Ptr) (start_rc : Int) (start_ee start_domain : Ptr)
      (s : Lsm412.State),
      ((Lsm412.ccs_current_security h kz s).2 = ccs_default_security ∨
        (Lsm412.ccs_current_security h kz s).2 = ccs_oom_security) →
      Lsm412.ccs_bprm_check_security h kz start_rc start_ee start_domain s
        = ((Lsm412.ccs_current_security h kz s).1, -ENOMEM)) ∧
    (∀ (h : Host) (start_rc : Int) (start_ee start_domain : Ptr) (s : Lsm412.State),
      Lsm412.task_lookup h s h.current = none →
      Lsm412.ccs_bprm_check_security h NULL start_rc start_ee start_domain s
        = ((s.emit (Event.printk_oom h.current)).emit (Event.send_sig_SIGKILL h.current),
            -ENOMEM)) := by
  refine ⟨?_, ?_, ?_, ?_, ?_, ?_⟩
  · intro h kz start_rc start_ee start_domain rc_orig s ptr bprm_cred hl h1 h2 he hnew hold
    have hf := Lsm2629.find_task_inside h kz s ptr hl hnew hold
    unfold Lsm2629.ccs_bprm_check_security Lsm2629.ccs_current_security
    rw [hf]
    dsimp only
    rw [if_neg (by simp [h1, h2]), if_neg he]
  · intro h kz start_rc start_ee start_domain rc_orig s bprm_cred hd
    unfold Lsm2629.ccs_bprm_check_security
    dsimp only
    rw [if_pos hd]
  · intro h start_rc start_ee start_domain rc_orig s bprm_cred hl
    have hf : Lsm2629.ccs_find_task_security h NULL s h.current
        = ((s.emit (Event.printk_oom h.current)).emit (Event.send_sig_SIGKILL h.current),
            ccs_oom_security) := by
      rw [Lsm2629.find_task_miss h NULL s _ hl]
      simp
    unfold Lsm2629.ccs_bprm_check_security Lsm2629.ccs_current_security
    rw [hf]
    dsimp only
    rw [if_pos (Or.inr rfl)]
  · intro h kz start_rc start_ee start_domain s ptr hl h1 h2 he hin
    have hf := Lsm412.find_task_inside_412 h kz s ptr hl hin
    unfold Lsm412.ccs_bprm_check_security Lsm412.ccs_current_security
    rw [hf]
    dsimp only
    rw [if_neg (by simp [h1, h2]), if_pos he]
  · intro h kz start_rc start_ee start_domain s hd
    unfold Lsm412.ccs_bprm_check_security
    dsimp only
    rw [if_pos hd]
  · intro h start_rc start_ee start_domain s hl
    have hf : Lsm412.ccs_find_task_security h NULL s h.current
        = ((s.emit (Event.printk_oom h.current)).emit (Event.send_sig_SIGKILL h.current),
            ccs_oom_security) := by
      rw [Lsm412.find_task_miss_412 h NULL s _ hl]
      simp
    unfold Lsm412.ccs_bprm_check_security Lsm412.ccs_current_security
    rw [hf]
    dsimp only
    rw [if_pos (Or.inr rfl)]

/-- Witness of C14: task `100` is inside `execve` with the transition of
`demoPending` pending and the hook runs again, as it does for the interpreter
of a script; and the hook runs in the initial state with no memory left. -/
theorem C14_double_transition_is_noop_witness :
    (Lsm2629.task_lookup execHost Lsm2629.demoPending execHost.current = some 10 ∧
      (Lsm2629.demoPending.mem 10).ee ≠ NULL ∧ execHost.in_execve execHost.current = true ∧
      Lsm2629.task_lookup demoHost Lsm2629.init demoHost.current = none) ∧
    Lsm2629.ccs_bprm_check_security execHost 0 0 60 8 0 Lsm2629.demoPending 2100
      = (Lsm2629.demoPending.emit (Event.original_hook "bprm_check_security"), 0) ∧
    Lsm2629.ccs_bprm_check_security demoHost NULL 0 60 8 0 Lsm2629.init 2100
      = ((Lsm2629.init.emit (Event.printk_oom demoHost.current)).emit
          (Event.send_sig_SIGKILL demoHost.current), -ENOMEM) ∧
    Lsm412.ccs_bprm_check_security execHost 0 0 60 8 Lsm412.demoPending
      = (Lsm412.demoPending, 0) :=
  ⟨⟨by decide, by decide, by decide, by decide⟩,
    C14_double_transition_is_noop.1 execHost 0 0 60 8 0 Lsm2629.demoPending 10 2100
      (by decide) (by decide) (by decide) (by decide) (by decide) (by decide),
    C14_double_transition_is_noop.2.2.1 demoHost 0 60 8 0 Lsm2629.init 2100 (by decide),
    C14_double_transition_is_noop.2.2.2.1 execHost 0 0 60 8 Lsm412.demoPending 10
      (by decide) (by decide) (by decide) (by decide) (by decide)⟩

/-! ## The Transition Record at commit: C15 -/

namespace Lsm2629

/-- The `ee` fields and the log after `ccs_bprm_committing_creds` on a pending
transition are those of the state `ccs_clear_execve(0, ..)` produces. -/
theorem committing_pending (h : Host) (kz : Ptr) (s : State) (ptr bprm_cred : Ptr)
    (hl : task_lookup h s h.current = some ptr)
    (h1 : ptr ≠ ccs_default_security) (h2 : ptr ≠ ccs_oom_security)
    (he : (s.mem ptr).ee ≠ NULL)
    (hnew : h.KERNEL_LT_2_6_31 = false → h.in_execve h.current = true)
    (hold : h.KERNEL_LT_2_6_31 = true →
      ¬ ((s.mem ptr).cred ≠ NULL ∧ h.cred_usage (s.mem ptr).cred = 1)) :
    (∀ q, ((ccs_bprm_committing_creds h kz s bprm_cred).mem q).ee
      = if q = ptr then NULL else (s.mem q).ee) ∧
    (ccs_bprm_committing_creds h kz s bprm_cred).log
      = (if h.KERNEL_LT_2_6_31 then
          s.log ++ [Event.original_hook "bprm_committing_creds"]
            ++ [Event.put_cred (s.mem ptr).cred]
         else s.log ++ [Event.original_hook "bprm_committing_creds"])
        ++ [Event.ccs_finish_execve 0 (s.mem ptr).ee] := by
  have hl0 : task_lookup h (s.emit (Event.original_hook "bprm_committing_creds"))
      h.current = some ptr := by
    rw [← hl]
    exact task_lookup_congr h _ _ _ rfl (fun _ => rfl)
  have hcur : ccs_current_security h kz (s.emit (Event.original_hook "bprm_committing_creds"))
      = (s.emit (Event.original_hook "bprm_committing_creds"), ptr) :=
    find_task_inside h kz _ ptr hl0 hnew hold
  have hs : ¬ (ptr = ccs_default_security ∨ ptr = ccs_oom_security) := by simp [h1, h2]
  obtain ⟨s1, hs1⟩ : ∃ s1, s1 = ccs_clear_execve h 0 ptr
      (s.emit (Event.original_hook "bprm_committing_creds")) := ⟨_, rfl⟩
  obtain ⟨nw, hnw⟩ : ∃ nw, nw = ccs_find_cred_security h s1 bprm_cred := ⟨_, rfl⟩
  have hcommit : ccs_bprm_committing_creds h kz s bprm_cred
      = (s1.store nw { s1.mem nw with ccs_flags := (s1.mem ptr).ccs_flags }).store nw
          { pid := (s1.mem nw).pid, cred := (s1.mem nw).cred,
            ccs_domain_info := (s1.mem ptr).ccs_domain_info,
            ccs_flags := (s1.mem ptr).ccs_flags, ee := (s1.mem nw).ee } := by
    unfold ccs_bprm_committing_creds
    simp only [hcur, hs, if_false]
    rw [← hs1, ← hnw]
    congr 1
    by_cases hq : ptr = nw
    · subst hq
      simp
    · simp [hq]
  have hs1eq := clear_execve_current h 0 ptr
    (s.emit (Event.original_hook "bprm_committing_creds")) hl0 hs (by simpa using he)
  rw [← hs1] at hs1eq
  have hee1 : ∀ q, (s1.mem q).ee = if q = ptr then NULL else (s.mem q).ee := by
    intro q
    rw [hs1eq]
    by_cases hq : q = ptr <;> simp [hq]
  constructor
  · intro q
    rw [← hee1 q, hcommit]
    by_cases hq : q = nw <;> simp [hq]
  · rw [hcommit, hs1eq]
    cases h.KERNEL_LT_2_6_31 <;> simp

end Lsm2629

/-- C15 as stated does not hold.  Task `100` commits the transition pending in
`execPending`, where its record at `10` holds Transition Record `50` and the
new credentials `2150` have the record at `12`: afterwards the record of the
credentials has `ee == NULL`, not `50`, and so has the task record. -/
theorem C15_counterexample :
    Lsm2629.task_lookup execHost Lsm2629.execPending execHost.current = some 10 ∧
    (Lsm2629.execPending.mem 10).ee = 50 ∧
    Lsm2629.ccs_find_cred_security execHost
      (Lsm2629.ccs_bprm_committing_creds execHost 0 Lsm2629.execPending 2150) 2150 = 12 ∧
    12 ∈ (Lsm2629.ccs_bprm_committing_creds execHost 0 Lsm2629.execPending
      2150).ccs_cred_security_list (execHost.hash_ptr 2150) ∧
    ¬ (((Lsm2629.ccs_bprm_committing_creds execHost 0 Lsm2629.execPending 2150).mem 12).ee
        = 50) ∧
    ((Lsm2629.ccs_bprm_committing_creds execHost 0 Lsm2629.execPending 2150).mem 12).ee
      = NULL ∧
    ((Lsm2629.ccs_bprm_committing_creds execHost 0 Lsm2629.execPending 2150).mem 10).ee
      = NULL := by
  decide

/-- C15, amended.  When `ccs_bprm_committing_creds` of `lsm-2.6.29.c` runs for
a task whose record holds the Transition Record `E` (task inside `execve` as
far as the lookup can tell), `E` is handed to `ccs_finish_execve(0, E)`, the
task record's `ee` becomes `NULL` and the `ee` of every other record, the
record of `bprm->cred` included, is what it was: the hook copies `ccs_flags` and
`ccs_domain_info` to that record, not `ee`.  So when the task record was the
only record holding `E`, no record holds `E` afterwards. -/
theorem C15_commit_releases_transition_record (h : Host) (kz : Ptr) (s : Lsm2629.State)
    (ptr bprm_cred : Ptr)
    (hl : Lsm2629.task_lookup h s h.current = some ptr)
    (h1 : ptr ≠ ccs_default_security) (h2 : ptr ≠ ccs_oom_security)
    (he : (s.mem ptr).ee ≠ NULL)
    (hnew : h.KERNEL_LT_2_6_31 = false → h.in_execve h.current = true)
    (hold : h.KERNEL_LT_2_6_31 = true →
      ¬ ((s.mem ptr).cred ≠ NULL ∧ h.cred_usage (s.mem ptr).cred = 1)) :
    ((Lsm2629.ccs_bprm_committing_creds h kz s bprm_cred).mem ptr).ee = NULL ∧
    (∀ q, q ≠ ptr →
      ((Lsm2629.ccs_bprm_committing_creds h kz s bprm_cred).mem q).ee = (s.mem q).ee) ∧
    (Lsm2629.ccs_bprm_committing_creds h kz s bprm_cred).log
      = (if h.KERNEL_LT_2_6_31 then
          s.log ++ [Event.original_hook "bprm_committing_creds"]
            ++ [Event.put_cred (s.mem ptr).cred]
         else s.log ++ [Event.original_hook "bprm_committing_creds"])
        ++ [Event.ccs_finish_execve 0 (s.mem ptr).ee] ∧
    ((∀ q, q ≠ ptr → (s.mem q).ee ≠ (s.mem ptr).ee) →
      ∀ q, ((Lsm2629.ccs_bprm_committing_creds h kz s bprm_cred).mem q).ee
        ≠ (s.mem ptr).ee) := by
  have hp := Lsm2629.committing_pending h kz s ptr bprm_cred hl h1 h2 he hnew hold
  refine ⟨?_, ?_, hp.2, ?_⟩
  · rw [hp.1 ptr, if_pos rfl]
  · intro q hq
    rw [hp.1 q, if_neg hq]
  · intro hown q
    rw [hp.1 q]
    by_cases hq : q = ptr
    · rw [if_pos hq]
      exact fun hc => he hc.symm
    · rw [if_neg hq]
      exact hown q hq

/-- Witness of C15, amended: the commit of the transition pending in
`execPending`. -/
theorem C15_commit_releases_transition_record_witness :
    (Lsm2629.task_lookup execHost Lsm2629.execPending execHost.current = some 10 ∧
      (Lsm2629.execPending.mem 10).ee ≠ NULL ∧ execHost.in_execve execHost.current = true) ∧
    ((Lsm2629.ccs_bprm_committing_creds execHost 0 Lsm2629.execPending 2150).mem 10).ee
      = NULL ∧
    (Lsm2629.ccs_bprm_committing_creds execHost 0 Lsm2629.execPending 2150).log
      = (if execHost.KERNEL_LT_2_6_31 then
          Lsm2629.execPending.log ++ [Event.original_hook "bprm_committing_creds"]
            ++ [Event.put_cred (Lsm2629.execPending.mem 10).cred]
         else Lsm2629.execPending.log ++ [Event.original_hook "bprm_committing_creds"])
        ++ [Event.ccs_finish_execve 0 (Lsm2629.execPending.mem 10).ee] :=
  ⟨⟨by decide, by decide, by decide⟩,
    (C15_commit_releases_transition_record execHost 0 Lsm2629.execPending 10 2150
      (by decide) (by decide) (by decide) (by decide) (by decide) (by decide)).1,
    (C15_commit_releases_transition_record execHost 0 Lsm2629.execPending 10 2150
      (by decide) (by decide) (by decide) (by decide) (by decide) (by decide)).2.2.1⟩

/-! ## The dummy records are never linked: C12 -/

namespace Lsm2629

theorem Grows_lists (A : List Ptr) (s t u : State) (hg : Grows A s t)
    (ht : u.ccs_task_security_list = t.ccs_task_security_list)
    (hc : u.ccs_cred_security_list = t.ccs_cred_security_list) : Grows A s u :=
  ⟨fun i p hp => hg.task i p (by rw [← ht]; exact hp),
    fun i p hp => hg.cred i p (by rw [← hc]; exact hp)⟩

theorem Grows_task_create (h : Host) (new kz1 kz2 : Ptr) (trylock : Bool)
    (rc_prepare : Int) (rc_orig : Int) (kz3 : Ptr) (s : State) :
    Grows [kz1, kz2, kz3] s
      (ccs_task_create h new kz1 kz2 trylock rc_prepare rc_orig kz3 s).1 := by
  have hg := Grows_prepare_creds h new kz1 kz2 trylock rc_prepare s
  rw [task_create_eq]
  generalize prepare_creds h new kz1 kz2 trylock rc_prepare s = r at hg ⊢
  have hg3 : Grows [kz1, kz2, kz3] s r.1 := Grows_mono _ _ _ _ hg (by simp)
  unfold task_create_after
  dsimp only
  by_cases hc : r.2 = NULL
  · rw [if_pos hc]
    exact hg3
  · rw [if_neg hc]
    by_cases ho : rc_orig ≠ 0
    · rw [if_pos ho]
      exact Grows_lists _ _ _ _ hg3 rfl rfl
    · rw [if_neg ho]
      have hf := Grows_find h kz3 (r.1.emit (Event.original_hook "task_create")) h.current
      have hg4 : Grows [kz1, kz2, kz3] s
          (ccs_find_task_security h kz3 (r.1.emit (Event.original_hook "task_create"))
            h.current).1 :=
        Grows_trans [kz1, kz2, kz3] [kz3] _ s
          (r.1.emit (Event.original_hook "task_create")) _
          (Grows_lists _ _ _ _ hg3 rfl rfl) hf (fun _ hp => hp) (by simp)
      exact Grows_lists _ _ _ _ hg4 rfl rfl

theorem Grows_cred_alloc_blank (h : Host) (kz : Ptr) (rc_orig : Int) (s : State) (new : Ptr) :
    Grows [kz] s (ccs_cred_alloc_blank h kz rc_orig s new).1 := by
  have hsh := cred_alloc_blank_tail h kz rc_orig s new
  have hg : Grows [kz] s (ccs_alloc_cred_security h kz s new).1 := by
    rw [alloc_cred_eq]
    by_cases hk : kz = NULL
    · rw [if_pos hk]
      exact Grows_of_lists _ _ _ rfl rfl
    · rw [if_neg hk]
      exact Grows_cred_linked h kz _ s
  exact Grows_trans [kz] [] _ _ _ _ hg (Grows_of_shrinks _ _ _ hsh) (fun _ hp => hp) (by simp)

theorem Grows_cred_transfer (h : Host) (s : State) (new old : Ptr) :
    Grows [] s (ccs_cred_transfer h s new old) := by
  apply Grows_of_lists
  · unfold ccs_cred_transfer
    dsimp only
    split_ifs <;> rfl
  · unfold ccs_cred_transfer
    dsimp only
    split_ifs <;> rfl

theorem Grows_committing (h : Host) (kz : Ptr) (s : State) (bprm_cred : Ptr) :
    Grows [kz] s (ccs_bprm_committing_creds h kz s bprm_cred) := by
  have hf := Grows_find h kz (s.emit (Event.original_hook "bprm_committing_creds")) h.current
  have hg : Grows [kz] s (ccs_find_task_security h kz
      (s.emit (Event.original_hook "bprm_committing_creds")) h.current).1 :=
    Grows_trans [] [kz] _ s (s.emit (Event.original_hook "bprm_committing_creds")) _
      (Grows_of_lists _ _ _ rfl rfl) hf (by simp) (fun _ hp => hp)
  unfold ccs_bprm_committing_creds ccs_current_security
  dsimp only
  generalize ccs_find_task_security h kz
      (s.emit (Event.original_hook "bprm_committing_creds")) h.current = r at hg ⊢
  split_ifs
  · exact hg
  · exact Grows_lists _ _ _ _ hg (by simp) (by simp)

theorem Grows_bprm_check (h : Host) (kz : Ptr) (start_rc : Int) (start_ee start_domain : Ptr)
    (rc_orig : Int) (s : State) (bprm_cred : Ptr) :
    Grows [kz] s
      (ccs_bprm_check_security h kz start_rc start_ee start_domain rc_orig s bprm_cred).1 := by
  rw [bprm_check_eq]
  have hfr := bprm_check_after_frame h start_rc start_ee start_domain rc_orig
    (ccs_find_task_security h kz s h.current).2 (ccs_find_task_security h kz s h.current).1
    bprm_cred
  exact Grows_lists _ _ _ _ (Grows_find h kz s h.current) hfr.1 hfr.2.1

theorem SentinelsUnlinked_grows (A : List Ptr) (s t : State) (hg : Grows A s t)
    (hs : SentinelsUnlinked s) (hd : ccs_default_security ∉ A) (ho : ccs_oom_security ∉ A) :
    SentinelsUnlinked t :=
  ⟨Fresh_grows A s t _ hg hs.1 hd, Fresh_grows A s t _ hg hs.2 ho⟩

theorem SentinelsUnlinked_shrinks (s t : State) (hsh : Shrinks s t)
    (hs : SentinelsUnlinked s) : SentinelsUnlinked t :=
  SentinelsUnlinked_grows [] s t (Grows_of_shrinks _ _ _ hsh) hs (by simp) (by simp)

theorem cred_free_no_record (h : Host) (s : State) (cred : Ptr)
    (hno : ccs_find_cred_security h s cred = ccs_default_security) :
    ccs_cred_free h s cred = s.emit (Event.original_hook "cred_free") := by
  have hf : ccs_find_cred_security h (s.emit (Event.original_hook "cred_free")) cred
      = ccs_default_security := by
    rw [← hno]
    exact find_cred_congr h _ _ _ rfl (fun _ => rfl)
  unfold ccs_cred_free
  dsimp only
  rw [hf]
  unfold ccs_del_security
  rw [if_pos (Or.inl rfl)]

end Lsm2629

namespace Lsm412

theorem Fresh_congr_412 (s t : State) (k : Ptr)
    (hl : t.ccs_task_security_list = s.ccs_task_security_list) (hf : Fresh s k) : Fresh t k := by
  intro i
  rw [hl]
  exact hf i

theorem clear_task_list_412 (h : Host) (ret : Int) (p : Ptr) (s : State) :
    (ccs_clear_execve h ret p s).ccs_task_security_list = s.ccs_task_security_list := by
  by_cases hs : p = ccs_default_security ∨ p = ccs_oom_security
  · rw [clear_execve_dummy_412 h ret p s hs]
  · by_cases he : (s.mem p).ee = NULL
    · rw [clear_execve_noee_412 h ret p s he]
    · rw [clear_execve_eq_412 h ret p s hs he]
      simp

theorem start_task_list_412 (rc : Int) (ee domain sec : Ptr) (s : State) :
    (ccs_start_execve rc ee domain sec s).1.ccs_task_security_list
      = s.ccs_task_security_list := by
  unfold ccs_start_execve
  dsimp only
  split_ifs <;> rfl

theorem Fresh_alloc_task_412 (h : Host) (kz1 kz2 : Ptr) (s : State) (task k : Ptr)
    (hf : Fresh s k) (h1 : k ≠ kz1) (h2 : k ≠ kz2) :
    Fresh (__ccs_alloc_task_security h kz1 kz2 s task).1 k := by
  have hf1 := Fresh_find_412 h kz1 s h.current k hf (Or.inr h1)
  unfold __ccs_alloc_task_security ccs_current_security
  dsimp only
  by_cases hk : kz2 = NULL
  · rw [if_pos hk]
    exact hf1
  · rw [if_neg hk]
    intro i
    simp only [ccs_add_task_security, store_task_list_412]
    by_cases hi : i = h.hash_ptr task
    · rw [if_pos hi]
      intro hc
      rcases List.mem_cons.1 hc with hc | hc
      · exact h2 hc
      · exact hf1 _ hc
    · rw [if_neg hi]
      exact hf1 i

theorem Fresh_free_task_412 (h : Host) (kz : Ptr) (s : State) (task k : Ptr)
    (hf : Fresh s k) (h1 : k ≠ kz) : Fresh (__ccs_free_task_security h kz s task) k := by
  have hf1 := Fresh_find_412 h kz s task k hf (Or.inr h1)
  unfold __ccs_free_task_security
  dsimp only
  split_ifs
  · exact hf1
  · intro i hc
    exact hf1 i (List.mem_of_mem_filter hc)

theorem Fresh_task_alloc_412 (h : Host) (kz1 kz2 kz3 : Ptr) (rc_orig : Option Int)
    (s : State) (p k : Ptr) (hf : Fresh s k) (h1 : k ≠ kz1) (h2 : k ≠ kz2) (h3 : k ≠ kz3) :
    Fresh (ccs_task_alloc_security h kz1 kz2 kz3 rc_orig s p).1 k := by
  have ha := Fresh_alloc_task_412 h kz1 kz2 s p k hf h1 h2
  unfold ccs_task_alloc_security
  dsimp only
  by_cases hr : (__ccs_alloc_task_security h kz1 kz2 s p).2 ≠ 0
  · rw [if_pos hr]
    exact ha
  · rw [if_neg hr]
    cases rc_orig with
    | none => exact ha
    | some rc =>
      dsimp only
      by_cases hrc : rc ≠ 0
      · rw [if_pos hrc]
        exact Fresh_free_task_412 h kz3 _ p k (Fresh_congr_412 _ _ k rfl ha) h3
      · rw [if_neg hrc]
        exact Fresh_congr_412 _ _ k rfl ha

theorem Fresh_task_free_412 (h : Host) (kz1 kz2 : Ptr) (has_orig : Bool) (s : State)
    (p k : Ptr) (hf : Fresh s k) (h1 : k ≠ kz1) (h2 : k ≠ kz2) :
    Fresh (ccs_task_free_security h kz1 kz2 has_orig s p) k := by
  have hf1 := Fresh_find_412 h kz1 s p k hf (Or.inr h1)
  unfold ccs_task_free_security
  dsimp only
  apply Fresh_free_task_412 h kz2 _ p k _ h2
  apply Fresh_congr_412 (ccs_find_task_security h kz1 s p).1 _ k _ hf1
  cases has_orig <;> split_ifs <;> rfl

theorem Fresh_committing_412 (h : Host) (kz : Ptr) (s : State) (k : Ptr)
    (hf : Fresh s k) (h1 : k ≠ kz) : Fresh (ccs_bprm_committing_creds h kz s) k := by
  have hf1 := Fresh_find_412 h kz s h.current k hf (Or.inr h1)
  unfold ccs_bprm_committing_creds ccs_current_security
  exact Fresh_congr_412 _ _ k (clear_task_list_412 _ _ _ _) hf1

theorem Fresh_bprm_check_412 (h : Host) (kz : Ptr) (start_rc : Int)
    (start_ee start_domain : Ptr) (s : State) (k : Ptr) (hf : Fresh s k) (h1 : k ≠ kz) :
    Fresh (ccs_bprm_check_security h kz start_rc start_ee start_domain s).1 k := by
  have hf1 := Fresh_find_412 h kz s h.current k hf (Or.inr h1)
  unfold ccs_bprm_check_security ccs_current_security
  dsimp only
  split_ifs
  · exact hf1
  · exact hf1
  · exact Fresh_congr_412 _ _ k (start_task_list_412 _ _ _ _ _) hf1

theorem Fresh_cred_prepare_412 (h : Host) (kz : Ptr) (rc_orig : Option Int)
    (gfp_kernel : Bool) (s : State) (k : Ptr) (hf : Fresh s k) (h1 : k ≠ kz) :
    Fresh (ccs_cred_prepare h kz rc_orig gfp_kernel s).1 k := by
  have hf1 := Fresh_find_412 h kz s h.current k hf (Or.inr h1)
  unfold ccs_cred_prepare
  dsimp only
  cases rc_orig <;> cases gfp_kernel <;>
    first
      | exact hf
      | exact hf1

/-- When the lookup of `lsm-4.12.c` returns a dummy, it has changed neither the
table nor the queue of records to free. -/
theorem find_dummy_frame_412 (h : Host) (kz : Ptr) (s : State) (task : Ptr)
    (hkd : kz ≠ ccs_default_security) (hko : kz ≠ ccs_oom_security)
    (hd : (ccs_find_task_security h kz s task).2 = ccs_default_security ∨
      (ccs_find_task_security h kz s task).2 = ccs_oom_security) :
    (ccs_find_task_security h kz s task).1.ccs_task_security_list = s.ccs_task_security_list ∧
    (ccs_find_task_security h kz s task).1.rcu = s.rcu ∧
    (ccs_find_task_security h kz s task).1.mem = s.mem := by
  by_cases hne : task = h.current
  · subst hne
    rcases find_current_cases_412 h kz s with ⟨ptr, _, hf⟩ | ⟨ptr, _, h1, h2, _, hf⟩ |
      ⟨_, _, hf⟩ | ⟨_, _, hf⟩
    · rw [hf]
      exact ⟨rfl, rfl, rfl⟩
    · rw [hf] at hd
      rcases hd with hd | hd
      · exact absurd hd h1
      · exact absurd hd h2
    · rw [hf]
      exact ⟨rfl, rfl, rfl⟩
    · rw [hf] at hd
      rcases hd with hd | hd
      · exact absurd hd hkd
      · exact absurd hd hko
  · rw [find_other_412 h kz s task hne]
    exact ⟨rfl, rfl, rfl⟩

end Lsm412

/-- C12. The dummy records are never linked and retiring one is a no-op.  In
both files the property "neither `ccs_default_security` nor `ccs_oom_security`
is on a bucket" holds after `ccs_init` and is kept by every operation that
touches a table, `kzalloc` never returning the address of a dummy.
`ccs_del_security` given a dummy returns the state unchanged, so
`ccs_cred_free` for credentials without a record only calls the previous hook;
`__ccs_free_task_security` of `lsm-4.12.c`, when its lookup returns a dummy,
returns the state the lookup left, in which table, queue of records to free and
records are as before. -/
theorem C12_sentinels_never_linked :
    (Lsm2629.SentinelsUnlinked Lsm2629.init ∧
    (∀ (h : Host) (kz : Ptr) (s : Lsm2629.State) (task : Ptr),
      Lsm2629.SentinelsUnlinked s → OnHeap kz →
      Lsm2629.SentinelsUnlinked (Lsm2629.ccs_find_task_security h kz s task).1) ∧
    (∀ (h : Host) (new kz1 kz2 : Ptr) (trylock : Bool) (rc_prepare rc_orig : Int) (kz3 : Ptr)
      (s : Lsm2629.State),
      Lsm2629.SentinelsUnlinked s → OnHeap kz1 → OnHeap kz2 → OnHeap kz3 →
      Lsm2629.SentinelsUnlinked
        (Lsm2629.ccs_task_create h new kz1 kz2 trylock rc_prepare rc_orig kz3 s).1) ∧
    (∀ (h : Host) (kz1 kz2 : Ptr) (trylock : Bool) (rc_orig : Int) (gfp_kernel : Bool)
      (s : Lsm2629.State) (new old : Ptr),
      Lsm2629.SentinelsUnlinked s → OnHeap kz1 → OnHeap kz2 →
      Lsm2629.SentinelsUnlinked
        (Lsm2629.ccs_cred_prepare h kz1 kz2 trylock rc_orig gfp_kernel s new old).1) ∧
    (∀ (h : Host) (s : Lsm2629.State) (cred : Ptr),
      Lsm2629.SentinelsUnlinked s → Lsm2629.SentinelsUnlinked (Lsm2629.ccs_cred_free h s cred)) ∧
    (∀ (h : Host) (kz : Ptr) (rc_orig : Int) (s : Lsm2629.State) (new : Ptr),
      Lsm2629.SentinelsUnlinked s → OnHeap kz →
      Lsm2629.SentinelsUnlinked (Lsm2629.ccs_cred_alloc_blank h kz rc_orig s new).1) ∧
    (∀ (h : Host) (s : Lsm2629.State) (new old : Ptr),
      Lsm2629.SentinelsUnlinked s →
      Lsm2629.SentinelsUnlinked (Lsm2629.ccs_cred_transfer h s new old)) ∧
    (∀ (h : Host) (kz : Ptr) (start_rc : Int) (start_ee start_domain : Ptr) (rc_orig : Int)
      (s : Lsm2629.State) (bprm_cred : Ptr),
      Lsm2629.SentinelsUnlinked s → OnHeap kz →
      Lsm2629.SentinelsUnlinked
        (Lsm2629.ccs_bprm_check_security h kz start_rc start_ee start_domain rc_orig s
          bprm_cred).1) ∧
    (∀ (h : Host) (kz : Ptr) (s : Lsm2629.State) (bprm_cred : Ptr),
      Lsm2629.SentinelsUnlinked s → OnHeap kz →
      Lsm2629.SentinelsUnlinked (Lsm2629.ccs_bprm_committing_creds h kz s bprm_cred)) ∧
    (∀ (h : Host) (trylock : Bool) (s : Lsm2629.State),
      Lsm2629.SentinelsUnlinked s →
      Lsm2629.SentinelsUnlinked (Lsm2629.ccs_task_security_gc h trylock s)) ∧
    (∀ (s : Lsm2629.State) (ptr : Ptr),
      Lsm2629.SentinelsUnlinked s → Lsm2629.SentinelsUnlinked (Lsm2629.ccs_del_security s ptr)) ∧
    (∀ (h : Host) (s : Lsm2629.State) (ptr : Ptr),
      Lsm2629.SentinelsUnlinked s →
      Lsm2629.SentinelsUnlinked (Lsm2629.ccs_rcu_free h s ptr))) ∧
    ((∀ (s : Lsm2629.State) (ptr : Ptr),
      (ptr = ccs_default_security ∨ ptr = ccs_oom_security) →
      Lsm2629.ccs_del_security s ptr = s) ∧
    (∀ (h : Host) (s : Lsm2629.State) (cred : Ptr),
      Lsm2629.ccs_find_cred_security h s cred = ccs_default_security →
      Lsm2629.ccs_cred_free h s cred = s.emit (Event.original_hook "cred_free")) ∧
    (∀ (h : Host) (kz : Ptr) (s : Lsm412.State) (task : Ptr), OnHeap kz →
      ((Lsm412.ccs_find_task_security h kz s task).2 = ccs_default_security ∨
        (Lsm412.ccs_find_task_security h kz s task).2 = ccs_oom_security) →
      Lsm412.__ccs_free_task_security h kz s task = (Lsm412.ccs_find_task_security h kz s task).1 ∧
      (Lsm412.__ccs_free_task_security h kz s task).ccs_task_security_list
        = s.ccs_task_security_list ∧
      (Lsm412.__ccs_free_task_security h kz s task).rcu = s.rcu ∧
      (Lsm412.__ccs_free_task_security h kz s task).mem = s.mem)) ∧
    (Lsm412.SentinelsUnlinked Lsm412.init ∧
    (∀ (h : Host) (kz : Ptr) (s : Lsm412.State) (task : Ptr),
      Lsm412.SentinelsUnlinked s → OnHeap kz →
      Lsm412.SentinelsUnlinked (Lsm412.ccs_find_task_security h kz s task).1) ∧
    (∀ (h : Host) (kz1 kz2 kz3 : Ptr) (rc_orig : Option Int) (s : Lsm412.State) (p : Ptr),
      Lsm412.SentinelsUnlinked s → OnHeap kz1 → OnHeap kz2 → OnHeap kz3 →
      Lsm412.SentinelsUnlinked (Lsm412.ccs_task_alloc_security h kz1 kz2 kz3 rc_orig s p).1) ∧
    (∀ (h : Host) (kz1 kz2 : Ptr) (has_orig : Bool) (s : Lsm412.State) (p : Ptr),
      Lsm412.SentinelsUnlinked s → OnHeap kz1 → OnHeap kz2 →
      Lsm412.SentinelsUnlinked (Lsm412.ccs_task_free_security h kz1 kz2 has_orig s p)) ∧
    (∀ (h : Host) (kz : Ptr) (s : Lsm412.State),
      Lsm412.SentinelsUnlinked s → OnHeap kz →
      Lsm412.SentinelsUnlinked (Lsm412.ccs_bprm_committing_creds h kz s)) ∧
    (∀ (h : Host) (kz : Ptr) (start_rc : Int) (start_ee start_domain : Ptr) (s : Lsm412.State),
      Lsm412.SentinelsUnlinked s → OnHeap kz →
      Lsm412.SentinelsUnlinked
        (Lsm412.ccs_bprm_check_security h kz start_rc start_ee start_domain s).1) ∧
    (∀ (h : Host) (kz : Ptr) (rc_orig : Option Int) (gfp_kernel : Bool) (s : Lsm412.State),
      Lsm412.SentinelsUnlinked s → OnHeap kz →
      Lsm412.SentinelsUnlinked (Lsm412.ccs_cred_prepare h kz rc_orig gfp_kernel s).1)) := by
  refine ⟨⟨?_, ?_, ?_, ?_, ?_, ?_, ?_, ?_, ?_, ?_, ?_, ?_⟩, ⟨?_, ?_, ?_⟩,
    ⟨?_, ?_, ?_, ?_, ?_, ?_, ?_⟩⟩
  · exact ⟨fun _ => ⟨List.not_mem_nil _, List.not_mem_nil _⟩,
      fun _ => ⟨List.not_mem_nil _, List.not_mem_nil _⟩⟩
  · intro h kz s task hs hk
    exact Lsm2629.SentinelsUnlinked_grows [kz] _ _ (Lsm2629.Grows_find h kz s task) hs
      (by simpa using hk.1.symm) (by simpa using hk.2.symm)
  · intro h new kz1 kz2 trylock rc_prepare rc_orig kz3 s hs hk1 hk2 hk3
    exact Lsm2629.SentinelsUnlinked_grows [kz1, kz2, kz3] _ _
      (Lsm2629.Grows_task_create h new kz1 kz2 trylock rc_prepare rc_orig kz3 s) hs
      (by simpa using ⟨hk1.1.symm, hk2.1.symm, hk3.1.symm⟩)
      (by simpa using ⟨hk1.2.symm, hk2.2.symm, hk3.2.symm⟩)
  · intro h kz1 kz2 trylock rc_orig gfp_kernel s new old hs hk1 hk2
    exact Lsm2629.SentinelsUnlinked_grows [kz1, kz2] _ _
      (Lsm2629.Grows_cred_prepare h kz1 kz2 trylock rc_orig gfp_kernel s new old) hs
      (by simpa using ⟨hk1.1.symm, hk2.1.symm⟩) (by simpa using ⟨hk1.2.symm, hk2.2.symm⟩)
  · intro h s cred hs
    exact Lsm2629.SentinelsUnlinked_shrinks _ _ (Lsm2629.Shrinks_cred_free h s cred) hs
  · intro h kz rc_orig s new hs hk
    exact Lsm2629.SentinelsUnlinked_grows [kz] _ _
      (Lsm2629.Grows_cred_alloc_blank h kz rc_orig s new) hs
      (by simpa using hk.1.symm) (by simpa using hk.2.symm)
  · intro h s new old hs
    exact Lsm2629.SentinelsUnlinked_grows [] _ _ (Lsm2629.Grows_cred_transfer h s new old) hs
      (by simp) (by simp)
  · intro h kz start_rc start_ee start_domain rc_orig s bprm_cred hs hk
    exact Lsm2629.SentinelsUnlinked_grows [kz] _ _
      (Lsm2629.Grows_bprm_check h kz start_rc start_ee start_domain rc_orig s bprm_cred) hs
      (by simpa using hk.1.symm) (by simpa using hk.2.symm)
  · intro h kz s bprm_cred hs hk
    exact Lsm2629.SentinelsUnlinked_grows [kz] _ _
      (Lsm2629.Grows_committing h kz s bprm_cred) hs
      (by simpa using hk.1.symm) (by simpa using hk.2.symm)
  · intro h trylock s hs
    exact Lsm2629.SentinelsUnlinked_shrinks _ _ (Lsm2629.Shrinks_gc h trylock s) hs
  · intro s ptr hs
    exact Lsm2629.SentinelsUnlinked_shrinks _ _ (Lsm2629.Shrinks_del s ptr) hs
  · intro h s ptr hs
    exact Lsm2629.SentinelsUnlinked_shrinks _ _ (Lsm2629.Shrinks_rcu_free h s ptr) hs
  · intro s ptr hp
    unfold Lsm2629.ccs_del_security
    rw [if_pos hp]
  · intro h s cred hno
    exact Lsm2629.cred_free_no_record h s cred hno
  · intro h kz s task hk hd
    have hfree : Lsm412.__ccs_free_task_security h kz s task
        = (Lsm412.ccs_find_task_security h kz s task).1 := by
      unfold Lsm412.__ccs_free_task_security
      dsimp only
      rw [if_pos hd]
    rw [hfree]
    exact ⟨rfl, Lsm412.find_dummy_frame_412 h kz s task hk.1 hk.2 hd⟩
  · exact ⟨fun _ => List.not_mem_nil _, fun _ => List.not_mem_nil _⟩
  · intro h kz s task hs hk
    exact ⟨Lsm412.Fresh_find_412 h kz s task _ hs.1 (Or.inr hk.1.symm),
      Lsm412.Fresh_find_412 h kz s task _ hs.2 (Or.inr hk.2.symm)⟩
  · intro h kz1 kz2 kz3 rc_orig s p hs hk1 hk2 hk3
    exact ⟨Lsm412.Fresh_task_alloc_412 h kz1 kz2 kz3 rc_orig s p _ hs.1
        hk1.1.symm hk2.1.symm hk3.1.symm,
      Lsm412.Fresh_task_alloc_412 h kz1 kz2 kz3 rc_orig s p _ hs.2
        hk1.2.symm hk2.2.symm hk3.2.symm⟩
  · intro h kz1 kz2 has_orig s p hs hk1 hk2
    exact ⟨Lsm412.Fresh_task_free_412 h kz1 kz2 has_orig s p _ hs.1 hk1.1.symm hk2.1.symm,
      Lsm412.Fresh_task_free_412 h kz1 kz2 has_orig s p _ hs.2 hk1.2.symm hk2.2.symm⟩
  · intro h kz s hs hk
    exact ⟨Lsm412.Fresh_committing_412 h kz s _ hs.1 hk.1.symm,
      Lsm412.Fresh_committing_412 h kz s _ hs.2 hk.2.symm⟩
  · intro h kz start_rc start_ee start_domain s hs hk
    exact ⟨Lsm412.Fresh_bprm_check_412 h kz start_rc start_ee start_domain s _ hs.1 hk.1.symm,
      Lsm412.Fresh_bprm_check_412 h kz start_rc start_ee start_domain s _ hs.2 hk.2.symm⟩
  · intro h kz rc_orig gfp_kernel s hs hk
    exact ⟨Lsm412.Fresh_cred_prepare_412 h kz rc_orig gfp_kernel s _ hs.1 hk.1.symm,
      Lsm412.Fresh_cred_prepare_412 h kz rc_orig gfp_kernel s _ hs.2 hk.2.symm⟩

/-- Witness of C12: the first lookup of task `100` links the record at `10`
and no dummy; `ccs_cred_free` of credentials without a record and
`__ccs_free_task_security` of a task without a record remove nothing. -/
theorem C12_sentinels_never_linked_witness :
    (Lsm2629.SentinelsUnlinked Lsm2629.init ∧ OnHeap 10 ∧
      Lsm2629.ccs_find_cred_security demoHost Lsm2629.demoState1 2100 = ccs_default_security ∧
      (Lsm412.ccs_find_task_security demoHost 11 Lsm412.demoState1 101).2
        = ccs_default_security) ∧
    Lsm2629.SentinelsUnlinked (Lsm2629.ccs_find_task_security demoHost 10 Lsm2629.init 100).1 ∧
    Lsm2629.ccs_cred_free demoHost Lsm2629.demoState1 2100
      = Lsm2629.demoState1.emit (Event.original_hook "cred_free") ∧
    (Lsm412.__ccs_free_task_security demoHost 11 Lsm412.demoState1 101).ccs_task_security_list
      = Lsm412.demoState1.ccs_task_security_list :=
  ⟨⟨C12_sentinels_never_linked.1.1, ⟨by decide, by decide⟩, by decide, by decide⟩,
    C12_sentinels_never_linked.1.2.1 demoHost 10 Lsm2629.init 100
      C12_sentinels_never_linked.1.1 ⟨by decide, by decide⟩,
    C12_sentinels_never_linked.2.1.2.1 demoHost Lsm2629.demoState1 2100 (by decide),
    (C12_sentinels_never_linked.2.1.2.2 demoHost 11 Lsm412.demoState1 101
      ⟨by decide, by decide⟩ (Or.inl (by decide))).2.1⟩

/-! ## Writes through a dummy record: C13 -/

/-- C13 at a failing input.  In `demoPending` the record of task `100` is in
domain `7` and credentials `2100` have no record, so
`ccs_find_cred_security(bprm->cred)` returns `&ccs_default_security`, whose
domain is `ccs_kernel_domain`.  `ccs_bprm_committing_creds` of `lsm-2.6.29.c`
then stores the flags and the domain of the task record through that pointer:
afterwards `ccs_default_security.ccs_domain_info` is `7`.  `ccs_cred_transfer`
returns before its stores when it holds a dummy; this hook does not.  A task
without a record that looks itself up later (task `101`) starts in domain `7`
instead of `ccs_kernel_domain`. -/
theorem C13_commit_writes_default_record :
    Lsm2629.ccs_find_cred_security execHost Lsm2629.demoPending 2100 = ccs_default_security ∧
    (Lsm2629.demoPending.mem ccs_default_security).ccs_domain_info = ccs_kernel_domain ∧
    (Lsm2629.demoPending.mem 10).ccs_domain_info = 7 ∧
    ((Lsm2629.ccs_bprm_committing_creds execHost 0 Lsm2629.demoPending 2100).mem
      ccs_default_security).ccs_domain_info = 7 ∧
    ((Lsm2629.ccs_bprm_committing_creds execHost 0 Lsm2629.demoPending 2100).mem
      ccs_default_security).ccs_domain_info
      ≠ (Lsm2629.demoPending.mem ccs_default_security).ccs_domain_info ∧
    (∀ i, ccs_default_security ∉ Lsm2629.demoPending.ccs_task_security_list i ∧
      ccs_default_security ∉ Lsm2629.demoPending.ccs_cred_security_list i) ∧
    ((Lsm2629.ccs_find_task_security { demoHost with current := 101 } 11
        Lsm2629.demoPending 101).1.mem 11).ccs_domain_info = ccs_kernel_domain ∧
    ((Lsm2629.ccs_find_task_security { demoHost with current := 101 } 11
        (Lsm2629.ccs_bprm_committing_creds execHost 0 Lsm2629.demoPending 2100)
        101).1.mem 11).ccs_domain_info = 7 := by
  refine ⟨by decide, by decide, by decide, by decide, by decide, ?_, by decide, by decide⟩
  intro i
  have h1 : Lsm2629.demoPending.ccs_task_security_list i = if i = 0 then [10] else [] := rfl
  have h2 : Lsm2629.demoPending.ccs_cred_security_list i = [] := rfl
  rw [h1, h2]
  split_ifs <;> decide

/-! ## Creation of a pending tag: C16 -/

/-- C16. `ccs_socket_accept` creates a pending tag only on success.  Let `r`
be what the deferred check of the listening socket gives.  When its result is
negative, the hook returns `r`; when `kzalloc` fails, it returns `-ENOMEM` in
the state of `r`; in `lsm-2.6.29.c`, when the previously registered hook
returns `rc_orig != 0`, it returns `rc_orig` with the list of `r`, the other
tags untouched and the allocation freed.  Otherwise it returns 0 and the list
is the list of `r` with the new tag at the tail: the tag has the inode of
`newsock` and status 1, every other tag is as in `r`. -/
theorem C16_accept_creates_pending_entry :
    (∀ (h : SockHost) (post : Int) (kz : Ptr) (rc_orig : Int) (s : SockState)
      (sock newsock : Ptr),
      ((ccs_validate_socket h post s sock).2 < 0 →
        Lsm2629.ccs_socket_accept h post kz rc_orig s sock newsock
          = ccs_validate_socket h post s sock) ∧
      (¬ (ccs_validate_socket h post s sock).2 < 0 → kz = NULL →
        Lsm2629.ccs_socket_accept h post kz rc_orig s sock newsock
          = ((ccs_validate_socket h post s sock).1, -ENOMEM)) ∧
      (¬ (ccs_validate_socket h post s sock).2 < 0 → kz ≠ NULL → rc_orig ≠ 0 →
        (Lsm2629.ccs_socket_accept h post kz rc_orig s sock newsock).2 = rc_orig ∧
        (Lsm2629.ccs_socket_accept h post kz rc_orig s sock newsock).1.ccs_accepted_socket_list
          = (ccs_validate_socket h post s sock).1.ccs_accepted_socket_list ∧
        (∀ q, q ≠ kz →
          (Lsm2629.ccs_socket_accept h post kz rc_orig s sock newsock).1.tag q
            = (ccs_validate_socket h post s sock).1.tag q) ∧
        (Lsm2629.ccs_socket_accept h post kz rc_orig s sock newsock).1.log
          = (ccs_validate_socket h post s sock).1.log
            ++ [SockEvent.original_hook "socket_accept", SockEvent.kfree kz]) ∧
      (¬ (ccs_validate_socket h post s sock).2 < 0 → kz ≠ NULL → rc_orig = 0 →
        (Lsm2629.ccs_socket_accept h post kz rc_orig s sock newsock).2 = 0 ∧
        (Lsm2629.ccs_socket_accept h post kz rc_orig s sock newsock).1.ccs_accepted_socket_list
          = (ccs_validate_socket h post s sock).1.ccs_accepted_socket_list ++ [kz] ∧
        (Lsm2629.ccs_socket_accept h post kz rc_orig s sock newsock).1.tag kz
          = { inode := h.SOCK_INODE newsock, status := 1 } ∧
        (∀ q, q ≠ kz →
          (Lsm2629.ccs_socket_accept h post kz rc_orig s sock newsock).1.tag q
            = (ccs_validate_socket h post s sock).1.tag q))) ∧
    (∀ (h : SockHost) (post : Int) (kz : Ptr) (s : SockState) (sock newsock : Ptr),
      ((ccs_validate_socket h post s sock).2 < 0 →
        Lsm412.ccs_socket_accept h post kz s sock newsock
          = ccs_validate_socket h post s sock) ∧
      (¬ (ccs_validate_socket h post s sock).2 < 0 → kz = NULL →
        Lsm412.ccs_socket_accept h post kz s sock newsock
          = ((ccs_validate_socket h post s sock).1, -ENOMEM)) ∧
      (¬ (ccs_validate_socket h post s sock).2 < 0 → kz ≠ NULL →
        (Lsm412.ccs_socket_accept h post kz s sock newsock).2 = 0 ∧
        (Lsm412.ccs_socket_accept h post kz s sock newsock).1.ccs_accepted_socket_list
          = (ccs_validate_socket h post s sock).1.ccs_accepted_socket_list ++ [kz] ∧
        (Lsm412.ccs_socket_accept h post kz s sock newsock).1.tag kz
          = { inode := h.SOCK_INODE newsock, status := 1 } ∧
        (∀ q, q ≠ kz →
          (Lsm412.ccs_socket_accept h post kz s sock newsock).1.tag q
            = (ccs_validate_socket h post s sock).1.tag q))) := by
  constructor
  · intro h post kz rc_orig s sock newsock
    unfold Lsm2629.ccs_socket_accept
    dsimp only
    generalize ccs_validate_socket h post s sock = r
    refine ⟨?_, ?_, ?_, ?_⟩
    · intro hr
      rw [if_pos hr]
    · intro hr hk
      rw [if_neg hr, if_pos hk]
    · intro hr hk ho
      rw [if_neg hr, if_neg hk, if_pos ho]
      refine ⟨rfl, rfl, ?_, ?_⟩
      · intro q hq
        simp [SockState.emit, SockState.store, hq]
      · simp [SockState.emit, SockState.store]
    · intro hr hk ho
      rw [if_neg hr, if_neg hk, if_neg (not_not.2 ho)]
      refine ⟨rfl, rfl, ?_, ?_⟩
      · simp [SockState.emit, SockState.store]
      · intro q hq
        simp [SockState.emit, SockState.store, hq]
  · intro h post kz s sock newsock
    unfold Lsm412.ccs_socket_accept
    dsimp only
    generalize ccs_validate_socket h post s sock = r
    refine ⟨?_, ?_, ?_⟩
    · intro hr
      rw [if_pos hr]
    · intro hr hk
      rw [if_neg hr, if_pos hk]
    · intro hr hk
      rw [if_neg hr, if_neg hk]
      refine ⟨rfl, rfl, ?_, ?_⟩
      · simp [SockState.store]
      · intro q hq
        simp [SockState.store, hq]

/-- Witness of C16: `accept` on listening socket `20`, which has no tag, gives
socket `21`; with memory the tag at `30` is appended, without memory and with a
refusing previous hook the list stays empty. -/
theorem C16_accept_creates_pending_entry_witness :
    (¬ (ccs_validate_socket sockHost 0 sock_init 20).2 < 0 ∧ (30 : Ptr) ≠ NULL) ∧
    (Lsm412.ccs_socket_accept sockHost 0 30 sock_init 20 21).1.ccs_accepted_socket_list
      = (ccs_validate_socket sockHost 0 sock_init 20).1.ccs_accepted_socket_list ++ [30] ∧
    (Lsm412.ccs_socket_accept sockHost 0 30 sock_init 20 21).1.tag 30
      = { inode := sockHost.SOCK_INODE 21, status := 1 } ∧
    Lsm2629.ccs_socket_accept sockHost 0 NULL 0 sock_init 20 21
      = ((ccs_validate_socket sockHost 0 sock_init 20).1, -ENOMEM) ∧
    (Lsm2629.ccs_socket_accept sockHost 0 30 (-13) sock_init 20 21).1.ccs_accepted_socket_list
      = (ccs_validate_socket sockHost 0 sock_init 20).1.ccs_accepted_socket_list :=
  ⟨⟨by decide, by decide⟩,
    ((C16_accept_creates_pending_entry.2 sockHost 0 30 sock_init 20 21).2.2
      (by decide) (by decide)).2.1,
    ((C16_accept_creates_pending_entry.2 sockHost 0 30 sock_init 20 21).2.2
      (by decide) (by decide)).2.2.1,
    (C16_accept_creates_pending_entry.1 sockHost 0 NULL 0 sock_init 20 21).2.1
      (by decide) rfl,
    ((C16_accept_creates_pending_entry.1 sockHost 0 30 (-13) sock_init 20 21).2.2.1
      (by decide) (by decide) (by decide)).2.1⟩

/-! ## Destruction of an endpoint: C19 -/

@[simp] theorem sock_emit_tag (s : SockState) (e : SockEvent) : (s.emit e).tag = s.tag := rfl

@[simp] theorem sock_emit_list (s : SockState) (e : SockEvent) :
    (s.emit e).ccs_accepted_socket_list = s.ccs_accepted_socket_list := rfl

@[simp] theorem sock_emit_rcu (s : SockState) (e : SockEvent) : (s.emit e).rcu = s.rcu := rfl

@[simp] theorem sock_emit_log (s : SockState) (e : SockEvent) :
    (s.emit e).log = s.log ++ [e] := rfl

@[simp] theorem sock_store_tag (s : SockState) (p : Ptr) (t : ccs_socket_tag) (q : Ptr) :
    (s.store p t).tag q = if q = p then t else s.tag q := rfl

@[simp] theorem sock_store_list (s : SockState) (p : Ptr) (t : ccs_socket_tag) :
    (s.store p t).ccs_accepted_socket_list = s.ccs_accepted_socket_list := rfl

@[simp] theorem sock_store_rcu (s : SockState) (p : Ptr) (t : ccs_socket_tag) :
    (s.store p t).rcu = s.rcu := rfl

@[simp] theorem sock_store_log (s : SockState) (p : Ptr) (t : ccs_socket_tag) :
    (s.store p t).log = s.log := rfl

/-- The scan only reads the list and the `inode` fields. -/
theorem socket_tag_lookup_congr (s t : SockState) (inode : Ptr)
    (hl : t.ccs_accepted_socket_list = s.ccs_accepted_socket_list)
    (hi : ∀ q, (t.tag q).inode = (s.tag q).inode) :
    socket_tag_lookup t inode = socket_tag_lookup s inode := by
  unfold socket_tag_lookup
  rw [hl]
  congr 1
  funext q
  rw [hi]

theorem socket_tag_lookup_some (s : SockState) (inode p : Ptr)
    (hl : socket_tag_lookup s inode = some p) :
    p ∈ s.ccs_accepted_socket_list ∧ (s.tag p).inode = inode := by
  unfold socket_tag_lookup at hl
  refine ⟨List.mem_of_find?_eq_some hl, ?_⟩
  have := List.find?_some hl
  simpa using this

theorem update_tag_none (s : SockState) (inode : Ptr) (status : Int)
    (hl : socket_tag_lookup s inode = none) : ccs_update_socket_tag s inode status = s := by
  unfold ccs_update_socket_tag
  rw [hl]

theorem update_tag_keep (s : SockState) (inode p : Ptr) (status : Int)
    (hl : socket_tag_lookup s inode = some p) (hs : status ≠ 0) :
    ccs_update_socket_tag s inode status = s.store p { s.tag p with status := status } := by
  unfold ccs_update_socket_tag
  rw [hl]
  dsimp only
  rw [if_pos hs]

theorem update_tag_drop (s : SockState) (inode p : Ptr)
    (hl : socket_tag_lookup s inode = some p) :
    ccs_update_socket_tag s inode 0 =
      { tag := fun q => if q = p then { s.tag p with status := 0 } else s.tag q,
        ccs_accepted_socket_list := s.ccs_accepted_socket_list.erase p,
        rcu := s.rcu ++ [p],
        log := s.log } := by
  unfold ccs_update_socket_tag
  rw [hl]
  rfl

theorem validate_idle (h : SockHost) (post : Int) (s : SockState) (sock : Ptr)
    (hl : socket_tag_lookup s (h.SOCK_INODE sock) = none) :
    ccs_validate_socket h post s sock = (s, 0) := by
  unfold ccs_validate_socket
  dsimp only
  rw [hl]
  rfl

theorem validate_settled (h : SockHost) (post : Int) (s : SockState) (sock p : Ptr)
    (hl : socket_tag_lookup s (h.SOCK_INODE sock) = some p) (hs : (s.tag p).status ≤ 0) :
    ccs_validate_socket h post s sock = (s, (s.tag p).status) := by
  unfold ccs_validate_socket
  dsimp only
  rw [hl]
  dsimp only
  rw [if_pos hs]

theorem validate_pending (h : SockHost) (post : Int) (s : SockState) (sock p : Ptr)
    (hl : socket_tag_lookup s (h.SOCK_INODE sock) = some p) (hs : 0 < (s.tag p).status) :
    ccs_validate_socket h post s sock =
      (ccs_update_socket_tag (s.emit (SockEvent.ccs_socket_post_accept_permission sock sock))
        (h.SOCK_INODE sock) post, post) := by
  unfold ccs_validate_socket
  dsimp only
  rw [hl]
  dsimp only
  rw [if_neg (by omega)]

/-- C19. Destruction of an endpoint removes its tag.  For an inode on the
socket filesystem whose first tag on the list is `p`, `ccs_inode_free_security`
unlinks `p`, whatever its status, and queues it for freeing; the tags of all
other addresses are as before.  For an inode without superblock, on another
filesystem or without tag, list, tags and queue are unchanged.  The hook of
`lsm-2.6.29.c` calls the previously registered hook first. -/
theorem C19_inode_free_removes_entry :
    (∀ (h : SockHost) (s : SockState) (inode p : Ptr),
      h.i_sb inode ≠ NULL → h.s_magic (h.i_sb inode) = SOCKFS_MAGIC →
      socket_tag_lookup s inode = some p →
      (Lsm2629.ccs_inode_free_security h s inode).ccs_accepted_socket_list
        = s.ccs_accepted_socket_list.erase p ∧
      (Lsm2629.ccs_inode_free_security h s inode).rcu = s.rcu ++ [p] ∧
      (∀ q, q ≠ p → (Lsm2629.ccs_inode_free_security h s inode).tag q = s.tag q) ∧
      (Lsm412.ccs_inode_free_security h s inode).ccs_accepted_socket_list
        = s.ccs_accepted_socket_list.erase p ∧
      (Lsm412.ccs_inode_free_security h s inode).rcu = s.rcu ++ [p] ∧
      (∀ q, q ≠ p → (Lsm412.ccs_inode_free_security h s inode).tag q = s.tag q)) ∧
    (∀ (h : SockHost) (s : SockState) (inode : Ptr),
      (h.i_sb inode = NULL ∨ h.s_magic (h.i_sb inode) ≠ SOCKFS_MAGIC ∨
        socket_tag_lookup s inode = none) →
      Lsm2629.ccs_inode_free_security h s inode
        = s.emit (SockEvent.original_hook "inode_free_security") ∧
      Lsm412.ccs_inode_free_security h s inode = s) := by
  constructor
  · intro h s inode p hsb hm hl
    have hl1 : socket_tag_lookup (s.emit (SockEvent.original_hook "inode_free_security")) inode
        = some p := by
      rw [← hl]
      exact socket_tag_lookup_congr _ _ _ rfl (fun _ => rfl)
    have h1 : Lsm2629.ccs_inode_free_security h s inode
        = ccs_update_socket_tag (s.emit (SockEvent.original_hook "inode_free_security"))
            inode 0 := by
      unfold Lsm2629.ccs_inode_free_security
      dsimp only
      rw [if_pos ⟨hsb, hm⟩]
    have h2 : Lsm412.ccs_inode_free_security h s inode = ccs_update_socket_tag s inode 0 := by
      unfold Lsm412.ccs_inode_free_security
      rw [if_pos ⟨hsb, hm⟩]
    rw [h1, h2, update_tag_drop _ _ p hl1, update_tag_drop _ _ p hl]
    refine ⟨rfl, rfl, ?_, rfl, rfl, ?_⟩
    · intro q hq
      simp [hq]
    · intro q hq
      simp [hq]
  · intro h s inode hc
    unfold Lsm2629.ccs_inode_free_security Lsm412.ccs_inode_free_security
    dsimp only
    by_cases hfs : h.i_sb inode ≠ NULL ∧ h.s_magic (h.i_sb inode) = SOCKFS_MAGIC
    · rw [if_pos hfs, if_pos hfs]
      rcases hc with hc | hc | hc
      · exact absurd hc hfs.1
      · exact absurd hfs.2 hc
      · have hl1 : socket_tag_lookup (s.emit (SockEvent.original_hook "inode_free_security"))
            inode = none := by
          rw [← hc]
          exact socket_tag_lookup_congr _ _ _ rfl (fun _ => rfl)
        rw [update_tag_none _ _ _ hl1, update_tag_none _ _ _ hc]
        exact ⟨rfl, rfl⟩
    · rw [if_neg hfs, if_neg hfs]
      exact ⟨rfl, rfl⟩

/-- Witness of C19: the inode of the accepted socket `21` of `sockPending` is
destroyed while its tag at `30` is still pending; the inode of socket `22` has
no tag. -/
theorem C19_inode_free_removes_entry_witness :
    (sockHost.i_sb 521 ≠ NULL ∧ sockHost.s_magic (sockHost.i_sb 521) = SOCKFS_MAGIC ∧
      socket_tag_lookup sockPending 521 = some 30 ∧
      socket_tag_lookup sockPending 522 = none) ∧
    (Lsm412.ccs_inode_free_security sockHost sockPending 521).ccs_accepted_socket_list
      = sockPending.ccs_accepted_socket_list.erase 30 ∧
    (Lsm2629.ccs_inode_free_security sockHost sockPending 521).rcu = sockPending.rcu ++ [30] ∧
    Lsm412.ccs_inode_free_security sockHost sockPending 522 = sockPending :=
  ⟨⟨by decide, by decide, by decide, by decide⟩,
    (C19_inode_free_removes_entry.1 sockHost sockPending 521 30 (by decide) (by decide)
      (by decide)).2.2.2.1,
    (C19_inode_free_removes_entry.1 sockHost sockPending 521 30 (by decide) (by decide)
      (by decide)).2.1,
    (C19_inode_free_removes_entry.2 sockHost sockPending 522 (Or.inr (Or.inr (by decide)))).2⟩

/-! ## The deferred check, deny path: C18 -/

/-- In a state where the first tag of the socket's inode has a negative status
`e`, the deferred check returns `e` and changes nothing. -/
theorem validate_denied (h : SockHost) (post : Int) (t : SockState) (sock p : Ptr) (e : Int)
    (hl : socket_tag_lookup t (h.SOCK_INODE sock) = some p) (hs : (t.tag p).status = e)
    (he : e < 0) : ccs_validate_socket h post t sock = (t, e) := by
  rw [validate_settled h post t sock p hl (by omega), hs]

namespace Lsm2629

theorem socket_hook_checked_denied (name : String) (h : SockHost) (post perm rc_orig : Int)
    (t : SockState) (sock : Ptr) (e : Int) (he : e < 0)
    (hv : ccs_validate_socket h post t sock = (t, e)) :
    socket_hook_checked name h post perm rc_orig t sock = (t, e) := by
  unfold socket_hook_checked
  rw [hv]
  dsimp only
  rw [if_pos he]

theorem socket_hook_plain_denied (name : String) (h : SockHost) (post rc_orig : Int)
    (t : SockState) (sock : Ptr) (e : Int) (he : e < 0)
    (hv : ccs_validate_socket h post t sock = (t, e)) :
    socket_hook_plain name h post rc_orig t sock = (t, e) := by
  unfold socket_hook_plain
  rw [hv]
  dsimp only
  rw [if_pos he]

theorem socket_accept_denied (h : SockHost) (post : Int) (kz : Ptr) (rc_orig : Int)
    (t : SockState) (sock newsock : Ptr) (e : Int) (he : e < 0)
    (hv : ccs_validate_socket h post t sock = (t, e)) :
    ccs_socket_accept h post kz rc_orig t sock newsock = (t, e) := by
  unfold ccs_socket_accept
  rw [hv]
  dsimp only
  rw [if_pos he]

end Lsm2629

namespace Lsm412

theorem socket_hook_checked_denied_412 (name : String) (h : SockHost) (post perm : Int)
    (t : SockState) (sock : Ptr) (e : Int) (he : e < 0)
    (hv : ccs_validate_socket h post t sock = (t, e)) :
    socket_hook_checked name h post perm t sock = (t, e) := by
  unfold socket_hook_checked
  rw [hv]
  dsimp only
  rw [if_pos he]

theorem socket_accept_denied_412 (h : SockHost) (post : Int) (kz : Ptr)
    (t : SockState) (sock newsock : Ptr) (e : Int) (he : e < 0)
    (hv : ccs_validate_socket h post t sock = (t, e)) :
    ccs_socket_accept h post kz t sock newsock = (t, e) := by
  unfold ccs_socket_accept
  rw [hv]
  dsimp only
  rw [if_pos he]

end Lsm412

/-- C18. Deferred check, deny path.  Let `p` be the first tag of the socket's
inode, with status 1, and let `ccs_socket_post_accept_permission` return
`e < 0`.  The first `ccs_validate_socket` returns `e`, makes that one
evaluation and leaves the list as it is with status `e` in `p`.  In the state
it leaves, `ccs_validate_socket` and every socket hook of both files
(`listen`, `connect`, `bind`, `sendmsg`, `recvmsg`, `getsockname`,
`getpeername`, `getsockopt`, `setsockopt`, `shutdown`, `accept` on that socket)
return `e` and the state unchanged: no further evaluation, no permission check
of the operation, no call of a previous hook, whatever these would return. -/
theorem C18_deferred_check_deny (h : SockHost) (s : SockState) (sock p : Ptr) (e : Int)
    (hl : socket_tag_lookup s (h.SOCK_INODE sock) = some p) (hp : (s.tag p).status = 1)
    (he : e < 0) :
    ccs_validate_socket h e s sock = (denied s sock p e, e) ∧
    (denied s sock p e).ccs_accepted_socket_list = s.ccs_accepted_socket_list ∧
    (denied s sock p e).log = s.log ++ [SockEvent.ccs_socket_post_accept_permission sock sock] ∧
    socket_tag_lookup (denied s sock p e) (h.SOCK_INODE sock) = some p ∧
    ((denied s sock p e).tag p).status = e ∧
    (∀ (post perm rc_orig : Int) (kz newsock : Ptr),
      ccs_validate_socket h post (denied s sock p e) sock = (denied s sock p e, e) ∧
      (Lsm2629.ccs_socket_listen h post perm rc_orig (denied s sock p e) sock
          = (denied s sock p e, e) ∧
        Lsm2629.ccs_socket_connect h post perm rc_orig (denied s sock p e) sock
          = (denied s sock p e, e) ∧
        Lsm2629.ccs_socket_bind h post perm rc_orig (denied s sock p e) sock
          = (denied s sock p e, e) ∧
        Lsm2629.ccs_socket_sendmsg h post perm rc_orig (denied s sock p e) sock
          = (denied s sock p e, e) ∧
        Lsm2629.ccs_socket_recvmsg h post rc_orig (denied s sock p e) sock
          = (denied s sock p e, e) ∧
        Lsm2629.ccs_socket_getsockname h post rc_orig (denied s sock p e) sock
          = (denied s sock p e, e) ∧
        Lsm2629.ccs_socket_getpeername h post rc_orig (denied s sock p e) sock
          = (denied s sock p e, e) ∧
        Lsm2629.ccs_socket_getsockopt h post rc_orig (denied s sock p e) sock
          = (denied s sock p e, e) ∧
        Lsm2629.ccs_socket_setsockopt h post rc_orig (denied s sock p e) sock
          = (denied s sock p e, e) ∧
        Lsm2629.ccs_socket_shutdown h post rc_orig (denied s sock p e) sock
          = (denied s sock p e, e) ∧
        Lsm2629.ccs_socket_accept h post kz rc_orig (denied s sock p e) sock newsock
          = (denied s sock p e, e)) ∧
      (Lsm412.ccs_socket_listen h post perm (denied s sock p e) sock
          = (denied s sock p e, e) ∧
        Lsm412.ccs_socket_connect h post perm (denied s sock p e) sock
          = (denied s sock p e, e) ∧
        Lsm412.ccs_socket_bind h post perm (denied s sock p e) sock
          = (denied s sock p e, e) ∧
        Lsm412.ccs_socket_sendmsg h post perm (denied s sock p e) sock
          = (denied s sock p e, e) ∧
        Lsm412.ccs_socket_recvmsg h post (denied s sock p e) sock
          = (denied s sock p e, e) ∧
        Lsm412.ccs_socket_getsockname h post (denied s sock p e) sock
          = (denied s sock p e, e) ∧
        Lsm412.ccs_socket_getpeername h post (denied s sock p e) sock
          = (denied s sock p e, e) ∧
        Lsm412.ccs_socket_getsockopt h post (denied s sock p e) sock
          = (denied s sock p e, e) ∧
        Lsm412.ccs_socket_setsockopt h post (denied s sock p e) sock
          = (denied s sock p e, e) ∧
        Lsm412.ccs_socket_shutdown h post (denied s sock p e) sock
          = (denied s sock p e, e) ∧
        Lsm412.ccs_socket_accept h post kz (denied s sock p e) sock newsock
          = (denied s sock p e, e))) := by
  have hl1 : socket_tag_lookup (s.emit (SockEvent.ccs_socket_post_accept_permission sock sock))
      (h.SOCK_INODE sock) = some p := by
    rw [← hl]
    exact socket_tag_lookup_congr _ _ _ rfl (fun _ => rfl)
  have hfirst : ccs_validate_socket h e s sock = (denied s sock p e, e) := by
    rw [validate_pending h e s sock p hl (by omega), update_tag_keep _ _ p e hl1 (by omega)]
    rfl
  have hl2 : socket_tag_lookup (denied s sock p e) (h.SOCK_INODE sock) = some p := by
    rw [← hl]
    refine socket_tag_lookup_congr s (denied s sock p e) _ rfl ?_
    intro q
    unfold denied
    by_cases hq : q = p <;> simp [hq]
  have hst : ((denied s sock p e).tag p).status = e := by
    simp [denied]
  have hv : ∀ post, ccs_validate_socket h post (denied s sock p e) sock
      = (denied s sock p e, e) :=
    fun post => validate_denied h post _ sock p e hl2 hst he
  refine ⟨hfirst, rfl, rfl, hl2, hst, ?_⟩
  intro post perm rc_orig kz newsock
  refine ⟨hv post, ⟨?_, ?_, ?_, ?_, ?_, ?_, ?_, ?_, ?_, ?_, ?_⟩,
    ⟨?_, ?_, ?_, ?_, hv post, hv post, hv post, hv post, hv post, hv post, ?_⟩⟩
  · exact Lsm2629.socket_hook_checked_denied _ h post perm rc_orig _ sock e he (hv post)
  · exact Lsm2629.socket_hook_checked_denied _ h post perm rc_orig _ sock e he (hv post)
  · exact Lsm2629.socket_hook_checked_denied _ h post perm rc_orig _ sock e he (hv post)
  · exact Lsm2629.socket_hook_checked_denied _ h post perm rc_orig _ sock e he (hv post)
  · exact Lsm2629.socket_hook_plain_denied _ h post rc_orig _ sock e he (hv post)
  · exact Lsm2629.socket_hook_plain_denied _ h post rc_orig _ sock e he (hv post)
  · exact Lsm2629.socket_hook_plain_denied _ h post rc_orig _ sock e he (hv post)
  · exact Lsm2629.socket_hook_plain_denied _ h post rc_orig _ sock e he (hv post)
  · exact Lsm2629.socket_hook_plain_denied _ h post rc_orig _ sock e he (hv post)
  · exact Lsm2629.socket_hook_plain_denied _ h post rc_orig _ sock e he (hv post)
  · exact Lsm2629.socket_accept_denied h post kz rc_orig _ sock newsock e he (hv post)
  · exact Lsm412.socket_hook_checked_denied_412 _ h post perm _ sock e he (hv post)
  · exact Lsm412.socket_hook_checked_denied_412 _ h post perm _ sock e he (hv post)
  · exact Lsm412.socket_hook_checked_denied_412 _ h post perm _ sock e he (hv post)
  · exact Lsm412.socket_hook_checked_denied_412 _ h post perm _ sock e he (hv post)
  · exact Lsm412.socket_accept_denied_412 h post kz _ sock newsock e he (hv post)

/-- Witness of C18: the deferred check of socket `21` of `sockPending` is
refused with `-13`; a later `listen` and a later `recvmsg` return `-13`. -/
theorem C18_deferred_check_deny_witness :
    (socket_tag_lookup sockPending (sockHost.SOCK_INODE 21) = some 30 ∧
      (sockPending.tag 30).status = 1 ∧ (-13 : Int) < 0) ∧
    ccs_validate_socket sockHost (-13) sockPending 21 = (denied sockPending 21 30 (-13), -13) ∧
    Lsm2629.ccs_socket_listen sockHost 0 0 0 (denied sockPending 21 30 (-13)) 21
      = (denied sockPending 21 30 (-13), -13) ∧
    Lsm412.ccs_socket_recvmsg sockHost 0 (denied sockPending 21 30 (-13)) 21
      = (denied sockPending 21 30 (-13), -13) :=
  ⟨⟨by decide, by decide, by decide⟩,
    (C18_deferred_check_deny sockHost sockPending 21 30 (-13) (by decide) (by decide)
      (by decide)).1,
    ((C18_deferred_check_deny sockHost sockPending 21 30 (-13) (by decide) (by decide)
      (by decide)).2.2.2.2.2 0 0 0 0 0).2.1.1,
    ((C18_deferred_check_deny sockHost sockPending 21 30 (-13) (by decide) (by decide)
      (by decide)).2.2.2.2.2 0 0 0 0 0).2.2.2.2.2.2.1⟩

/-! ## The deferred check, allow path: C17 -/

theorem SockUnique_congr (s t : SockState)
    (hl : t.ccs_accepted_socket_list = s.ccs_accepted_socket_list)
    (hi : ∀ q, (t.tag q).inode = (s.tag q).inode) (hs : SockUnique s) : SockUnique t := by
  unfold SockUnique at hs ⊢
  rw [hl]
  have : (fun p => (t.tag p).inode) = fun p => (s.tag p).inode := funext hi
  rw [this]
  exact hs

theorem SockUnique_erase (s t : SockState) (p : Ptr)
    (hl : t.ccs_accepted_socket_list = s.ccs_accepted_socket_list.erase p)
    (hi : ∀ q, (t.tag q).inode = (s.tag q).inode) (hs : SockUnique s) : SockUnique t := by
  unfold SockUnique at hs ⊢
  rw [hl]
  have : (fun p => (t.tag p).inode) = fun p => (s.tag p).inode := funext hi
  rw [this]
  exact List.Nodup.sublist ((List.erase_sublist p _).map _) hs

/-- With one tag per inode, unlinking the tag the scan finds leaves no tag of
that inode. -/
theorem lookup_after_erase (s t : SockState) (inode p : Ptr) (hs : SockUnique s)
    (hf : socket_tag_lookup s inode = some p)
    (hl : t.ccs_accepted_socket_list = s.ccs_accepted_socket_list.erase p)
    (hi : ∀ q, (t.tag q).inode = (s.tag q).inode) :
    socket_tag_lookup t inode = none := by
  have hp := socket_tag_lookup_some s inode p hf
  unfold socket_tag_lookup
  rw [List.find?_eq_none, hl]
  intro q hq
  have hnd : s.ccs_accepted_socket_list.Nodup := List.Nodup.of_map _ hs
  have hq2 := (List.Nodup.mem_erase_iff hnd).1 hq
  intro hc
  have hqi : (s.tag q).inode = inode := by
    rw [← hi q]
    simpa using hc
  exact hq2.1 (List.inj_on_of_nodup_map hs hq2.2 hp.1 (by rw [hqi, hp.2]))

theorem update_tag_unique (s : SockState) (inode : Ptr) (status : Int) (hs : SockUnique s) :
    SockUnique (ccs_update_socket_tag s inode status) := by
  cases hl : socket_tag_lookup s inode with
  | none => rw [update_tag_none s inode status hl]; exact hs
  | some p =>
    by_cases hz : status = 0
    · subst hz
      rw [update_tag_drop s inode p hl]
      refine SockUnique_erase s _ p rfl ?_ hs
      intro q
      by_cases hq : q = p <;> simp [hq]
    · rw [update_tag_keep s inode p status hl hz]
      refine SockUnique_congr s _ rfl ?_ hs
      intro q
      by_cases hq : q = p <;> simp [hq]

theorem validate_unique (h : SockHost) (post : Int) (s : SockState) (sock : Ptr)
    (hs : SockUnique s) : SockUnique (ccs_validate_socket h post s sock).1 := by
  unfold ccs_validate_socket
  dsimp only
  split_ifs
  · exact hs
  · exact update_tag_unique _ _ _ (SockUnique_congr s _ rfl (fun _ => rfl) hs)

/-- What the deferred check leaves of the list and of the `inode` fields. -/
theorem validate_keeps (h : SockHost) (post : Int) (s : SockState) (sock : Ptr) :
    (∀ q ∈ (ccs_validate_socket h post s sock).1.ccs_accepted_socket_list,
      q ∈ s.ccs_accepted_socket_list) ∧
    (∀ q, ((ccs_validate_socket h post s sock).1.tag q).inode = (s.tag q).inode) := by
  unfold ccs_validate_socket
  dsimp only
  split_ifs
  · exact ⟨fun _ hq => hq, fun _ => rfl⟩
  · cases hl : socket_tag_lookup
        (s.emit (SockEvent.ccs_socket_post_accept_permission sock sock)) (h.SOCK_INODE sock) with
    | none =>
      rw [update_tag_none _ _ _ hl]
      exact ⟨fun _ hq => hq, fun _ => rfl⟩
    | some p =>
      by_cases hz : post = 0
      · subst hz
        rw [update_tag_drop _ _ p hl]
        refine ⟨fun q hq => List.mem_of_mem_erase hq, ?_⟩
        intro q
        by_cases hq : q = p <;> simp [hq]
      · rw [update_tag_keep _ _ p post hl hz]
        refine ⟨fun _ hq => hq, ?_⟩
        intro q
        by_cases hq : q = p <;> simp [hq]

/-- Linking a tag for an inode that has none, at an address that is not
linked, keeps the inodes distinct. -/
theorem SockUnique_append (r t : SockState) (kz inode : Ptr) (hr : SockUnique r)
    (hk : kz ∉ r.ccs_accepted_socket_list)
    (hn : ∀ q ∈ r.ccs_accepted_socket_list, (r.tag q).inode ≠ inode)
    (hl : t.ccs_accepted_socket_list = r.ccs_accepted_socket_list ++ [kz])
    (hkz : (t.tag kz).inode = inode) (ho : ∀ q, q ≠ kz → t.tag q = r.tag q) :
    SockUnique t := by
  unfold SockUnique at hr ⊢
  rw [hl, List.map_append, List.nodup_append]
  have hmap : r.ccs_accepted_socket_list.map (fun p => (t.tag p).inode)
      = r.ccs_accepted_socket_list.map (fun p => (r.tag p).inode) := by
    apply List.map_congr_left
    intro q hq
    have hne : q ≠ kz := fun hc => hk (hc ▸ hq)
    simp only [ho q hne]
  rw [hmap]
  refine ⟨hr, by simp, ?_⟩
  intro a ha hb
  simp only [List.map_cons, List.map_nil, List.mem_singleton] at hb
  obtain ⟨q, hq, hqa⟩ := List.mem_map.1 ha
  apply hn q hq
  rw [hqa, hb, hkz]

theorem SockUnique_congr_on (s t : SockState)
    (hl : t.ccs_accepted_socket_list = s.ccs_accepted_socket_list)
    (hi : ∀ q ∈ s.ccs_accepted_socket_list, (t.tag q).inode = (s.tag q).inode)
    (hs : SockUnique s) : SockUnique t := by
  unfold SockUnique at hs ⊢
  rw [hl]
  have : s.ccs_accepted_socket_list.map (fun p => (t.tag p).inode)
      = s.ccs_accepted_socket_list.map (fun p => (s.tag p).inode) :=
    List.map_congr_left hi
  rw [this]
  exact hs

theorem update_tag_log (s : SockState) (inode : Ptr) (status : Int) :
    (ccs_update_socket_tag s inode status).log = s.log := by
  unfold ccs_update_socket_tag
  cases socket_tag_lookup s inode with
  | none => rfl
  | some p =>
    dsimp only
    split_ifs <;> rfl

theorem inode_free_unique (h : SockHost) (s : SockState) (inode : Ptr) (hs : SockUnique s) :
    SockUnique (Lsm2629.ccs_inode_free_security h s inode) ∧
    SockUnique (Lsm412.ccs_inode_free_security h s inode) := by
  unfold Lsm2629.ccs_inode_free_security Lsm412.ccs_inode_free_security
  dsimp only
  have hs1 : SockUnique (s.emit (SockEvent.original_hook "inode_free_security")) :=
    SockUnique_congr s _ rfl (fun _ => rfl) hs
  split_ifs
  · exact ⟨update_tag_unique _ _ _ hs1, update_tag_unique _ _ _ hs⟩
  · exact ⟨hs1, hs⟩

theorem accept_unique (h : SockHost) (post : Int) (kz : Ptr) (rc_orig : Int) (s : SockState)
    (sock newsock : Ptr) (hs : SockUnique s) (hk : kz ∉ s.ccs_accepted_socket_list)
    (hn : ∀ q ∈ s.ccs_accepted_socket_list, (s.tag q).inode ≠ h.SOCK_INODE newsock) :
    SockUnique (Lsm2629.ccs_socket_accept h post kz rc_orig s sock newsock).1 ∧
    SockUnique (Lsm412.ccs_socket_accept h post kz s sock newsock).1 := by
  have hu := validate_unique h post s sock hs
  have hkeep := validate_keeps h post s sock
  unfold Lsm2629.ccs_socket_accept Lsm412.ccs_socket_accept
  dsimp only
  generalize ccs_validate_socket h post s sock = r at hu hkeep ⊢
  have hk1 : kz ∉ r.1.ccs_accepted_socket_list := fun hc => hk (hkeep.1 kz hc)
  have hn1 : ∀ q ∈ r.1.ccs_accepted_socket_list, (r.1.tag q).inode ≠ h.SOCK_INODE newsock := by
    intro q hq
    rw [hkeep.2 q]
    exact hn q (hkeep.1 q hq)
  by_cases hr : r.2 < 0
  · rw [if_pos hr, if_pos hr]
    exact ⟨hu, hu⟩
  · rw [if_neg hr, if_neg hr]
    by_cases hz : kz = NULL
    · rw [if_pos hz, if_pos hz]
      exact ⟨hu, hu⟩
    · rw [if_neg hz, if_neg hz]
      have h412 : SockUnique
          ({ ((r.1.store kz { inode := NULL, status := 0 }).store kz
                { ((r.1.store kz { inode := NULL, status := 0 }).tag kz) with
                  inode := h.SOCK_INODE newsock }).store kz
              { (((r.1.store kz { inode := NULL, status := 0 }).store kz
                  { ((r.1.store kz { inode := NULL, status := 0 }).tag kz) with
                    inode := h.SOCK_INODE newsock }).tag kz) with status := 1 } with
            ccs_accepted_socket_list := r.1.ccs_accepted_socket_list ++ [kz] } : SockState) := by
        refine SockUnique_append r.1 _ kz (h.SOCK_INODE newsock) hu hk1 hn1 rfl ?_ ?_
        · simp
        · intro q hq
          simp [hq]
      refine ⟨?_, h412⟩
      by_cases ho : rc_orig ≠ 0
      · rw [if_pos ho]
        refine SockUnique_congr_on r.1 _ rfl ?_ hu
        intro q hq
        have hne : q ≠ kz := fun hc => hk1 (hc ▸ hq)
        simp [hne]
      · rw [if_neg ho]
        refine SockUnique_append r.1 _ kz (h.SOCK_INODE newsock) hu hk1 hn1 rfl ?_ ?_
        · simp
        · intro q hq
          simp [hq]

/-- C17. Deferred check, allow path.  Let `p` be the first tag of the socket's
inode, with status 1.  The first `ccs_validate_socket` makes one call of
`ccs_socket_post_accept_permission` and returns its result.  When the result is
0 and no other tag has that inode, the tag is unlinked and queued for freeing,
0 is returned, and in the state this leaves every `ccs_validate_socket` on the
socket returns 0 and changes nothing, so makes no evaluation.  That no two tags
share an inode holds for the empty list and is kept by `ccs_validate_socket`,
`ccs_update_socket_tag`, `ccs_inode_free_security`, and by
`ccs_socket_accept` for a new socket whose inode has no tag yet. -/
theorem C17_deferred_check_allow :
    (∀ (h : SockHost) (s : SockState) (sock p : Ptr) (post : Int),
      socket_tag_lookup s (h.SOCK_INODE sock) = some p → (s.tag p).status = 1 →
      (ccs_validate_socket h post s sock).2 = post ∧
      (ccs_validate_socket h post s sock).1.log
        = s.log ++ [SockEvent.ccs_socket_post_accept_permission sock sock]) ∧
    (∀ (h : SockHost) (s : SockState) (sock p : Ptr),
      SockUnique s → socket_tag_lookup s (h.SOCK_INODE sock) = some p →
      (s.tag p).status = 1 →
      ccs_validate_socket h 0 s sock = (allowed s sock p, 0) ∧
      p ∉ (allowed s sock p).ccs_accepted_socket_list ∧
      socket_tag_lookup (allowed s sock p) (h.SOCK_INODE sock) = none ∧
      (∀ post, ccs_validate_socket h post (allowed s sock p) sock = (allowed s sock p, 0))) ∧
    (SockUnique sock_init ∧
      (∀ (h : SockHost) (post : Int) (s : SockState) (sock : Ptr),
        SockUnique s → SockUnique (ccs_validate_socket h post s sock).1) ∧
      (∀ (s : SockState) (inode : Ptr) (status : Int),
        SockUnique s → SockUnique (ccs_update_socket_tag s inode status)) ∧
      (∀ (h : SockHost) (s : SockState) (inode : Ptr), SockUnique s →
        SockUnique (Lsm2629.ccs_inode_free_security h s inode) ∧
        SockUnique (Lsm412.ccs_inode_free_security h s inode)) ∧
      (∀ (h : SockHost) (post : Int) (kz : Ptr) (rc_orig : Int) (s : SockState)
        (sock newsock : Ptr),
        SockUnique s → kz ∉ s.ccs_accepted_socket_list →
        (∀ q ∈ s.ccs_accepted_socket_list, (s.tag q).inode ≠ h.SOCK_INODE newsock) →
        SockUnique (Lsm2629.ccs_socket_accept h post kz rc_orig s sock newsock).1 ∧
        SockUnique (Lsm412.ccs_socket_accept h post kz s sock newsock).1)) := by
  refine ⟨?_, ?_, ?_, ?_, ?_, ?_, ?_⟩
  · intro h s sock p post hl hp
    rw [validate_pending h post s sock p hl (by omega)]
    exact ⟨rfl, by rw [update_tag_log]; rfl⟩
  · intro h s sock p hu hl hp
    have hl1 : socket_tag_lookup
        (s.emit (SockEvent.ccs_socket_post_accept_permission sock sock)) (h.SOCK_INODE sock)
        = some p := by
      rw [← hl]
      exact socket_tag_lookup_congr _ _ _ rfl (fun _ => rfl)
    have hfirst : ccs_validate_socket h 0 s sock = (allowed s sock p, 0) := by
      rw [validate_pending h 0 s sock p hl (by omega), update_tag_drop _ _ p hl1]
      rfl
    have hinode : ∀ q, ((allowed s sock p).tag q).inode = (s.tag q).inode := by
      intro q
      unfold allowed
      by_cases hq : q = p <;> simp [hq]
    have hnone : socket_tag_lookup (allowed s sock p) (h.SOCK_INODE sock) = none :=
      lookup_after_erase s _ _ p hu hl rfl hinode
    refine ⟨hfirst, ?_, hnone, fun post => validate_idle h post _ sock hnone⟩
    have hnd : s.ccs_accepted_socket_list.Nodup := List.Nodup.of_map _ hu
    intro hc
    exact ((List.Nodup.mem_erase_iff hnd).1 hc).1 rfl
  · unfold SockUnique
    exact List.nodup_nil
  · exact fun h post s sock hs => validate_unique h post s sock hs
  · exact fun s inode status hs => update_tag_unique s inode status hs
  · exact fun h s inode hs => inode_free_unique h s inode hs
  · exact fun h post kz rc_orig s sock newsock hs hk hn =>
      accept_unique h post kz rc_orig s sock newsock hs hk hn

/-- Witness of C17: the deferred check of socket `21` of `sockPending` is
allowed; its tag at `30` leaves the list and a later check returns 0 without
evaluation, even if the evaluation would now refuse. -/
theorem C17_deferred_check_allow_witness :
    (SockUnique sockPending ∧
      socket_tag_lookup sockPending (sockHost.SOCK_INODE 21) = some 30 ∧
      (sockPending.tag 30).status = 1) ∧
    (ccs_validate_socket sockHost 0 sockPending 21).1.log
      = sockPending.log ++ [SockEvent.ccs_socket_post_accept_permission 21 21] ∧
    ccs_validate_socket sockHost 0 sockPending 21 = (allowed sockPending 21 30, 0) ∧
    ccs_validate_socket sockHost (-13) (allowed sockPending 21 30) 21
      = (allowed sockPending 21 30, 0) :=
  ⟨⟨(C17_deferred_check_allow.2.2.2.2.2.2 sockHost 0 30 0 sock_init 20 21
        C17_deferred_check_allow.2.2.1 (List.not_mem_nil _)
        (fun _ hq => absurd hq (List.not_mem_nil _))).2,
      by decide, by decide⟩,
    (C17_deferred_check_allow.1 sockHost sockPending 21 30 0 (by decide) (by decide)).2,
    (C17_deferred_check_allow.2.1 sockHost sockPending 21 30
      ((C17_deferred_check_allow.2.2.2.2.2.2 sockHost 0 30 0 sock_init 20 21
        C17_deferred_check_allow.2.2.1 (List.not_mem_nil _)
        (fun _ hq => absurd hq (List.not_mem_nil _))).2)
      (by decide) (by decide)).1,
    (C17_deferred_check_allow.2.1 sockHost sockPending 21 30
      ((C17_deferred_check_allow.2.2.2.2.2.2 sockHost 0 30 0 sock_init 20 21
        C17_deferred_check_allow.2.2.1 (List.not_mem_nil _)
        (fun _ hq => absurd hq (List.not_mem_nil _))).2)
      (by decide) (by decide)).2.2.2 (-13)⟩

/-! ## Concurrent deferred checks: C20 -/

theorem evaluations_emit (sock : Ptr) (s : SockState) :
    evaluations sock (s.emit (SockEvent.ccs_socket_post_accept_permission sock sock))
      = evaluations sock s + 1 := by
  unfold evaluations
  simp [List.count_append]

theorem evaluations_update (sock : Ptr) (s : SockState) (inode : Ptr) (status : Int) :
    evaluations sock (ccs_update_socket_tag s inode status) = evaluations sock s := by
  unfold evaluations
  rw [update_tag_log]

/-- The three steps of one thread, run without interruption, are the call. -/
theorem validate_steps (h : SockHost) (sock : Ptr) (post : Int) (s : SockState) :
    validate_step h sock post
        (validate_step h sock post
          (validate_step h sock post ValidatePc.entry s).1
          (validate_step h sock post ValidatePc.entry s).2).1
        (validate_step h sock post
          (validate_step h sock post ValidatePc.entry s).1
          (validate_step h sock post ValidatePc.entry s).2).2
      = (ValidatePc.returned (ccs_validate_socket h post s sock).2,
          (ccs_validate_socket h post s sock).1) := by
  unfold ccs_validate_socket
  simp only [validate_step]
  split_ifs <;> rfl

/-- One step of one thread: the count of evaluations grows by at most what the
thread's position accounts for, and never shrinks. -/
theorem validate_step_count (h : SockHost) (sock : Ptr) (post : Int) (pc : ValidatePc)
    (st : SockState) :
    evaluations sock (validate_step h sock post pc st).2 + pc.past
      ≤ evaluations sock st + (validate_step h sock post pc st).1.past ∧
    evaluations sock st ≤ evaluations sock (validate_step h sock post pc st).2 ∧
    pc.past ≤ (validate_step h sock post pc st).1.past := by
  cases pc with
  | entry =>
    simp only [validate_step]
    split_ifs <;> simp [ValidatePc.past]
  | scanned r => simp [validate_step, ValidatePc.past, evaluations_emit]
  | evaluated r => simp [validate_step, ValidatePc.past, evaluations_update]
  | returned r => simp [validate_step, ValidatePc.past]

/-- One step of a thread that is not past the call, in the state `s` with the
tag pending: it is still not past the call and the state is `s`, or it has just
evaluated. -/
theorem validate_step_pending (h : SockHost) (sock : Ptr) (post : Int) (pc : ValidatePc)
    (s : SockState) (p : Ptr)
    (hl : socket_tag_lookup s (h.SOCK_INODE sock) = some p) (hp : (s.tag p).status = 1)
    (hpc : pc.past = 0) :
    ((validate_step h sock post pc s).1.past = 0 ∧ (validate_step h sock post pc s).2 = s) ∨
    evaluations sock (validate_step h sock post pc s).2 = evaluations sock s + 1 := by
  cases pc with
  | entry =>
    left
    simp [validate_step, hl, hp, ValidatePc.past]
  | scanned r =>
    right
    simp [validate_step, evaluations_emit]
  | evaluated r => simp [ValidatePc.past] at hpc
  | returned r => simp [ValidatePc.past] at hpc

theorem RaceInv_step (h : SockHost) (sock : Ptr) (postA postB : Int) (s : SockState) (p : Ptr)
    (hl : socket_tag_lookup s (h.SOCK_INODE sock) = some p) (hp : (s.tag p).status = 1)
    (c : Race) (who : Bool) (hc : RaceInv sock s c) :
    RaceInv sock s (race_step h sock postA postB c who) := by
  obtain ⟨pcA, pcB, st⟩ := c
  unfold RaceInv at hc ⊢
  simp only at hc
  cases who
  · have hcount := validate_step_count h sock postA pcA st
    simp only [race_step, Bool.false_eq_true, if_false]
    refine ⟨by omega, ?_⟩
    rcases hc.2 with h2 | ⟨ha, hb, hst⟩
    · left
      omega
    · subst hst
      rcases validate_step_pending h sock postA pcA st p hl hp ha with ⟨h3, h4⟩ | h3
      · right
        exact ⟨h3, hb, h4⟩
      · left
        omega
  · have hcount := validate_step_count h sock postB pcB st
    simp only [race_step, if_true]
    refine ⟨by omega, ?_⟩
    rcases hc.2 with h2 | ⟨ha, hb, hst⟩
    · left
      omega
    · subst hst
      rcases validate_step_pending h sock postB pcB st p hl hp hb with ⟨h3, h4⟩ | h3
      · right
        exact ⟨ha, h3, h4⟩
      · left
        omega

theorem RaceInv_run (h : SockHost) (sock : Ptr) (postA postB : Int) (s : SockState) (p : Ptr)
    (hl : socket_tag_lookup s (h.SOCK_INODE sock) = some p) (hp : (s.tag p).status = 1)
    (sched : List Bool) :
    ∀ c, RaceInv sock s c → RaceInv sock s (sched.foldl (race_step h sock postA postB) c) := by
  induction sched with
  | nil => exact fun c hc => hc
  | cons who rest ih =>
    intro c hc
    rw [List.foldl_cons]
    exact ih _ (RaceInv_step h sock postA postB s p hl hp c who hc)

/-- One step of a thread that has scanned: the count of evaluations grows by
exactly what the thread's position accounts for. -/
theorem validate_step_scanned (h : SockHost) (sock : Ptr) (post : Int) (pc : ValidatePc)
    (st : SockState) (hpc : pc ≠ ValidatePc.entry) :
    evaluations sock (validate_step h sock post pc st).2 + pc.past
      = evaluations sock st + (validate_step h sock post pc st).1.past ∧
    (validate_step h sock post pc st).1 ≠ ValidatePc.entry := by
  cases pc with
  | entry => exact absurd rfl hpc
  | scanned r => simp [validate_step, ValidatePc.past, evaluations_emit]
  | evaluated r => simp [validate_step, ValidatePc.past, evaluations_update]
  | returned r => simp [validate_step, ValidatePc.past]

theorem BothScanned_step (h : SockHost) (sock : Ptr) (postA postB : Int) (s : SockState)
    (c : Race) (who : Bool) (hc : BothScanned sock s c) :
    BothScanned sock s (race_step h sock postA postB c who) := by
  obtain ⟨pcA, pcB, st⟩ := c
  unfold BothScanned at hc ⊢
  simp only at hc
  cases who
  · have hcount := validate_step_scanned h sock postA pcA st hc.2.1
    simp only [race_step, Bool.false_eq_true, if_false]
    exact ⟨by omega, hcount.2, hc.2.2⟩
  · have hcount := validate_step_scanned h sock postB pcB st hc.2.2
    simp only [race_step, if_true]
    exact ⟨by omega, hc.2.1, hcount.2⟩

theorem BothScanned_run (h : SockHost) (sock : Ptr) (postA postB : Int) (s : SockState)
    (sched : List Bool) :
    ∀ c, BothScanned sock s c →
      BothScanned sock s (sched.foldl (race_step h sock postA postB) c) := by
  induction sched with
  | nil => exact fun c hc => hc
  | cons who rest ih =>
    intro c hc
    rw [List.foldl_cons]
    exact ih _ (BothScanned_step h sock postA postB s c who hc)

theorem done_past (pc : ValidatePc) (hd : pc.done = true) : pc.past = 1 := by
  cases pc <;> simp_all [ValidatePc.done, ValidatePc.past]

/-- The interleaving in which thread A returns before thread B starts is the
two calls one after the other. -/
theorem race_serial (h : SockHost) (sock : Ptr) (postA postB : Int) (s : SockState) :
    race_run h sock postA postB [false, false, false, true, true, true] s
      = { pcA := ValidatePc.returned (ccs_validate_socket h postA s sock).2,
          pcB := ValidatePc.returned
            (ccs_validate_socket h postB (ccs_validate_socket h postA s sock).1 sock).2,
          state := (ccs_validate_socket h postB (ccs_validate_socket h postA s sock).1 sock).1 } := by
  have hA := validate_steps h sock postA s
  have hB := validate_steps h sock postB (ccs_validate_socket h postA s sock).1
  simp only [race_run, List.foldl_cons, List.foldl_nil, race_step, if_true,
    Bool.false_eq_true, if_false]
  rw [hA]
  dsimp only
  rw [hB]

theorem validate_first_deny (h : SockHost) (s : SockState) (sock p : Ptr) (e : Int)
    (hl : socket_tag_lookup s (h.SOCK_INODE sock) = some p) (hp : (s.tag p).status = 1)
    (he : e < 0) :
    ccs_validate_socket h e s sock = (denied s sock p e, e) ∧
    (∀ post, ccs_validate_socket h post (denied s sock p e) sock = (denied s sock p e, e)) := by
  have hl1 : socket_tag_lookup (s.emit (SockEvent.ccs_socket_post_accept_permission sock sock))
      (h.SOCK_INODE sock) = some p := by
    rw [← hl]
    exact socket_tag_lookup_congr _ _ _ rfl (fun _ => rfl)
  have hl2 : socket_tag_lookup (denied s sock p e) (h.SOCK_INODE sock) = some p := by
    rw [← hl]
    refine socket_tag_lookup_congr s (denied s sock p e) _ rfl ?_
    intro q
    unfold denied
    by_cases hq : q = p <;> simp [hq]
  have hst : ((denied s sock p e).tag p).status = e := by
    simp [denied]
  constructor
  · rw [validate_pending h e s sock p hl (by omega), update_tag_keep _ _ p e hl1 (by omega)]
    rfl
  · exact fun post => validate_denied h post _ sock p e hl2 hst he

theorem validate_first_allow (h : SockHost) (s : SockState) (sock p : Ptr)
    (hu : SockUnique s)
    (hl : socket_tag_lookup s (h.SOCK_INODE sock) = some p) (hp : (s.tag p).status = 1) :
    ccs_validate_socket h 0 s sock = (allowed s sock p, 0) ∧
    (∀ post, ccs_validate_socket h post (allowed s sock p) sock = (allowed s sock p, 0)) := by
  have hl1 : socket_tag_lookup
      (s.emit (SockEvent.ccs_socket_post_accept_permission sock sock)) (h.SOCK_INODE sock)
      = some p := by
    rw [← hl]
    exact socket_tag_lookup_congr _ _ _ rfl (fun _ => rfl)
  have hinode : ∀ q, ((allowed s sock p).tag q).inode = (s.tag q).inode := by
    intro q
    unfold allowed
    by_cases hq : q = p <;> simp [hq]
  have hnone : socket_tag_lookup (allowed s sock p) (h.SOCK_INODE sock) = none :=
    lookup_after_erase s _ _ p hu hl rfl hinode
  constructor
  · rw [validate_pending h 0 s sock p hl (by omega), update_tag_drop _ _ p hl1]
    rfl
  · exact fun post => validate_idle h post _ sock hnone

theorem evaluations_denied (s : SockState) (sock p : Ptr) (e : Int) :
    evaluations sock (denied s sock p e) = evaluations sock s + 1 := by
  unfold denied evaluations
  simp [List.count_append]

theorem evaluations_allowed (s : SockState) (sock p : Ptr) :
    evaluations sock (allowed s sock p) = evaluations sock s + 1 := by
  unfold allowed evaluations
  simp [List.count_append]

/-- C20 as stated does not hold.  Two threads call `ccs_validate_socket` on
socket `21` of `sockPending`, whose tag is pending, and move in turns: both
scan the list before either has updated the tag, both call
`ccs_socket_post_accept_permission`, both return.  The evaluation has been made
twice. -/
theorem C20_counterexample :
    socket_tag_lookup sockPending (sockHost.SOCK_INODE 21) = some 30 ∧
    (sockPending.tag 30).status = 1 ∧
    (race_run sockHost 21 0 0 [false, true, false, true, false, true] sockPending).pcA
      = ValidatePc.returned 0 ∧
    (race_run sockHost 21 0 0 [false, true, false, true, false, true] sockPending).pcB
      = ValidatePc.returned 0 ∧
    evaluations 21 sockPending = 0 ∧
    evaluations 21
      (race_run sockHost 21 0 0 [false, true, false, true, false, true] sockPending).state = 2 ∧
    ¬ (evaluations 21
      (race_run sockHost 21 0 0 [false, true, false, true, false, true] sockPending).state
        = evaluations 21 sockPending + 1) := by
  refine ⟨by decide, by decide, by decide, by decide, by decide, by decide, by decide⟩

/-- C20, amended.  Two threads execute `ccs_validate_socket` on the same socket,
whose tag `p` is pending, in steps that are the scan of the list, the call of
`ccs_socket_post_accept_permission` (made outside the lock) and
`ccs_update_socket_tag` (whole under the lock).  In every interleaving in which
both return, the evaluation is made at least once and at most twice.  It is
made twice whenever both threads scan before either moves on, and once when
thread A returns before thread B starts, the result being 0 or negative and no
other tag having that inode; B then returns what A returned. -/
theorem C20_concurrent_validate (h : SockHost) (s : SockState) (sock p : Ptr)
    (postA postB : Int)
    (hl : socket_tag_lookup s (h.SOCK_INODE sock) = some p) (hp : (s.tag p).status = 1) :
    (∀ sched, (race_run h sock postA postB sched s).finished →
      evaluations sock s + 1 ≤ evaluations sock (race_run h sock postA postB sched s).state ∧
      evaluations sock (race_run h sock postA postB sched s).state ≤ evaluations sock s + 2) ∧
    (∀ sched, (race_run h sock postA postB (false :: true :: sched) s).finished →
      evaluations sock (race_run h sock postA postB (false :: true :: sched) s).state
        = evaluations sock s + 2) ∧
    (∀ sched, (race_run h sock postA postB (true :: false :: sched) s).finished →
      evaluations sock (race_run h sock postA postB (true :: false :: sched) s).state
        = evaluations sock s + 2) ∧
    (SockUnique s → postA ≤ 0 →
      (race_run h sock postA postB [false, false, false, true, true, true] s).finished ∧
      (race_run h sock postA postB [false, false, false, true, true, true] s).pcA
        = ValidatePc.returned postA ∧
      (race_run h sock postA postB [false, false, false, true, true, true] s).pcB
        = ValidatePc.returned postA ∧
      evaluations sock
        (race_run h sock postA postB [false, false, false, true, true, true] s).state
        = evaluations sock s + 1) := by
  refine ⟨?_, ?_, ?_, ?_⟩
  · intro sched hfin
    have hinv := RaceInv_run h sock postA postB s p hl hp sched
      { pcA := ValidatePc.entry, pcB := ValidatePc.entry, state := s }
      ⟨by simp [ValidatePc.past], Or.inr ⟨rfl, rfl, rfl⟩⟩
    unfold race_run at hfin ⊢
    have hA := done_past _ hfin.1
    have hB := done_past _ hfin.2
    unfold RaceInv at hinv
    constructor
    · rcases hinv.2 with h2 | ⟨ha, _, _⟩
      · exact h2
      · omega
    · omega
  · intro sched hfin
    have hstart : BothScanned sock s
        { pcA := ValidatePc.scanned 1, pcB := ValidatePc.scanned 1, state := s } := by
      unfold BothScanned
      simp [ValidatePc.past]
    have hinv := BothScanned_run h sock postA postB s sched _ hstart
    have heq : race_run h sock postA postB (false :: true :: sched) s
        = sched.foldl (race_step h sock postA postB)
            { pcA := ValidatePc.scanned 1, pcB := ValidatePc.scanned 1, state := s } := by
      simp [race_run, race_step, validate_step, hl, hp]
    rw [heq] at hfin ⊢
    have hA := done_past _ hfin.1
    have hB := done_past _ hfin.2
    unfold BothScanned at hinv
    omega
  · intro sched hfin
    have hstart : BothScanned sock s
        { pcA := ValidatePc.scanned 1, pcB := ValidatePc.scanned 1, state := s } := by
      unfold BothScanned
      simp [ValidatePc.past]
    have hinv := BothScanned_run h sock postA postB s sched _ hstart
    have heq : race_run h sock postA postB (true :: false :: sched) s
        = sched.foldl (race_step h sock postA postB)
            { pcA := ValidatePc.scanned 1, pcB := ValidatePc.scanned 1, state := s } := by
      simp [race_run, race_step, validate_step, hl, hp]
    rw [heq] at hfin ⊢
    have hA := done_past _ hfin.1
    have hB := done_past _ hfin.2
    unfold BothScanned at hinv
    omega
  · intro hu hle
    rw [race_serial]
    by_cases hz : postA = 0
    · subst hz
      have hv := validate_first_allow h s sock p hu hl hp
      rw [hv.1]
      dsimp only
      rw [hv.2 postB]
      exact ⟨⟨rfl, rfl⟩, rfl, rfl, evaluations_allowed s sock p⟩
    · have hv := validate_first_deny h s sock p postA hl hp (by omega)
      rw [hv.1]
      dsimp only
      rw [hv.2 postB]
      exact ⟨⟨rfl, rfl⟩, rfl, rfl, evaluations_denied s sock p postA⟩

/-- Witness of C20, amended: the two threads on socket `21` of `sockPending`,
moving in turns and one after the other. -/
theorem C20_concurrent_validate_witness :
    (socket_tag_lookup sockPending (sockHost.SOCK_INODE 21) = some 30 ∧
      (sockPending.tag 30).status = 1 ∧
      (race_run sockHost 21 0 0 [false, true, false, true, false, true] sockPending).finished) ∧
    evaluations 21
      (race_run sockHost 21 0 0 [false, true, false, true, false, true] sockPending).state
        = evaluations 21 sockPending + 2 ∧
    evaluations 21
      (race_run sockHost 21 0 0 [false, false, false, true, true, true] sockPending).state
        = evaluations 21 sockPending + 1 :=
  ⟨⟨by decide, by decide, ⟨by decide, by decide⟩⟩,
    (C20_concurrent_validate sockHost sockPending 21 30 0 0 (by decide) (by decide)).2.1
      [false, true, false, true] ⟨by decide, by decide⟩,
    ((C20_concurrent_validate sockHost sockPending 21 30 0 0 (by decide) (by decide)).2.2.2
      (by unfold SockUnique; decide) (by decide)).2.2.2⟩

/-! ## Domains in use: C22 -/

/-- C22. `ccs_used_by_cred(domain)` of `lsm-2.6.29.c` returns `true` exactly
when some record on one of the `CCS_MAX_TASK_SECURITY_HASH` buckets of the
credential table has `ccs_domain_info == domain`, or holds a Transition Record
whose `previous_domain` is `domain`.  It reads the state and returns a truth
value; no state comes back from it.  In `lsm-4.12.c` the function returns
`false` for every domain. -/
theorem C22_used_by_cred :
    (∀ (h : Host) (s : Lsm2629.State) (domain : Ptr),
      Lsm2629.ccs_used_by_cred h s domain = true ↔
        ∃ idx, idx < h.CCS_MAX_TASK_SECURITY_HASH ∧
          ∃ ptr ∈ s.ccs_cred_security_list idx,
            (s.mem ptr).ccs_domain_info = domain ∨
            ((s.mem ptr).ee ≠ NULL ∧
              (s.ee_mem (s.mem ptr).ee).previous_domain = domain)) ∧
    (∀ (s : Lsm412.State) (domain : Ptr), Lsm412.ccs_used_by_cred s domain = false) := by
  constructor
  · intro h s domain
    unfold Lsm2629.ccs_used_by_cred Lsm2629.uses_domain
    simp only [List.any_eq_true, List.mem_range, Bool.or_eq_true, Bool.and_eq_true,
      beq_iff_eq, bne_iff_ne, ne_eq]
  · intro s domain
    rfl

/-- Witness of C22: in `execPrepared` the record of credentials `2150`, on
bucket `2`, is in `ccs_kernel_domain`; no record is in domain `7`. -/
theorem C22_used_by_cred_witness :
    Lsm2629.ccs_used_by_cred execHost Lsm2629.execPrepared ccs_kernel_domain = true ∧
    Lsm2629.ccs_used_by_cred execHost Lsm2629.execPrepared 7 = false :=
  ⟨(C22_used_by_cred.1 execHost Lsm2629.execPrepared ccs_kernel_domain).2
      ⟨2, by decide, 12, by decide, Or.inl (by decide)⟩,
    by decide⟩

/-! ## Consult-then-forward: C21 -/

namespace Lsm2629

theorem forward_spec (hook : String) (args : List Int) (rc rc_orig : Int)
    (log : List HookEvent) (checks : List HookEvent)
    (hc : ∀ e ∈ checks, e.is_check = true) :
    ConsultThenForward hook args rc rc_orig log (forward hook args rc rc_orig (log ++ checks)) := by
  refine ⟨checks, hc, ?_, ?_⟩
  · intro hrc
    unfold forward
    rw [if_pos hrc]
  · intro hrc
    unfold forward
    rw [if_neg (not_not.2 hrc)]

theorem consult_spec (check : String) (check_args : List Int) (hook : String)
    (args : List Int) (rc rc_orig : Int) (log : List HookEvent) :
    ConsultThenForward hook args rc rc_orig log
      (consult check check_args hook args rc rc_orig log) := by
  unfold consult
  apply forward_spec
  intro e he
  rw [List.mem_singleton.1 he]
  rfl

theorem open_spec (v : OpenVariant) (h : VfsHost) (rc : Int) (log : List HookEvent) (f : Int) :
    (ccs_open v h rc log f).2 = rc ∧
    ∃ checks, (ccs_open v h rc log f).1 = log ++ checks ∧ ∀ e ∈ checks, e.is_check = true := by
  cases v
  · exact ⟨rfl, _, rfl, fun e he => by rw [List.mem_singleton.1 he]; rfl⟩
  · exact ⟨rfl, _, rfl, fun e he => by rw [List.mem_singleton.1 he]; rfl⟩
  · exact ⟨rfl, _, rfl, fun e he => by rw [List.mem_singleton.1 he]; rfl⟩

theorem ChecksOnly_start (log : List HookEvent) (S : List Int) : ChecksOnly log S (log, 0) :=
  ⟨⟨[], by simp, by simp⟩, Or.inl rfl⟩

theorem ChecksOnly_check (log : List HookEvent) (S : List Int) (r : List HookEvent × Int)
    (name : String) (args : List Int) (x : Int) (hx : x ∈ S) (hr : ChecksOnly log S r) :
    ChecksOnly log S (r.1 ++ [HookEvent.policy_check name args], x) := by
  obtain ⟨⟨checks, hc, hall⟩, _⟩ := hr
  refine ⟨⟨checks ++ [HookEvent.policy_check name args], ?_, ?_⟩, Or.inr hx⟩
  · show r.1 ++ _ = _
    rw [hc, List.append_assoc]
  · intro e he
    rcases List.mem_append.1 he with he | he
    · exact hall e he
    · rw [List.mem_singleton.1 he]
      rfl

theorem ChecksOnly_check_if (log : List HookEvent) (S : List Int) (r : List HookEvent × Int)
    (cond : Bool) (name : String) (args : List Int) (x : Int) (hx : x ∈ S)
    (hr : ChecksOnly log S r) : ChecksOnly log S (check_if cond name args x r) := by
  unfold check_if
  split_ifs
  · exact ChecksOnly_check log S r name args x hx hr
  · exact hr

/-- The checks of `ccs_inode_setattr` only add policy checks to the log, and
their result is 0 or the result of one of the four checks. -/
theorem setattr_checks_spec (security_path lt_2_6_33 : Bool)
    (rc_uid rc_gid rc_mode rc_size : Int) (log : List HookEvent) (dentry : Int) (a : iattr) :
    ChecksOnly log [rc_uid, rc_gid, rc_mode, rc_size]
      (setattr_checks security_path lt_2_6_33 rc_uid rc_gid rc_mode rc_size log dentry a) := by
  have h0 := ChecksOnly_start log [rc_uid, rc_gid, rc_mode, rc_size]
  have h1 : ChecksOnly log [rc_uid, rc_gid, rc_mode, rc_size]
      (if a.attr_uid = true then
        ((log, (0 : Int)).1
          ++ [HookEvent.policy_check "ccs_chown_permission" [dentry, 0, a.ia_uid, -1]], rc_uid)
       else (log, 0)) := by
    split_ifs
    · exact ChecksOnly_check _ _ _ _ _ _ (by simp) h0
    · exact h0
  unfold setattr_checks
  dsimp only
  split_ifs
  · exact ChecksOnly_check_if _ _ _ _ _ _ _ (by simp)
      (ChecksOnly_check_if _ _ _ _ _ _ _ (by simp)
        (ChecksOnly_check_if _ _ _ _ _ _ _ (by simp)
          (ChecksOnly_check _ _ _ _ _ _ (by simp) h0)))
  · exact ChecksOnly_check_if _ _ _ _ _ _ _ (by simp)
      (ChecksOnly_check_if _ _ _ _ _ _ _ (by simp)
        (ChecksOnly_check_if _ _ _ _ _ _ _ (by simp) h0))
  · exact ChecksOnly_check_if _ _ _ _ _ _ _ (by simp) h0
  · exact ChecksOnly_check_if _ _ _ _ _ _ _ (by simp)
      (ChecksOnly_check_if _ _ _ _ _ _ _ (by simp)
        (ChecksOnly_check _ _ _ _ _ _ (by simp) h0))
  · exact ChecksOnly_check_if _ _ _ _ _ _ _ (by simp)
      (ChecksOnly_check_if _ _ _ _ _ _ _ (by simp) h0)
  · exact h0

end Lsm2629

/-- C21. Consult-then-forward.  Each permission hook of `lsm-2.6.29.c` of the
generic shape returns the result of its policy check when that is not 0,
having called nothing but policy checks, and otherwise returns what the
previously registered hook of the same operation returns, which it calls once,
after the checks, on the arguments it was called with.  For
`ccs_file_open` and `ccs_dentry_open` the policy check is `ccs_open`; for
`ccs_inode_setattr` it is the chain of checks selected by `ia_valid`, which
stops at the first result that is not 0. -/
theorem C21_consult_then_forward (rc rc_orig : Int) :
    (∀ (v : OpenVariant) (h : VfsHost) (log : List HookEvent) (f cred : Int),
      ConsultThenForward "file_open" [f, cred] rc rc_orig log
        (Lsm2629.ccs_file_open v h rc rc_orig log f cred) ∧
      ConsultThenForward "dentry_open" [f, cred] rc rc_orig log
        (Lsm2629.ccs_dentry_open v h rc rc_orig log f cred)) ∧
    (∀ (security_path lt_2_6_33 : Bool) (rc_uid rc_gid rc_mode rc_size : Int)
      (log : List HookEvent) (dentry attr : Int) (a : iattr),
      ConsultThenForward "inode_setattr" [dentry, attr]
        (Lsm2629.setattr_checks security_path lt_2_6_33 rc_uid rc_gid rc_mode rc_size log
          dentry a).2 rc_orig log
        (Lsm2629.ccs_inode_setattr security_path lt_2_6_33 rc_uid rc_gid rc_mode rc_size
          rc_orig log dentry attr a)) ∧
    (∀ (h : VfsHost) (log : List HookEvent) (path user group : Int),
      ConsultThenForward "path_chown" [path, user, group] rc rc_orig log
        (Lsm2629.ccs_path_chown h rc rc_orig log path user group)) ∧
    (∀ (h : VfsHost) (log : List HookEvent) (path mode : Int),
      ConsultThenForward "path_chmod" [path, mode] rc rc_orig log
        (Lsm2629.ccs_path_chmod h rc rc_orig log path mode)) ∧
    (∀ (log : List HookEvent) (path : Int),
      ConsultThenForward "path_chroot" [path] rc rc_orig log
        (Lsm2629.ccs_path_chroot rc rc_orig log path)) ∧
    (∀ (h : VfsHost) (log : List HookEvent) (path : Int),
      ConsultThenForward "path_truncate" [path] rc rc_orig log
        (Lsm2629.ccs_path_truncate h rc rc_orig log path)) ∧
    (∀ (h : VfsHost) (log : List HookEvent) (path : Int),
      ConsultThenForward "inode_getattr" [path] rc rc_orig log
        (Lsm2629.ccs_inode_getattr h rc rc_orig log path)) ∧
    (∀ (h : VfsHost) (log : List HookEvent) (dir dentry mode dev : Int),
      ConsultThenForward "path_mknod" [dir, dentry, mode, dev] rc rc_orig log
        (Lsm2629.ccs_path_mknod h rc rc_orig log dir dentry mode dev)) ∧
    (∀ (h : VfsHost) (log : List HookEvent) (dir dentry mode : Int),
      ConsultThenForward "path_mkdir" [dir, dentry, mode] rc rc_orig log
        (Lsm2629.ccs_path_mkdir h rc rc_orig log dir dentry mode)) ∧
    (∀ (h : VfsHost) (log : List HookEvent) (dir dentry : Int),
      ConsultThenForward "path_rmdir" [dir, dentry] rc rc_orig log
        (Lsm2629.ccs_path_rmdir h rc rc_orig log dir dentry)) ∧
    (∀ (h : VfsHost) (log : List HookEvent) (dir dentry : Int),
      ConsultThenForward "path_unlink" [dir, dentry] rc rc_orig log
        (Lsm2629.ccs_path_unlink h rc rc_orig log dir dentry)) ∧
    (∀ (h : VfsHost) (log : List HookEvent) (dir dentry old_name : Int),
      ConsultThenForward "path_symlink" [dir, dentry, old_name] rc rc_orig log
        (Lsm2629.ccs_path_symlink h rc rc_orig log dir dentry old_name)) ∧
    (∀ (h : VfsHost) (log : List HookEvent) (old_dir old_dentry new_dir new_dentry : Int),
      ConsultThenForward "path_rename" [old_dir, old_dentry, new_dir, new_dentry] rc rc_orig log
        (Lsm2629.ccs_path_rename h rc rc_orig log old_dir old_dentry new_dir new_dentry)) ∧
    (∀ (h : VfsHost) (log : List HookEvent) (old_dentry new_dir new_dentry : Int),
      ConsultThenForward "path_link" [old_dentry, new_dir, new_dentry] rc rc_orig log
        (Lsm2629.ccs_path_link h rc rc_orig log old_dentry new_dir new_dentry)) ∧
    (∀ (log : List HookEvent) (dir dentry mode dev : Int),
      ConsultThenForward "inode_mknod" [dir, dentry, mode, dev] rc rc_orig log
        (Lsm2629.ccs_inode_mknod rc rc_orig log dir dentry mode dev)) ∧
    (∀ (log : List HookEvent) (dir dentry mode : Int),
      ConsultThenForward "inode_mkdir" [dir, dentry, mode] rc rc_orig log
        (Lsm2629.ccs_inode_mkdir rc rc_orig log dir dentry mode)) ∧
    (∀ (log : List HookEvent) (dir dentry : Int),
      ConsultThenForward "inode_rmdir" [dir, dentry] rc rc_orig log
        (Lsm2629.ccs_inode_rmdir rc rc_orig log dir dentry)) ∧
    (∀ (log : List HookEvent) (dir dentry : Int),
      ConsultThenForward "inode_unlink" [dir, dentry] rc rc_orig log
        (Lsm2629.ccs_inode_unlink rc rc_orig log dir dentry)) ∧
    (∀ (log : List HookEvent) (dir dentry old_name : Int),
      ConsultThenForward "inode_symlink" [dir, dentry, old_name] rc rc_orig log
        (Lsm2629.ccs_inode_symlink rc rc_orig log dir dentry old_name)) ∧
    (∀ (log : List HookEvent) (old_dir old_dentry new_dir new_dentry : Int),
      ConsultThenForward "inode_rename" [old_dir, old_dentry, new_dir, new_dentry] rc rc_orig log
        (Lsm2629.ccs_inode_rename rc rc_orig log old_dir old_dentry new_dir new_dentry)) ∧
    (∀ (log : List HookEvent) (old_dentry dir new_dentry : Int),
      ConsultThenForward "inode_link" [old_dentry, dir, new_dentry] rc rc_orig log
        (Lsm2629.ccs_inode_link rc rc_orig log old_dentry dir new_dentry)) ∧
    (∀ (log : List HookEvent) (dir dentry mode : Int),
      ConsultThenForward "inode_create" [dir, dentry, mode] rc rc_orig log
        (Lsm2629.ccs_inode_create rc rc_orig log dir dentry mode)) ∧
    (∀ (log : List HookEvent) (old_path new_path : Int),
      ConsultThenForward "sb_pivotroot" [old_path, new_path] rc rc_orig log
        (Lsm2629.ccs_sb_pivotroot rc rc_orig log old_path new_path)) ∧
    (∀ (log : List HookEvent) (dev_name path type flags data_page : Int),
      ConsultThenForward "sb_mount" [dev_name, path, type, flags, data_page] rc rc_orig log
        (Lsm2629.ccs_sb_mount rc rc_orig log dev_name path type flags data_page)) ∧
    (∀ (log : List HookEvent) (mnt flags : Int),
      ConsultThenForward "sb_umount" [mnt, flags] rc rc_orig log
        (Lsm2629.ccs_sb_umount rc rc_orig log mnt flags)) ∧
    (∀ (log : List HookEvent) (file cmd arg : Int),
      ConsultThenForward "file_fcntl" [file, cmd, arg] rc rc_orig log
        (Lsm2629.ccs_file_fcntl rc rc_orig log file cmd arg)) ∧
    (∀ (log : List HookEvent) (filp cmd arg : Int),
      ConsultThenForward "file_ioctl" [filp, cmd, arg] rc rc_orig log
        (Lsm2629.ccs_file_ioctl rc rc_orig log filp cmd arg)) ∧
    (∀ (log : List HookEvent) (dentry vfsmnt mode : Int),
      ConsultThenForward "path_chmod" [dentry, vfsmnt, mode] rc rc_orig log
        (Lsm2629.Older.ccs_path_chmod rc rc_orig log dentry vfsmnt mode)) ∧
    (∀ (h : VfsHost) (log : List HookEvent) (path length time_attrs : Int),
      ConsultThenForward "path_truncate" [path, length, time_attrs] rc rc_orig log
        (Lsm2629.Older.ccs_path_truncate h rc rc_orig log path length time_attrs)) ∧
    (∀ (log : List HookEvent) (mnt dentry : Int),
      ConsultThenForward "inode_getattr" [mnt, dentry] rc rc_orig log
        (Lsm2629.Older.ccs_inode_getattr rc rc_orig log mnt dentry)) := by
  refine ⟨?_, ?_, ?_, ?_, ?_, ?_, ?_, ?_, ?_, ?_, ?_, ?_, ?_, ?_, ?_, ?_, ?_, ?_, ?_, ?_, ?_, ?_, ?_, ?_, ?_, ?_, ?_, ?_, ?_, ?_⟩
  · intro v h log f cred
    obtain ⟨hv, checks, hl, hc⟩ := Lsm2629.open_spec v h rc log f
    unfold Lsm2629.ccs_file_open Lsm2629.ccs_dentry_open
    dsimp only
    rw [hv, hl]
    exact ⟨Lsm2629.forward_spec _ _ _ _ _ _ hc, Lsm2629.forward_spec _ _ _ _ _ _ hc⟩
  · intro security_path lt_2_6_33 rc_uid rc_gid rc_mode rc_size log dentry attr a
    obtain ⟨⟨checks, hl, hc⟩, _⟩ := Lsm2629.setattr_checks_spec security_path lt_2_6_33
      rc_uid rc_gid rc_mode rc_size log dentry a
    unfold Lsm2629.ccs_inode_setattr
    dsimp only
    rw [hl]
    exact Lsm2629.forward_spec _ _ _ _ _ _ hc
  · intros
    exact Lsm2629.consult_spec _ _ _ _ _ _ _
  · intros
    exact Lsm2629.consult_spec _ _ _ _ _ _ _
  · intros
    exact Lsm2629.consult_spec _ _ _ _ _ _ _
  · intros
    exact Lsm2629.consult_spec _ _ _ _ _ _ _
  · intros
    exact Lsm2629.consult_spec _ _ _ _ _ _ _
  · intros
    exact Lsm2629.consult_spec _ _ _ _ _ _ _
  · intros
    exact Lsm2629.consult_spec _ _ _ _ _ _ _
  · intros
    exact Lsm2629.consult_spec _ _ _ _ _ _ _
  · intros
    exact Lsm2629.consult_spec _ _ _ _ _ _ _
  · intros
    exact Lsm2629.consult_spec _ _ _ _ _ _ _
  · intros
    exact Lsm2629.consult_spec _ _ _ _ _ _ _
  · intros
    exact Lsm2629.consult_spec _ _ _ _ _ _ _
  · intros
    exact Lsm2629.consult_spec _ _ _ _ _ _ _
  · intros
    exact Lsm2629.consult_spec _ _ _ _ _ _ _
  · intros
    exact Lsm2629.consult_spec _ _ _ _ _ _ _
  · intros
    exact Lsm2629.consult_spec _ _ _ _ _ _ _
  · intros
    exact Lsm2629.consult_spec _ _ _ _ _ _ _
  · intros
    exact Lsm2629.consult_spec _ _ _ _ _ _ _
  · intros
    exact Lsm2629.consult_spec _ _ _ _ _ _ _
  · intros
    exact Lsm2629.consult_spec _ _ _ _ _ _ _
  · intros
    exact Lsm2629.consult_spec _ _ _ _ _ _ _
  · intros
    exact Lsm2629.consult_spec _ _ _ _ _ _ _
  · intros
    exact Lsm2629.consult_spec _ _ _ _ _ _ _
  · intros
    exact Lsm2629.consult_spec _ _ _ _ _ _ _
  · intros
    exact Lsm2629.consult_spec _ _ _ _ _ _ _
  · intros
    exact Lsm2629.consult_spec _ _ _ _ _ _ _
  · intros
    exact Lsm2629.consult_spec _ _ _ _ _ _ _
  · intros
    exact Lsm2629.consult_spec _ _ _ _ _ _ _

/-- Witness of C21: `umount` refused by the policy with `-1`, `umount` allowed
and forwarded to a previous hook that returns `-16`, and a `chmod` through
`ccs_inode_setattr` on a kernel without `CONFIG_SECURITY_PATH`. -/
theorem C21_consult_then_forward_witness :
    Lsm2629.ccs_sb_umount (-1) (-16) [] 40 0
      = ([HookEvent.policy_check "ccs_umount_permission" [40, 0]], -1) ∧
    Lsm2629.ccs_sb_umount 0 (-16) [] 40 0
      = ([HookEvent.policy_check "ccs_umount_permission" [40, 0],
          HookEvent.original_hook "sb_umount" [40, 0]], -16) ∧
    ConsultThenForward "sb_umount" [40, 0] 0 (-16) [] (Lsm2629.ccs_sb_umount 0 (-16) [] 40 0) ∧
    Lsm2629.ccs_inode_setattr false false 0 0 (-13) 0 0 [] 41 42
        { attr_uid := false, attr_gid := false, attr_mode := true, attr_size := true,
          ia_uid := 0, ia_gid := 0, ia_mode := 420 }
      = ([HookEvent.policy_check "ccs_chmod_permission" [41, 0, 420]], -13) :=
  ⟨by decide, by decide,
    (C21_consult_then_forward 0 (-16)).2.2.2.2.2.2.2.2.2.2.2.2.2.2.2.2.2.2.2.2.2.2.2.2.1
      [] 40 0,
    by decide⟩

/-! ## Fork in `lsm-4.12.c`: C23 -/

namespace Lsm412

/-- A lookup logs no call of a previously registered hook. -/
theorem find_log_412 (h : Host) (kz : Ptr) (s : State) (task : Ptr) (name : String)
    (hl : Event.original_hook name ∈ (ccs_find_task_security h kz s task).1.log) :
    Event.original_hook name ∈ s.log := by
  by_cases hn : task = h.current
  · subst hn
    rcases find_current_cases_412 h kz s with ⟨ptr, _, he⟩ | ⟨ptr, _, _, _, _, he⟩ |
      ⟨_, _, he⟩ | ⟨_, _, he⟩
    · rw [he] at hl; exact hl
    · rw [he] at hl
      simpa [reconciled] using hl
    · rw [he] at hl
      simpa using hl
    · rw [he] at hl; exact hl
  · rw [find_other_412 h kz s task hn] at hl
    exact hl

/-- What the lookup of the running task returns is not a pointer that is
neither linked nor one of the dummies nor what `kzalloc` gave the lookup. -/
theorem find_current_ne_412 (h : Host) (kz k : Ptr) (s : State) (hf : Fresh s k)
    (hh : OnHeap k) (hne : kz = NULL ∨ k ≠ kz) :
    (ccs_find_task_security h kz s h.current).2 ≠ k := by
  by_cases ho : (ccs_find_task_security h kz s h.current).2 = ccs_oom_security
  · rw [ho]
    exact fun hc => hh.2 hc.symm
  · have hl := find_current_lookup_412 h kz s ho
    have hm := (task_lookup_some_412 h _ _ _ hl).1
    intro hc
    rw [hc] at hm
    exact Fresh_find_412 h kz s h.current k hf hne _ hm

/-- The state and result of `__ccs_alloc_task_security` when `kzalloc` gives a
new record. -/
theorem alloc_task_success_412 (h : Host) (kz1 kz2 : Ptr) (s : State) (task : Ptr)
    (hk : kz2 ≠ NULL) (hf : Fresh s kz2) (hh : OnHeap kz2) (hne : kz1 = NULL ∨ kz2 ≠ kz1) :
    __ccs_alloc_task_security h kz1 kz2 s task =
      ({ (ccs_find_task_security h kz1 s h.current).1 with
          mem := fun q =>
            if q = kz2 then
              { task := task,
                ccs_domain_info := ((ccs_find_task_security h kz1 s h.current).1.mem
                  (ccs_find_task_security h kz1 s h.current).2).ccs_domain_info,
                ccs_flags := ((ccs_find_task_security h kz1 s h.current).1.mem
                  (ccs_find_task_security h kz1 s h.current).2).ccs_flags,
                ee := NULL }
            else (ccs_find_task_security h kz1 s h.current).1.mem q,
          ccs_task_security_list := fun i =>
            if i = h.hash_ptr task then
              kz2 :: (ccs_find_task_security h kz1 s h.current).1.ccs_task_security_list i
            else (ccs_find_task_security h kz1 s h.current).1.ccs_task_security_list i },
        0) := by
  rw [alloc_task_eq_412, if_neg hk, if_neg (find_current_ne_412 h kz1 kz2 s hf hh hne),
    if_neg (find_current_ne_412 h kz1 kz2 s hf hh hne)]

/-- The three ways through `ccs_task_alloc_security`. -/
theorem task_alloc_cases_412 (h : Host) (kz1 kz2 kz3 : Ptr) (rc_orig : Option Int)
    (s : State) (p : Ptr) :
    ccs_task_alloc_security h kz1 kz2 kz3 rc_orig s p =
      if kz2 = NULL then ((ccs_find_task_security h kz1 s h.current).1, -ENOMEM)
      else
        match rc_orig with
        | none => ((__ccs_alloc_task_security h kz1 kz2 s p).1, 0)
        | some rc =>
          if rc ≠ 0 then
            (__ccs_free_task_security h kz3
              ((__ccs_alloc_task_security h kz1 kz2 s p).1.emit
                (Event.original_hook "task_alloc")) p, rc)
          else
            ((__ccs_alloc_task_security h kz1 kz2 s p).1.emit
              (Event.original_hook "task_alloc"), rc) := by
  unfold ccs_task_alloc_security
  dsimp only
  by_cases hk : kz2 = NULL
  · have h2 : __ccs_alloc_task_security h kz1 kz2 s p
        = ((ccs_find_task_security h kz1 s h.current).1, -ENOMEM) := by
      rw [alloc_task_eq_412, if_pos hk]
    rw [if_pos hk, h2]
    exact if_pos (show (-ENOMEM : Int) ≠ 0 by decide)
  · have h2 : (__ccs_alloc_task_security h kz1 kz2 s p).2 = 0 := by
      rw [alloc_task_eq_412, if_neg hk]
    rw [if_neg hk, if_neg (not_not.2 h2)]
    cases rc_orig with
    | none => rw [h2]
    | some rc => rfl

/-- Unlinking the record of a task other than the running one: the record the
scan finds is taken off every bucket. -/
theorem free_task_other_412 (h : Host) (kz : Ptr) (s : State) (task ptr : Ptr)
    (hne : task ≠ h.current) (hl : task_lookup h s task = some ptr) (hh : OnHeap ptr) :
    __ccs_free_task_security h kz s task =
      { s with
        ccs_task_security_list := fun i =>
          (s.ccs_task_security_list i).filter (fun q => q != ptr),
        rcu := s.rcu ++ [ptr] } := by
  have hfind : ccs_find_task_security h kz s task = (s, ptr) := by
    rw [find_task_found_412 h kz s _ ptr hl]
    simp [hne]
  unfold __ccs_free_task_security
  dsimp only
  rw [hfind]
  dsimp only
  rw [if_neg]
  rintro (hc | hc)
  · exact hh.1 hc
  · exact hh.2 hc

end Lsm412

/-- Claim C23: fork in `lsm-4.12.c`.  The new task `p` is not the running task and has no
record yet, and `kzalloc` gives `__ccs_alloc_task_security` either `NULL` or a
record `kz2` that is neither linked, nor a dummy, nor the record the lookup of
the running task was given.  `old` is what `ccs_current_security()` returns:
the record of the running task, found or created, or `ccs_oom_security` when
that record could not be created.  If `ccs_task_alloc_security(p, flags)`
returns 0, the records of `p` in the table are exactly `kz2`, linked once on
the bucket of `p`, its `ccs_domain_info` and `ccs_flags` are those of `old`,
its `ee` is `NULL`, and `old` is what a scan for the running task finds unless
it is `ccs_oom_security`.  If the allocation fails the result is `-ENOMEM`, the
state is the one the lookup of the running task leaves and no call of the
original hook is logged.  If the original hook returns a nonzero `rc`, the
result is `rc` and no record of `p` is linked. -/
theorem C23_fork_copies_current (h : Host) (kz1 kz2 kz3 : Ptr) (rc_orig : Option Int)
    (s : Lsm412.State) (p : Ptr) (hne : p ≠ h.current)
    (hno : ∀ i, ∀ q ∈ s.ccs_task_security_list i, (s.mem q).task ≠ p)
    (hkz : kz2 = NULL ∨ (Lsm412.Fresh s kz2 ∧ OnHeap kz2 ∧ (kz1 = NULL ∨ kz2 ≠ kz1))) :
    ((Lsm412.ccs_task_alloc_security h kz1 kz2 kz3 rc_orig s p).2 = 0 →
      (∀ i q,
        (q ∈ (Lsm412.ccs_task_alloc_security h kz1 kz2 kz3 rc_orig s p).1.ccs_task_security_list
            i ∧
          ((Lsm412.ccs_task_alloc_security h kz1 kz2 kz3 rc_orig s p).1.mem q).task = p) ↔
        (i = h.hash_ptr p ∧ q = kz2)) ∧
      ((Lsm412.ccs_task_alloc_security h kz1 kz2 kz3 rc_orig s p).1.ccs_task_security_list
        (h.hash_ptr p)).count kz2 = 1 ∧
      ((Lsm412.ccs_task_alloc_security h kz1 kz2 kz3 rc_orig s p).1.mem kz2).ccs_domain_info
        = ((Lsm412.ccs_task_alloc_security h kz1 kz2 kz3 rc_orig s p).1.mem
            (Lsm412.ccs_current_security h kz1 s).2).ccs_domain_info ∧
      ((Lsm412.ccs_task_alloc_security h kz1 kz2 kz3 rc_orig s p).1.mem kz2).ccs_flags
        = ((Lsm412.ccs_task_alloc_security h kz1 kz2 kz3 rc_orig s p).1.mem
            (Lsm412.ccs_current_security h kz1 s).2).ccs_flags ∧
      ((Lsm412.ccs_task_alloc_security h kz1 kz2 kz3 rc_orig s p).1.mem kz2).ee = NULL ∧
      ((Lsm412.ccs_current_security h kz1 s).2 ≠ ccs_oom_security →
        Lsm412.task_lookup h (Lsm412.ccs_task_alloc_security h kz1 kz2 kz3 rc_orig s p).1
            h.current
          = some (Lsm412.ccs_current_security h kz1 s).2)) ∧
    (kz2 = NULL →
      (Lsm412.ccs_task_alloc_security h kz1 kz2 kz3 rc_orig s p).2 = -ENOMEM ∧
      (Lsm412.ccs_task_alloc_security h kz1 kz2 kz3 rc_orig s p).1
        = (Lsm412.ccs_current_security h kz1 s).1 ∧
      (Event.original_hook "task_alloc"
          ∈ (Lsm412.ccs_task_alloc_security h kz1 kz2 kz3 rc_orig s p).1.log →
        Event.original_hook "task_alloc" ∈ s.log)) ∧
    (∀ rc : Int, rc ≠ 0 → kz2 ≠ NULL → rc_orig = some rc →
      (Lsm412.ccs_task_alloc_security h kz1 kz2 kz3 rc_orig s p).2 = rc ∧
      ∀ i,
        ∀ q ∈ (Lsm412.ccs_task_alloc_security h kz1 kz2 kz3 rc_orig s p).1.ccs_task_security_list
          i,
        ((Lsm412.ccs_task_alloc_security h kz1 kz2 kz3 rc_orig s p).1.mem q).task ≠ p) := by
  have hcases := Lsm412.task_alloc_cases_412 h kz1 kz2 kz3 rc_orig s p
  have hFno := Lsm412.find_keeps_keys_412 h kz1 s p hne hno
  unfold Lsm412.ccs_current_security
  generalize hr : Lsm412.ccs_task_alloc_security h kz1 kz2 kz3 rc_orig s p = r at hcases ⊢
  have hlook := Lsm412.find_current_lookup_412 h kz1 s
  by_cases hk : kz2 = NULL
  · rw [if_pos hk] at hcases
    refine ⟨?_, ?_, fun rc _ hc _ => absurd hk hc⟩
    · intro h0
      rw [hcases] at h0
      exact absurd h0 (show (-ENOMEM : Int) ≠ 0 by decide)
    · intro _
      rw [hcases]
      exact ⟨rfl, rfl, Lsm412.find_log_412 h kz1 s h.current _⟩
  · obtain ⟨hf, hh, hne1⟩ := hkz.resolve_left hk
    have hFf := Lsm412.Fresh_find_412 h kz1 s h.current kz2 hf hne1
    have hold := Lsm412.find_current_ne_412 h kz1 kz2 s hf hh hne1
    have ha := Lsm412.alloc_task_success_412 h kz1 kz2 s p hk hf hh hne1
    rw [if_neg hk] at hcases
    generalize hF : Lsm412.ccs_find_task_security h kz1 s h.current = F at *
    generalize hA : Lsm412.__ccs_alloc_task_security h kz1 kz2 s p = A at *
    -- facts about the state `A.1` right after the allocation
    have hAl : ∀ i, A.1.ccs_task_security_list i =
        if i = h.hash_ptr p then kz2 :: F.1.ccs_task_security_list i
        else F.1.ccs_task_security_list i := by
      intro i; rw [ha]
    have hAk : A.1.mem kz2 = Lsm412.ccs_security.mk p (F.1.mem F.2).ccs_domain_info
        (F.1.mem F.2).ccs_flags NULL := by
      rw [ha]; simp
    have hAo : ∀ q, q ≠ kz2 → A.1.mem q = F.1.mem q := by
      intro q hq; rw [ha]; simp [hq]
    have hAlook : F.2 ≠ ccs_oom_security → Lsm412.task_lookup h A.1 h.current = some F.2 := by
      intro ho
      rw [← hlook ho]
      unfold Lsm412.task_lookup
      rw [hAl]
      have hcongr : ∀ L : List Ptr, (∀ q ∈ L, q ≠ kz2) →
          L.find? (fun ptr => (A.1.mem ptr).task == h.current)
            = L.find? (fun ptr => (F.1.mem ptr).task == h.current) := by
        intro L
        induction L with
        | nil => intro _; rfl
        | cons a L ih =>
          intro hL
          rw [List.find?_cons, List.find?_cons, hAo a (hL a (List.mem_cons_self _ _)),
            ih (fun q hq => hL q (List.mem_cons_of_mem _ hq))]
      have hLf : ∀ q ∈ F.1.ccs_task_security_list (h.hash_ptr h.current), q ≠ kz2 :=
        fun q hq hc => hFf _ (hc ▸ hq)
      by_cases hi : h.hash_ptr h.current = h.hash_ptr p
      · rw [if_pos hi, List.find?_cons, hAk]
        have : (p == h.current) = false := by simpa using hne
        simp only [this]
        exact hcongr _ hLf
      · rw [if_neg hi]
        exact hcongr _ hLf
    have hsucc : ∀ t : Lsm412.State, t.mem = A.1.mem →
        t.ccs_task_security_list = A.1.ccs_task_security_list →
        (∀ i q, (q ∈ t.ccs_task_security_list i ∧ (t.mem q).task = p) ↔
          (i = h.hash_ptr p ∧ q = kz2)) ∧
        (t.ccs_task_security_list (h.hash_ptr p)).count kz2 = 1 ∧
        (t.mem kz2).ccs_domain_info = (t.mem F.2).ccs_domain_info ∧
        (t.mem kz2).ccs_flags = (t.mem F.2).ccs_flags ∧
        (t.mem kz2).ee = NULL ∧
        (F.2 ≠ ccs_oom_security → Lsm412.task_lookup h t h.current = some F.2) := by
      intro t hm hl
      refine ⟨?_, ?_, ?_, ?_, ?_, ?_⟩
      · intro i q
        rw [hl, hm, hAl]
        constructor
        · rintro ⟨hq, ht⟩
          by_cases hi : i = h.hash_ptr p
          · rw [if_pos hi] at hq
            rcases List.mem_cons.1 hq with hq | hq
            · exact ⟨hi, hq⟩
            · have hq2 : q ≠ kz2 := fun hc => hFf _ (hc ▸ hq)
              rw [hAo q hq2] at ht
              exact absurd ht (hFno i q hq)
          · rw [if_neg hi] at hq
            have hq2 : q ≠ kz2 := fun hc => hFf _ (hc ▸ hq)
            rw [hAo q hq2] at ht
            exact absurd ht (hFno i q hq)
        · rintro ⟨hi, hq⟩
          rw [if_pos hi, hq, hAk]
          exact ⟨List.mem_cons_self _ _, rfl⟩
      · rw [hl, hAl, if_pos rfl, List.count_cons_self, List.count_eq_zero_of_not_mem (hFf _)]
      · rw [hm, hAk, hAo F.2 hold]
      · rw [hm, hAk, hAo F.2 hold]
      · rw [hm, hAk]
      · intro ho
        rw [Lsm412.task_lookup_congr_412 h t A.1 h.current hl (fun q => by rw [hm])]
        exact hAlook ho
    refine ⟨?_, fun hc => absurd hc hk, ?_⟩
    · intro h0
      cases rc_orig with
      | none =>
        rw [hcases]
        exact hsucc _ rfl rfl
      | some rc =>
        dsimp only at hcases
        by_cases hrc : rc ≠ 0
        · rw [if_pos hrc] at hcases
          rw [hcases] at h0
          exact absurd h0 hrc
        · rw [if_neg hrc] at hcases
          rw [hcases]
          exact hsucc _ rfl rfl
    · intro rc hrc _ horig
      rw [horig] at hcases
      dsimp only at hcases
      rw [if_pos hrc] at hcases
      have hl2 : Lsm412.task_lookup h (A.1.emit (Event.original_hook "task_alloc")) p
          = some kz2 := by
        unfold Lsm412.task_lookup
        rw [Lsm412.emit_task_list_412, Lsm412.emit_mem_412, hAl, if_pos rfl, List.find?_cons,
          hAk]
        simp
      rw [Lsm412.free_task_other_412 h kz3 _ p kz2 hne hl2 hh] at hcases
      rw [hcases]
      refine ⟨rfl, ?_⟩
      intro i q hq
      dsimp only at hq ⊢
      rw [Lsm412.emit_task_list_412] at hq
      rw [Lsm412.emit_mem_412]
      have hq1 := List.mem_filter.1 hq
      have hq2 : q ≠ kz2 := by simpa using hq1.2
      rw [hAo q hq2]
      have hq3 := hq1.1
      rw [hAl] at hq3
      by_cases hi : i = h.hash_ptr p
      · rw [if_pos hi] at hq3
        rcases List.mem_cons.1 hq3 with hc | hc
        · exact absurd hc hq2
        · exact hFno i q hc
      · rw [if_neg hi] at hq3
        exact hFno i q hq3

/-- Task `100` forks task `101` right after `ccs_init`: the lookup of the
running task creates record `10`, the new record is `11`. -/
theorem C23_fork_copies_current_witness :
    (101 ≠ demoHost.current ∧ Lsm412.Fresh Lsm412.init 11 ∧ OnHeap 11) ∧
    ((Lsm412.ccs_task_alloc_security demoHost 10 11 0 (some 0) Lsm412.init 101).2 = 0 ∧
      ((Lsm412.ccs_task_alloc_security demoHost 10 11 0 (some 0) Lsm412.init 101).1.mem
          11).ccs_domain_info
        = ((Lsm412.ccs_task_alloc_security demoHost 10 11 0 (some 0) Lsm412.init 101).1.mem
            (Lsm412.ccs_current_security demoHost 10 Lsm412.init).2).ccs_domain_info) ∧
    ((Lsm412.ccs_task_alloc_security demoHost 10 11 0 (some (-1)) Lsm412.init 101).2 = -1 ∧
      ∀ i, ∀ q ∈ (Lsm412.ccs_task_alloc_security demoHost 10 11 0 (some (-1)) Lsm412.init
          101).1.ccs_task_security_list i,
        ((Lsm412.ccs_task_alloc_security demoHost 10 11 0 (some (-1)) Lsm412.init 101).1.mem
          q).task ≠ 101) :=
  have hf : Lsm412.Fresh Lsm412.init 11 := fun _ => List.not_mem_nil _
  have hh : OnHeap 11 := ⟨by decide, by decide⟩
  have hn : (101 : Ptr) ≠ demoHost.current := by decide
  ⟨⟨hn, hf, hh⟩,
    ⟨by decide,
      ((C23_fork_copies_current demoHost 10 11 0 (some 0) Lsm412.init 101 hn
        (fun _ _ hp => absurd hp (List.not_mem_nil _))
        (Or.inr ⟨hf, hh, Or.inr (by decide)⟩)).1 (by decide)).2.2.1⟩,
    (C23_fork_copies_current demoHost 10 11 0 (some (-1)) Lsm412.init 101 hn
      (fun _ _ hp => absurd hp (List.not_mem_nil _))
      (Or.inr ⟨hf, hh, Or.inr (by decide)⟩)).2.2 (-1) (by decide) (by decide) rfl⟩

/-! ## Credential preparation: C24 -/

namespace Lsm2629

theorem find_congr_on {α : Type} (L : List α) (p q : α → Bool) (hpq : ∀ x ∈ L, p x = q x) :
    L.find? p = L.find? q := by
  induction L with
  | nil => rfl
  | cons a L ih =>
    rw [List.find?_cons, List.find?_cons, hpq a (List.mem_cons_self _ _),
      ih (fun x hx => hpq x (List.mem_cons_of_mem _ hx))]

/-- The scan of the credential table depends only on the buckets and on the
`cred` field of the linked records. -/
theorem find_cred_congr_linked (h : Host) (s1 s2 : State) (c : Ptr)
    (hlist : s1.ccs_cred_security_list = s2.ccs_cred_security_list)
    (hmem : ∀ i, ∀ q ∈ s2.ccs_cred_security_list i, s1.mem q = s2.mem q) :
    ccs_find_cred_security h s1 c = ccs_find_cred_security h s2 c := by
  unfold ccs_find_cred_security
  rw [hlist, find_congr_on _ (fun ptr => (s1.mem ptr).cred == c)
    (fun ptr => (s2.mem ptr).cred == c) (fun x hx => by
      show ((s1.mem x).cred == c) = ((s2.mem x).cred == c)
      rw [hmem _ x hx])]

/-- On a state whose tables share no record the sweep leaves the credential
table, the records and the log alone. -/
theorem gc_cred_frame (h : Host) (trylock : Bool) (s : State) (hsep : Separate s) :
    (ccs_task_security_gc h trylock s).ccs_cred_security_list = s.ccs_cred_security_list ∧
    (ccs_task_security_gc h trylock s).mem = s.mem ∧
    (ccs_task_security_gc h trylock s).log = s.log := by
  have hsweep : ∀ s0 : State, s0.ccs_task_security_list = s.ccs_task_security_list →
      s0.ccs_cred_security_list = s.ccs_cred_security_list → s0.mem = s.mem → s0.log = s.log →
      (gc_sweep h trylock s0).ccs_cred_security_list = s.ccs_cred_security_list ∧
      (gc_sweep h trylock s0).mem = s.mem ∧ (gc_sweep h trylock s0).log = s.log := by
    intro s0 ht hc hm hl
    cases trylock
    · exact ⟨hc, hm, hl⟩
    · obtain ⟨hf, _, hcl, _⟩ := gc_sweep_spec h s0
      refine ⟨?_, hf.mem.trans hm, hf.log.trans hl⟩
      funext i
      rw [hcl i, ← hc]
      apply List.filter_eq_self.2
      intro q hq
      apply decide_eq_true
      rintro ⟨_, j, _, hj⟩
      rw [ht] at hj
      rw [hc] at hq
      exact hsep j i q hj hq
  unfold ccs_task_security_gc
  by_cases hc : s.ccs_in_execve_tasks = 0
  · rw [if_pos hc]
    dsimp only
    by_cases hg : s.gc_counter + 1 < 1024
    · rw [if_pos hg]
      exact ⟨rfl, rfl, rfl⟩
    · rw [if_neg hg]
      exact hsweep _ rfl rfl rfl rfl
  · rw [if_neg hc]
    exact hsweep s rfl rfl rfl rfl

/-- A lookup on a state whose tables share no record leaves the credential
table and its records alone, keeps the tables apart and logs no call of a
previously registered hook. -/
theorem find_cred_frame (h : Host) (kz : Ptr) (s : State) (task : Ptr) (hsep : Separate s)
    (hf : kz = NULL ∨ (Fresh s kz ∧ OnHeap kz)) :
    (ccs_find_task_security h kz s task).1.ccs_cred_security_list = s.ccs_cred_security_list ∧
    (∀ q, ((∃ i, q ∈ s.ccs_cred_security_list i) ∨ q = ccs_default_security) →
      (ccs_find_task_security h kz s task).1.mem q = s.mem q) ∧
    Separate (ccs_find_task_security h kz s task).1 ∧
    (∀ k, Fresh s k → k ≠ kz → Fresh (ccs_find_task_security h kz s task).1 k) ∧
    (∀ n, Event.original_hook n ∈ (ccs_find_task_security h kz s task).1.log →
      Event.original_hook n ∈ s.log) := by
  by_cases hne : task = h.current
  · subst hne
    rcases find_current_cases h kz s with ⟨ptr, _, he⟩ | ⟨ptr, hl, hd, _, _, he⟩ | ⟨_, _, he⟩ |
      ⟨hl, hkz, he⟩
    · rw [he]; exact ⟨rfl, fun _ _ => rfl, hsep, fun _ hk _ => hk, fun _ hn => hn⟩
    · rw [he]
      have hp := (task_lookup_some h s _ ptr hl).1
      refine ⟨rfl, ?_, hsep, fun _ hk _ => hk, ?_⟩
      · rintro q (⟨i, hi⟩ | hq)
        · have : q ≠ ptr := fun hc => hsep _ i ptr hp (hc ▸ hi)
          simp [reconciled, this]
        · have : q ≠ ptr := fun hc => hd (hc ▸ hq)
          simp [reconciled, this]
      · intro n hn
        simp only [reconciled] at hn
        split_ifs at hn <;> simpa using hn
    · rw [he]
      refine ⟨rfl, fun _ _ => rfl, hsep, fun _ hk _ => hk, ?_⟩
      intro n hn
      simpa using hn
    · rw [he]
      obtain ⟨hfr, hh⟩ := hf.resolve_left hkz
      refine ⟨rfl, ?_, ?_, ?_, ?_⟩
      · rintro q (⟨i, hi⟩ | hq)
        · have : q ≠ kz := fun hc => (hfr i).2 (hc ▸ hi)
          simp [allocated, this]
        · have : q ≠ kz := fun hc => hh.1 (hc ▸ hq)
          simp [allocated, this]
      · intro i j p hp
        simp only [allocated] at hp ⊢
        split_ifs at hp
        · rcases List.mem_cons.1 hp with hp | hp
          · rw [hp]; exact (hfr j).2
          · exact hsep i j p hp
        · exact hsep i j p hp
      · intro k hk hkn i
        simp only [allocated]
        refine ⟨?_, (hk i).2⟩
        split_ifs
        · intro hc
          rcases List.mem_cons.1 hc with hc | hc
          · exact hkn hc
          · exact (hk i).1 hc
        · exact (hk i).1
      · intro n hn
        simpa [allocated] using hn
  · rw [find_other h kz s task hne]
    exact ⟨rfl, fun _ _ => rfl, hsep, fun _ hk _ => hk, fun _ hn => hn⟩

end Lsm2629

/-- Claim C24: credential preparation in `lsm-2.6.29.c`.  The tables share no record and
`kzalloc` gives `NULL` or records that are not linked, are not one of the
dummies and differ from each other.  If `ccs_cred_prepare(new, old, gfp)`
returns 0, the scan of the credential table for `new` finds the new record
`kz2`, whose `cred` is `new`, whose `pid` is `NULL` and whose `ccs_domain_info`
and `ccs_flags` are those of the record the scan finds for `old` before the
call, which is `ccs_default_security` when `old` has none.  If the allocation
of the record fails the result is `-ENOMEM` and no call of the original hook is
logged.  If the original hook returns a nonzero `rc_orig` the result is
`rc_orig`, every bucket of the credential table and every record linked there
is as before the call, and when no record of `new` was linked before none is
linked after. -/
theorem C24_cred_prepare_copies (h : Host) (kz1 kz2 : Ptr) (trylock : Bool) (rc_orig : Int)
    (gfp_kernel : Bool) (s : Lsm2629.State) (new old : Ptr) (hsep : Lsm2629.Separate s)
    (hf1 : kz1 = NULL ∨ (Lsm2629.Fresh s kz1 ∧ OnHeap kz1))
    (hf2 : kz2 = NULL ∨ (Lsm2629.Fresh s kz2 ∧ OnHeap kz2 ∧ kz2 ≠ kz1)) :
    ((Lsm2629.ccs_cred_prepare h kz1 kz2 trylock rc_orig gfp_kernel s new old).2 = 0 →
      Lsm2629.ccs_find_cred_security h
          (Lsm2629.ccs_cred_prepare h kz1 kz2 trylock rc_orig gfp_kernel s new old).1 new = kz2 ∧
      kz2 ∈ (Lsm2629.ccs_cred_prepare h kz1 kz2 trylock rc_orig gfp_kernel s new
          old).1.ccs_cred_security_list (h.hash_ptr new) ∧
      ((Lsm2629.ccs_cred_prepare h kz1 kz2 trylock rc_orig gfp_kernel s new old).1.mem
          kz2).cred = new ∧
      ((Lsm2629.ccs_cred_prepare h kz1 kz2 trylock rc_orig gfp_kernel s new old).1.mem
          kz2).pid = NULL ∧
      ((Lsm2629.ccs_cred_prepare h kz1 kz2 trylock rc_orig gfp_kernel s new old).1.mem
          kz2).ccs_domain_info
        = (s.mem (Lsm2629.ccs_find_cred_security h s old)).ccs_domain_info ∧
      ((Lsm2629.ccs_cred_prepare h kz1 kz2 trylock rc_orig gfp_kernel s new old).1.mem
          kz2).ccs_flags
        = (s.mem (Lsm2629.ccs_find_cred_security h s old)).ccs_flags) ∧
    (kz2 = NULL →
      (Lsm2629.ccs_cred_prepare h kz1 kz2 trylock rc_orig gfp_kernel s new old).2 = -ENOMEM ∧
      (Event.original_hook "cred_prepare"
          ∈ (Lsm2629.ccs_cred_prepare h kz1 kz2 trylock rc_orig gfp_kernel s new old).1.log →
        Event.original_hook "cred_prepare" ∈ s.log)) ∧
    (rc_orig ≠ 0 → kz2 ≠ NULL →
      (Lsm2629.ccs_cred_prepare h kz1 kz2 trylock rc_orig gfp_kernel s new old).2 = rc_orig ∧
      (Lsm2629.ccs_cred_prepare h kz1 kz2 trylock rc_orig gfp_kernel s new
          old).1.ccs_cred_security_list = s.ccs_cred_security_list ∧
      (∀ i, ∀ q ∈ s.ccs_cred_security_list i,
        (Lsm2629.ccs_cred_prepare h kz1 kz2 trylock rc_orig gfp_kernel s new old).1.mem q
          = s.mem q) ∧
      ((∀ i, ∀ q ∈ s.ccs_cred_security_list i, (s.mem q).cred ≠ new) →
        ∀ i, ∀ q ∈ (Lsm2629.ccs_cred_prepare h kz1 kz2 trylock rc_orig gfp_kernel s new
            old).1.ccs_cred_security_list i,
          ((Lsm2629.ccs_cred_prepare h kz1 kz2 trylock rc_orig gfp_kernel s new old).1.mem
            q).cred ≠ new)) := by
  -- the state after the optional lookup of the running task
  have h1 : ∀ s1 : Lsm2629.State,
      s1 = (if h.KERNEL_LT_2_6_31 = false ∧ gfp_kernel = true then
        (Lsm2629.ccs_find_task_security h kz1 s h.current).1 else s) →
      s1.ccs_cred_security_list = s.ccs_cred_security_list ∧
      (∀ q, ((∃ i, q ∈ s.ccs_cred_security_list i) ∨ q = ccs_default_security) →
        s1.mem q = s.mem q) ∧
      Lsm2629.Separate s1 ∧
      (∀ k, Lsm2629.Fresh s k → k ≠ kz1 → Lsm2629.Fresh s1 k) ∧
      (∀ n, Event.original_hook n ∈ s1.log → Event.original_hook n ∈ s.log) := by
    intro s1 hs1
    by_cases hc : h.KERNEL_LT_2_6_31 = false ∧ gfp_kernel = true
    · rw [if_pos hc] at hs1
      rw [hs1]
      exact Lsm2629.find_cred_frame h kz1 s h.current hsep hf1
    · rw [if_neg hc] at hs1
      rw [hs1]
      exact ⟨rfl, fun _ _ => rfl, hsep, fun _ hk _ => hk, fun _ hn => hn⟩
  unfold Lsm2629.ccs_cred_prepare
  dsimp only
  generalize hs1 : (if h.KERNEL_LT_2_6_31 = false ∧ gfp_kernel = true then
        (Lsm2629.ccs_find_task_security h kz1 s h.current).1 else s) = s1
  obtain ⟨hl1, hm1, hsep1, hfr1, hlog1⟩ := h1 s1 hs1.symm
  have hold : Lsm2629.ccs_find_cred_security h s1 old = Lsm2629.ccs_find_cred_security h s old :=
    Lsm2629.find_cred_congr_linked h s1 s old hl1 (fun i q hq => hm1 q (Or.inl ⟨i, hq⟩))
  have holdmem : s1.mem (Lsm2629.ccs_find_cred_security h s old)
      = s.mem (Lsm2629.ccs_find_cred_security h s old) := by
    apply hm1
    rcases Lsm2629.find_cred_cases h s old with hc | hc
    · exact Or.inr hc
    · exact Or.inl ⟨_, hc.1⟩
  rw [Lsm2629.copy_cred_eq, hold, holdmem]
  by_cases hk : kz2 = NULL
  · rw [if_pos hk, if_pos (show (-ENOMEM : Int) ≠ 0 by decide)]
    refine ⟨fun h0 => absurd h0 (show (-ENOMEM : Int) ≠ 0 by decide), fun _ => ⟨rfl, hlog1 _⟩,
      fun _ hc => absurd hk hc⟩
  · obtain ⟨hf, hh, hne⟩ := hf2.resolve_left hk
    have hf2s1 := hfr1 kz2 hf hne
    rw [if_neg hk]
    dsimp only
    rw [if_neg (not_not.2 rfl)]
    generalize hs2 : Lsm2629.cred_linked h kz2
      { s.mem (Lsm2629.ccs_find_cred_security h s old) with cred := new } s1 = s2
    have hl2 : ∀ i, s2.ccs_cred_security_list i =
        if i = h.hash_ptr new then kz2 :: s1.ccs_cred_security_list i
        else s1.ccs_cred_security_list i := by
      intro i; rw [← hs2]; rfl
    have ht2 : s2.ccs_task_security_list = s1.ccs_task_security_list := by
      rw [← hs2]; rfl
    have hk2 : s2.mem kz2 = { s.mem (Lsm2629.ccs_find_cred_security h s old) with
        cred := new, pid := NULL } := by
      rw [← hs2]; simp [Lsm2629.cred_linked]
    have ho2 : ∀ q, q ≠ kz2 → s2.mem q = s1.mem q := by
      intro q hq; rw [← hs2]; simp [Lsm2629.cred_linked, hq]
    have hsep2 : Lsm2629.Separate s2 := by
      intro i j p hp
      rw [ht2] at hp
      rw [hl2]
      split_ifs
      · intro hc
        rcases List.mem_cons.1 hc with hc | hc
        · exact (hf2s1 i).1 (hc ▸ hp)
        · exact hsep1 i j p hp hc
      · exact hsep1 i j p hp
    generalize hs3 : (if gfp_kernel = true then Lsm2629.ccs_task_security_gc h trylock s2
      else s2) = s3
    have h3 : s3.ccs_cred_security_list = s2.ccs_cred_security_list ∧ s3.mem = s2.mem := by
      rw [← hs3]
      split_ifs
      · exact ⟨(Lsm2629.gc_cred_frame h trylock s2 hsep2).1,
          (Lsm2629.gc_cred_frame h trylock s2 hsep2).2.1⟩
      · exact ⟨rfl, rfl⟩
    have hfind : Lsm2629.ccs_find_cred_security h (s3.emit (Event.original_hook "cred_prepare"))
        new = kz2 := by
      unfold Lsm2629.ccs_find_cred_security
      rw [Lsm2629.emit_cred_list, Lsm2629.emit_mem, h3.1, h3.2, hl2, if_pos rfl,
        List.find?_cons, hk2]
      simp
    have hold2 : ∀ i, ∀ q ∈ s.ccs_cred_security_list i, q ≠ kz2 :=
      fun i q hq hc => (hf i).2 (hc ▸ hq)
    refine ⟨?_, fun hc => absurd hc hk, ?_⟩
    · intro h0
      by_cases ho : rc_orig ≠ 0
      · rw [if_pos ho] at h0
        exact absurd h0 ho
      · rw [if_neg ho]
        refine ⟨hfind, ?_, ?_, ?_, ?_, ?_⟩
        · show kz2 ∈ (s3.emit _).ccs_cred_security_list _
          rw [Lsm2629.emit_cred_list, h3.1, hl2, if_pos rfl]
          exact List.mem_cons_self _ _
        · show ((s3.emit _).mem kz2).cred = new
          rw [Lsm2629.emit_mem, h3.2, hk2]
        · show ((s3.emit _).mem kz2).pid = NULL
          rw [Lsm2629.emit_mem, h3.2, hk2]
        · show ((s3.emit _).mem kz2).ccs_domain_info = _
          rw [Lsm2629.emit_mem, h3.2, hk2]
        · show ((s3.emit _).mem kz2).ccs_flags = _
          rw [Lsm2629.emit_mem, h3.2, hk2]
    · intro ho _
      rw [if_pos ho, hfind]
      have hdel : Lsm2629.ccs_del_security (s3.emit (Event.original_hook "cred_prepare")) kz2
          = { Lsm2629.list_del_rcu (s3.emit (Event.original_hook "cred_prepare")) kz2 with
              rcu := (Lsm2629.list_del_rcu (s3.emit (Event.original_hook "cred_prepare"))
                kz2).rcu ++ [kz2] } := by
        unfold Lsm2629.ccs_del_security
        rw [if_neg]
        rintro (hc | hc)
        · exact hh.1 hc
        · exact hh.2 hc
      rw [hdel]
      have hkeep : ∀ i, (s.ccs_cred_security_list i).filter (fun q => q != kz2)
          = s.ccs_cred_security_list i := by
        intro i
        apply List.filter_eq_self.2
        intro q hq
        simpa using hold2 i q hq
      have hlists : ∀ i, ((s3.emit (Event.original_hook "cred_prepare")).ccs_cred_security_list
          i).filter (fun q => q != kz2) = s.ccs_cred_security_list i := by
        intro i
        rw [Lsm2629.emit_cred_list, h3.1, hl2, hl1]
        by_cases hi : i = h.hash_ptr new
        · rw [if_pos hi, List.filter_cons]
          simp only [bne_self_eq_false, Bool.false_eq_true, if_false]
          exact hkeep i
        · rw [if_neg hi]
          exact hkeep i
      have hmems : ∀ i, ∀ q ∈ s.ccs_cred_security_list i,
          (s3.emit (Event.original_hook "cred_prepare")).mem q = s.mem q := by
        intro i q hq
        rw [Lsm2629.emit_mem, h3.2, ho2 q (hold2 i q hq)]
        exact hm1 q (Or.inl ⟨i, hq⟩)
      refine ⟨rfl, funext hlists, hmems, ?_⟩
      intro hnew i q hq
      have hq2 : q ∈ s.ccs_cred_security_list i := by
        rw [← hlists i]
        exact hq
      have := hmems i q hq2
      show ((s3.emit (Event.original_hook "cred_prepare")).mem q).cred ≠ new
      rw [this]
      exact hnew i q hq2

/-- Task `100` prepares the credentials `2200` from `2100` right after
`ccs_init`: the lookup of the running task creates record `10`, the copy is
record `11`. -/
theorem C24_cred_prepare_copies_witness :
    (Lsm2629.Separate Lsm2629.init ∧ Lsm2629.Fresh Lsm2629.init 10 ∧
      Lsm2629.Fresh Lsm2629.init 11 ∧ OnHeap 10 ∧ OnHeap 11) ∧
    ((Lsm2629.ccs_cred_prepare demoHost 10 11 true 0 true Lsm2629.init 2200 2100).2 = 0 ∧
      Lsm2629.ccs_find_cred_security demoHost
        (Lsm2629.ccs_cred_prepare demoHost 10 11 true 0 true Lsm2629.init 2200 2100).1 2200
        = 11) ∧
    ((Lsm2629.ccs_cred_prepare demoHost 10 11 true (-1) true Lsm2629.init 2200 2100).2 = -1 ∧
      (Lsm2629.ccs_cred_prepare demoHost 10 11 true (-1) true Lsm2629.init 2200
        2100).1.ccs_cred_security_list = Lsm2629.init.ccs_cred_security_list) :=
  have hsep : Lsm2629.Separate Lsm2629.init := fun _ _ _ hp => absurd hp (List.not_mem_nil _)
  have hf1 : Lsm2629.Fresh Lsm2629.init 10 :=
    fun _ => ⟨List.not_mem_nil _, List.not_mem_nil _⟩
  have hf2 : Lsm2629.Fresh Lsm2629.init 11 :=
    fun _ => ⟨List.not_mem_nil _, List.not_mem_nil _⟩
  have hh1 : OnHeap 10 := ⟨by decide, by decide⟩
  have hh2 : OnHeap 11 := ⟨by decide, by decide⟩
  ⟨⟨hsep, hf1, hf2, hh1, hh2⟩,
    ⟨by decide,
      ((C24_cred_prepare_copies demoHost 10 11 true 0 true Lsm2629.init 2200 2100 hsep
        (Or.inr ⟨hf1, hh1⟩) (Or.inr ⟨hf2, hh2, by decide⟩)).1 (by decide)).1⟩,
    ⟨((C24_cred_prepare_copies demoHost 10 11 true (-1) true Lsm2629.init 2200 2100 hsep
        (Or.inr ⟨hf1, hh1⟩) (Or.inr ⟨hf2, hh2, by decide⟩)).2.2 (by decide) (by decide)).1,
      ((C24_cred_prepare_copies demoHost 10 11 true (-1) true Lsm2629.init 2200 2100 hsep
        (Or.inr ⟨hf1, hh1⟩) (Or.inr ⟨hf2, hh2, by decide⟩)).2.2 (by decide) (by decide)).2.1⟩⟩

/-! ## Credential records own no Transition Record: C30 -/

namespace Lsm2629

theorem CredNoEe_frame (s t : State) (hs : CredNoEe s) (hsep : Separate t)
    (hc : t.ccs_cred_security_list = s.ccs_cred_security_list)
    (hm : ∀ q, ((∃ i, q ∈ s.ccs_cred_security_list i) ∨ q = ccs_default_security) →
      (t.mem q).ee = (s.mem q).ee) : CredNoEe t := by
  refine ⟨hsep, ?_, ?_⟩
  · intro i p hp
    rw [hc] at hp
    show (t.mem p).ee = NULL
    rw [hm p (Or.inl ⟨i, hp⟩)]
    exact hs.2.1 i p hp
  · rw [hm _ (Or.inr rfl)]
    exact hs.2.2

theorem Separate_lists (s t : State) (hs : Separate s)
    (ht : t.ccs_task_security_list = s.ccs_task_security_list)
    (hc : t.ccs_cred_security_list = s.ccs_cred_security_list) : Separate t := by
  intro i j p hp
  rw [ht] at hp
  rw [hc]
  exact hs i j p hp

theorem CredNoEe_congr (s t : State) (hs : CredNoEe s) (hm : t.mem = s.mem)
    (ht : t.ccs_task_security_list = s.ccs_task_security_list)
    (hc : t.ccs_cred_security_list = s.ccs_cred_security_list) : CredNoEe t :=
  CredNoEe_frame s t hs (Separate_lists s t hs.1 ht hc) hc (fun q _ => by rw [hm])

theorem CredNoEe_shrinks (s t : State) (hsh : Shrinks s t) (hs : CredNoEe s) : CredNoEe t := by
  refine ⟨?_, ?_, ?_⟩
  · intro i j p hp hc
    exact hs.1 i j p (hsh.task i p hp) (hsh.cred j p hc)
  · intro i p hp
    show (t.mem p).ee = NULL
    rw [hsh.mem]
    exact hs.2.1 i p (hsh.cred i p hp)
  · rw [hsh.mem]
    exact hs.2.2

/-- A store that keeps `ee`. -/
theorem CredNoEe_store_keep (s : State) (p : Ptr) (r : ccs_security) (hs : CredNoEe s)
    (hr : r.ee = (s.mem p).ee) : CredNoEe (s.store p r) := by
  refine CredNoEe_frame s _ hs (Separate_lists s _ hs.1 rfl rfl) rfl ?_
  intro q _
  by_cases hq : q = p
  · rw [store_mem, if_pos hq, hr, hq]
  · rw [store_mem, if_neg hq]

/-- A change of a record that is neither linked on the credential table nor
`ccs_default_security`. -/
theorem CredNoEe_off (s t : State) (p : Ptr) (hs : CredNoEe s)
    (ht : t.ccs_task_security_list = s.ccs_task_security_list)
    (hc : t.ccs_cred_security_list = s.ccs_cred_security_list)
    (hm : ∀ q, q ≠ p → t.mem q = s.mem q)
    (hp : ∀ i, p ∉ s.ccs_cred_security_list i) (hd : p ≠ ccs_default_security) :
    CredNoEe t := by
  refine CredNoEe_frame s t hs (Separate_lists s t hs.1 ht hc) hc ?_
  rintro q (⟨i, hi⟩ | hq)
  · rw [hm q (fun hc => hp i (hc ▸ hi))]
  · rw [hm q (fun hc => hd (hc ▸ hq))]

theorem CredNoEe_find (h : Host) (kz : Ptr) (s : State) (task : Ptr) (hs : CredNoEe s)
    (hf : kz = NULL ∨ (Fresh s kz ∧ OnHeap kz)) :
    CredNoEe (ccs_find_task_security h kz s task).1 := by
  obtain ⟨hl, hm, hsep, _, _⟩ := find_cred_frame h kz s task hs.1 hf
  exact CredNoEe_frame s _ hs hsep hl (fun q hq => by rw [hm q hq])

theorem find_cred_ee (h : Host) (s : State) (c : Ptr) (hs : CredNoEe s) :
    (s.mem (ccs_find_cred_security h s c)).ee = NULL := by
  rcases find_cred_cases h s c with hc | hc
  · rw [hc]
    exact hs.2.2
  · exact hs.2.1 _ _ hc.1

theorem CredNoEe_cred_linked (h : Host) (kz : Ptr) (r : ccs_security) (s : State)
    (hs : CredNoEe s) (hf : Fresh s kz) (hh : OnHeap kz) (hr : r.ee = NULL) :
    CredNoEe (cred_linked h kz r s) := by
  refine ⟨?_, ?_, ?_⟩
  · intro i j p hp
    simp only [cred_linked] at hp ⊢
    split_ifs
    · intro hc
      rcases List.mem_cons.1 hc with hc | hc
      · exact (hf i).1 (hc ▸ hp)
      · exact hs.1 i j p hp hc
    · exact hs.1 i j p hp
  · intro i p hp
    simp only [cred_linked] at hp ⊢
    by_cases hq : p = kz
    · rw [if_pos hq]
      exact hr
    · rw [if_neg hq]
      split_ifs at hp
      · rcases List.mem_cons.1 hp with hc | hc
        · exact absurd hc hq
        · exact hs.2.1 i p hc
      · exact hs.2.1 i p hp
  · simp only [cred_linked]
    rw [if_neg (fun hc => hh.1 hc.symm)]
    exact hs.2.2

theorem CredNoEe_cred_prepare (h : Host) (kz1 kz2 : Ptr) (trylock : Bool) (rc_orig : Int)
    (gfp_kernel : Bool) (s : State) (new old : Ptr) (hs : CredNoEe s)
    (hf1 : kz1 = NULL ∨ (Fresh s kz1 ∧ OnHeap kz1))
    (hf2 : kz2 = NULL ∨ (Fresh s kz2 ∧ OnHeap kz2 ∧ kz2 ≠ kz1)) :
    CredNoEe (ccs_cred_prepare h kz1 kz2 trylock rc_orig gfp_kernel s new old).1 := by
  have htail := cred_prepare_tail h kz1 kz2 trylock rc_orig gfp_kernel s new old
  have h1 : CredNoEe (if h.KERNEL_LT_2_6_31 = false ∧ gfp_kernel = true then
      (ccs_find_task_security h kz1 s h.current).1 else s) ∧
      ∀ k, Fresh s k → k ≠ kz1 → Fresh (if h.KERNEL_LT_2_6_31 = false ∧ gfp_kernel = true then
        (ccs_find_task_security h kz1 s h.current).1 else s) k := by
    split_ifs
    · exact ⟨CredNoEe_find h kz1 s _ hs hf1, (find_cred_frame h kz1 s _ hs.1 hf1).2.2.2.1⟩
    · exact ⟨hs, fun _ hk _ => hk⟩
  generalize (if h.KERNEL_LT_2_6_31 = false ∧ gfp_kernel = true then
      (ccs_find_task_security h kz1 s h.current).1 else s) = s1 at h1 htail
  apply CredNoEe_shrinks _ _ htail
  rw [copy_cred_eq]
  by_cases hk : kz2 = NULL
  · rw [if_pos hk]
    exact h1.1
  · rw [if_neg hk]
    obtain ⟨hf, hh, hne⟩ := hf2.resolve_left hk
    exact CredNoEe_cred_linked h kz2 _ s1 h1.1 (h1.2 kz2 hf hne) hh (find_cred_ee h s1 old h1.1)

theorem CredNoEe_cred_alloc_blank (h : Host) (kz : Ptr) (rc_orig : Int) (s : State) (new : Ptr)
    (hs : CredNoEe s) (hf : kz = NULL ∨ (Fresh s kz ∧ OnHeap kz)) :
    CredNoEe (ccs_cred_alloc_blank h kz rc_orig s new).1 := by
  apply CredNoEe_shrinks _ _ (cred_alloc_blank_tail h kz rc_orig s new)
  rw [alloc_cred_eq]
  by_cases hk : kz = NULL
  · rw [if_pos hk]
    exact hs
  · rw [if_neg hk]
    obtain ⟨hfr, hh⟩ := hf.resolve_left hk
    exact CredNoEe_cred_linked h kz _ s hs hfr hh rfl

theorem CredNoEe_cred_transfer (h : Host) (s : State) (new old : Ptr) (hs : CredNoEe s) :
    CredNoEe (ccs_cred_transfer h s new old) := by
  have hs1 : CredNoEe (s.emit (Event.original_hook "cred_transfer")) :=
    CredNoEe_congr s _ hs rfl rfl rfl
  unfold ccs_cred_transfer
  dsimp only
  split_ifs
  · exact hs1
  · apply CredNoEe_store_keep
    · apply CredNoEe_store_keep _ _ _ hs1
      rfl
    · rfl

theorem CredNoEe_prepare_creds (h : Host) (new kz1 kz2 : Ptr) (trylock : Bool)
    (rc_orig : Int) (s : State) (hs : CredNoEe s)
    (hf1 : kz1 = NULL ∨ (Fresh s kz1 ∧ OnHeap kz1))
    (hf2 : kz2 = NULL ∨ (Fresh s kz2 ∧ OnHeap kz2 ∧ kz2 ≠ kz1)) :
    CredNoEe (prepare_creds h new kz1 kz2 trylock rc_orig s).1 := by
  unfold prepare_creds
  dsimp only
  by_cases hn : new = NULL
  · rw [if_pos hn]
    exact hs
  · rw [if_neg hn]
    have hp := CredNoEe_cred_prepare h kz1 kz2 trylock rc_orig true s new
      (h.task_cred h.current) hs hf1 hf2
    split_ifs
    · exact CredNoEe_congr _ _ hp rfl rfl rfl
    · exact hp

theorem CredNoEe_task_create_after (h : Host) (rc_orig : Int) (kz3 : Ptr) (cred : Ptr)
    (s0 : State) (hs : CredNoEe s0) (hf : kz3 = NULL ∨ (Fresh s0 kz3 ∧ OnHeap kz3)) :
    CredNoEe (task_create_after h rc_orig kz3 cred s0).1 := by
  unfold task_create_after
  dsimp only
  by_cases hc : cred = NULL
  · rw [if_pos hc]
    exact hs
  · rw [if_neg hc]
    by_cases ho : rc_orig ≠ 0
    · rw [if_pos ho]
      exact CredNoEe_congr s0 _ hs rfl rfl rfl
    · rw [if_neg ho]
      have hp2 : CredNoEe (ccs_find_task_security h kz3
          (s0.emit (Event.original_hook "task_create")) h.current).1 :=
        CredNoEe_find h kz3 _ _ (CredNoEe_congr s0 _ hs rfl rfl rfl) hf
      generalize ccs_find_task_security h kz3
        (s0.emit (Event.original_hook "task_create")) h.current = r2 at hp2 ⊢
      generalize ccs_find_cred_security h r2.1 cred = nw
      refine CredNoEe_congr _ _ (CredNoEe_store_keep _ nw _
        (CredNoEe_store_keep _ nw _ hp2 ?_) ?_) rfl rfl rfl
      · rfl
      · rfl

theorem CredNoEe_task_create (h : Host) (new kz1 kz2 : Ptr) (trylock : Bool)
    (rc_prepare : Int) (rc_orig : Int) (kz3 : Ptr) (s : State) (hs : CredNoEe s)
    (hf1 : kz1 = NULL ∨ (Fresh s kz1 ∧ OnHeap kz1))
    (hf2 : kz2 = NULL ∨ (Fresh s kz2 ∧ OnHeap kz2 ∧ kz2 ≠ kz1))
    (hf3 : kz3 = NULL ∨ (Fresh s kz3 ∧ OnHeap kz3 ∧ kz3 ≠ kz1 ∧ kz3 ≠ kz2)) :
    CredNoEe (ccs_task_create h new kz1 kz2 trylock rc_prepare rc_orig kz3 s).1 := by
  rw [task_create_eq]
  apply CredNoEe_task_create_after h rc_orig kz3 _ _
    (CredNoEe_prepare_creds h new kz1 kz2 trylock rc_prepare s hs hf1 hf2)
  rcases hf3 with hf3 | ⟨hf3, hh, hne1, hne2⟩
  · exact Or.inl hf3
  · right
    refine ⟨?_, hh⟩
    apply Fresh_grows [kz1, kz2] s _ kz3 (Grows_prepare_creds h new kz1 kz2 trylock rc_prepare s)
      hf3
    simp [hne1, hne2]

theorem CredNoEe_bprm_check (h : Host) (kz : Ptr) (start_rc : Int)
    (start_ee start_domain : Ptr) (rc_orig : Int) (s : State) (bprm_cred : Ptr)
    (hs : CredNoEe s) (hf : kz = NULL ∨ (Fresh s kz ∧ OnHeap kz)) :
    CredNoEe
      (ccs_bprm_check_security h kz start_rc start_ee start_domain rc_orig s bprm_cred).1 := by
  have hp1 := CredNoEe_find h kz s h.current hs hf
  rw [bprm_check_eq]
  by_cases hd : (ccs_find_task_security h kz s h.current).2 = ccs_default_security ∨
      (ccs_find_task_security h kz s h.current).2 = ccs_oom_security
  · unfold bprm_check_after
    rw [if_pos hd]
    exact hp1
  · have hl := find_current_lookup h kz s (fun hc => hd (Or.inr hc))
    have hin := (task_lookup_some h _ _ _ hl).1
    obtain ⟨h1, h2, _, h4⟩ := bprm_check_after_frame h start_rc start_ee start_domain rc_orig
      (ccs_find_task_security h kz s h.current).2
      (ccs_find_task_security h kz s h.current).1 bprm_cred
    exact CredNoEe_off _ _ (ccs_find_task_security h kz s h.current).2 hp1 h1 h2 h4
      (fun i => hp1.1 _ i _ hin) (fun hc => hd (Or.inl hc))

theorem CredNoEe_committing (h : Host) (kz : Ptr) (s : State) (bprm_cred : Ptr)
    (hs : CredNoEe s) (hf : kz = NULL ∨ (Fresh s kz ∧ OnHeap kz)) :
    CredNoEe (ccs_bprm_committing_creds h kz s bprm_cred) := by
  have hs0 : CredNoEe (s.emit (Event.original_hook "bprm_committing_creds")) :=
    CredNoEe_congr s _ hs rfl rfl rfl
  have hp1 := CredNoEe_find h kz _ h.current hs0 hf
  unfold ccs_bprm_committing_creds ccs_current_security
  dsimp only
  by_cases hd : (ccs_find_task_security h kz
      (s.emit (Event.original_hook "bprm_committing_creds")) h.current).2 = ccs_default_security ∨
      (ccs_find_task_security h kz
      (s.emit (Event.original_hook "bprm_committing_creds")) h.current).2 = ccs_oom_security
  · rw [if_pos hd]
    exact hp1
  · rw [if_neg hd]
    have hl := find_current_lookup h kz _ (fun hc => hd (Or.inr hc))
    have hin := (task_lookup_some h _ _ _ hl).1
    have hclear : CredNoEe (ccs_clear_execve h 0 (ccs_find_task_security h kz
        (s.emit (Event.original_hook "bprm_committing_creds")) h.current).2
        (ccs_find_task_security h kz
        (s.emit (Event.original_hook "bprm_committing_creds")) h.current).1) := by
      rcases clear_execve_current_cases h 0 _ _ hl with hc | ⟨_, _, _, hc⟩
      · rw [hc]; exact hp1
      · rw [hc]
        refine CredNoEe_off _ _ _ hp1 rfl rfl ?_ (fun i => hp1.1 _ i _ hin)
          (fun hc => hd (Or.inl hc))
        intro q hq
        simp [reconciled, hq]
    apply CredNoEe_store_keep
    · apply CredNoEe_store_keep _ _ _ hclear
      rfl
    · rfl

theorem any_iff_exists (L : List Ptr) (f : Ptr → Bool) :
    L.any f = true ↔ ∃ p ∈ L, f p = true := by
  simp

end Lsm2629

/-- Claim C30: in `lsm-2.6.29.c` no record of the credential table owns a Transition
Record.  `CredNoEe` says that the tables share no record and that every record
linked on the credential table, and `ccs_default_security`, has `ee == NULL`.
It holds after `ccs_init` and is preserved by `ccs_find_task_security`,
`ccs_cred_prepare`, `ccs_cred_alloc_blank`, `ccs_cred_transfer`,
`ccs_task_create`, `ccs_bprm_check_security`, `ccs_bprm_committing_creds` and
`ccs_cred_free`, given that what `kzalloc` returns is `NULL` or a record that is
not linked, is not a dummy and differs from what an earlier `kzalloc` of the
same hook returned.  In such a state the record that
`ccs_find_task_security` creates on a lookup miss has `ee == NULL`, and
`ccs_used_by_cred(domain)` is true exactly when a record linked on one of the
buckets has `ccs_domain_info == domain`. -/
theorem C30_cred_records_never_own_ee :
    Lsm2629.CredNoEe Lsm2629.init ∧
    (∀ s : Lsm2629.State, Lsm2629.CredNoEe s →
      ∀ i, ∀ p ∈ s.ccs_cred_security_list i, (s.mem p).ee = NULL) ∧
    (∀ (h : Host) (kz : Ptr) (s : Lsm2629.State) (task : Ptr),
      Lsm2629.CredNoEe s → (kz = NULL ∨ (Lsm2629.Fresh s kz ∧ OnHeap kz)) →
      Lsm2629.CredNoEe (Lsm2629.ccs_find_task_security h kz s task).1) ∧
    (∀ (h : Host) (kz1 kz2 : Ptr) (trylock : Bool) (rc_orig : Int) (gfp_kernel : Bool)
      (s : Lsm2629.State) (new old : Ptr),
      Lsm2629.CredNoEe s → (kz1 = NULL ∨ (Lsm2629.Fresh s kz1 ∧ OnHeap kz1)) →
      (kz2 = NULL ∨ (Lsm2629.Fresh s kz2 ∧ OnHeap kz2 ∧ kz2 ≠ kz1)) →
      Lsm2629.CredNoEe
        (Lsm2629.ccs_cred_prepare h kz1 kz2 trylock rc_orig gfp_kernel s new old).1) ∧
    (∀ (h : Host) (kz : Ptr) (rc_orig : Int) (s : Lsm2629.State) (new : Ptr),
      Lsm2629.CredNoEe s → (kz = NULL ∨ (Lsm2629.Fresh s kz ∧ OnHeap kz)) →
      Lsm2629.CredNoEe (Lsm2629.ccs_cred_alloc_blank h kz rc_orig s new).1) ∧
    (∀ (h : Host) (s : Lsm2629.State) (new old : Ptr),
      Lsm2629.CredNoEe s → Lsm2629.CredNoEe (Lsm2629.ccs_cred_transfer h s new old)) ∧
    (∀ (h : Host) (new kz1 kz2 : Ptr) (trylock : Bool) (rc_prepare rc_orig : Int) (kz3 : Ptr)
      (s : Lsm2629.State),
      Lsm2629.CredNoEe s → (kz1 = NULL ∨ (Lsm2629.Fresh s kz1 ∧ OnHeap kz1)) →
      (kz2 = NULL ∨ (Lsm2629.Fresh s kz2 ∧ OnHeap kz2 ∧ kz2 ≠ kz1)) →
      (kz3 = NULL ∨ (Lsm2629.Fresh s kz3 ∧ OnHeap kz3 ∧ kz3 ≠ kz1 ∧ kz3 ≠ kz2)) →
      Lsm2629.CredNoEe
        (Lsm2629.ccs_task_create h new kz1 kz2 trylock rc_prepare rc_orig kz3 s).1) ∧
    (∀ (h : Host) (kz : Ptr) (start_rc : Int) (start_ee start_domain : Ptr) (rc_orig : Int)
      (s : Lsm2629.State) (bprm_cred : Ptr),
      Lsm2629.CredNoEe s → (kz = NULL ∨ (Lsm2629.Fresh s kz ∧ OnHeap kz)) →
      Lsm2629.CredNoEe
        (Lsm2629.ccs_bprm_check_security h kz start_rc start_ee start_domain rc_orig s
          bprm_cred).1) ∧
    (∀ (h : Host) (kz : Ptr) (s : Lsm2629.State) (bprm_cred : Ptr),
      Lsm2629.CredNoEe s → (kz = NULL ∨ (Lsm2629.Fresh s kz ∧ OnHeap kz)) →
      Lsm2629.CredNoEe (Lsm2629.ccs_bprm_committing_creds h kz s bprm_cred)) ∧
    (∀ (h : Host) (s : Lsm2629.State) (cred : Ptr),
      Lsm2629.CredNoEe s → Lsm2629.CredNoEe (Lsm2629.ccs_cred_free h s cred)) ∧
    (∀ (h : Host) (kz : Ptr) (s : Lsm2629.State),
      Lsm2629.CredNoEe s → Lsm2629.task_lookup h s h.current = none → kz ≠ NULL →
      (Lsm2629.ccs_find_task_security h kz s h.current).2 = kz ∧
      ((Lsm2629.ccs_find_task_security h kz s h.current).1.mem kz).ee = NULL) ∧
    (∀ (h : Host) (s : Lsm2629.State) (domain : Ptr),
      Lsm2629.CredNoEe s →
      (Lsm2629.ccs_used_by_cred h s domain = true ↔
        ∃ idx, idx < h.CCS_MAX_TASK_SECURITY_HASH ∧
          ∃ p ∈ s.ccs_cred_security_list idx, (s.mem p).ccs_domain_info = domain)) := by
  refine ⟨?_, ?_, ?_, ?_, ?_, ?_, ?_, ?_, ?_, ?_, ?_, ?_⟩
  · exact ⟨fun _ _ _ hp => absurd hp (List.not_mem_nil _),
      fun _ _ hp => absurd hp (List.not_mem_nil _), rfl⟩
  · intro s hs i p hp
    exact hs.2.1 i p hp
  · intro h kz s task hs hf
    exact Lsm2629.CredNoEe_find h kz s task hs hf
  · intro h kz1 kz2 trylock rc_orig gfp_kernel s new old hs hf1 hf2
    exact Lsm2629.CredNoEe_cred_prepare h kz1 kz2 trylock rc_orig gfp_kernel s new old hs hf1 hf2
  · intro h kz rc_orig s new hs hf
    exact Lsm2629.CredNoEe_cred_alloc_blank h kz rc_orig s new hs hf
  · intro h s new old hs
    exact Lsm2629.CredNoEe_cred_transfer h s new old hs
  · intro h new kz1 kz2 trylock rc_prepare rc_orig kz3 s hs hf1 hf2 hf3
    exact Lsm2629.CredNoEe_task_create h new kz1 kz2 trylock rc_prepare rc_orig kz3 s hs
      hf1 hf2 hf3
  · intro h kz start_rc start_ee start_domain rc_orig s bprm_cred hs hf
    exact Lsm2629.CredNoEe_bprm_check h kz start_rc start_ee start_domain rc_orig s bprm_cred
      hs hf
  · intro h kz s bprm_cred hs hf
    exact Lsm2629.CredNoEe_committing h kz s bprm_cred hs hf
  · intro h s cred hs
    exact Lsm2629.CredNoEe_shrinks _ _ (Lsm2629.Shrinks_cred_free h s cred) hs
  · intro h kz s hs hl hk
    rcases Lsm2629.find_current_cases h kz s with ⟨ptr, hl2, _⟩ | ⟨ptr, hl2, _⟩ | ⟨_, hk2, _⟩ |
      ⟨_, _, he⟩
    · rw [hl] at hl2; exact absurd hl2 (by simp)
    · rw [hl] at hl2; exact absurd hl2 (by simp)
    · exact absurd hk2 hk
    · rw [he]
      refine ⟨rfl, ?_⟩
      simp only [Lsm2629.allocated, if_true]
      exact Lsm2629.find_cred_ee h s _ hs
  · intro h s domain hs
    unfold Lsm2629.ccs_used_by_cred
    rw [List.any_eq_true]
    constructor
    · rintro ⟨idx, hidx, hany⟩
      rw [Lsm2629.any_iff_exists] at hany
      obtain ⟨p, hp, hu⟩ := hany
      refine ⟨idx, List.mem_range.1 hidx, p, hp, ?_⟩
      unfold Lsm2629.uses_domain at hu
      dsimp only at hu
      rw [hs.2.1 idx p hp] at hu
      simpa using hu
    · rintro ⟨idx, hidx, p, hp, hd⟩
      refine ⟨idx, List.mem_range.2 hidx, ?_⟩
      rw [Lsm2629.any_iff_exists]
      refine ⟨p, hp, ?_⟩
      unfold Lsm2629.uses_domain
      simp [hd]

/-- The first lookup of task `100` after `ccs_init` creates record `10`, whose
`ee` is `NULL`; the state after it keeps the invariant. -/
theorem C30_cred_records_never_own_ee_witness :
    (Lsm2629.CredNoEe Lsm2629.init ∧ Lsm2629.Fresh Lsm2629.init 10 ∧ OnHeap 10 ∧
      Lsm2629.task_lookup demoHost Lsm2629.init demoHost.current = none) ∧
    Lsm2629.CredNoEe (Lsm2629.ccs_find_task_security demoHost 10 Lsm2629.init 100).1 ∧
    ((Lsm2629.ccs_find_task_security demoHost 10 Lsm2629.init demoHost.current).2 = 10 ∧
      ((Lsm2629.ccs_find_task_security demoHost 10 Lsm2629.init demoHost.current).1.mem
        10).ee = NULL) :=
  have hf : Lsm2629.Fresh Lsm2629.init 10 :=
    fun _ => ⟨List.not_mem_nil _, List.not_mem_nil _⟩
  have hh : OnHeap 10 := ⟨by decide, by decide⟩
  ⟨⟨C30_cred_records_never_own_ee.1, hf, hh, rfl⟩,
    C30_cred_records_never_own_ee.2.2.1 demoHost 10 Lsm2629.init 100
      C30_cred_records_never_own_ee.1 (Or.inr ⟨hf, hh⟩),
    C30_cred_records_never_own_ee.2.2.2.2.2.2.2.2.2.2.1 demoHost 10 Lsm2629.init
      C30_cred_records_never_own_ee.1 rfl (by decide)⟩

/-! ## Prepending to the pathname buffer: C28 -/

namespace Lsm2629

theorem to_int_id (n : Int) (h1 : -2 ^ 31 ≤ n) (h2 : n < 2 ^ 31) : to_int n = n := by
  unfold to_int
  omega

theorem to_size_t_nat (n : Nat) (h : n < 2 ^ 31) : to_size_t n = n := by
  unfold to_size_t BITS_PER_LONG
  omega

theorem prepend_fits (b : PrependBuf) (str : List Char) (hlen : str.length < 2 ^ 31)
    (hlo : -2 ^ 31 ≤ b.buflen) (hhi : b.buflen < 2 ^ 31) (hfit : (str.length : Int) ≤ b.buflen) :
    ccs_prepend b str =
      ({ mem := memcpy b.mem (b.buffer - str.length) str str.length,
         buffer := b.buffer - str.length, buflen := b.buflen - str.length }, 0) := by
  have hn : to_int str.length = str.length := to_int_id _ (by omega) (by omega)
  unfold ccs_prepend
  dsimp only
  rw [hn, if_neg (by omega), to_int_id _ (by omega) (by omega), to_size_t_nat _ hlen]

theorem prepend_short (b : PrependBuf) (str : List Char) (hlen : str.length < 2 ^ 31)
    (hshort : b.buflen < (str.length : Int)) : ccs_prepend b str = (b, -ENOMEM) := by
  have hn : to_int str.length = str.length := to_int_id _ (by omega) (by omega)
  unfold ccs_prepend
  dsimp only
  rw [hn, if_pos hshort]

theorem memcpy_inside (mem : Int → Char) (dst : Int) (src : List Char) (i : Nat)
    (hi : i < src.length) : memcpy mem dst src src.length (dst + i) = src.get ⟨i, hi⟩ := by
  unfold memcpy
  rw [if_pos ⟨by omega, by omega⟩]
  have : (dst + (i : Int) - dst).toNat = i := by omega
  rw [this, List.getD_eq_getElem _ _ hi]
  rfl

theorem memcpy_outside (mem : Int → Char) (dst : Int) (src : List Char) (n : Nat) (a : Int)
    (ha : a < dst ∨ dst + n ≤ a) : memcpy mem dst src n a = mem a := by
  unfold memcpy
  rw [if_neg (by omega)]

end Lsm2629

/-- Claim C28: `ccs_prepend(&buffer, &buflen, str)` for a string whose length an `int`
holds.  If `buflen >= strlen(str)` the result is 0, `buflen` is decreased by
`strlen(str)` and is not negative, `buffer` is moved back by `strlen(str)`
bytes, the `strlen(str)` bytes from the new `buffer` on are those of `str`,
and every byte outside of them is as before.  If `buflen < strlen(str)` the
result is `-ENOMEM` and `buffer`, `buflen` and the memory are as before. -/
theorem C28_prepend (b : PrependBuf) (str : List Char) (hlen : str.length < 2 ^ 31)
    (hlo : -2 ^ 31 ≤ b.buflen) (hhi : b.buflen < 2 ^ 31) :
    ((str.length : Int) ≤ b.buflen →
      (Lsm2629.ccs_prepend b str).2 = 0 ∧
      (Lsm2629.ccs_prepend b str).1.buflen = b.buflen - str.length ∧
      0 ≤ (Lsm2629.ccs_prepend b str).1.buflen ∧
      (Lsm2629.ccs_prepend b str).1.buffer = b.buffer - str.length ∧
      (∀ (i : Nat) (hi : i < str.length),
        (Lsm2629.ccs_prepend b str).1.mem ((Lsm2629.ccs_prepend b str).1.buffer + i)
          = str.get ⟨i, hi⟩) ∧
      (∀ a : Int, a < (Lsm2629.ccs_prepend b str).1.buffer ∨
          (Lsm2629.ccs_prepend b str).1.buffer + str.length ≤ a →
        (Lsm2629.ccs_prepend b str).1.mem a = b.mem a)) ∧
    (b.buflen < (str.length : Int) → Lsm2629.ccs_prepend b str = (b, -ENOMEM)) := by
  constructor
  · intro hfit
    rw [Lsm2629.prepend_fits b str hlen hlo hhi hfit]
    refine ⟨rfl, rfl, ?_, rfl, ?_, ?_⟩
    · show 0 ≤ b.buflen - str.length
      omega
    · intro i hi
      exact Lsm2629.memcpy_inside b.mem _ str i hi
    · intro a ha
      exact Lsm2629.memcpy_outside b.mem _ str _ a ha
  · intro hshort
    exact Lsm2629.prepend_short b str hlen hshort

/-- Prepending `"sys"` to a buffer with 16 bytes left, and a string of 17 bytes
that does not fit. -/
theorem C28_prepend_witness :
    ((['s', 'y', 's'].length < 2 ^ 31 ∧ -2 ^ 31 ≤ Lsm2629.demoBuf.buflen ∧
      Lsm2629.demoBuf.buflen < 2 ^ 31) ∧
      ((['s', 'y', 's'].length : Int) ≤ Lsm2629.demoBuf.buflen)) ∧
    ((Lsm2629.ccs_prepend Lsm2629.demoBuf ['s', 'y', 's']).2 = 0 ∧
      (Lsm2629.ccs_prepend Lsm2629.demoBuf ['s', 'y', 's']).1.buflen
        = Lsm2629.demoBuf.buflen - (['s', 'y', 's'].length : Nat)) ∧
    Lsm2629.ccs_prepend Lsm2629.demoBuf (List.replicate 17 'x')
      = (Lsm2629.demoBuf, -ENOMEM) :=
  ⟨⟨⟨by decide, by decide, by decide⟩, by decide⟩,
    ⟨((C28_prepend Lsm2629.demoBuf ['s', 'y', 's'] (by decide) (by decide) (by decide)).1
        (by decide)).1,
      ((C28_prepend Lsm2629.demoBuf ['s', 'y', 's'] (by decide) (by decide) (by decide)).1
        (by decide)).2.1⟩,
    (C28_prepend Lsm2629.demoBuf (List.replicate 17 'x') (by decide) (by decide)
      (by decide)).2 (by decide)⟩

/-! ## The pathname of the sysctl hook: C27 -/

namespace Lsm2629

theorem digitChar_ne_NUL (d : Nat) : Nat.digitChar d ≠ NUL := by
  unfold Nat.digitChar
  by_cases h0 : d = 0
  · rw [if_pos h0]; decide
  rw [if_neg h0]
  by_cases h1 : d = 1
  · rw [if_pos h1]; decide
  rw [if_neg h1]
  by_cases h2 : d = 2
  · rw [if_pos h2]; decide
  rw [if_neg h2]
  by_cases h3 : d = 3
  · rw [if_pos h3]; decide
  rw [if_neg h3]
  by_cases h4 : d = 4
  · rw [if_pos h4]; decide
  rw [if_neg h4]
  by_cases h5 : d = 5
  · rw [if_pos h5]; decide
  rw [if_neg h5]
  by_cases h6 : d = 6
  · rw [if_pos h6]; decide
  rw [if_neg h6]
  by_cases h7 : d = 7
  · rw [if_pos h7]; decide
  rw [if_neg h7]
  by_cases h8 : d = 8
  · rw [if_pos h8]; decide
  rw [if_neg h8]
  by_cases h9 : d = 9
  · rw [if_pos h9]; decide
  rw [if_neg h9]
  by_cases h10 : d = 10
  · rw [if_pos h10]; decide
  rw [if_neg h10]
  by_cases h11 : d = 11
  · rw [if_pos h11]; decide
  rw [if_neg h11]
  by_cases h12 : d = 12
  · rw [if_pos h12]; decide
  rw [if_neg h12]
  by_cases h13 : d = 13
  · rw [if_pos h13]; decide
  rw [if_neg h13]
  by_cases h14 : d = 14
  · rw [if_pos h14]; decide
  rw [if_neg h14]
  by_cases h15 : d = 15
  · rw [if_pos h15]; decide
  rw [if_neg h15]
  decide

theorem toDigitsCore_no_NUL (base : Nat) :
    ∀ (fuel n : Nat) (ds : List Char), NUL ∉ ds → NUL ∉ Nat.toDigitsCore base fuel n ds := by
  intro fuel
  induction fuel with
  | zero => intro n ds hds; exact hds
  | succ fuel ih =>
    intro n ds hds
    unfold Nat.toDigitsCore
    dsimp only
    have hcons : NUL ∉ Nat.digitChar (n % base) :: ds := by
      intro hc
      rcases List.mem_cons.1 hc with hc | hc
      · exact digitChar_ne_NUL _ hc.symm
      · exact hds hc
    split_ifs
    · exact hcons
    · exact ih _ _ hcons

theorem repr_no_NUL (m : Nat) : NUL ∉ (Nat.repr m).toList :=
  toDigitsCore_no_NUL 10 _ _ [] (List.not_mem_nil _)

theorem repr_short (m : Nat) (hm : m ≤ 2 ^ 31) : (Nat.repr m).toList.length ≤ 10 := by
  have := Nat.repr_length m 10 (by decide) (by omega)
  exact this

theorem decimal_int (n : Int) (h1 : -2 ^ 31 ≤ n) (h2 : n < 2 ^ 31) :
    NUL ∉ (toString n).toList ∧ (toString n).toList.length ≤ 11 := by
  cases n with
  | ofNat m =>
    have hm : m ≤ 2 ^ 31 := by
      have : (m : Int) < 2 ^ 31 := h2
      omega
    exact ⟨repr_no_NUL m, le_trans (repr_short m hm) (by decide)⟩
  | negSucc m =>
    have hm : m + 1 ≤ 2 ^ 31 := by
      have : -2 ^ 31 ≤ Int.negSucc m := h1
      rw [Int.negSucc_eq] at this
      omega
    have heq : (toString (Int.negSucc m)).toList = '-' :: (Nat.repr (m + 1)).toList := rfl
    rw [heq]
    constructor
    · intro hc
      rcases List.mem_cons.1 hc with hc | hc
      · exact absurd hc (by decide)
      · exact repr_no_NUL _ hc
    · have := repr_short (m + 1) hm
      simp only [List.length_cons]
      omega

theorem ctl_num_eq (n : Int) (h1 : -2 ^ 31 ≤ n) (h2 : n < 2 ^ 31) :
    ctl_num n = ('=' :: (toString n).toList) ++ ['='] := by
  unfold ctl_num
  apply List.take_of_length_le
  have := (decimal_int n h1 h2).2
  simp only [List.length_append, List.length_cons, List.length_nil]
  omega

/-- The string that the loop prepends for a table is the name the pathname
shows, it has no `NUL` inside and an `int` holds its length. -/
theorem component_spec (t : ctl_table)
    (hs : ∀ s, t.procname = some s → NUL ∉ s ∧ s.length < 2 ^ 31)
    (hn : t.procname = none → -2 ^ 31 ≤ t.ctl_name ∧ t.ctl_name < 2 ^ 31) :
    (match t.procname with
      | some s => s
      | none => ctl_num t.ctl_name) = sysctl_component t ∧
    NUL ∉ sysctl_component t ∧ (sysctl_component t).length < 2 ^ 31 := by
  unfold sysctl_component
  cases hp : t.procname with
  | some s =>
    dsimp only
    exact ⟨rfl, (hs s hp).1, (hs s hp).2⟩
  | none =>
    dsimp only
    obtain ⟨h1, h2⟩ := hn hp
    obtain ⟨hnul, hlen⟩ := decimal_int t.ctl_name h1 h2
    refine ⟨ctl_num_eq _ h1 h2, ?_, ?_⟩
    · intro hc
      rcases List.mem_append.1 hc with hc | hc
      · rcases List.mem_cons.1 hc with hc | hc
        · exact absurd hc (by decide)
        · exact hnul hc
      · exact absurd (List.mem_singleton.1 hc) (by decide)
    · simp only [List.length_append, List.length_cons, List.length_nil]
      omega

theorem c_string_eq (mem : Int → Char) :
    ∀ (L : List Char) (fuel : Nat) (p : Int),
      (∀ (i : Nat) (hi : i < L.length), mem (p + i) = L.get ⟨i, hi⟩) → NUL ∉ L →
      mem (p + L.length) = NUL → L.length < fuel → c_string mem fuel p = L := by
  intro L
  induction L with
  | nil =>
    intro fuel p _ _ hend hf
    cases fuel with
    | zero => exact absurd hf (by simp)
    | succ fuel =>
      unfold c_string
      have : mem p = NUL := by simpa using hend
      rw [if_pos this]
  | cons c L ih =>
    intro fuel p hb hnul hend hf
    cases fuel with
    | zero => exact absurd hf (by simp)
    | succ fuel =>
      unfold c_string
      have h0 : mem p = c := by
        have := hb 0 (by simp)
        simpa using this
      have hc : c ≠ NUL := fun hc => hnul (hc ▸ List.mem_cons_self _ _)
      rw [h0, if_neg hc]
      congr 1
      apply ih fuel (p + 1)
      · intro i hi
        have := hb (i + 1) (by simpa using hi)
        have e : p + 1 + (i : Int) = p + ((i + 1 : Nat) : Int) := by
          push_cast
          ring
        rw [e, this]
        rfl
      · exact fun hc2 => hnul (List.mem_cons_of_mem _ hc2)
      · rw [← hend]
        congr 1
        simp only [List.length_cons]
        push_cast
        ring
      · simpa using hf

theorem prepend_holds (base : Int) (b : PrependBuf) (acc str : List Char)
    (hb : Holds base b acc) (hfit : str.length + acc.length ≤ 4095) :
    (ccs_prepend b str).2 = 0 ∧ Holds base (ccs_prepend b str).1 (str ++ acc) := by
  obtain ⟨hacc, hbuf, hlen, hbytes, hend⟩ := hb
  rw [prepend_fits b str (by omega) (by omega) (by omega) (by omega)]
  refine ⟨rfl, ?_, ?_, ?_, ?_, ?_⟩
  · simp only [List.length_append]; omega
  · simp only [List.length_append]
    show b.buffer - (str.length : Int) = _
    push_cast
    omega
  · simp only [List.length_append]
    show b.buflen - (str.length : Int) = _
    push_cast
    omega
  · intro i hi
    show memcpy b.mem (b.buffer - str.length) str str.length (b.buffer - str.length + i) = _
    by_cases his : i < str.length
    · rw [memcpy_inside b.mem _ str i his]
      simp only [List.get_eq_getElem]
      rw [List.getElem_append_left his]
    · have hi2 : i - str.length < acc.length := by
        simp only [List.length_append] at hi
        omega
      rw [memcpy_outside _ _ _ _ _ (Or.inr (by omega))]
      have := hbytes (i - str.length) hi2
      simp only [List.get_eq_getElem] at this ⊢
      rw [List.getElem_append_right (by omega), ← this]
      congr 1
      omega
  · show memcpy b.mem (b.buffer - str.length) str str.length (base + 4095) = NUL
    rw [memcpy_outside _ _ _ _ _ (Or.inr (by omega))]
    exact hend

theorem prepend_fails (base : Int) (b : PrependBuf) (acc str : List Char)
    (hb : Holds base b acc) (hlen : str.length < 2 ^ 31)
    (hfit : 4095 < str.length + acc.length) : (ccs_prepend b str).2 ≠ 0 := by
  obtain ⟨hacc, hbuf, hbl, _, _⟩ := hb
  rw [prepend_short b str hlen (by omega)]
  show (-ENOMEM : Int) ≠ 0
  decide

theorem sysctl_walk_cons (b : PrependBuf) (t : ctl_table) (parents : List ctl_table) :
    sysctl_walk b (t :: parents) =
      if (ccs_prepend b (match t.procname with
          | some s => s
          | none => ctl_num t.ctl_name)).2 ≠ 0 then none
      else if (ccs_prepend (ccs_prepend b (match t.procname with
          | some s => s
          | none => ctl_num t.ctl_name)).1 ['/']).2 ≠ 0 then none
      else sysctl_walk (ccs_prepend (ccs_prepend b (match t.procname with
          | some s => s
          | none => ctl_num t.ctl_name)).1 ['/']).1 parents := rfl

/-- The loop prepends the names of the chain, each behind a `/`, as long as
they fit. -/
theorem walk_spec (base : Int) :
    ∀ (table : List ctl_table) (b : PrependBuf) (acc : List Char),
      Holds base b acc → SysctlChain table →
      (((table.reverse.flatMap (fun t => '/' :: sysctl_component t)) ++ acc).length ≤ 4095 →
        ∃ b2, sysctl_walk b table = some b2 ∧
          Holds base b2 ((table.reverse.flatMap (fun t => '/' :: sysctl_component t)) ++ acc)) ∧
      (4095 < ((table.reverse.flatMap (fun t => '/' :: sysctl_component t)) ++ acc).length →
        sysctl_walk b table = none) := by
  intro table
  induction table with
  | nil =>
    intro b acc hb _
    refine ⟨fun _ => ⟨b, rfl, by simpa using hb⟩, ?_⟩
    intro hc
    have := hb.1
    simp at hc
    omega
  | cons t parents ih =>
    intro b acc hb hchain
    obtain ⟨hsp, hnul, hlen⟩ := component_spec t (hchain t (List.mem_cons_self _ _)).1
      (hchain t (List.mem_cons_self _ _)).2
    have hparents : SysctlChain parents := fun u hu => hchain u (List.mem_cons_of_mem _ hu)
    have hshape : (((t :: parents).reverse.flatMap (fun t => '/' :: sysctl_component t)) ++ acc)
        = (parents.reverse.flatMap (fun t => '/' :: sysctl_component t))
          ++ (['/'] ++ (sysctl_component t ++ acc)) := by
      simp [List.flatMap_append]
    rw [hshape, sysctl_walk_cons, hsp]
    by_cases h1 : (sysctl_component t).length + acc.length ≤ 4095
    · obtain ⟨hr1, hb1⟩ := prepend_holds base b acc (sysctl_component t) hb h1
      rw [if_neg (not_not.2 hr1)]
      by_cases h2 : ['/'].length + (sysctl_component t ++ acc).length ≤ 4095
      · obtain ⟨hr2, hb2⟩ := prepend_holds base _ _ ['/'] hb1 h2
        rw [if_neg (not_not.2 hr2)]
        exact ih _ _ hb2 hparents
      · have hr2 := prepend_fails base _ _ ['/'] hb1 (by decide) (by omega)
        rw [if_pos hr2]
        refine ⟨?_, fun _ => rfl⟩
        intro hc
        simp only [List.length_append] at hc h2
        omega
    · have hr1 := prepend_fails base b acc (sysctl_component t) hb hlen (by omega)
      rw [if_pos hr1]
      refine ⟨?_, fun _ => rfl⟩
      intro hc
      simp only [List.length_append, List.length_cons, List.length_nil] at hc
      omega

theorem walk_no_NUL (table : List ctl_table) (hchain : SysctlChain table) :
    NUL ∉ sysctl_path table := by
  unfold sysctl_path
  intro hc
  rcases List.mem_append.1 hc with hc | hc
  · exact absurd hc (by decide)
  · rw [List.mem_flatMap] at hc
    obtain ⟨t, ht, hc⟩ := hc
    have htm : t ∈ table := List.mem_reverse.1 ht
    obtain ⟨_, hnul, _⟩ := component_spec t (hchain t htm).1 (hchain t htm).2
    rcases List.mem_cons.1 hc with hc | hc
    · exact absurd hc (by decide)
    · exact hnul hc

theorem Holds_start (mem : Int → Char) (base : Int) : Holds base (sysctl_buffer mem base) [] := by
  unfold Holds sysctl_buffer
  dsimp only
  refine ⟨by simp, by simp; omega, by simp, fun i hi => absurd hi (by simp), ?_⟩
  rw [if_pos (by omega)]

/-- The build of the pathname: with a buffer, either the names fit and the C
string at `end` is the pathname, or the walk or the last `ccs_prepend` gives
up. -/
theorem sysctl_build (mem : Int → Char) (base : Int) (table : List ctl_table)
    (hchain : SysctlChain table) :
    ((sysctl_path table).length ≤ 4095 →
      ∃ b, sysctl_walk (sysctl_buffer mem base) table = some b ∧
        (ccs_prepend b proc_sys).2 = 0 ∧
        c_string (ccs_prepend b proc_sys).1.mem 4096 (ccs_prepend b proc_sys).1.buffer
          = sysctl_path table) ∧
    (4095 < (sysctl_path table).length →
      sysctl_walk (sysctl_buffer mem base) table = none ∨
      ∃ b, sysctl_walk (sysctl_buffer mem base) table = some b ∧
        (ccs_prepend b proc_sys).2 ≠ 0) := by
  have hw := walk_spec base table (sysctl_buffer mem base) [] (Holds_start mem base) hchain
  simp only [List.append_nil] at hw
  have hlen : (sysctl_path table).length
      = 9 + (table.reverse.flatMap (fun t => '/' :: sysctl_component t)).length := by
    unfold sysctl_path
    rw [List.length_append]
    rfl
  constructor
  · intro hfit
    obtain ⟨b, hb, hh⟩ := hw.1 (by omega)
    obtain ⟨hr, hh2⟩ := prepend_holds base b _ proc_sys hh (by
      have : proc_sys.length = 9 := rfl
      omega)
    refine ⟨b, hb, hr, ?_⟩
    obtain ⟨hacc, hbuf, _, hbytes, hend⟩ := hh2
    apply c_string_eq _ _ _ _ hbytes (walk_no_NUL table hchain)
    · rw [hbuf, ← hend]
      congr 1
      omega
    · show (sysctl_path table).length < 4096
      omega
  · intro hlong
    by_cases hwl : (table.reverse.flatMap (fun t => '/' :: sysctl_component t)).length ≤ 4095
    · right
      obtain ⟨b, hb, hh⟩ := hw.1 hwl
      refine ⟨b, hb, prepend_fails base b _ proc_sys hh (by decide) ?_⟩
      have : proc_sys.length = 9 := rfl
      omega
    · left
      exact hw.2 (by omega)

theorem sysctl_path_single (t : ctl_table) :
    (sysctl_path [t]).length = 9 + (1 + (sysctl_component t).length) := by
  unfold sysctl_path
  simp [proc_sys]
  omega

end Lsm2629

/-- The hook returns 0, not `-ENOMEM`, for a chain that does not fit when
`ccs_init_request_info` reports `CCS_CONFIG_DISABLED`. -/
theorem C27_counterexample :
    4095 < (Lsm2629.sysctl_path Lsm2629.longChain).length ∧
    Lsm2629.ccs_sysctl { Lsm2629.sysctlHost with disabled := true } Lsm2629.longChain MAY_READ
      = ([SysctlEvent.original_hook MAY_READ], 0) := by
  constructor
  · unfold Lsm2629.longChain
    rw [Lsm2629.sysctl_path_single]
    have hc : Lsm2629.sysctl_component
        { procname := some (List.replicate 5000 'a'), ctl_name := 0 }
          = List.replicate 5000 'a' := rfl
    rw [hc, List.length_replicate]
    omega
  · rfl

/-- Claim C27, amended.  `ccs_sysctl` first calls the original hook and returns its
error if it fails; it returns 0 without any further call if `op` has neither
`MAY_READ` nor `MAY_WRITE`, and also if `ccs_init_request_info` reports
`CCS_CONFIG_DISABLED`.  Otherwise, it returns `-ENOMEM` without any further
call if `kmalloc` fails.  With a buffer, and for a chain of tables whose names
are C strings and whose numbers are `int`s: if the pathname `sysctl_path`,
which is `proc:/sys` followed for each table from the root to the leaf by `/`
and the `procname` of the table, or `=<ctl_name>=` in decimal when `procname`
is `NULL`, has at most 4095 bytes, then the string passed to `ccs_encode` is
that pathname and the hook goes on to the policy checks; if it has more, the
hook returns `-ENOMEM` without any call of `ccs_encode` or policy check. -/
theorem C27_sysctl_pathname (h : SysctlHost) (table : List ctl_table) (op : Nat) :
    (h.rc_orig ≠ 0 →
      Lsm2629.ccs_sysctl h table op = ([SysctlEvent.original_hook op], h.rc_orig)) ∧
    (h.rc_orig = 0 → op &&& (MAY_READ ||| MAY_WRITE) = 0 →
      Lsm2629.ccs_sysctl h table op = ([SysctlEvent.original_hook op], 0)) ∧
    (h.rc_orig = 0 → op &&& (MAY_READ ||| MAY_WRITE) ≠ 0 → h.disabled = true →
      Lsm2629.ccs_sysctl h table op = ([SysctlEvent.original_hook op], 0)) ∧
    (h.rc_orig = 0 → op &&& (MAY_READ ||| MAY_WRITE) ≠ 0 → h.disabled = false →
      h.kmalloc = 0 →
      Lsm2629.ccs_sysctl h table op = ([SysctlEvent.original_hook op], -ENOMEM)) ∧
    (h.rc_orig = 0 → op &&& (MAY_READ ||| MAY_WRITE) ≠ 0 → h.disabled = false →
      h.kmalloc ≠ 0 → Lsm2629.SysctlChain table →
      ((Lsm2629.sysctl_path table).length ≤ 4095 →
        Lsm2629.ccs_sysctl h table op =
          Lsm2629.sysctl_check h (op &&& (MAY_READ ||| MAY_WRITE))
            (h.ccs_encode (Lsm2629.sysctl_path table)) (-ENOMEM)
            [SysctlEvent.original_hook op,
              SysctlEvent.ccs_encode (Lsm2629.sysctl_path table)]) ∧
      (4095 < (Lsm2629.sysctl_path table).length →
        Lsm2629.ccs_sysctl h table op = ([SysctlEvent.original_hook op], -ENOMEM))) := by
  refine ⟨?_, ?_, ?_, ?_, ?_⟩
  · intro ho
    unfold Lsm2629.ccs_sysctl
    dsimp only
    rw [if_pos ho]
  · intro ho hop
    unfold Lsm2629.ccs_sysctl
    dsimp only
    rw [if_neg (not_not.2 ho), if_pos hop]
  · intro ho hop hd
    unfold Lsm2629.ccs_sysctl
    dsimp only
    rw [if_neg (not_not.2 ho), if_neg hop, if_pos hd, ho]
  · intro ho hop hd hk
    unfold Lsm2629.ccs_sysctl
    dsimp only
    rw [if_neg (not_not.2 ho), if_neg hop, if_neg (by simp [hd]), if_neg (not_not.2 hk)]
    unfold Lsm2629.sysctl_check
    rw [if_neg (not_not.2 rfl)]
  · intro ho hop hd hk hchain
    obtain ⟨hfit, hlong⟩ := Lsm2629.sysctl_build h.mem h.kmalloc table hchain
    unfold Lsm2629.ccs_sysctl
    dsimp only
    rw [if_neg (not_not.2 ho), if_neg hop, if_neg (by simp [hd]), if_pos hk]
    constructor
    · intro hf
      obtain ⟨b, hb, hr, hs⟩ := hfit hf
      rw [hb]
      dsimp only
      rw [if_neg (not_not.2 hr), hs]
      rfl
    · intro hl
      rcases hlong hl with hb | ⟨b, hb, hr⟩
      · rw [hb]
      · rw [hb]
        dsimp only
        rw [if_pos hr]

/-- The chain `demoChain` gives `proc:/sys/kernel/=1=`, which is passed to
`ccs_encode` before the read check. -/
theorem C27_sysctl_pathname_witness :
    (Lsm2629.sysctlHost.rc_orig = 0 ∧ MAY_READ &&& (MAY_READ ||| MAY_WRITE) ≠ 0 ∧
      Lsm2629.sysctlHost.disabled = false ∧ Lsm2629.sysctlHost.kmalloc ≠ 0 ∧
      Lsm2629.SysctlChain Lsm2629.demoChain ∧
      (Lsm2629.sysctl_path Lsm2629.demoChain).length ≤ 4095) ∧
    Lsm2629.sysctl_path Lsm2629.demoChain
      = ['p', 'r', 'o', 'c', ':', '/', 's', 'y', 's', '/', 'k', 'e', 'r', 'n', 'e', 'l', '/',
          '=', '1', '='] ∧
    Lsm2629.ccs_sysctl Lsm2629.sysctlHost Lsm2629.demoChain MAY_READ =
      Lsm2629.sysctl_check Lsm2629.sysctlHost (MAY_READ &&& (MAY_READ ||| MAY_WRITE))
        (Lsm2629.sysctlHost.ccs_encode (Lsm2629.sysctl_path Lsm2629.demoChain)) (-ENOMEM)
        [SysctlEvent.original_hook MAY_READ,
          SysctlEvent.ccs_encode (Lsm2629.sysctl_path Lsm2629.demoChain)] :=
  have hchain : Lsm2629.SysctlChain Lsm2629.demoChain := by
    intro t ht
    simp only [Lsm2629.demoChain, List.mem_cons, List.mem_singleton, List.not_mem_nil,
      or_false] at ht
    rcases ht with ht | ht <;> subst ht <;> simp [NUL]
  have hlen : (Lsm2629.sysctl_path Lsm2629.demoChain).length ≤ 4095 := by decide
  ⟨⟨rfl, by decide, rfl, by decide, hchain, hlen⟩, by decide,
    ((C27_sysctl_pathname Lsm2629.sysctlHost Lsm2629.demoChain MAY_READ).2.2.2.2 rfl
      (by decide) rfl (by decide) hchain).1 hlen⟩

/-! ## Parsing of a capability entry: C29 -/

namespace Capability

theorem strcmp_ne (a b : List Char) : strcmp a b ≠ 0 ↔ a ≠ b := by
  unfold strcmp
  split_ifs with hab
  · simp [hab]
  · simp [hab]

/-- No keyword from `operation` on is the token: the loop runs to the end. -/
theorem loop_no_match (h : CapHost) (hmax : h.CCS_MAX_CAPABILITY_INDEX ≤ 255) :
    ∀ (fuel operation : Nat), operation ≤ h.CCS_MAX_CAPABILITY_INDEX →
      h.CCS_MAX_CAPABILITY_INDEX - operation < fuel →
      (∀ i, operation ≤ i → i < h.CCS_MAX_CAPABILITY_INDEX →
        h.ccs_mac_keywords (h.ccs_c2mac i) ≠ h.token) →
      write_capability_loop h fuel operation = some ([], -EINVAL) := by
  intro fuel
  induction fuel with
  | zero => intro operation _ hf; exact absurd hf (by omega)
  | succ fuel ih =>
    intro operation hle hf hno
    unfold write_capability_loop
    by_cases hlt : operation < h.CCS_MAX_CAPABILITY_INDEX
    · rw [if_pos hlt, if_pos ((strcmp_ne _ _).2 (fun hc => hno operation (le_refl _) hlt hc.symm))]
      have hmod : (operation + 1) % 256 = operation + 1 := Nat.mod_eq_of_lt (by omega)
      rw [hmod]
      exact ih (operation + 1) (by omega) (by omega) (fun i hi => hno i (by omega))
    · rw [if_neg hlt]

/-- The first keyword from `operation` on that is the token has index `i`: the
loop ends there. -/
theorem loop_match (h : CapHost) (hmax : h.CCS_MAX_CAPABILITY_INDEX ≤ 255) (i : Nat)
    (hi : i < h.CCS_MAX_CAPABILITY_INDEX)
    (hkw : h.ccs_mac_keywords (h.ccs_c2mac i) = h.token) :
    ∀ (fuel operation : Nat), operation ≤ i → i - operation < fuel →
      (∀ j, operation ≤ j → j < i → h.ccs_mac_keywords (h.ccs_c2mac j) ≠ h.token) →
      write_capability_loop h fuel operation
        = some ([CapEvent.ccs_update_domain i], h.rc_update i) := by
  intro fuel
  induction fuel with
  | zero => intro operation _ hf; exact absurd hf (by omega)
  | succ fuel ih =>
    intro operation hle hf hno
    unfold write_capability_loop
    rw [if_pos (by omega)]
    by_cases hop : operation = i
    · subst hop
      rw [if_neg (fun hc => (strcmp_ne _ _).1 hc hkw.symm)]
    · have hlt : operation < i := by omega
      rw [if_pos ((strcmp_ne _ _).2 (fun hc => hno operation (le_refl _) hlt hc.symm))]
      have hmod : (operation + 1) % 256 = operation + 1 := Nat.mod_eq_of_lt (by omega)
      rw [hmod]
      exact ih (operation + 1) (by omega) (by omega) (fun j hj => hno j (by omega))

end Capability

/-- Claim C29: `ccs_write_capability`, for a `CCS_MAX_CAPABILITY_INDEX` that `e.operation`,
a `u8`, can reach, and with more iterations allowed than that.  The function
returns `-EINVAL` without a call of `ccs_update_domain` if and only if the
token equals none of the keywords `ccs_mac_keywords[ccs_c2mac[i]]` for
`i < CCS_MAX_CAPABILITY_INDEX`.  If `i` is the smallest index whose keyword
equals the token, the function calls `ccs_update_domain` once, with an entry
whose `operation` is `i`, and returns the result of that call. -/
theorem C29_write_capability (h : CapHost) (fuel : Nat)
    (hmax : h.CCS_MAX_CAPABILITY_INDEX ≤ 255) (hfuel : h.CCS_MAX_CAPABILITY_INDEX < fuel) :
    (Capability.ccs_write_capability h fuel = some ([], -EINVAL) ↔
      ∀ i, i < h.CCS_MAX_CAPABILITY_INDEX →
        h.ccs_mac_keywords (h.ccs_c2mac i) ≠ h.token) ∧
    (∀ i, i < h.CCS_MAX_CAPABILITY_INDEX → h.ccs_mac_keywords (h.ccs_c2mac i) = h.token →
      (∀ j, j < i → h.ccs_mac_keywords (h.ccs_c2mac j) ≠ h.token) →
      Capability.ccs_write_capability h fuel
        = some ([CapEvent.ccs_update_domain i], h.rc_update i)) := by
  have hmatch : ∀ i, i < h.CCS_MAX_CAPABILITY_INDEX →
      h.ccs_mac_keywords (h.ccs_c2mac i) = h.token →
      (∀ j, j < i → h.ccs_mac_keywords (h.ccs_c2mac j) ≠ h.token) →
      Capability.ccs_write_capability h fuel
        = some ([CapEvent.ccs_update_domain i], h.rc_update i) := by
    intro i hi hkw hfirst
    exact Capability.loop_match h hmax i hi hkw fuel 0 (Nat.zero_le _) (by omega)
      (fun j _ hj => hfirst j hj)
  refine ⟨⟨?_, ?_⟩, hmatch⟩
  · intro hres i hi hkw
    -- the smallest index whose keyword is the token
    have hex : ∃ k, k < h.CCS_MAX_CAPABILITY_INDEX ∧
        h.ccs_mac_keywords (h.ccs_c2mac k) = h.token := ⟨i, hi, hkw⟩
    classical
    have hk := Nat.find_spec hex
    have hmin : ∀ j, j < Nat.find hex → h.ccs_mac_keywords (h.ccs_c2mac j) ≠ h.token := by
      intro j hj hc
      exact Nat.find_min hex hj ⟨by omega, hc⟩
    rw [hmatch (Nat.find hex) hk.1 hk.2 hmin] at hres
    simp at hres
  · intro hno
    exact Capability.loop_no_match h hmax fuel 0 (Nat.zero_le _) (by omega)
      (fun i _ hi => hno i hi)

/-- With the keywords `net`, `reboot`, `nice` and the token `reboot`, the entry
has `operation` 1. -/
theorem C29_write_capability_witness :
    (Capability.demoCapHost.CCS_MAX_CAPABILITY_INDEX ≤ 255 ∧
      Capability.demoCapHost.CCS_MAX_CAPABILITY_INDEX < 4) ∧
    Capability.ccs_write_capability Capability.demoCapHost 4
      = some ([CapEvent.ccs_update_domain 1], Capability.demoCapHost.rc_update 1) :=
  ⟨⟨by decide, by decide⟩,
    (C29_write_capability Capability.demoCapHost 4 (by decide) (by decide)).2 1 (by decide)
      (by decide) (by decide)⟩

/-! ## The in-flight counter: C26 -/

namespace Lsm2629

theorem Counted_same (s t : State) (hp : ∀ p, InFlight t p ↔ InFlight s p)
    (hc : t.ccs_in_execve_tasks = s.ccs_in_execve_tasks) (hs : Counted s) : Counted t := by
  obtain ⟨L, hn, hm, hl⟩ := hs
  exact ⟨L, hn, fun p => (hm p).trans (hp p).symm, hc.trans hl⟩

theorem Counted_add (s t : State) (x : Ptr) (hx : ¬ InFlight s x)
    (hp : ∀ p, InFlight t p ↔ (InFlight s p ∨ p = x))
    (hc : t.ccs_in_execve_tasks = s.ccs_in_execve_tasks + 1) (hs : Counted s) : Counted t := by
  obtain ⟨L, hn, hm, hl⟩ := hs
  refine ⟨x :: L, List.nodup_cons.2 ⟨fun hc2 => hx ((hm x).1 hc2), hn⟩, ?_, ?_⟩
  · intro p
    rw [hp p, List.mem_cons, hm p]
    exact or_comm
  · rw [hc, hl, List.length_cons]
    push_cast
    ring

theorem Counted_remove (s t : State) (x : Ptr) (hx : InFlight s x)
    (hp : ∀ p, InFlight t p ↔ (InFlight s p ∧ p ≠ x))
    (hc : t.ccs_in_execve_tasks = s.ccs_in_execve_tasks - 1) (hs : Counted s) : Counted t := by
  obtain ⟨L, hn, hm, hl⟩ := hs
  have hxL : x ∈ L := (hm x).2 hx
  refine ⟨L.erase x, hn.erase x, ?_, ?_⟩
  · intro p
    rw [hp p, hn.mem_erase_iff, hm p]
    exact and_comm
  · rw [hc, hl, List.length_erase_of_mem hxL]
    have : 0 < L.length := List.length_pos_of_mem hxL
    omega

theorem Counted_nonneg (s : State) (hs : Counted s) : 0 ≤ s.ccs_in_execve_tasks := by
  obtain ⟨L, _, _, hl⟩ := hs
  rw [hl]
  exact Int.natCast_nonneg _

/-- A change of the log, of `ee_mem` or of `gc_counter` only. -/
theorem CounterInv_congr (h : Host) (s t : State) (hs : CounterInv h s) (hm : t.mem = s.mem)
    (ht : t.ccs_task_security_list = s.ccs_task_security_list)
    (hc : t.ccs_cred_security_list = s.ccs_cred_security_list) (hr : t.rcu = s.rcu)
    (hn : t.ccs_in_execve_tasks = s.ccs_in_execve_tasks) : CounterInv h t := by
  obtain ⟨h1, h2, h3, h4, h5, h6⟩ := hs
  have hlive : ∀ p, Live t p ↔ Live s p := by
    intro p
    unfold Live
    rw [ht, hr]
  refine ⟨?_, ?_, ?_, ?_, ?_, ?_⟩
  · intro i p hp
    rw [ht] at hp
    rw [hm]
    exact h1 i p hp
  · intro i p hp
    rw [hc] at hp
    rw [hm]
    exact h2 i p hp
  · rw [hm]; exact h3
  · intro p hp
    rw [hm]
    exact h4 p ((hlive p).1 hp)
  · intro p hp i
    rw [hr] at hp
    rw [ht]
    exact h5 p hp i
  · refine Counted_same s t ?_ hn h6
    intro p
    unfold InFlight
    rw [hlive p, hm]

/-- A store to a record that is `Calm` before and after. -/
theorem CounterInv_store_calm (h : Host) (s : State) (x : Ptr) (r : ccs_security)
    (hs : CounterInv h s) (hx : Calm h (s.mem x)) (hr : Calm h r) :
    CounterInv h (s.store x r) := by
  obtain ⟨h1, h2, h3, h4, h5, h6⟩ := hs
  have hpid : ∀ p, ((s.store x r).mem p).pid = (s.mem p).pid := by
    intro p
    by_cases hp : p = x
    · rw [store_mem, if_pos hp, hp, hr.1, hx.1]
    · rw [store_mem, if_neg hp]
  have hother : ∀ p, (s.mem p).pid ≠ NULL → (s.store x r).mem p = s.mem p := by
    intro p hp
    have : p ≠ x := fun hc => hp (hc ▸ hx.1)
    rw [store_mem, if_neg this]
  refine ⟨?_, ?_, ?_, ?_, h5, ?_⟩
  · intro i p hp
    show ((s.store x r).mem p).pid ≠ NULL
    rw [hpid]
    exact h1 i p hp
  · intro i p hp
    by_cases hpx : p = x
    · rw [store_mem, if_pos hpx]; exact hr
    · rw [store_mem, if_neg hpx]; exact h2 i p hp
  · by_cases hpx : ccs_default_security = x
    · rw [store_mem, if_pos hpx]; exact hr
    · rw [store_mem, if_neg hpx]; exact h3
  · intro p hp hpp
    rw [hpid] at hpp
    rw [hother p hpp]
    exact h4 p hp hpp
  · refine Counted_same s _ ?_ rfl h6
    intro p
    unfold InFlight
    constructor
    · rintro ⟨hl, hpp, he⟩
      rw [hpid] at hpp
      rw [hother p hpp] at he
      exact ⟨hl, hpp, he⟩
    · rintro ⟨hl, hpp, he⟩
      refine ⟨hl, by rw [hpid]; exact hpp, by rw [hother p hpp]; exact he⟩

/-- A change of one record `x` of the task table that keeps its `pid`, with the
counter moved by one when `ee` comes or goes. -/
theorem CounterInv_task (h : Host) (s t : State) (x : Ptr) (hs : CounterInv h s)
    (hx : ∃ i, x ∈ s.ccs_task_security_list i)
    (ht : t.ccs_task_security_list = s.ccs_task_security_list)
    (hc : t.ccs_cred_security_list = s.ccs_cred_security_list) (hr : t.rcu = s.rcu)
    (hm : ∀ q, q ≠ x → t.mem q = s.mem q) (hpid : (t.mem x).pid = (s.mem x).pid)
    (hmark : (t.mem x).ee ≠ NULL ↔ Marked h (t.mem x))
    (hn : t.ccs_in_execve_tasks = s.ccs_in_execve_tasks
      + (if (t.mem x).ee ≠ NULL then 1 else 0) - (if (s.mem x).ee ≠ NULL then 1 else 0)) :
    CounterInv h t := by
  obtain ⟨h1, h2, h3, h4, h5, h6⟩ := hs
  obtain ⟨i0, hi0⟩ := hx
  have hxpid : (s.mem x).pid ≠ NULL := h1 i0 x hi0
  have hlive : ∀ p, Live t p ↔ Live s p := by
    intro p
    unfold Live
    rw [ht, hr]
  have hxl : Live s x := Or.inl ⟨i0, hi0⟩
  have hpids : ∀ p, (t.mem p).pid = (s.mem p).pid := by
    intro p
    by_cases hp : p = x
    · rw [hp, hpid]
    · rw [hm p hp]
  have hcalm : ∀ p, Calm h (s.mem p) → t.mem p = s.mem p := by
    intro p hp
    exact hm p (fun hc2 => hxpid (hc2 ▸ hp.1))
  refine ⟨?_, ?_, ?_, ?_, ?_, ?_⟩
  · intro i p hp
    rw [ht] at hp
    show (t.mem p).pid ≠ NULL
    rw [hpids]
    exact h1 i p hp
  · intro i p hp
    rw [hc] at hp
    rw [hcalm p (h2 i p hp)]
    exact h2 i p hp
  · rw [hcalm _ h3]; exact h3
  · intro p hp hpp
    by_cases hpx : p = x
    · rw [hpx]; exact hmark
    · rw [hm p hpx] at hpp ⊢
      exact h4 p ((hlive p).1 hp) hpp
  · intro p hp i
    rw [hr] at hp
    rw [ht]
    exact h5 p hp i
  · have hfl : ∀ p, p ≠ x → (InFlight t p ↔ InFlight s p) := by
      intro p hp
      unfold InFlight
      rw [hlive p, hm p hp]
    by_cases hs1 : (s.mem x).ee ≠ NULL <;> by_cases ht1 : (t.mem x).ee ≠ NULL
    · rw [if_pos hs1, if_pos ht1] at hn
      refine Counted_same s t ?_ (by omega) h6
      intro p
      by_cases hp : p = x
      · rw [hp]
        unfold InFlight
        rw [hlive x, hpid]
        exact ⟨fun _ => ⟨hxl, hxpid, hs1⟩, fun _ => ⟨hxl, hxpid, ht1⟩⟩
      · exact hfl p hp
    · rw [if_pos hs1, if_neg ht1] at hn
      refine Counted_remove s t x ⟨hxl, hxpid, hs1⟩ ?_ (by omega) h6
      intro p
      by_cases hp : p = x
      · rw [hp]
        constructor
        · intro hf; exact absurd hf.2.2 ht1
        · intro hf; exact absurd rfl hf.2
      · rw [hfl p hp]
        exact ⟨fun hf => ⟨hf, hp⟩, fun hf => hf.1⟩
    · rw [if_neg hs1, if_pos ht1] at hn
      refine Counted_add s t x (fun hf => hs1 hf.2.2) ?_ (by omega) h6
      intro p
      by_cases hp : p = x
      · rw [hp]
        refine ⟨fun _ => Or.inr rfl, fun _ => ⟨(hlive x).2 hxl, by rw [hpid]; exact hxpid, ht1⟩⟩
      · rw [hfl p hp]
        exact ⟨fun hf => Or.inl hf, fun hf => hf.resolve_right hp⟩
    · rw [if_neg hs1, if_neg ht1] at hn
      refine Counted_same s t ?_ (by omega) h6
      intro p
      by_cases hp : p = x
      · rw [hp]
        exact ⟨fun hf => absurd hf.2.2 ht1, fun hf => absurd hf.2.2 hs1⟩
      · exact hfl p hp

theorem not_Marked_reconciled (h : Host) (r : ccs_security) (f : Nat)
    (hc : h.KERNEL_LT_2_6_31 = true → r.cred = NULL) (hf : r.ccs_flags = clear_in_execve_flag f) :
    ¬ Marked h r := by
  unfold Marked
  by_cases hk : h.KERNEL_LT_2_6_31 = true
  · rw [if_pos hk]
    exact fun hn => hn (hc hk)
  · rw [if_neg hk, hf, flag_clear]
    exact Bool.false_ne_true

theorem CounterInv_reconciled (h : Host) (ret : Int) (ptr : Ptr) (s : State)
    (hs : CounterInv h s) (hl : task_lookup h s h.current = some ptr)
    (he : (s.mem ptr).ee ≠ NULL) : CounterInv h (reconciled h ret ptr s) := by
  have hnm : ¬ Marked h ((reconciled h ret ptr s).mem ptr) := by
    apply not_Marked_reconciled h _ (s.mem ptr).ccs_flags
    · intro hk
      simp [reconciled, hk]
    · simp [reconciled]
  have hee : ((reconciled h ret ptr s).mem ptr).ee = NULL := by simp [reconciled]
  refine CounterInv_task h s _ ptr hs ⟨_, (task_lookup_some h s _ ptr hl).1⟩ rfl rfl rfl ?_ ?_
    ?_ ?_
  · intro q hq
    simp [reconciled, hq]
  · simp [reconciled]
  · rw [hee]
    exact ⟨fun hc => absurd rfl hc, fun hc => absurd hc hnm⟩
  · rw [hee, if_neg (not_not.2 rfl), if_pos he]
    show s.ccs_in_execve_tasks - 1 = _
    omega

theorem not_Marked_calm (h : Host) (r src : ccs_security) (hsrc : Calm h src)
    (hc : r.cred = NULL) (hf : r.ccs_flags = src.ccs_flags) : ¬ Marked h r := by
  unfold Marked
  by_cases hk : h.KERNEL_LT_2_6_31 = true
  · rw [if_pos hk]
    exact fun hn => hn hc
  · rw [if_neg hk, hf, hsrc.2.2 (by simpa using hk)]
    exact Bool.false_ne_true

theorem find_cred_calm (h : Host) (s : State) (c : Ptr) (hs : CounterInv h s) :
    Calm h (s.mem (ccs_find_cred_security h s c)) := by
  rcases find_cred_cases h s c with hc | hc
  · rw [hc]
    exact hs.2.2.1
  · exact hs.2.1 _ _ hc.1

theorem CounterInv_allocated (h : Host) (kz : Ptr) (s : State) (hs : CounterInv h s)
    (hf : Fresh s kz) (hrcu : kz ∉ s.rcu) (hh : OnHeap kz)
    (hpid : h.task_pid h.current ≠ NULL) : CounterInv h (allocated h kz s) := by
  have hsrc := find_cred_calm h s (h.task_cred h.current) hs
  obtain ⟨h1, h2, h3, h4, h5, h6⟩ := hs
  have hkz : (allocated h kz s).mem kz =
      { s.mem (ccs_find_cred_security h s (h.task_cred h.current)) with
        pid := h.task_pid h.current, cred := NULL } := by
    simp [allocated]
  have hother : ∀ q, q ≠ kz → (allocated h kz s).mem q = s.mem q := by
    intro q hq
    simp [allocated, hq]
  have hlist : ∀ i p, p ∈ (allocated h kz s).ccs_task_security_list i →
      p = kz ∨ p ∈ s.ccs_task_security_list i := by
    intro i p hp
    simp only [allocated] at hp
    split_ifs at hp
    · exact List.mem_cons.1 hp
    · exact Or.inr hp
  have hlist2 : ∀ i p, p ∈ s.ccs_task_security_list i →
      p ∈ (allocated h kz s).ccs_task_security_list i := by
    intro i p hp
    simp only [allocated]
    split_ifs
    · exact List.mem_cons_of_mem _ hp
    · exact hp
  have hnl : ¬ Live s kz := by
    rintro (⟨i, hi⟩ | hi)
    · exact (hf i).1 hi
    · exact hrcu hi
  have hlive : ∀ p, p ≠ kz → (Live (allocated h kz s) p ↔ Live s p) := by
    intro p hp
    constructor
    · rintro (⟨i, hi⟩ | hi)
      · exact Or.inl ⟨i, (hlist i p hi).resolve_left hp⟩
      · exact Or.inr hi
    · rintro (⟨i, hi⟩ | hi)
      · exact Or.inl ⟨i, hlist2 i p hi⟩
      · exact Or.inr hi
  have hkee : ((allocated h kz s).mem kz).ee = NULL := by
    rw [hkz]
    exact hsrc.2.1
  refine ⟨?_, ?_, ?_, ?_, ?_, ?_⟩
  · intro i p hp
    rcases hlist i p hp with hk | hk
    · rw [hk, hkz]
      exact hpid
    · have : p ≠ kz := fun hc => (hf i).1 (hc ▸ hk)
      rw [hother p this]
      exact h1 i p hk
  · intro i p hp
    have hp2 : p ∈ s.ccs_cred_security_list i := hp
    have : p ≠ kz := fun hc => (hf i).2 (hc ▸ hp2)
    rw [hother p this]
    exact h2 i p hp2
  · rw [hother _ (fun hc => hh.1 hc.symm)]
    exact h3
  · intro p hp hpp
    by_cases hpk : p = kz
    · rw [hpk, hkee]
      refine ⟨fun hc => absurd rfl hc, fun hc => absurd hc ?_⟩
      apply not_Marked_calm h _ _ hsrc
      · rw [hkz]
      · rw [hkz]
    · rw [hother p hpk] at hpp ⊢
      exact h4 p ((hlive p hpk).1 hp) hpp
  · intro p hp i hc
    have hp2 : p ∈ s.rcu := hp
    rcases hlist i p hc with hk | hk
    · exact hrcu (hk ▸ hp2)
    · exact h5 p hp2 i hk
  · refine Counted_same s _ ?_ rfl h6
    intro p
    by_cases hpk : p = kz
    · rw [hpk]
      exact ⟨fun hf2 => absurd hkee hf2.2.2, fun hf2 => absurd hf2.1 hnl⟩
    · unfold InFlight
      rw [hlive p hpk, hother p hpk]

theorem CounterInv_find (h : Host) (kz : Ptr) (s : State) (task : Ptr) (hs : CounterInv h s)
    (hf : kz = NULL ∨ (Fresh s kz ∧ kz ∉ s.rcu ∧ OnHeap kz))
    (hpid : h.task_pid h.current ≠ NULL) :
    CounterInv h (ccs_find_task_security h kz s task).1 := by
  by_cases hne : task = h.current
  · subst hne
    rcases find_current_cases h kz s with ⟨ptr, _, he⟩ | ⟨ptr, hl, _, _, hee, he⟩ | ⟨_, _, he⟩ |
      ⟨_, hkz, he⟩
    · rw [he]; exact hs
    · rw [he]; exact CounterInv_reconciled h (-1) ptr s hs hl hee
    · rw [he]; exact CounterInv_congr h s _ hs rfl rfl rfl rfl rfl
    · rw [he]
      obtain ⟨h1, h2, h3⟩ := hf.resolve_left hkz
      exact CounterInv_allocated h kz s hs h1 h2 h3 hpid
  · rw [find_other h kz s task hne]
    exact hs

theorem CounterInv_clear_current (h : Host) (ret : Int) (ptr : Ptr) (s : State)
    (hs : CounterInv h s) (hl : task_lookup h s h.current = some ptr) :
    CounterInv h (ccs_clear_execve h ret ptr s) := by
  rcases clear_execve_current_cases h ret ptr s hl with hc | ⟨_, _, he, hc⟩
  · rw [hc]; exact hs
  · rw [hc]; exact CounterInv_reconciled h ret ptr s hs hl he

/-- What `ccs_bprm_check_security` does to the record `sec` of the running
task when that record holds no Transition Record: `ccs_start_execve` leaves
`start_ee` there, and the counter goes up by one exactly when `start_ee` is
not `NULL`, whatever `ccs_start_execve` returns. -/
theorem bprm_check_after_attach (h : Host) (start_rc : Int) (start_ee start_domain : Ptr)
    (rc_orig : Int) (sec : Ptr) (s1 : State) (bprm_cred : Ptr)
    (hd : ¬ (sec = ccs_default_security ∨ sec = ccs_oom_security))
    (he : (s1.mem sec).ee = NULL) :
    (bprm_check_after h start_rc start_ee start_domain rc_orig sec s1 bprm_cred).1.rcu
      = s1.rcu ∧
    (bprm_check_after h start_rc start_ee start_domain rc_orig sec s1
        bprm_cred).1.ccs_in_execve_tasks
      = s1.ccs_in_execve_tasks + (if start_ee ≠ NULL then 1 else 0) ∧
    ((bprm_check_after h start_rc start_ee start_domain rc_orig sec s1 bprm_cred).1.mem sec).ee
      = start_ee ∧
    (start_ee ≠ NULL → (h.KERNEL_LT_2_6_31 = true → bprm_cred ≠ NULL) →
      Marked h ((bprm_check_after h start_rc start_ee start_domain rc_orig sec s1
        bprm_cred).1.mem sec)) ∧
    (start_ee = NULL →
      (bprm_check_after h start_rc start_ee start_domain rc_orig sec s1 bprm_cred).1.mem sec
        = s1.mem sec) := by
  unfold bprm_check_after
  rw [if_neg hd, if_pos he]
  unfold ccs_start_execve
  dsimp only
  by_cases hee : start_ee = NULL <;> cases hk : h.KERNEL_LT_2_6_31 <;>
    by_cases hrc : start_rc = 0 <;>
    simp [hee, hk, hrc, he, Marked, flag_set]

theorem bprm_check_after_busy (h : Host) (start_rc : Int) (start_ee start_domain : Ptr)
    (rc_orig : Int) (sec : Ptr) (s1 : State) (bprm_cred : Ptr)
    (hd : (sec = ccs_default_security ∨ sec = ccs_oom_security) ∨ (s1.mem sec).ee ≠ NULL) :
    (bprm_check_after h start_rc start_ee start_domain rc_orig sec s1 bprm_cred).1.mem = s1.mem ∧
    (bprm_check_after h start_rc start_ee start_domain rc_orig sec s1 bprm_cred).1.rcu = s1.rcu ∧
    (bprm_check_after h start_rc start_ee start_domain rc_orig sec s1
        bprm_cred).1.ccs_in_execve_tasks = s1.ccs_in_execve_tasks := by
  unfold bprm_check_after
  by_cases hs : sec = ccs_default_security ∨ sec = ccs_oom_security
  · rw [if_pos hs]
    exact ⟨rfl, rfl, rfl⟩
  · rw [if_neg hs, if_neg (hd.resolve_left hs)]
    exact ⟨rfl, rfl, rfl⟩

theorem CounterInv_bprm_check (h : Host) (kz : Ptr) (start_rc : Int)
    (start_ee start_domain : Ptr) (rc_orig : Int) (s : State) (bprm_cred : Ptr)
    (hs : CounterInv h s) (hf : kz = NULL ∨ (Fresh s kz ∧ kz ∉ s.rcu ∧ OnHeap kz))
    (hpid : h.task_pid h.current ≠ NULL) (hb : h.KERNEL_LT_2_6_31 = true → bprm_cred ≠ NULL) :
    CounterInv h
      (ccs_bprm_check_security h kz start_rc start_ee start_domain rc_orig s bprm_cred).1 := by
  have hp1 := CounterInv_find h kz s h.current hs hf hpid
  rw [bprm_check_eq]
  obtain ⟨f1, f2, f3, f4⟩ := bprm_check_after_frame h start_rc start_ee start_domain rc_orig
    (ccs_find_task_security h kz s h.current).2
    (ccs_find_task_security h kz s h.current).1 bprm_cred
  by_cases hd : ((ccs_find_task_security h kz s h.current).2 = ccs_default_security ∨
      (ccs_find_task_security h kz s h.current).2 = ccs_oom_security) ∨
      ((ccs_find_task_security h kz s h.current).1.mem
        (ccs_find_task_security h kz s h.current).2).ee ≠ NULL
  · obtain ⟨g1, g2, g3⟩ := bprm_check_after_busy h start_rc start_ee start_domain rc_orig
      _ _ bprm_cred hd
    exact CounterInv_congr h _ _ hp1 g1 f1 f2 g2 g3
  · have hsent : ¬ ((ccs_find_task_security h kz s h.current).2 = ccs_default_security ∨
        (ccs_find_task_security h kz s h.current).2 = ccs_oom_security) :=
      fun hc => hd (Or.inl hc)
    have hee : ((ccs_find_task_security h kz s h.current).1.mem
        (ccs_find_task_security h kz s h.current).2).ee = NULL := by
      by_contra hc
      exact hd (Or.inr hc)
    have hl := find_current_lookup h kz s (fun hc => hsent (Or.inr hc))
    have hin := (task_lookup_some h _ _ _ hl).1
    obtain ⟨g1, g2, g3, g4, g5⟩ := bprm_check_after_attach h start_rc start_ee start_domain
      rc_orig _ _ bprm_cred hsent hee
    refine CounterInv_task h _ _ (ccs_find_task_security h kz s h.current).2 hp1 ⟨_, hin⟩
      f1 f2 g1 f4 (f3 _) ?_ ?_
    · rw [g3]
      by_cases hse : start_ee = NULL
      · rw [g5 hse]
        have := hp1.2.2.2.1 _ (Or.inl ⟨_, hin⟩) (hp1.1 _ _ hin)
        rw [hee] at this
        rw [hse]
        exact this
      · exact ⟨fun _ => g4 hse hb, fun _ => hse⟩
    · rw [g2, g3, hee, if_neg (not_not.2 rfl)]
      omega

theorem CounterInv_committing (h : Host) (kz : Ptr) (s : State) (bprm_cred : Ptr)
    (hs : CounterInv h s) (hf : kz = NULL ∨ (Fresh s kz ∧ kz ∉ s.rcu ∧ OnHeap kz))
    (hpid : h.task_pid h.current ≠ NULL) :
    CounterInv h (ccs_bprm_committing_creds h kz s bprm_cred) := by
  have hs0 : CounterInv h (s.emit (Event.original_hook "bprm_committing_creds")) :=
    CounterInv_congr h s _ hs rfl rfl rfl rfl rfl
  have hp1 := CounterInv_find h kz _ h.current hs0 hf hpid
  unfold ccs_bprm_committing_creds ccs_current_security
  dsimp only
  generalize hr : ccs_find_task_security h kz
      (s.emit (Event.original_hook "bprm_committing_creds")) h.current = r at hp1
  by_cases hd : r.2 = ccs_default_security ∨ r.2 = ccs_oom_security
  · rw [if_pos hd]
    exact hp1
  · rw [if_neg hd]
    have hl : task_lookup h r.1 h.current = some r.2 := by
      rw [← hr]
      apply find_current_lookup
      rw [hr]
      exact fun hc => hd (Or.inr hc)
    have hclear := CounterInv_clear_current h 0 r.2 r.1 hp1 hl
    have hee : ((ccs_clear_execve h 0 r.2 r.1).mem r.2).ee = NULL :=
      clear_execve_ee h 0 r.2 r.1 (fun hc => hd (Or.inl hc)) (fun hc => hd (Or.inr hc))
    have hin : r.2 ∈ (ccs_clear_execve h 0 r.2 r.1).ccs_task_security_list
        (h.hash_ptr h.current) := by
      rw [clear_task_list]
      exact (task_lookup_some h _ _ _ hl).1
    have hflag : h.KERNEL_LT_2_6_31 = false →
        in_execve_flag ((ccs_clear_execve h 0 r.2 r.1).mem r.2).ccs_flags = false := by
      intro hk
      have hmi := hclear.2.2.2.1 r.2 (Or.inl ⟨_, hin⟩) (hclear.1 _ _ hin)
      rw [hee] at hmi
      have hnm : ¬ Marked h ((ccs_clear_execve h 0 r.2 r.1).mem r.2) :=
        fun hc => (hmi.2 hc) rfl
      unfold Marked at hnm
      rw [hk, if_neg Bool.false_ne_true] at hnm
      simpa using hnm
    generalize ccs_clear_execve h 0 r.2 r.1 = s1 at hclear hflag
    have hcalm := find_cred_calm h s1 bprm_cred hclear
    generalize ccs_find_cred_security h s1 bprm_cred = nw at hcalm
    have hstep1 : CounterInv h (s1.store nw
        { s1.mem nw with ccs_flags := (s1.mem r.2).ccs_flags }) :=
      CounterInv_store_calm h s1 nw _ hclear hcalm ⟨hcalm.1, hcalm.2.1, hflag⟩
    apply CounterInv_store_calm h _ nw _ hstep1
    · rw [store_mem, if_pos rfl]
      exact ⟨hcalm.1, hcalm.2.1, hflag⟩
    · rw [store_mem, if_pos rfl]
      exact ⟨hcalm.1, hcalm.2.1, hflag⟩

theorem CounterInv_del (h : Host) (s : State) (ptr : Ptr) (hs : CounterInv h s)
    (hlinked : (∃ i, ptr ∈ s.ccs_task_security_list i) ∨
      (∃ i, ptr ∈ s.ccs_cred_security_list i)) :
    CounterInv h (ccs_del_security s ptr) := by
  unfold ccs_del_security
  by_cases hd : ptr = ccs_default_security ∨ ptr = ccs_oom_security
  · rw [if_pos hd]
    exact hs
  · rw [if_neg hd]
    obtain ⟨h1, h2, h3, h4, h5, h6⟩ := hs
    have hptr : (s.mem ptr).pid ≠ NULL → Live s ptr := by
      intro hp
      rcases hlinked with hl | ⟨i, hi⟩
      · exact Or.inl hl
      · exact absurd (h2 i ptr hi).1 hp
    have hlive1 : ∀ p, Live { list_del_rcu s ptr with rcu := (list_del_rcu s ptr).rcu ++ [ptr] } p →
        (s.mem p).pid ≠ NULL → Live s p := by
      rintro p (⟨i, hi⟩ | hi) hp
      · exact Or.inl ⟨i, (List.mem_filter.1 hi).1⟩
      · rcases List.mem_append.1 hi with hi | hi
        · exact Or.inr hi
        · rw [List.mem_singleton.1 hi]
          exact hptr (by rw [← List.mem_singleton.1 hi]; exact hp)
    have hlive2 : ∀ p, Live s p →
        Live { list_del_rcu s ptr with rcu := (list_del_rcu s ptr).rcu ++ [ptr] } p := by
      rintro p (⟨i, hi⟩ | hi)
      · by_cases hp : p = ptr
        · exact Or.inr (List.mem_append.2 (Or.inr (List.mem_singleton.2 hp)))
        · exact Or.inl ⟨i, List.mem_filter.2 ⟨hi, by simpa using hp⟩⟩
      · exact Or.inr (List.mem_append.2 (Or.inl hi))
    refine ⟨?_, ?_, h3, ?_, ?_, ?_⟩
    · intro i p hp
      exact h1 i p (List.mem_filter.1 hp).1
    · intro i p hp
      exact h2 i p (List.mem_filter.1 hp).1
    · intro p hp hpp
      exact h4 p (hlive1 p hp hpp) hpp
    · intro p hp i hc
      have hc2 := List.mem_filter.1 hc
      rcases List.mem_append.1 hp with hp | hp
      · exact h5 p hp i hc2.1
      · have : p = ptr := List.mem_singleton.1 hp
        simp [this] at hc2
    · refine Counted_same s _ ?_ rfl h6
      intro p
      exact ⟨fun hf => ⟨hlive1 p hf.1 hf.2.1, hf.2.1, hf.2.2⟩,
        fun hf => ⟨hlive2 p hf.1, hf.2.1, hf.2.2⟩⟩

/-- What `ccs_rcu_free` changes. -/
theorem rcu_free_frame (h : Host) (s : State) (ptr : Ptr) :
    (ccs_rcu_free h s ptr).mem = s.mem ∧
    (ccs_rcu_free h s ptr).ccs_task_security_list = s.ccs_task_security_list ∧
    (ccs_rcu_free h s ptr).ccs_cred_security_list = s.ccs_cred_security_list ∧
    (ccs_rcu_free h s ptr).rcu = s.rcu.filter (fun q => q != ptr) ∧
    (ccs_rcu_free h s ptr).ccs_in_execve_tasks
      = s.ccs_in_execve_tasks
        - (if (s.mem ptr).pid ≠ NULL ∧ Marked h (s.mem ptr) then 1 else 0) := by
  unfold ccs_rcu_free
  dsimp only
  cases hk : h.KERNEL_LT_2_6_31 <;>
    by_cases hp : (s.mem ptr).pid = NULL <;>
    by_cases he : (s.mem ptr).ee = NULL <;>
    by_cases hc : (s.mem ptr).cred = NULL <;>
    by_cases hf : in_execve_flag (s.mem ptr).ccs_flags = true <;>
    simp [Marked, hk, hp, he, hc, hf]

theorem CounterInv_rcu_free (h : Host) (s : State) (ptr : Ptr) (hs : CounterInv h s)
    (hq : ptr ∈ s.rcu) : CounterInv h (ccs_rcu_free h s ptr) := by
  obtain ⟨f1, f2, f3, f4, f5⟩ := rcu_free_frame h s ptr
  obtain ⟨h1, h2, h3, h4, h5, h6⟩ := hs
  have hlive1 : ∀ p, Live (ccs_rcu_free h s ptr) p → Live s p ∧ p ≠ ptr := by
    rintro p (⟨i, hi⟩ | hi)
    · rw [f2] at hi
      exact ⟨Or.inl ⟨i, hi⟩, fun hc => h5 ptr hq i (hc ▸ hi)⟩
    · rw [f4] at hi
      have := List.mem_filter.1 hi
      exact ⟨Or.inr this.1, by simpa using this.2⟩
  have hlive2 : ∀ p, Live s p → p ≠ ptr → Live (ccs_rcu_free h s ptr) p := by
    rintro p (⟨i, hi⟩ | hi) hp
    · exact Or.inl ⟨i, by rw [f2]; exact hi⟩
    · exact Or.inr (by rw [f4]; exact List.mem_filter.2 ⟨hi, by simpa using hp⟩)
  have hfl : ∀ p, InFlight (ccs_rcu_free h s ptr) p ↔ (InFlight s p ∧ p ≠ ptr) := by
    intro p
    unfold InFlight
    rw [f1]
    exact ⟨fun hf => ⟨⟨(hlive1 p hf.1).1, hf.2⟩, (hlive1 p hf.1).2⟩,
      fun hf => ⟨hlive2 p hf.1.1 hf.2, hf.1.2⟩⟩
  refine ⟨?_, ?_, ?_, ?_, ?_, ?_⟩
  · intro i p hp
    rw [f2] at hp
    rw [f1]
    exact h1 i p hp
  · intro i p hp
    rw [f3] at hp
    rw [f1]
    exact h2 i p hp
  · rw [f1]; exact h3
  · intro p hp
    rw [f1]
    exact h4 p (hlive1 p hp).1
  · intro p hp i
    rw [f4] at hp
    rw [f2]
    exact h5 p (List.mem_filter.1 hp).1 i
  · by_cases hin : InFlight s ptr
    · refine Counted_remove s _ ptr hin hfl ?_ h6
      rw [f5, if_pos ⟨hin.2.1, (h4 ptr hin.1 hin.2.1).1 hin.2.2⟩]
    · refine Counted_same s _ ?_ ?_ h6
      · intro p
        rw [hfl p]
        exact ⟨fun hf => hf.1, fun hf => ⟨hf, fun hc => hin (hc ▸ hf)⟩⟩
      · rw [f5, if_neg, sub_zero]
        rintro ⟨hp, hm⟩
        exact hin ⟨Or.inr hq, hp, (h4 ptr (Or.inr hq) hp).2 hm⟩

/-- What the sweep changes: it moves records from the task table to the
queue of `call_rcu`. -/
theorem gc_live (h : Host) (trylock : Bool) (s : State) :
    (ccs_task_security_gc h trylock s).ccs_in_execve_tasks = s.ccs_in_execve_tasks ∧
    (∀ p, Live (ccs_task_security_gc h trylock s) p ↔ Live s p) ∧
    (RcuApart s → RcuApart (ccs_task_security_gc h trylock s)) := by
  have hsweep : ∀ s0 : State,
      (gc_sweep h trylock s0).ccs_in_execve_tasks = s0.ccs_in_execve_tasks ∧
      (∀ p, Live (gc_sweep h trylock s0) p ↔ Live s0 p) ∧
      (RcuApart s0 → RcuApart (gc_sweep h trylock s0)) := by
    intro s0
    cases trylock
    · exact ⟨rfl, fun _ => Iff.rfl, fun hr => hr⟩
    · obtain ⟨hf, ht, _, hrcu⟩ := gc_sweep_spec h s0
      refine ⟨hf.counter, ?_, ?_⟩
      · intro p
        constructor
        · rintro (⟨i, hi⟩ | hi)
          · rw [ht i] at hi
            exact Or.inl ⟨i, (List.mem_filter.1 hi).1⟩
          · rcases (hrcu p).1 hi with hi | ⟨_, j, _, hj⟩
            · exact Or.inr hi
            · exact Or.inl ⟨j, hj⟩
        · rintro (⟨i, hi⟩ | hi)
          · by_cases hrem : removable h s0.mem p ∧
                ∃ j ∈ List.range h.CCS_MAX_TASK_SECURITY_HASH, p ∈ s0.ccs_task_security_list j
            · exact Or.inr ((hrcu p).2 (Or.inr hrem))
            · left
              refine ⟨i, ?_⟩
              rw [ht i]
              exact List.mem_filter.2 ⟨hi, decide_eq_true hrem⟩
          · exact Or.inr ((hrcu p).2 (Or.inl hi))
      · intro hr p hp i hc
        rw [ht i] at hc
        have hc2 := List.mem_filter.1 hc
        rcases (hrcu p).1 hp with hp | hp
        · exact hr p hp i hc2.1
        · exact (of_decide_eq_true hc2.2) hp
  unfold ccs_task_security_gc
  by_cases hc : s.ccs_in_execve_tasks = 0
  · rw [if_pos hc]
    dsimp only
    by_cases hg : s.gc_counter + 1 < 1024
    · rw [if_pos hg]
      exact ⟨rfl, fun _ => Iff.rfl, fun hr => hr⟩
    · rw [if_neg hg]
      exact hsweep _
  · rw [if_neg hc]
    exact hsweep s

theorem CounterInv_gc (h : Host) (trylock : Bool) (s : State) (hs : CounterInv h s) :
    CounterInv h (ccs_task_security_gc h trylock s) := by
  obtain ⟨g1, g2, g3⟩ := gc_live h trylock s
  have hsh := Shrinks_gc h trylock s
  obtain ⟨h1, h2, h3, h4, h5, h6⟩ := hs
  refine ⟨TaskAll_shrinks _ s _ hsh h1, CredAll_shrinks _ s _ hsh h2, ?_, ?_, g3 h5, ?_⟩
  · rw [hsh.mem]; exact h3
  · intro p hp
    rw [hsh.mem]
    exact h4 p ((g2 p).1 hp)
  · refine Counted_same s _ ?_ g1 h6
    intro p
    unfold InFlight
    rw [g2 p, hsh.mem]

end Lsm2629

/-- Claim C26: the in-flight counter of `lsm-2.6.29.c`.  `CounterInv` holds after
`ccs_init` and is preserved by `ccs_find_task_security`,
`ccs_bprm_check_security`, `ccs_bprm_committing_creds`, `ccs_del_security` on
a linked record, `ccs_rcu_free` on a record handed to `call_rcu`, and
`ccs_task_security_gc`, given that what `kzalloc` returns is `NULL` or a record
that is neither linked, nor waiting to be freed, nor a dummy, that the running
task has a `struct pid`, and that `bprm->cred` is not `NULL`.  In every state
with `CounterInv` the counter `ccs_in_execve_tasks` is the number of records
that are linked on the task table or wait to be freed, have a `pid` and hold a
Transition Record (`Counted`), and it is not negative.  When
`ccs_bprm_check_security` finds the record of the running task without a
Transition Record, the counter goes up by one if `ccs_start_execve` leaves a
Transition Record there and stays as the lookup left it if not, whatever
`ccs_start_execve` returns; when the record holds one already, the counter
stays. -/
theorem C26_in_flight_counter :
    (∀ h : Host, Lsm2629.CounterInv h Lsm2629.init) ∧
    (∀ (h : Host) (s : Lsm2629.State), Lsm2629.CounterInv h s →
      Lsm2629.Counted s ∧ 0 ≤ s.ccs_in_execve_tasks) ∧
    (∀ (h : Host) (kz : Ptr) (s : Lsm2629.State) (task : Ptr),
      Lsm2629.CounterInv h s →
      (kz = NULL ∨ (Lsm2629.Fresh s kz ∧ kz ∉ s.rcu ∧ OnHeap kz)) →
      h.task_pid h.current ≠ NULL →
      Lsm2629.CounterInv h (Lsm2629.ccs_find_task_security h kz s task).1) ∧
    (∀ (h : Host) (kz : Ptr) (start_rc : Int) (start_ee start_domain : Ptr) (rc_orig : Int)
      (s : Lsm2629.State) (bprm_cred : Ptr),
      Lsm2629.CounterInv h s →
      (kz = NULL ∨ (Lsm2629.Fresh s kz ∧ kz ∉ s.rcu ∧ OnHeap kz)) →
      h.task_pid h.current ≠ NULL → (h.KERNEL_LT_2_6_31 = true → bprm_cred ≠ NULL) →
      Lsm2629.CounterInv h
        (Lsm2629.ccs_bprm_check_security h kz start_rc start_ee start_domain rc_orig s
          bprm_cred).1) ∧
    (∀ (h : Host) (kz : Ptr) (s : Lsm2629.State) (bprm_cred : Ptr),
      Lsm2629.CounterInv h s →
      (kz = NULL ∨ (Lsm2629.Fresh s kz ∧ kz ∉ s.rcu ∧ OnHeap kz)) →
      h.task_pid h.current ≠ NULL →
      Lsm2629.CounterInv h (Lsm2629.ccs_bprm_committing_creds h kz s bprm_cred)) ∧
    (∀ (h : Host) (s : Lsm2629.State) (ptr : Ptr),
      Lsm2629.CounterInv h s →
      ((∃ i, ptr ∈ s.ccs_task_security_list i) ∨ (∃ i, ptr ∈ s.ccs_cred_security_list i)) →
      Lsm2629.CounterInv h (Lsm2629.ccs_del_security s ptr)) ∧
    (∀ (h : Host) (s : Lsm2629.State) (ptr : Ptr),
      Lsm2629.CounterInv h s → ptr ∈ s.rcu →
      Lsm2629.CounterInv h (Lsm2629.ccs_rcu_free h s ptr)) ∧
    (∀ (h : Host) (trylock : Bool) (s : Lsm2629.State),
      Lsm2629.CounterInv h s →
      Lsm2629.CounterInv h (Lsm2629.ccs_task_security_gc h trylock s)) ∧
    (∀ (h : Host) (kz : Ptr) (start_rc : Int) (start_ee start_domain : Ptr) (rc_orig : Int)
      (s : Lsm2629.State) (bprm_cred : Ptr),
      ¬ ((Lsm2629.ccs_find_task_security h kz s h.current).2 = ccs_default_security ∨
        (Lsm2629.ccs_find_task_security h kz s h.current).2 = ccs_oom_security) →
      (((Lsm2629.ccs_find_task_security h kz s h.current).1.mem
          (Lsm2629.ccs_find_task_security h kz s h.current).2).ee = NULL →
        ((Lsm2629.ccs_bprm_check_security h kz start_rc start_ee start_domain rc_orig s
            bprm_cred).1.mem (Lsm2629.ccs_find_task_security h kz s h.current).2).ee
          = start_ee ∧
        (Lsm2629.ccs_bprm_check_security h kz start_rc start_ee start_domain rc_orig s
            bprm_cred).1.ccs_in_execve_tasks
          = (Lsm2629.ccs_find_task_security h kz s h.current).1.ccs_in_execve_tasks
            + (if start_ee ≠ NULL then 1 else 0)) ∧
      (((Lsm2629.ccs_find_task_security h kz s h.current).1.mem
          (Lsm2629.ccs_find_task_security h kz s h.current).2).ee ≠ NULL →
        (Lsm2629.ccs_bprm_check_security h kz start_rc start_ee start_domain rc_orig s
            bprm_cred).1.ccs_in_execve_tasks
          = (Lsm2629.ccs_find_task_security h kz s h.current).1.ccs_in_execve_tasks)) := by
  refine ⟨?_, ?_, ?_, ?_, ?_, ?_, ?_, ?_, ?_⟩
  · intro h
    refine ⟨fun _ _ hp => absurd hp (List.not_mem_nil _),
      fun _ _ hp => absurd hp (List.not_mem_nil _), ⟨rfl, rfl, fun _ => by decide⟩, ?_,
      fun _ hp => absurd hp (List.not_mem_nil _), ⟨[], List.nodup_nil, ?_, rfl⟩⟩
    · rintro p (⟨i, hi⟩ | hi)
      · exact absurd hi (List.not_mem_nil _)
      · exact absurd hi (List.not_mem_nil _)
    · intro p
      constructor
      · intro hp
        exact absurd hp (List.not_mem_nil _)
      · rintro ⟨⟨i, hi⟩ | hi, _⟩
        · exact absurd hi (List.not_mem_nil _)
        · exact absurd hi (List.not_mem_nil _)
  · intro h s hs
    exact ⟨hs.2.2.2.2.2, Lsm2629.Counted_nonneg s hs.2.2.2.2.2⟩
  · intro h kz s task hs hf hpid
    exact Lsm2629.CounterInv_find h kz s task hs hf hpid
  · intro h kz start_rc start_ee start_domain rc_orig s bprm_cred hs hf hpid hb
    exact Lsm2629.CounterInv_bprm_check h kz start_rc start_ee start_domain rc_orig s bprm_cred
      hs hf hpid hb
  · intro h kz s bprm_cred hs hf hpid
    exact Lsm2629.CounterInv_committing h kz s bprm_cred hs hf hpid
  · intro h s ptr hs hl
    exact Lsm2629.CounterInv_del h s ptr hs hl
  · intro h s ptr hs hq
    exact Lsm2629.CounterInv_rcu_free h s ptr hs hq
  · intro h trylock s hs
    exact Lsm2629.CounterInv_gc h trylock s hs
  · intro h kz start_rc start_ee start_domain rc_orig s bprm_cred hsent
    rw [Lsm2629.bprm_check_eq]
    constructor
    · intro hee
      obtain ⟨_, g2, g3, _, _⟩ := Lsm2629.bprm_check_after_attach h start_rc start_ee
        start_domain rc_orig _ _ bprm_cred hsent hee
      exact ⟨g3, g2⟩
    · intro hee
      exact (Lsm2629.bprm_check_after_busy h start_rc start_ee start_domain rc_orig _ _
        bprm_cred (Or.inr hee)).2.2

/-- Task `100` looks itself up after `ccs_init` and enters `execve`: the
invariant holds along the way and the counter becomes 1. -/
theorem C26_in_flight_counter_witness :
    (Lsm2629.CounterInv demoHost Lsm2629.init ∧ Lsm2629.Fresh Lsm2629.init 10 ∧
      (10 : Ptr) ∉ Lsm2629.init.rcu ∧ OnHeap 10 ∧ demoHost.task_pid demoHost.current ≠ NULL) ∧
    Lsm2629.CounterInv demoHost (Lsm2629.ccs_find_task_security demoHost 10 Lsm2629.init 100).1 ∧
    (Lsm2629.ccs_bprm_check_security execHost 0 0 50 7 0 Lsm2629.demoState1
        2100).1.ccs_in_execve_tasks
      = (Lsm2629.ccs_find_task_security execHost 0 Lsm2629.demoState1
          execHost.current).1.ccs_in_execve_tasks + (if (50 : Ptr) ≠ NULL then 1 else 0) :=
  have hf : Lsm2629.Fresh Lsm2629.init 10 :=
    fun _ => ⟨List.not_mem_nil _, List.not_mem_nil _⟩
  have hr : (10 : Ptr) ∉ Lsm2629.init.rcu := List.not_mem_nil _
  have hh : OnHeap 10 := ⟨by decide, by decide⟩
  have hp : demoHost.task_pid demoHost.current ≠ NULL := by decide
  ⟨⟨C26_in_flight_counter.1 demoHost, hf, hr, hh, hp⟩,
    C26_in_flight_counter.2.2.1 demoHost 10 Lsm2629.init 100 (C26_in_flight_counter.1 demoHost)
      (Or.inr ⟨hf, hr, hh⟩) hp,
    ((C26_in_flight_counter.2.2.2.2.2.2.2.2 execHost 0 0 50 7 0 Lsm2629.demoState1 2100
      (by decide)).1 (by decide)).2⟩

/-! ## Retirement of a record -/

namespace Lsm2629

/-- Retiring a record unlinks it and hands it to `call_rcu`: its fields stay
as they are and no `kfree` of it is logged. -/
theorem del_security_defers_free (s : State) (ptr : Ptr) (hh : OnHeap ptr) :
    (ccs_del_security s ptr).mem = s.mem ∧ (ccs_del_security s ptr).log = s.log ∧
    ptr ∈ (ccs_del_security s ptr).rcu ∧
    ∀ i, ptr ∉ (ccs_del_security s ptr).ccs_task_security_list i ∧
      ptr ∉ (ccs_del_security s ptr).ccs_cred_security_list i := by
  unfold ccs_del_security
  rw [if_neg (fun hc => hc.elim hh.1 hh.2)]
  refine ⟨rfl, rfl, List.mem_append.2 (Or.inr (List.mem_singleton.2 rfl)), ?_⟩
  intro i
  constructor <;>
  · intro hc
    have := (List.mem_filter.1 hc).2
    simp at this

/-- The memory of a record is released by `ccs_rcu_free`, the callback that
`ccs_del_security` passes to `call_rcu`. -/
theorem rcu_free_releases (h : Host) (s : State) (ptr : Ptr) :
    Event.kfree_security ptr ∈ (ccs_rcu_free h s ptr).log ∧
    ptr ∉ (ccs_rcu_free h s ptr).rcu := by
  unfold ccs_rcu_free
  dsimp only
  constructor
  · simp
  · intro hc
    have := (List.mem_filter.1 hc).2
    simp at this

end Lsm2629

/-! ## The transition invariant: C3 -/

namespace Lsm2629

theorem CredHeld_of (h : Host) (s t : State) (hs : CredHeld h s)
    (hk : h.KERNEL_LT_2_6_31 = true → ∀ i, ∀ p ∈ t.ccs_task_security_list i,
      ((∃ j, p ∈ s.ccs_task_security_list j) ∧ (t.mem p).ee = (s.mem p).ee ∧
        (t.mem p).cred = (s.mem p).cred) ∨
      ((t.mem p).ee ≠ NULL → (t.mem p).cred ≠ NULL)) : CredHeld h t := by
  intro hlt i p hp
  rcases hk hlt i p hp with ⟨⟨j, hj⟩, he, hc⟩ | hr
  · show (t.mem p).ee ≠ NULL → (t.mem p).cred ≠ NULL
    rw [he, hc]
    exact hs hlt j p hj
  · exact hr

theorem CredHeld_congr (h : Host) (s t : State) (hs : CredHeld h s) (hm : t.mem = s.mem)
    (ht : t.ccs_task_security_list = s.ccs_task_security_list) : CredHeld h t := by
  refine CredHeld_of h s t hs (fun _ i p hp => Or.inl ⟨⟨i, ?_⟩, ?_, ?_⟩)
  · rw [← ht]; exact hp
  · rw [hm]
  · rw [hm]

theorem CredHeld_shrinks (h : Host) (s t : State) (hsh : Shrinks s t) (hs : CredHeld h s) :
    CredHeld h t := by
  refine CredHeld_of h s t hs (fun _ i p hp => Or.inl ⟨⟨i, hsh.task i p hp⟩, ?_, ?_⟩)
  · rw [hsh.mem]
  · rw [hsh.mem]

/-- A store that keeps `ee` and `cred`. -/
theorem CredHeld_store_keep (h : Host) (s : State) (x : Ptr) (r : ccs_security)
    (hs : CredHeld h s) (he : r.ee = (s.mem x).ee) (hc : r.cred = (s.mem x).cred) :
    CredHeld h (s.store x r) := by
  refine CredHeld_of h s _ hs (fun _ i p hp => Or.inl ⟨⟨i, hp⟩, ?_, ?_⟩)
  · by_cases hpx : p = x
    · rw [store_mem, if_pos hpx, he, hpx]
    · rw [store_mem, if_neg hpx]
  · by_cases hpx : p = x
    · rw [store_mem, if_pos hpx, hc, hpx]
    · rw [store_mem, if_neg hpx]

theorem CredHeld_reconciled (h : Host) (ret : Int) (ptr : Ptr) (s : State)
    (hs : CredHeld h s) : CredHeld h (reconciled h ret ptr s) := by
  refine CredHeld_of h s _ hs (fun _ i p hp => ?_)
  by_cases hpx : p = ptr
  · right
    intro hc
    exact absurd (by simp [reconciled, hpx]) hc
  · left
    exact ⟨⟨i, hp⟩, by simp [reconciled, hpx], by simp [reconciled, hpx]⟩

theorem CredHeld_allocated (h : Host) (kz : Ptr) (s : State) (hs : ExecInv h s) :
    CredHeld h (allocated h kz s) := by
  have hq := find_cred_quiet h s (h.task_cred h.current) hs.1
  refine CredHeld_of h s _ hs.2 (fun _ i p hp => ?_)
  by_cases hpx : p = kz
  · right
    intro hc
    exact absurd (by simpa [allocated, hpx] using hq.1) hc
  · left
    refine ⟨⟨i, ?_⟩, by simp [allocated, hpx], by simp [allocated, hpx]⟩
    simp only [allocated] at hp
    split_ifs at hp
    · exact (List.mem_cons.1 hp).resolve_left hpx
    · exact hp

theorem ExecInv_congr (h : Host) (s t : State) (hs : ExecInv h s) (hm : t.mem = s.mem)
    (ht : t.ccs_task_security_list = s.ccs_task_security_list)
    (hc : t.ccs_cred_security_list = s.ccs_cred_security_list) : ExecInv h t :=
  ⟨TransitionInv_congr s t hm ht hc hs.1, CredHeld_congr h s t hs.2 hm ht⟩

theorem ExecInv_find (h : Host) (kz : Ptr) (s : State) (task : Ptr) (hs : ExecInv h s)
    (hf : kz = NULL ∨ Fresh s kz) : ExecInv h (ccs_find_task_security h kz s task).1 := by
  refine ⟨TransitionInv_find h kz s task hs.1 hf, ?_⟩
  by_cases hne : task = h.current
  · subst hne
    rcases find_current_cases h kz s with ⟨ptr, _, he⟩ | ⟨ptr, _, _, _, _, he⟩ | ⟨_, _, he⟩ |
      ⟨_, hk, he⟩
    · rw [he]; exact hs.2
    · rw [he]; exact CredHeld_reconciled h _ ptr s hs.2
    · rw [he]; exact CredHeld_congr h s _ hs.2 rfl rfl
    · rw [he]; exact CredHeld_allocated h kz s hs
  · rw [find_other h kz s task hne]
    exact hs.2

theorem ExecInv_clear_current (h : Host) (ret : Int) (ptr : Ptr) (s : State)
    (hs : ExecInv h s) (hl : task_lookup h s h.current = some ptr)
    (hd : ptr ≠ ccs_default_security) (ho : ptr ≠ ccs_oom_security) :
    ExecInv h (ccs_clear_execve h ret ptr s) := by
  refine ⟨(clear_current_quiet h ret ptr s hs.1 hl hd ho).1, ?_⟩
  rcases clear_execve_current_cases h ret ptr s hl with hc | ⟨_, _, _, hc⟩
  · rw [hc]; exact hs.2
  · rw [hc]; exact CredHeld_reconciled h ret ptr s hs.2

theorem ExecInv_bprm_check (h : Host) (kz : Ptr) (start_rc : Int)
    (start_ee start_domain : Ptr) (rc_orig : Int) (s : State) (bprm_cred : Ptr)
    (hs : ExecInv h s) (hf : kz = NULL ∨ Fresh s kz)
    (hb : h.KERNEL_LT_2_6_31 = true → bprm_cred ≠ NULL) :
    ExecInv h
      (ccs_bprm_check_security h kz start_rc start_ee start_domain rc_orig s bprm_cred).1 := by
  refine ⟨TransitionInv_bprm_check h kz start_rc start_ee start_domain rc_orig s bprm_cred
    hs.1 hf, ?_⟩
  have hp1 := (ExecInv_find h kz s h.current hs hf).2
  rw [bprm_check_eq]
  obtain ⟨f1, _, _, f4⟩ := bprm_check_after_frame h start_rc start_ee start_domain rc_orig
    (ccs_find_task_security h kz s h.current).2
    (ccs_find_task_security h kz s h.current).1 bprm_cred
  generalize ccs_find_task_security h kz s h.current = r at hp1 f1 f4
  refine CredHeld_of h r.1 _ hp1 (fun hlt i p hp => ?_)
  rw [f1] at hp
  by_cases hpx : p = r.2
  · by_cases hd : (r.2 = ccs_default_security ∨ r.2 = ccs_oom_security) ∨
        (r.1.mem r.2).ee ≠ NULL
    · left
      have g1 := (bprm_check_after_busy h start_rc start_ee start_domain rc_orig r.2 r.1
        bprm_cred hd).1
      exact ⟨⟨i, hp⟩, by rw [g1], by rw [g1]⟩
    · right
      have hsent : ¬ (r.2 = ccs_default_security ∨ r.2 = ccs_oom_security) :=
        fun hc => hd (Or.inl hc)
      have hee : (r.1.mem r.2).ee = NULL := by
        by_contra hc
        exact hd (Or.inr hc)
      obtain ⟨_, _, g3, g4, _⟩ := bprm_check_after_attach h start_rc start_ee start_domain
        rc_orig r.2 r.1 bprm_cred hsent hee
      rw [hpx]
      intro hne
      rw [g3] at hne
      have hm := g4 hne hb
      unfold Marked at hm
      rw [if_pos hlt] at hm
      exact hm
  · left
    exact ⟨⟨i, hp⟩, by rw [f4 p hpx], by rw [f4 p hpx]⟩

theorem ExecInv_committing (h : Host) (kz : Ptr) (s : State) (bprm_cred : Ptr)
    (hs : ExecInv h s) (hf : kz = NULL ∨ Fresh s kz) :
    ExecInv h (ccs_bprm_committing_creds h kz s bprm_cred) := by
  refine ⟨TransitionInv_committing h kz s bprm_cred hs.1 hf, ?_⟩
  have hs0 : ExecInv h (s.emit (Event.original_hook "bprm_committing_creds")) :=
    ExecInv_congr h s _ hs rfl rfl rfl
  have hp1 := ExecInv_find h kz _ h.current hs0 hf
  unfold ccs_bprm_committing_creds ccs_current_security
  dsimp only
  generalize hr : ccs_find_task_security h kz
      (s.emit (Event.original_hook "bprm_committing_creds")) h.current = r at hp1
  by_cases hd : r.2 = ccs_default_security ∨ r.2 = ccs_oom_security
  · rw [if_pos hd]
    exact hp1.2
  · rw [if_neg hd]
    have hl : task_lookup h r.1 h.current = some r.2 := by
      rw [← hr]
      apply find_current_lookup
      rw [hr]
      exact fun hc => hd (Or.inr hc)
    have hclear := (ExecInv_clear_current h 0 r.2 r.1 hp1 hl (fun hc => hd (Or.inl hc))
      (fun hc => hd (Or.inr hc))).2
    apply CredHeld_store_keep
    · apply CredHeld_store_keep _ _ _ _ hclear
      · rfl
      · rfl
    · rfl
    · rfl

theorem CredHeld_cred_linked (h : Host) (kz : Ptr) (r : ccs_security) (s : State)
    (hs : CredHeld h s) (hf : Fresh s kz) : CredHeld h (cred_linked h kz r s) := by
  refine CredHeld_of h s _ hs (fun _ i p hp => Or.inl ?_)
  have hp2 : p ∈ s.ccs_task_security_list i := hp
  have hpx : p ≠ kz := fun hc => (hf i).1 (hc ▸ hp2)
  exact ⟨⟨i, hp2⟩, by simp [cred_linked, hpx], by simp [cred_linked, hpx]⟩

theorem ExecInv_cred_prepare (h : Host) (kz1 kz2 : Ptr) (trylock : Bool) (rc_orig : Int)
    (gfp_kernel : Bool) (s : State) (new old : Ptr) (hs : ExecInv h s)
    (hf1 : kz1 = NULL ∨ Fresh s kz1) (hf2 : kz2 = NULL ∨ (Fresh s kz2 ∧ kz2 ≠ kz1)) :
    ExecInv h (ccs_cred_prepare h kz1 kz2 trylock rc_orig gfp_kernel s new old).1 := by
  refine ⟨TransitionInv_cred_prepare h kz1 kz2 trylock rc_orig gfp_kernel s new old hs.1
    hf1 hf2, ?_⟩
  have htail := cred_prepare_tail h kz1 kz2 trylock rc_orig gfp_kernel s new old
  have hg1 : Grows [kz1] s (if h.KERNEL_LT_2_6_31 = false ∧ gfp_kernel = true then
      (ccs_find_task_security h kz1 s h.current).1 else s) := by
    split_ifs
    · exact Grows_find h kz1 s _
    · exact Grows_of_lists _ _ _ rfl rfl
  have hp1 : CredHeld h (if h.KERNEL_LT_2_6_31 = false ∧ gfp_kernel = true then
      (ccs_find_task_security h kz1 s h.current).1 else s) := by
    split_ifs
    · exact (ExecInv_find h kz1 s _ hs hf1).2
    · exact hs.2
  generalize (if h.KERNEL_LT_2_6_31 = false ∧ gfp_kernel = true then
      (ccs_find_task_security h kz1 s h.current).1 else s) = s1 at hg1 hp1 htail
  apply CredHeld_shrinks h _ _ htail
  rw [copy_cred_eq]
  by_cases hk : kz2 = NULL
  · rw [if_pos hk]
    exact hp1
  · rw [if_neg hk]
    obtain ⟨hfr, hne⟩ := hf2.resolve_left hk
    exact CredHeld_cred_linked h kz2 _ s1 hp1
      (Fresh_grows [kz1] s s1 kz2 hg1 hfr (by simpa using hne))

theorem ExecInv_cred_transfer (h : Host) (s : State) (new old : Ptr) (hs : ExecInv h s) :
    ExecInv h (ccs_cred_transfer h s new old) := by
  refine ⟨TransitionInv_cred_transfer h s new old hs.1, ?_⟩
  have hs1 : CredHeld h (s.emit (Event.original_hook "cred_transfer")) :=
    CredHeld_congr h s _ hs.2 rfl rfl
  unfold ccs_cred_transfer
  dsimp only
  split_ifs
  · exact hs1
  · apply CredHeld_store_keep
    · apply CredHeld_store_keep _ _ _ _ hs1
      · rfl
      · rfl
    · rfl
    · rfl

theorem ExecInv_prepare_creds (h : Host) (new kz1 kz2 : Ptr) (trylock : Bool)
    (rc_orig : Int) (s : State) (hs : ExecInv h s)
    (hf1 : kz1 = NULL ∨ Fresh s kz1) (hf2 : kz2 = NULL ∨ (Fresh s kz2 ∧ kz2 ≠ kz1)) :
    ExecInv h (prepare_creds h new kz1 kz2 trylock rc_orig s).1 := by
  unfold prepare_creds
  dsimp only
  by_cases hn : new = NULL
  · rw [if_pos hn]
    exact hs
  · rw [if_neg hn]
    have hp := ExecInv_cred_prepare h kz1 kz2 trylock rc_orig true s new
      (h.task_cred h.current) hs hf1 hf2
    split_ifs
    · exact ExecInv_congr h _ _ hp rfl rfl rfl
    · exact hp

/-- A lookup of the running task while it is not inside `execve` returns a
record that is not marked. -/
theorem lookup_outside_execve (h : Host) (kz : Ptr) (s : State) (hs : ExecInv h s)
    (hx : NotInExecve h s) :
    in_execve_flag ((ccs_find_task_security h kz s h.current).1.mem
      (ccs_find_task_security h kz s h.current).2).ccs_flags = false := by
  unfold NotInExecve at hx
  by_cases hk : h.KERNEL_LT_2_6_31 = true
  · rw [if_pos hk] at hx
    cases hl : task_lookup h s h.current with
    | some ptr =>
      have hin := (task_lookup_some h s _ ptr hl).1
      have hcons := hs.1.2.1 _ ptr hin
      have hheld := hs.2 hk _ ptr hin
      rw [find_task_found h kz s _ ptr hl, if_pos hk]
      by_cases hc : (s.mem ptr).cred = NULL
      · rw [if_neg (fun hcond => hcond.2.1 hc)]
        dsimp only
        cases hfl : in_execve_flag (s.mem ptr).ccs_flags
        · rfl
        · exact absurd hc (hheld (hcons.mpr hfl))
      · rw [if_pos ⟨rfl, hc, hx ptr hl hc⟩]
        dsimp only
        by_cases he : (s.mem ptr).ee = NULL
        · rw [clear_execve_noee h (-1) ptr s he]
          cases hfl : in_execve_flag (s.mem ptr).ccs_flags
          · rfl
          · exact absurd he (hcons.mpr hfl)
        · have hd : ptr ≠ ccs_default_security := by
            intro hcd
            rw [hcd] at he
            exact he hs.1.2.2.2.1.1
          have ho : ptr ≠ ccs_oom_security := by
            intro hco
            rw [hco] at he
            exact he hs.1.2.2.2.2.1
          exact (clear_current_quiet h (-1) ptr s hs.1 hl hd ho).2.2
    | none =>
      rw [find_task_miss h kz s _ hl]
      simp only [ne_eq, not_true_eq_false, if_false]
      by_cases hkz : kz = NULL
      · rw [if_pos hkz]
        exact hs.1.2.2.2.2.2
      · rw [if_neg hkz]
        have := find_cred_quiet h s (h.task_cred h.current) hs.1
        simpa [ccs_add_task_security] using this.2
  · rw [if_neg hk] at hx
    exact lookup_idle h kz s hs.1 (by simpa using hk) hx

theorem ExecInv_task_create (h : Host) (new kz1 kz2 : Ptr) (trylock : Bool)
    (rc_prepare : Int) (rc_orig : Int) (kz3 : Ptr) (s : State) (hs : ExecInv h s)
    (hf1 : kz1 = NULL ∨ Fresh s kz1) (hf2 : kz2 = NULL ∨ (Fresh s kz2 ∧ kz2 ≠ kz1))
    (hf3 : kz3 = NULL ∨ (Fresh s kz3 ∧ kz3 ≠ kz1 ∧ kz3 ≠ kz2))
    (hx : NotInExecve h (prepare_creds h new kz1 kz2 trylock rc_prepare s).1) :
    ExecInv h (ccs_task_create h new kz1 kz2 trylock rc_prepare rc_orig kz3 s).1 := by
  have hp0 := ExecInv_prepare_creds h new kz1 kz2 trylock rc_prepare s hs hf1 hf2
  have hf3b : kz3 = NULL ∨ Fresh (prepare_creds h new kz1 kz2 trylock rc_prepare s).1 kz3 := by
    rcases hf3 with hf3 | ⟨hf3, hne1, hne2⟩
    · exact Or.inl hf3
    · right
      apply Fresh_grows [kz1, kz2] s _ kz3
        (Grows_prepare_creds h new kz1 kz2 trylock rc_prepare s) hf3
      simp [hne1, hne2]
  have hp1 : ExecInv h ((prepare_creds h new kz1 kz2 trylock rc_prepare s).1.emit
      (Event.original_hook "task_create")) := ExecInv_congr h _ _ hp0 rfl rfl rfl
  have hidle := lookup_outside_execve h kz3 _ hp1 hx
  refine ⟨TransitionInv_task_create h new kz1 kz2 trylock rc_prepare rc_orig kz3 s hs.1
    hf1 hf2 hf3 hidle, ?_⟩
  rw [task_create_eq]
  generalize prepare_creds h new kz1 kz2 trylock rc_prepare s = r at hp0 hp1 hf3b
  unfold task_create_after
  dsimp only
  by_cases hc : r.2 = NULL
  · rw [if_pos hc]
    exact hp0.2
  · rw [if_neg hc]
    by_cases ho : rc_orig ≠ 0
    · rw [if_pos ho]
      exact CredHeld_congr h _ _ hp0.2 rfl rfl
    · rw [if_neg ho]
      have hp2 := (ExecInv_find h kz3 _ h.current hp1 hf3b).2
      refine CredHeld_congr h _ _ (CredHeld_store_keep h _ _ _
        (CredHeld_store_keep h _ _ _ hp2 ?_ ?_) ?_ ?_) rfl rfl
      · rfl
      · rfl
      · rfl
      · rfl

end Lsm2629

end Akari
